import Mathlib

/-!
# pcap_stat: concurrent map and channel ring

A shallow embedding of `Include/noname/concurrent/concurrent_unordered_map.hpp`
and `Include/noname/channel/circular_buffer.hpp`, run by one thread: every
atomic load sees the last store, and a compare-and-swap on a bucket that was
just read EMPTY succeeds.  The channel, `select`, the header decoders of
`Include/noname/network` and the worker of `src/pcap_stats.cpp` follow; the
section on concurrent inserts runs `insert` by several threads, one atomic
step at a time.

Conventions of the embedding.
* `std::size_t` values are `Nat`.  The sizes that occur are lengths of
  `std::vector`s and indices into them, so sums such as `index + probeIncrement`
  stay far below `2^64`; allocation is taken to succeed.
* `float` values are IEEE 754 binary32 values (`Flt`): finite values, infinities
  and NaN; products and quotients are rounded to nearest, ties to even, and
  float expressions are evaluated in `float`.  A conversion to `std::size_t`
  whose behaviour is undefined is `none`.
* A loop is a recursion on a fuel argument that returns `none` when the fuel
  is used up; the function that calls the loop passes a bound that is proved
  to be enough.
-/

set_option autoImplicit false
set_option linter.unusedSectionVars false
set_option linter.unusedVariables false

namespace concurrent

/-! ## Floats -/

/-- A `float`, IEEE 754 binary32: the finite value `m * 2^e` with its sign (`neg`
for minus), an infinity, or a NaN.  Every finite binary32 value has this form
with `m < 2^24` and `-149 <= e <= 104`; the arithmetic below rounds its results
to such values. -/
inductive Flt
  | fin (neg : Bool) (m : Nat) (e : Int)
  | inf (neg : Bool)
  | nan
deriving DecidableEq, Repr

namespace Flt

/-- The number of binary digits of `n`, by halving at most `fuel` times. -/
def bits_fuel : Nat → Nat → Nat
  | 0, _ => 0
  | fuel + 1, n => if n = 0 then 0 else bits_fuel fuel (n / 2) + 1

/-- The number of binary digits of `n`: `2^(bits n - 1) <= n < 2^(bits n)` for `n > 0`. -/
def bits (n : Nat) : Nat := bits_fuel n n

/-- The integer nearest to `num / den`, the even one of two that are equally near
(round to nearest, ties to even: the rounding of float arithmetic). -/
def round_half_even (num den : Nat) : Nat :=
  let q := num / den
  let r := num % den
  if 2 * r < den then q
  else if den < 2 * r then q + 1
  else if q % 2 = 0 then q else q + 1

/-- The positive number `(a / b) * 2^s` rounded to 24 binary digits, as mantissa and
exponent `(m, t)` of the result `m * 2^t`.  With `E` the exponent of the leading
digit of the number, the last digit kept has the exponent `t = E - 23`, and `-149`
where that is lower (a subnormal result). -/
def round_core (a b : Nat) (s : Int) : Nat × Int :=
  let d : Int := (bits a : Int) - (bits b : Int)
  let E : Int := (if b * 2 ^ d.toNat ≤ a * 2 ^ (-d).toNat then d else d - 1) + s
  let t : Int := max (E - 23) (-149)
  (round_half_even (a * 2 ^ (s - t).toNat) (b * 2 ^ (t - s).toNat), t)

/-- The number `(a / b) * 2^s`, with the sign `neg`, rounded to a `float`: the
result is an infinity when the rounded magnitude reaches `2^128`. -/
def round (neg : Bool) (a b : Nat) (s : Int) : Flt :=
  if a = 0 then fin neg 0 0
  else
    let r := round_core a b s
    if 0 ≤ r.2 ∧ 2 ^ 128 ≤ r.1 * 2 ^ r.2.toNat then inf neg else fin neg r.1 r.2

/-- The conversion `(float)n` of a `std::size_t`: `n` rounded to 24 binary digits.  A
`std::size_t` is below `2^64`, far from `2^128`, so the result is finite. -/
def ofNat (n : Nat) : Flt :=
  if n = 0 then fin false 0 0 else fin false (round_core n 1 0).1 (round_core n 1 0).2

/-- Float product. -/
def mul : Flt → Flt → Flt
  | nan, _ => nan
  | _, nan => nan
  | inf n1, inf n2 => inf (xor n1 n2)
  | inf n1, fin n2 m2 _ => if m2 = 0 then nan else inf (xor n1 n2)
  | fin n1 m1 _, inf n2 => if m1 = 0 then nan else inf (xor n1 n2)
  | fin n1 m1 e1, fin n2 m2 e2 => round (xor n1 n2) (m1 * m2) 1 (e1 + e2)

/-- Float quotient `a / b`. -/
def div : Flt → Flt → Flt
  | nan, _ => nan
  | _, nan => nan
  | inf _, inf _ => nan
  | inf n1, fin n2 _ _ => inf (xor n1 n2)
  | fin n1 _ _, inf n2 => fin (xor n1 n2) 0 0
  | fin n1 m1 e1, fin n2 m2 e2 =>
    if m2 = 0 then (if m1 = 0 then nan else inf (xor n1 n2))
    else round (xor n1 n2) m1 m2 (e1 - e2)

/-- The finite value `m * 2^e` with its sign, scaled by `2^(-lo)` to an integer, for
`lo <= e`. -/
def scaled (neg : Bool) (m : Nat) (e lo : Int) : Int :=
  if neg then -((m * 2 ^ (e - lo).toNat : Nat) : Int) else ((m * 2 ^ (e - lo).toNat : Nat) : Int)

/-- The comparison `a <= b`, false when an operand is a NaN. -/
def le : Flt → Flt → Bool
  | nan, _ => false
  | _, nan => false
  | inf true, _ => true
  | inf false, inf false => true
  | inf false, _ => false
  | fin _ _ _, inf n2 => !n2
  | fin n1 m1 e1, fin n2 m2 e2 =>
    decide (scaled n1 m1 e1 (min e1 e2) ≤ scaled n2 m2 e2 (min e1 e2))

/-- The comparison `a >= b`. -/
def ge (a b : Flt) : Bool := le b a

/-- The conversion `(std::size_t)a` to a 64-bit `std::size_t`: it truncates, and its
behaviour is undefined (`none`) when the truncated value is no `std::size_t`. -/
def toSize : Flt → Option Nat
  | fin neg m e =>
    let q := m * 2 ^ e.toNat / 2 ^ (-e).toNat
    if neg then (if q = 0 then some 0 else none)
    else if q < 2 ^ 64 then some q else none
  | _ => none

end Flt

/-! ## Constants -/

/-- Source: `DEFAULT_MAX_LOAD_FACTOR = 0.75f`. -/
def DEFAULT_MAX_LOAD_FACTOR : Flt := Flt.fin false 3 (-2)

/-- Source: `FIRST_SUBMAP_CAPACITY_MULTIPLIER = 1.0f`. -/
def FIRST_SUBMAP_CAPACITY_MULTIPLIER : Flt := Flt.fin false 1 0

/-- Source: `DEFAULT_MAX_NUM_SUBMAPS = 65536`. -/
def DEFAULT_MAX_NUM_SUBMAPS : Nat := 65536

/-- Source: `NEW_SUBMAPS_CAPACITY_MULTIPLIER = 2`. -/
def NEW_SUBMAPS_CAPACITY_MULTIPLIER : Nat := 2

/-- Source: `FIRST_SUBMAP_MIN_CAPACITY = 11`. -/
def FIRST_SUBMAP_MIN_CAPACITY : Nat := 11

/-! ## `is_prime` and `next_prime` -/

/-- The `while (div * div <= n)` loop of `is_prime`. -/
def is_prime_loop (n : Nat) : Nat → Nat → Option Bool
  | 0, _ => none
  | fuel + 1, div =>
    if div * div ≤ n then
      if n % div = 0 then some false
      else is_prime_loop n fuel (div + 2)
    else some true

/-- The body of `is_prime`, with the fuel of its loop. -/
def is_prime_fuel (fuel n : Nat) : Option Bool :=
  if n < 2 then some false
  else if n = 2 then some true
  else if n % 2 = 0 then some false
  else is_prime_loop n fuel 3

/-- Source: `is_prime(n)`: trial division by 2 and by the odd numbers from 3. -/
def is_prime (n : Nat) : Bool := (is_prime_fuel n n).getD false

/-- The `while (!is_prime(n)) n += 2` loop of `next_prime`. -/
def next_prime_loop : Nat → Nat → Option Nat
  | 0, _ => none
  | fuel + 1, n => if is_prime n then some n else next_prime_loop fuel (n + 2)

/-- The body of `next_prime`, with the fuel of its loop. -/
def next_prime_fuel (fuel n : Nat) : Option Nat :=
  if n ≤ 2 then some 2
  else next_prime_loop fuel (if n % 2 = 0 then n + 1 else n)

/-- Source: `next_prime(n)`. -/
def next_prime (n : Nat) : Nat := (next_prime_fuel (n + 1) n).getD 0

/-! ## Buckets and submaps -/

/-- Source: `Bucket::State`. -/
inductive Bucket.State
  | EMPTY
  | BUSY
  | VALID
deriving DecidableEq, Repr

/-- Source: `struct Bucket`: an atomic state and an entry `(key, value)`. -/
structure Bucket (K V : Type) where
  state : Bucket.State
  entry : K × V
deriving DecidableEq, Repr

/-- Source: `Bucket()`: state EMPTY, entry default-constructed. -/
def Bucket.new (K V : Type) [Inhabited K] [Inhabited V] : Bucket K V :=
  ⟨Bucket.State.EMPTY, (default, default)⟩

/-- Source: `struct Submap`. -/
structure Submap (K V : Type) where
  buckets : List (Bucket K V)
  maxload_factor : Flt
  num_valid_buckets : Nat
deriving DecidableEq, Repr

/-- Source: `struct Submap_stats`. -/
structure Submap_stats where
  capacity : Nat
  num_valid_buckets : Nat
  load_factor : Flt
deriving DecidableEq, Repr

/-- Source: `struct Stats`. -/
structure Stats where
  num_submaps : Nat
  num_entries : Nat
  submaps_stats : List Submap_stats
deriving DecidableEq, Repr

/-- What `Submap::insert` does: it returns `(index, inserted)` and leaves the
submap `sm`, or it throws `FullSubmapException`. -/
inductive Submap.InsertResult (K V : Type)
  | done (index : Nat) (inserted : Bool) (sm : Submap K V)
  | FullSubmapException
deriving DecidableEq, Repr

namespace Submap

variable {K V : Type} [DecidableEq K] [Inhabited K] [Inhabited V]

/-- Source: `Submap(capacity, maxload_factor)`. -/
def new (capacity : Nat) (maxload_factor : Flt) : Submap K V :=
  ⟨List.replicate capacity (Bucket.new K V), maxload_factor, 0⟩

/-- Source: `get_capacity()`. -/
def get_capacity (sm : Submap K V) : Nat := sm.buckets.length

/-- Source: `get_bucket(index)`; every caller passes an index below the capacity. -/
def get_bucket (sm : Submap K V) (index : Nat) : Bucket K V :=
  sm.buckets.getD index (Bucket.new K V)

/-- Source: `get_num_valid_buckets()`. -/
def get_num_valid_buckets (sm : Submap K V) : Nat := sm.num_valid_buckets

/-- Source: `increment_num_valid_buckets()`. -/
def increment_num_valid_buckets (sm : Submap K V) : Submap K V :=
  { sm with num_valid_buckets := sm.num_valid_buckets + 1 }

/-- Source: `calculate_probe_increment(hash2)`. -/
def calculate_probe_increment (sm : Submap K V) (hash2 : Nat) : Nat :=
  let modulus := sm.get_capacity - 1
  1 + hash2 % modulus

/-- The `do ... while (index != startIndex)` loop of `Submap::find`; the
second argument is `index`. -/
def find_loop (sm : Submap K V) (key : K) (startIndex probeIncrement : Nat) :
    Nat → Nat → Option (Nat × Bool)
  | 0, _ => none
  | fuel + 1, index =>
    let bucket := sm.get_bucket index
    match bucket.state with
    | Bucket.State.VALID =>
      if bucket.entry.1 = key then some (index, true)
      else
        let index1 := (index + probeIncrement) % sm.get_capacity
        if index1 ≠ startIndex then find_loop sm key startIndex probeIncrement fuel index1
        else some (0, false)
    | Bucket.State.EMPTY => some (0, false)
    | Bucket.State.BUSY =>
      let index1 := (index + probeIncrement) % sm.get_capacity
      if index1 ≠ startIndex then find_loop sm key startIndex probeIncrement fuel index1
      else some (0, false)

/-- Source: `Submap::find(key, hash1, hash2)`, with the fuel of its loop. -/
def find_fuel (sm : Submap K V) (fuel : Nat) (key : K) (hash1 hash2 : Nat) :
    Option (Nat × Bool) :=
  let startIndex := hash1 % sm.get_capacity
  let probeIncrement := sm.calculate_probe_increment hash2
  sm.find_loop key startIndex probeIncrement fuel startIndex

/-- Source: `Submap::find(key, hash1, hash2)`. -/
def find (sm : Submap K V) (key : K) (hash1 hash2 : Nat) : Nat × Bool :=
  (sm.find_fuel sm.get_capacity key hash1 hash2).getD (0, false)

/-- The `while (index < get_capacity())` loop of `Submap::seek`; the result is
the returned flag and the final value of the reference argument `index`. -/
def seek_loop (sm : Submap K V) : Nat → Nat → Option (Bool × Nat)
  | 0, _ => none
  | fuel + 1, index =>
    if index < sm.get_capacity then
      if (sm.get_bucket index).state = Bucket.State.VALID then some (true, index)
      else sm.seek_loop fuel (index + 1)
    else some (false, index)

/-- Source: `Submap::seek(index)`. -/
def seek (sm : Submap K V) (index : Nat) : Bool × Nat :=
  (sm.seek_loop (sm.get_capacity + 1) index).getD (false, index)

/-- The bucket write of `Submap::insert` after a successful compare-and-swap:
key and value are stored, the state becomes VALID and the counter of valid
buckets is incremented. -/
def store (sm : Submap K V) (index : Nat) (key : K) (value : V) : Submap K V :=
  increment_num_valid_buckets
    { sm with buckets := List.set sm.buckets index ⟨Bucket.State.VALID, (key, value)⟩ }

/-- The `do ... while (index != startIndex)` loop of `Submap::insert`.  A
bucket read EMPTY is taken by the compare-and-swap, which cannot fail when no
other thread runs. -/
def insert_loop (sm : Submap K V) (key : K) (ivalue : V) (startIndex probeIncrement : Nat) :
    Nat → Nat → Option (InsertResult K V)
  | 0, _ => none
  | fuel + 1, index =>
    let bucket := sm.get_bucket index
    match bucket.state with
    | Bucket.State.EMPTY => some (InsertResult.done index true (sm.store index key ivalue))
    | Bucket.State.VALID =>
      if bucket.entry.1 = key then some (InsertResult.done index false sm)
      else
        let index1 := (index + probeIncrement) % sm.get_capacity
        if index1 ≠ startIndex then insert_loop sm key ivalue startIndex probeIncrement fuel index1
        else some InsertResult.FullSubmapException
    | Bucket.State.BUSY =>
      let index1 := (index + probeIncrement) % sm.get_capacity
      if index1 ≠ startIndex then insert_loop sm key ivalue startIndex probeIncrement fuel index1
      else some InsertResult.FullSubmapException

/-- Source: `Submap::insert(key, hash1, hash2, ivalue)`, with the fuel of its loop. -/
def insert_fuel (sm : Submap K V) (fuel : Nat) (key : K) (hash1 hash2 : Nat) (ivalue : V) :
    Option (InsertResult K V) :=
  let startIndex := hash1 % sm.get_capacity
  let probeIncrement := sm.calculate_probe_increment hash2
  sm.insert_loop key ivalue startIndex probeIncrement fuel startIndex

/-- Source: `Submap::insert(key, hash1, hash2, ivalue)`. -/
def insert (sm : Submap K V) (key : K) (hash1 hash2 : Nat) (ivalue : V) : InsertResult K V :=
  (sm.insert_fuel sm.get_capacity key hash1 hash2 ivalue).getD InsertResult.FullSubmapException

/-- Source: `Submap::is_overloaded()`: `(float)valid / capacity >= maxload_factor`. -/
def is_overloaded (sm : Submap K V) : Bool :=
  Flt.ge (Flt.div (Flt.ofNat sm.get_num_valid_buckets) (Flt.ofNat sm.get_capacity))
    sm.maxload_factor

/-- Source: `Submap::get_stats()`. -/
def get_stats (sm : Submap K V) : Submap_stats :=
  { capacity := sm.get_capacity
    num_valid_buckets := sm.get_num_valid_buckets
    load_factor := Flt.div (Flt.ofNat sm.get_num_valid_buckets) (Flt.ofNat sm.get_capacity) }

end Submap

/-! ## The map -/

/-- The members of `concurrent_unordered_map`.  `submaps` is the vector of
`maxnum_submaps` owning pointers, `none` for a null pointer; `expanding` is
the `std::atomic_flag`. -/
structure concurrent_unordered_map (K V : Type) where
  maxload_factor : Flt
  num_submaps : Nat
  submaps : List (Option (Submap K V))
  num_entries : Nat
  expanding : Bool
deriving DecidableEq, Repr

/-- Source: `const_iterator`: the members `submapIndex`, `bucketIndex` and `end`.  The
member `map` is left out: all iterators compared here belong to one map. -/
structure const_iterator where
  submapIndex : Nat
  bucketIndex : Nat
  end_ : Bool
deriving DecidableEq, Repr

/-- How a call on the map ends: it returns `a` in state `s`, it throws the
`std::runtime_error` of `expand` in state `s`, it spins for ever on the
`expanding` flag, or the fuel of the embedding is used up. -/
inductive Outcome (α σ : Type)
  | ret (a : α) (s : σ)
  | runtime_error (s : σ)
  | spin
  | fuel
deriving DecidableEq, Repr

/-- How a call of the constructor ends without a map: it throws `std::logic_error`
with the text `what`, or its behaviour is undefined. -/
inductive Failure
  | logic_error (what : String)
  | undefined
deriving DecidableEq, Repr

/-- Source: `const_iterator::operator==`. -/
def const_iterator.eq (a b : const_iterator) : Bool :=
  (a.end_ && b.end_) ||
    (!a.end_ && !b.end_ && decide (a.submapIndex = b.submapIndex) &&
      decide (a.bucketIndex = b.bucketIndex))

/-- Source: `const_iterator::operator!=`. -/
def const_iterator.ne (a b : const_iterator) : Bool := !(a.eq b)

namespace concurrent_unordered_map

variable {K V : Type} [DecidableEq K] [Inhabited K] [Inhabited V]

/-- Source: `get_maxnum_submaps()`. -/
def get_maxnum_submaps (m : concurrent_unordered_map K V) : Nat := m.submaps.length

/-- Source: `*get_submap(index)`.  Every caller passes the index of a live submap; a
null pointer reads as a submap without buckets. -/
def get_submap (m : concurrent_unordered_map K V) (index : Nat) : Submap K V :=
  (m.submaps.getD index none).getD (Submap.new 0 m.maxload_factor)

/-- Source: `get_num_submaps()`. -/
def get_num_submaps (m : concurrent_unordered_map K V) : Nat := m.num_submaps

/-- Source: `get_last_submap_index()`. -/
def get_last_submap_index (m : concurrent_unordered_map K V) : Nat := m.get_num_submaps - 1

/-- Source: `increment_num_submaps()`. -/
def increment_num_submaps (m : concurrent_unordered_map K V) : concurrent_unordered_map K V :=
  { m with num_submaps := m.num_submaps + 1 }

/-- Source: `incrementnum_entries()`. -/
def incrementnum_entries (m : concurrent_unordered_map K V) : concurrent_unordered_map K V :=
  { m with num_entries := m.num_entries + 1 }

/-- Source: `expand()`.  The flag is taken by `test_and_set`; when it is already set
the loop around `test_and_set` never ends, as no other thread clears it.  The
throw leaves the flag set. -/
def expand (m : concurrent_unordered_map K V) : Outcome Bool (concurrent_unordered_map K V) :=
  if m.expanding then Outcome.spin
  else
    let m1 := { m with expanding := true }
    let num_submapsSnapshot := m1.get_num_submaps
    if num_submapsSnapshot = m1.get_maxnum_submaps then Outcome.runtime_error m1
    else
      let lastSubmapIndex := num_submapsSnapshot - 1
      let lastSubmap := m1.get_submap lastSubmapIndex
      if lastSubmap.is_overloaded then
        let newSubmapCapacity := next_prime (lastSubmap.get_capacity * NEW_SUBMAPS_CAPACITY_MULTIPLIER)
        let newSubmap : Submap K V := Submap.new newSubmapCapacity m1.maxload_factor
        let m2 := { m1 with submaps := List.set m1.submaps (lastSubmapIndex + 1) (some newSubmap) }
        let m3 := m2.increment_num_submaps
        Outcome.ret true { m3 with expanding := false }
      else Outcome.ret false { m1 with expanding := false }

/-- Source: `end()`: `const_iterator(this, true)`, whose `seek()` does nothing. -/
def end_ (_m : concurrent_unordered_map K V) : const_iterator := ⟨0, 0, true⟩

/-- The `while (!end)` loop of `const_iterator::seek`. -/
def seek_loop (m : concurrent_unordered_map K V) : Nat → const_iterator → Option const_iterator
  | 0, _ => none
  | fuel + 1, it =>
    if it.end_ then some it
    else
      match (m.get_submap it.submapIndex).seek it.bucketIndex with
      | (true, bucketIndex) => some { it with bucketIndex := bucketIndex }
      | (false, _) =>
        let submapIndex := it.submapIndex + 1
        if submapIndex > m.get_last_submap_index then
          m.seek_loop fuel ⟨0, 0, true⟩
        else
          m.seek_loop fuel ⟨submapIndex, 0, false⟩

/-- Source: `const_iterator::seek()`. -/
def seek (m : concurrent_unordered_map K V) (it : const_iterator) : const_iterator :=
  (m.seek_loop (m.get_num_submaps + 2) it).getD it

/-- Source: `const_iterator::next()`, which is `operator++`. -/
def next (m : concurrent_unordered_map K V) (it : const_iterator) : const_iterator :=
  m.seek { it with bucketIndex := it.bucketIndex + 1 }

/-- Source: `begin()`: `const_iterator(this)`. -/
def begin_ (m : concurrent_unordered_map K V) : const_iterator := m.seek ⟨0, 0, false⟩

/-- Source: `const_iterator::operator*`. -/
def get_entry (m : concurrent_unordered_map K V) (it : const_iterator) : K × V :=
  ((m.get_submap it.submapIndex).get_bucket it.bucketIndex).entry

/-- Source: `find_helper(key, hash1, hash2, lastSubmapIndex)`: the submaps from
`lastSubmapIndex` down to 0. -/
def find_helper (m : concurrent_unordered_map K V) (key : K) (hash1 hash2 : Nat) :
    Nat → const_iterator
  | 0 =>
    let findResult := (m.get_submap 0).find key hash1 hash2
    if findResult.2 then ⟨0, findResult.1, false⟩ else m.end_
  | submapIndex + 1 =>
    let findResult := (m.get_submap (submapIndex + 1)).find key hash1 hash2
    if findResult.2 then ⟨submapIndex + 1, findResult.1, false⟩
    else m.find_helper key hash1 hash2 submapIndex

/-- The `while (1)` loop of `insert_helper`. -/
def insert_helper (key : K) (hash1 hash2 : Nat) (ivalue : V) :
    Nat → concurrent_unordered_map K V →
      Outcome (const_iterator × Bool) (concurrent_unordered_map K V)
  | 0, _ => Outcome.fuel
  | fuel + 1, m =>
    let lastSubmapIndex := m.get_last_submap_index
    let findIterator := m.find_helper key hash1 hash2 (lastSubmapIndex - 1)
    if lastSubmapIndex > 0 ∧ findIterator.ne m.end_ = true then
      Outcome.ret (findIterator, false) m
    else
      let lastSubmap := m.get_submap lastSubmapIndex
      if lastSubmap.is_overloaded then
        match m.expand with
        | Outcome.ret _ m1 => insert_helper key hash1 hash2 ivalue fuel m1
        | Outcome.runtime_error m1 => Outcome.runtime_error m1
        | Outcome.spin => Outcome.spin
        | Outcome.fuel => Outcome.fuel
      else
        match lastSubmap.insert key hash1 hash2 ivalue with
        | Submap.InsertResult.done index inserted sm =>
          let m1 := { m with submaps := List.set m.submaps lastSubmapIndex (some sm) }
          let m2 := if inserted then m1.incrementnum_entries else m1
          Outcome.ret (⟨lastSubmapIndex, index, false⟩, inserted) m2
        | Submap.InsertResult.FullSubmapException =>
          match m.expand with
          | Outcome.ret _ m1 => insert_helper key hash1 hash2 ivalue fuel m1
          | Outcome.runtime_error m1 => Outcome.runtime_error m1
          | Outcome.spin => Outcome.spin
          | Outcome.fuel => Outcome.fuel

/-- The constructor.  It throws `std::logic_error` with the given text, or its
conversion `(std::size_t)(FIRST_SUBMAP_CAPACITY_MULTIPLIER * estimatednum_entries /
maxload_factor)` has undefined behaviour, or it builds the map with its first
submap. -/
def new (estimatednum_entries : Nat) (maxload_factor : Flt) (maxnum_submaps : Nat) :
    Except Failure (concurrent_unordered_map K V) :=
  if Flt.le maxload_factor (Flt.ofNat 0) || Flt.ge maxload_factor (Flt.ofNat 1) then
    Except.error (Failure.logic_error "Invalid maximum load factor")
  else if maxnum_submaps < 1 then
    Except.error (Failure.logic_error "Invalid maximum number of submaps")
  else
    match Flt.toSize (Flt.div
        (Flt.mul FIRST_SUBMAP_CAPACITY_MULTIPLIER (Flt.ofNat estimatednum_entries))
        maxload_factor) with
    | none => Except.error Failure.undefined
    | some n =>
      let firstSubmapCapacity := max FIRST_SUBMAP_MIN_CAPACITY (next_prime n)
      Except.ok
        { maxload_factor := maxload_factor
          num_submaps := 1
          submaps := (List.replicate maxnum_submaps none).set 0
            (some (Submap.new firstSubmapCapacity maxload_factor))
          num_entries := 0
          expanding := false }

end concurrent_unordered_map

/-- The two hash functors `KeyHash1` and `KeyHash2` of a map type. -/
structure Hashers (K : Type) where
  keyHash1 : K → Nat
  keyHash2 : K → Nat

namespace concurrent_unordered_map

variable {K V : Type} [DecidableEq K] [Inhabited K] [Inhabited V]

/-- Source: `find(key)`. -/
def find (h : Hashers K) (m : concurrent_unordered_map K V) (key : K) : const_iterator :=
  m.find_helper key (h.keyHash1 key) (h.keyHash2 key) m.get_last_submap_index

/-- Source: `at(key)`: throws `std::out_of_range` when `find` returns `end()`. -/
def at_ (h : Hashers K) (m : concurrent_unordered_map K V) (key : K) : Except String V :=
  let findIterator := find h m key
  if findIterator.eq m.end_ then Except.error "entry not found"
  else Except.ok (m.get_entry findIterator).2

/-- Source: `insert(key, ivalue)`, with the fuel of the loop of `insert_helper`. -/
def insert (h : Hashers K) (fuel : Nat) (m : concurrent_unordered_map K V) (key : K) (ivalue : V) :
    Outcome (const_iterator × Bool) (concurrent_unordered_map K V) :=
  insert_helper key (h.keyHash1 key) (h.keyHash2 key) ivalue fuel m

/-- Source: `get_num_entries()`. -/
def get_num_entries (m : concurrent_unordered_map K V) : Nat := m.num_entries

/-- Source: `size()`. -/
def size (m : concurrent_unordered_map K V) : Nat := m.get_num_entries

/-- Source: `empty()`. -/
def empty (m : concurrent_unordered_map K V) : Bool := decide (m.get_num_entries = 0)

/-- Source: `get_stats()`. -/
def get_stats (m : concurrent_unordered_map K V) : Stats :=
  { num_entries := m.get_num_entries
    num_submaps := m.get_num_submaps
    submaps_stats := (List.range m.get_num_submaps).map fun submapIndex =>
      (m.get_submap submapIndex).get_stats }

/-- The loop `for (it = begin(); it != end(); ++it)` collecting `*it`; the
second argument is the iterator reached so far. -/
def iterate_loop (m : concurrent_unordered_map K V) : Nat → const_iterator → Option (List (K × V))
  | 0, _ => none
  | fuel + 1, it =>
    if it.ne m.end_ then (m.iterate_loop fuel (m.next it)).map fun rest => m.get_entry it :: rest
    else some []

/-- The entries visited from `begin()` to `end()`, with the fuel of the loop. -/
def iterate (m : concurrent_unordered_map K V) (fuel : Nat) : Option (List (K × V)) :=
  m.iterate_loop fuel m.begin_

end concurrent_unordered_map

end concurrent

namespace channel

/-! ## The ring of a channel -/

/-- Source: `circular_buffer<T, buffer_size>`.  The pointers `_front` and `_end` are
kept as offsets from `&buffer[0]`. -/
structure circular_buffer (T : Type) (buffer_size : Nat) where
  buffer : List T
  _front : Nat
  _end : Nat
  _size : Nat
deriving DecidableEq, Repr

namespace circular_buffer

variable {T : Type} [Inhabited T] {buffer_size : Nat}

/-- The constructor: `buffer_size` default-initialised slots, both pointers at
`&buffer[0]`, size 0. -/
def new (T : Type) [Inhabited T] (buffer_size : Nat) : circular_buffer T buffer_size :=
  ⟨List.replicate buffer_size default, 0, 0, 0⟩

/-- Source: `increment(p)`: back to `&buffer[0]` from the last slot, else `++p`. -/
def increment (_b : circular_buffer T buffer_size) (p : Nat) : Nat :=
  if p + 1 = buffer_size then 0 else p + 1

/-- Source: `empty()`. -/
def empty (b : circular_buffer T buffer_size) : Bool := decide (b._size ≤ 0)

/-- Source: `full()`. -/
def full (b : circular_buffer T buffer_size) : Bool := decide (b._size = buffer_size)

/-- Source: `size()`. -/
def size (b : circular_buffer T buffer_size) : Nat := b._size

/-- Source: `front()`: throws `std::out_of_range` on an empty ring, else `*_front`.
The second component is the ring after the call. -/
def front (b : circular_buffer T buffer_size) : Except String T × circular_buffer T buffer_size :=
  if b.empty then (Except.error "container is empty", b)
  else (Except.ok (b.buffer.getD b._front default), b)

/-- Source: `back()`: throws `std::out_of_range` on an empty ring, else `*_end`. -/
def back (b : circular_buffer T buffer_size) : Except String T × circular_buffer T buffer_size :=
  if b.empty then (Except.error "container is empty", b)
  else (Except.ok (b.buffer.getD b._end default), b)

/-- Source: `push_back(item)`: throws `std::out_of_range` on a full ring. -/
def push_back (b : circular_buffer T buffer_size) (item : T) :
    Except String Unit × circular_buffer T buffer_size :=
  if b.full then (Except.error "container is full", b)
  else
    let b1 : circular_buffer T buffer_size := { b with buffer := List.set b.buffer b._end item }
    let b2 : circular_buffer T buffer_size := { b1 with _end := b1.increment b1._end }
    (Except.ok (), { b2 with _size := b2._size + 1 })

/-- Source: `pop()`: throws `std::out_of_range` on an empty ring. -/
def pop (b : circular_buffer T buffer_size) : Except String Unit × circular_buffer T buffer_size :=
  if b.empty then (Except.error "container is empty", b)
  else
    let b1 : circular_buffer T buffer_size := { b with _size := b._size - 1 }
    (Except.ok (), { b1 with _front := b1.increment b1._front })

/-- Source: `pop_front()`: throws `std::out_of_range` on an empty ring, else returns
the element at `_front` and removes it. -/
def pop_front (b : circular_buffer T buffer_size) :
    Except String T × circular_buffer T buffer_size :=
  if b.empty then (Except.error "container is empty", b)
  else
    let b1 : circular_buffer T buffer_size := { b with _size := b._size - 1 }
    let temp := b1.buffer.getD b1._front default
    (Except.ok temp, { b1 with _front := b1.increment b1._front })

/-- Source: `push(item)`. -/
def push (b : circular_buffer T buffer_size) (item : T) :
    Except String Unit × circular_buffer T buffer_size :=
  b.push_back item

end circular_buffer

/-- One step of a client of the ring: `push(x)`, `front()` followed by `pop()`,
or `pop_front()`. -/
inductive RingOp (T : Type)
  | push (x : T)
  | pop
  | pop_front
deriving DecidableEq, Repr

/-- Runs the steps one after another on ring `b`; `pushed` and `popped`
collect the values pushed and the values seen at the head by the pops.  The
run stops with `none` at the first step that throws. -/
def run_ring {T : Type} [Inhabited T] {buffer_size : Nat} :
    List (RingOp T) → circular_buffer T buffer_size → List T → List T →
      Option (circular_buffer T buffer_size × List T × List T)
  | [], b, pushed, popped => some (b, pushed, popped)
  | RingOp.push x :: ops, b, pushed, popped =>
    match b.push x with
    | (Except.ok _, b1) => run_ring ops b1 (pushed ++ [x]) popped
    | (Except.error _, _) => none
  | RingOp.pop :: ops, b, pushed, popped =>
    match b.front with
    | (Except.ok x, b1) =>
      match b1.pop with
      | (Except.ok _, b2) => run_ring ops b2 pushed (popped ++ [x])
      | (Except.error _, _) => none
    | (Except.error _, _) => none
  | RingOp.pop_front :: ops, b, pushed, popped =>
    match b.pop_front with
    | (Except.ok x, b1) => run_ring ops b1 pushed (popped ++ [x])
    | (Except.error _, _) => none

end channel

namespace concurrent

/-! ## Invariants and reachable states -/

namespace Submap

variable {K V : Type} [DecidableEq K] [Inhabited K] [Inhabited V]

/-- The index that the probe loops of `find` and `insert` read at their step
`t`: start `hash1 % capacity`, advanced `t` times by the probe increment,
modulo the capacity. -/
def probe (sm : Submap K V) (hash1 hash2 t : Nat) : Nat :=
  (hash1 % sm.get_capacity + t * sm.calculate_probe_increment hash2) % sm.get_capacity

/-- Bucket `j` of the submap is VALID and holds `key`. -/
def holds (sm : Submap K V) (key : K) (j : Nat) : Prop :=
  (sm.get_bucket j).state = Bucket.State.VALID ∧ (sm.get_bucket j).entry.1 = key

/-- Bucket `j` is neither EMPTY nor a VALID bucket with `key`: a probe loop for
`key` goes past it. -/
def passes (sm : Submap K V) (key : K) (j : Nat) : Prop :=
  (sm.get_bucket j).state ≠ Bucket.State.EMPTY ∧ ¬ sm.holds key j

/-- The entries of the VALID buckets, by ascending bucket position. -/
def valid_entries (sm : Submap K V) : List (K × V) :=
  (sm.buckets.filter fun b => decide (b.state = Bucket.State.VALID)).map fun b => b.entry

/-- The entries of the VALID buckets at the positions from `index` on. -/
def valid_from (sm : Submap K V) (index : Nat) : List (K × V) :=
  ((sm.buckets.drop index).filter fun b => decide (b.state = Bucket.State.VALID)).map
    fun b => b.entry

/-- The invariant of a submap under inserts by one thread: the capacity is
prime, no bucket is left BUSY, the counter counts the VALID buckets, and every
VALID bucket lies on the probe sequence of its key after VALID buckets with
other keys only. -/
structure Inv (h : Hashers K) (sm : Submap K V) : Prop where
  prime : Nat.Prime sm.get_capacity
  no_busy : ∀ j, (sm.get_bucket j).state ≠ Bucket.State.BUSY
  count : sm.num_valid_buckets = sm.valid_entries.length
  chain : ∀ j, (sm.get_bucket j).state = Bucket.State.VALID →
    ∃ t, t < sm.get_capacity ∧
      sm.probe (h.keyHash1 (sm.get_bucket j).entry.1) (h.keyHash2 (sm.get_bucket j).entry.1) t = j ∧
      ∀ s, s < t →
        ¬ sm.holds (sm.get_bucket j).entry.1
          (sm.probe (h.keyHash1 (sm.get_bucket j).entry.1)
            (h.keyHash2 (sm.get_bucket j).entry.1) s) ∧
        (sm.get_bucket (sm.probe (h.keyHash1 (sm.get_bucket j).entry.1)
            (h.keyHash2 (sm.get_bucket j).entry.1) s)).state = Bucket.State.VALID

end Submap

namespace concurrent_unordered_map

variable {K V : Type} [DecidableEq K] [Inhabited K] [Inhabited V]

/-- Bucket `j` of the live submap `i` is VALID and holds `key`. -/
def holds (m : concurrent_unordered_map K V) (key : K) (i j : Nat) : Prop :=
  i < m.get_num_submaps ∧ (m.get_submap i).holds key j

/-- The entries of the VALID buckets of the live submaps, by ascending submap
index and, within a submap, by ascending bucket position. -/
def entries (m : concurrent_unordered_map K V) : List (K × V) :=
  (List.range m.get_num_submaps).flatMap fun i => (m.get_submap i).valid_entries

/-- The entries that an iterator at `(submapIndex, bucketIndex)` has before it:
those of the submap from `bucketIndex` on, then those of the later live
submaps. -/
def entries_from (m : concurrent_unordered_map K V) (submapIndex bucketIndex : Nat) :
    List (K × V) :=
  (m.get_submap submapIndex).valid_from bucketIndex ++
    (List.range' (submapIndex + 1) (m.get_num_submaps - (submapIndex + 1))).flatMap
      fun i => (m.get_submap i).valid_entries

/-- The number of VALID buckets in the live submaps. -/
def num_valid (m : concurrent_unordered_map K V) : Nat :=
  ((List.range m.get_num_submaps).map fun i =>
    ((m.get_submap i).buckets.filter fun b => decide (b.state = Bucket.State.VALID)).length).sum

/-- The invariant of the map under inserts by one thread. -/
structure Inv (h : Hashers K) (m : concurrent_unordered_map K V) : Prop where
  num_pos : 1 ≤ m.num_submaps
  num_le : m.num_submaps ≤ m.submaps.length
  live : ∀ i, i < m.num_submaps → m.submaps[i]? = some (some (m.get_submap i))
  sub_inv : ∀ i, i < m.num_submaps → (m.get_submap i).Inv h
  factor : ∀ i, i < m.num_submaps → (m.get_submap i).maxload_factor = m.maxload_factor
  factor_pos : Flt.le m.maxload_factor (Flt.ofNat 0) = false
  factor_lt : Flt.ge m.maxload_factor (Flt.ofNat 1) = false
  factor_number : m.maxload_factor ≠ Flt.nan
  count : m.num_entries =
    ((List.range m.num_submaps).map fun i => (m.get_submap i).num_valid_buckets).sum
  disjoint : ∀ key i j i1 j1, m.holds key i j → m.holds key i1 j1 → i = i1
  not_expanding : m.expanding = false

/-- The number of entries that the constructor sizes the first submap for:
`(std::size_t)(FIRST_SUBMAP_CAPACITY_MULTIPLIER * estimatednum_entries / maxload_factor)`,
`none` when the conversion has undefined behaviour. -/
def first_estimate (estimatednum_entries : Nat) (maxload_factor : Flt) : Option Nat :=
  Flt.toSize (Flt.div
    (Flt.mul FIRST_SUBMAP_CAPACITY_MULTIPLIER (Flt.ofNat estimatednum_entries))
    maxload_factor)

/-- The capacity that the constructor gives the first submap, from the converted
estimate `n`. -/
def first_capacity (n : Nat) : Nat :=
  max FIRST_SUBMAP_MIN_CAPACITY (next_prime n)

/-- The map after `insert_helper` has stored `(key, ivalue)` in bucket `e` of
the newest submap and incremented the entry counter. -/
def stored (m : concurrent_unordered_map K V) (e : Nat) (key : K) (ivalue : V) :
    concurrent_unordered_map K V :=
  incrementnum_entries
    { m with submaps := (List.set m.submaps m.get_last_submap_index
        (some ((m.get_submap m.get_last_submap_index).store e key ivalue))) }

/-- The map after `expand` has appended a submap. -/
def expanded (m : concurrent_unordered_map K V) : concurrent_unordered_map K V :=
  { m with
    submaps := (List.set m.submaps (m.get_last_submap_index + 1)
      (some (Submap.new
        (next_prime ((m.get_submap m.get_last_submap_index).get_capacity
          * NEW_SUBMAPS_CAPACITY_MULTIPLIER))
        m.maxload_factor)))
    num_submaps := m.num_submaps + 1
    expanding := false }

/-- The ways in which a call `insert(key, ivalue)` on map `m` ends when the
invariant holds, with the state it leaves:
the key is found in a submap older than the newest; it is found in the newest
submap, which is not overloaded; it is found in the newest submap after
`expand` has appended a submap; `expand` throws at the cap; the entry is
stored in the newest submap; the entry is stored in a submap that `expand` has
appended. -/
inductive InsertStep (h : Hashers K) (m : concurrent_unordered_map K V) (key : K) (ivalue : V) :
    Outcome (const_iterator × Bool) (concurrent_unordered_map K V) → Prop
  | older (i j : Nat) :
      m.holds key i j → i < m.get_last_submap_index →
      InsertStep h m key ivalue (Outcome.ret (⟨i, j, false⟩, false) m)
  | last (j : Nat) :
      m.holds key m.get_last_submap_index j →
      (m.get_submap m.get_last_submap_index).is_overloaded = false →
      InsertStep h m key ivalue (Outcome.ret (⟨m.get_last_submap_index, j, false⟩, false) m)
  | last_grow (j : Nat) :
      m.holds key m.get_last_submap_index j →
      (m.get_submap m.get_last_submap_index).is_overloaded = true →
      m.num_submaps < m.submaps.length →
      InsertStep h m key ivalue
        (Outcome.ret (⟨m.get_last_submap_index, j, false⟩, false) m.expanded)
  | error :
      (∀ i j, i < m.get_last_submap_index → ¬ m.holds key i j) →
      (m.get_submap m.get_last_submap_index).is_overloaded = true →
      m.num_submaps = m.submaps.length →
      InsertStep h m key ivalue (Outcome.runtime_error { m with expanding := true })
  | new (e : Nat) :
      (∀ i j, ¬ m.holds key i j) →
      (m.get_submap m.get_last_submap_index).is_overloaded = false →
      e < (m.get_submap m.get_last_submap_index).get_capacity →
      ((m.get_submap m.get_last_submap_index).get_bucket e).state = Bucket.State.EMPTY →
      (m.stored e key ivalue).Inv h →
      InsertStep h m key ivalue
        (Outcome.ret (⟨m.get_last_submap_index, e, false⟩, true) (m.stored e key ivalue))
  | new_grow (e : Nat) :
      (∀ i j, ¬ m.holds key i j) →
      (m.get_submap m.get_last_submap_index).is_overloaded = true →
      m.num_submaps < m.submaps.length →
      e < (m.expanded.get_submap m.expanded.get_last_submap_index).get_capacity →
      ((m.expanded.get_submap m.expanded.get_last_submap_index).get_bucket e).state
        = Bucket.State.EMPTY →
      (m.expanded.stored e key ivalue).Inv h →
      InsertStep h m key ivalue
        (Outcome.ret (⟨m.expanded.get_last_submap_index, e, false⟩, true)
          (m.expanded.stored e key ivalue))

/-- The capacities of the live submaps: the first is a prime that is at least
11, and each later one is `next_prime` of twice the capacity before it. -/
def capacity_chain (m : concurrent_unordered_map K V) : Prop :=
  Nat.Prime (m.get_submap 0).get_capacity ∧
    FIRST_SUBMAP_MIN_CAPACITY ≤ (m.get_submap 0).get_capacity ∧
    ∀ i, i + 1 < m.get_num_submaps →
      (m.get_submap (i + 1)).get_capacity =
        next_prime ((m.get_submap i).get_capacity * NEW_SUBMAPS_CAPACITY_MULTIPLIER)

/-- The states of a map that one thread reaches: a constructed map, followed
by calls of `insert` that return.  (The `std::runtime_error` of `expand` is
fatal; no call follows it.) -/
inductive Reachable (h : Hashers K) : concurrent_unordered_map K V → Prop
  | init (estimatednum_entries : Nat) (maxload_factor : Flt) (maxnum_submaps : Nat)
      (m : concurrent_unordered_map K V) :
      concurrent_unordered_map.new estimatednum_entries maxload_factor maxnum_submaps
        = Except.ok m → Reachable h m
  | step (fuel : Nat) (m m1 : concurrent_unordered_map K V) (key : K) (ivalue : V)
      (r : const_iterator × Bool) :
      Reachable h m → insert h fuel m key ivalue = Outcome.ret r m1 → Reachable h m1

/-- Calls `insert(key, value)` for the pairs of the list, one after another;
the result is the list of the returned pairs `(iterator, inserted)` and the
final map, or `none` when some call does not return. -/
def run_inserts (h : Hashers K) (fuel : Nat) :
    List (K × V) → concurrent_unordered_map K V →
      Option (List (const_iterator × Bool) × concurrent_unordered_map K V)
  | [], m => some ([], m)
  | (key, ivalue) :: rest, m =>
    match insert h fuel m key ivalue with
    | Outcome.ret r m1 =>
      (run_inserts h fuel rest m1).map fun p => (r :: p.1, p.2)
    | _ => none

/-- The finite map that the spec describes, first write wins: the value of
`key` is the value of the first pair of the list whose key is `key`. -/
def first_write (kvs : List (K × V)) (key : K) : Option V :=
  (kvs.find? fun p => decide (p.1 = key)).map fun p => p.2

end concurrent_unordered_map

end concurrent

namespace concurrent

/-! ## Concrete maps -/

/-- Hash functors for keys below `2^64`: `std::hash` of an integer as the
identity, and `SecondHash`, the hash of the bitwise complement. -/
def example_hashers : Hashers Nat :=
  ⟨fun key => key, fun key => 18446744073709551615 - key⟩

/-- The map built by `concurrent_unordered_map(0, 0.75f, 2)`: a first submap
of 11 buckets and room for a second submap. -/
def example_fresh : concurrent_unordered_map Nat Nat :=
  ⟨DEFAULT_MAX_LOAD_FACTOR, 1, [some (Submap.new 11 DEFAULT_MAX_LOAD_FACTOR), none], 0, false⟩

/-- The map built by `concurrent_unordered_map(0, 0.75f, 1)`: one submap of 11
buckets and no room for another. -/
def example_single : concurrent_unordered_map Nat Nat :=
  ⟨DEFAULT_MAX_LOAD_FACTOR, 1, [some (Submap.new 11 DEFAULT_MAX_LOAD_FACTOR)], 0, false⟩

/-- The state of a run of inserts, or the start state when a call does not
return. -/
def example_state (m0 : concurrent_unordered_map Nat Nat) (kvs : List (Nat × Nat)) :
    concurrent_unordered_map Nat Nat :=
  ((concurrent_unordered_map.run_inserts example_hashers 2 kvs m0).getD ([], m0)).2

/-- The pairs returned by a run of inserts. -/
def example_results (m0 : concurrent_unordered_map Nat Nat) (kvs : List (Nat × Nat)) :
    List (const_iterator × Bool) :=
  ((concurrent_unordered_map.run_inserts example_hashers 2 kvs m0).getD ([], m0)).1

/-- Nine pairs with different keys: they bring a submap of 11 buckets to the
load 9/11, above 0.75. -/
def example_nine : List (Nat × Nat) :=
  [(0, 0), (1, 10), (2, 20), (3, 30), (4, 40), (5, 50), (6, 60), (7, 70), (8, 80)]

end concurrent

namespace channel

namespace circular_buffer

variable {T : Type} [Inhabited T] {buffer_size : Nat}

/-- The well-formed rings: `buffer_size` slots, both offsets inside the
storage, and `_end` is `_size` slots after `_front`, modulo `buffer_size`. -/
structure WF (b : circular_buffer T buffer_size) : Prop where
  length_eq : b.buffer.length = buffer_size
  front_lt : b._front < buffer_size
  size_le : b._size ≤ buffer_size
  end_eq : b._end = (b._front + b._size) % buffer_size

/-- The stored elements, oldest first. -/
def contents (b : circular_buffer T buffer_size) : List T :=
  (List.range b._size).map fun i => b.buffer.getD ((b._front + i) % buffer_size) default

end circular_buffer

/-- The values of the `push` steps, in order. -/
def pushes {T : Type} : List (RingOp T) → List T
  | [] => []
  | RingOp.push x :: ops => x :: pushes ops
  | _ :: ops => pushes ops

/-- The number of `pop` and `pop_front` steps. -/
def pops {T : Type} : List (RingOp T) → Nat
  | [] => 0
  | RingOp.push _ :: ops => pops ops
  | _ :: ops => pops ops + 1

end channel

namespace channel

/-! ## Channel buffers, endpoints and select

One thread runs the calls.  A call that reaches a condition-variable wait whose
predicate is false blocks: no other thread changes the state, so the call ends
in `Step.wait`.  The mutex and the notifications have no effect on the data and
are left out. -/

/-- How a call on a channel ends: it returns `a` in state `s`, it blocks in a
wait in state `s`, or it throws an exception with the text `what`. -/
inductive Step (α σ : Type)
  | done (a : α) (s : σ)
  | wait (s : σ)
  | thrown (what : String) (s : σ)
deriving DecidableEq, Repr

/-- The members `buffer` and `is_closed` of `channel_buffer<T, buffer_size>`. -/
structure channel_buffer (T : Type) (buffer_size : Nat) where
  buffer : circular_buffer T buffer_size
  is_closed : Bool
deriving DecidableEq, Repr

namespace channel_buffer

variable {T : Type} [Inhabited T] {buffer_size : Nat}

/-- The constructor: an empty ring, `is_closed(false)`.  `channel<T, buffer_size>()`
makes one such buffer and shares it between its two endpoints. -/
def new (T : Type) [Inhabited T] (buffer_size : Nat) : channel_buffer T buffer_size :=
  ⟨circular_buffer.new T buffer_size, false⟩

/-- The end of `get_next`: `T temp; std::swap(temp, buffer.front()); buffer.pop();
return temp;`.  The swap leaves the default-initialised `temp` in the slot at
the head. -/
def take (s : channel_buffer T buffer_size) : Step T (channel_buffer T buffer_size) :=
  match s.buffer.front with
  | (Except.error what, b) => Step.thrown what { s with buffer := b }
  | (Except.ok x, b) =>
    let b1 : circular_buffer T buffer_size :=
      { b with buffer := (List.set b.buffer b._front default) }
    match b1.pop with
    | (Except.error what, b2) => Step.thrown what { s with buffer := b2 }
    | (Except.ok _, b2) => Step.done x { s with buffer := b2 }

/-- Source: `get_next()`.  On an empty ring of an open channel the call waits
on `input_wait`. -/
def get_next (s : channel_buffer T buffer_size) : Step T (channel_buffer T buffer_size) :=
  if s.buffer.empty then
    if s.is_closed then Step.done default s
    else Step.wait s
  else s.take

/-- The rest of `get_next()` after its wait has returned, run on the state `s`
that the woken thread finds. -/
def get_next_wake (s : channel_buffer T buffer_size) : Step T (channel_buffer T buffer_size) :=
  if s.buffer.empty && s.is_closed then Step.done default s
  else s.take

/-- Source: `try_get_next()`; the `std::unique_ptr<T>` is an `Option T`. -/
def try_get_next (s : channel_buffer T buffer_size) :
    Step (Option T) (channel_buffer T buffer_size) :=
  if s.is_closed then Step.done (some default) s
  else if s.buffer.empty then Step.done none s
  else
    match s.buffer.front with
    | (Except.error what, b) => Step.thrown what { s with buffer := b }
    | (Except.ok x, b) =>
      match b.pop with
      | (Except.error what, b2) => Step.thrown what { s with buffer := b2 }
      | (Except.ok _, b2) => Step.done (some x) { s with buffer := b2 }

/-- The push of `insert(in)`. -/
def put (s : channel_buffer T buffer_size) (x : T) : Step Unit (channel_buffer T buffer_size) :=
  match s.buffer.push x with
  | (Except.error what, b) => Step.thrown what { s with buffer := b }
  | (Except.ok _, b) => Step.done () { s with buffer := b }

/-- Source: `insert(in)`.  On a full ring of an open channel the call waits on
`output_wait`. -/
def insert (s : channel_buffer T buffer_size) (x : T) : Step Unit (channel_buffer T buffer_size) :=
  if !s.is_closed then
    if s.buffer.full then Step.wait s
    else s.put x
  else Step.done () s

/-- The rest of `insert(in)` after its wait has returned, run on the state `s`
that the woken thread finds. -/
def insert_wake (s : channel_buffer T buffer_size) (x : T) :
    Step Unit (channel_buffer T buffer_size) :=
  if s.is_closed then Step.done () s
  else s.put x

/-- Source: `close()`. -/
def close (s : channel_buffer T buffer_size) : channel_buffer T buffer_size :=
  { s with is_closed := true }

/-- Source: `status()`. -/
def status (s : channel_buffer T buffer_size) : Bool := s.is_closed

/-- The buffered values, oldest first. -/
def contents (s : channel_buffer T buffer_size) : List T := s.buffer.contents

end channel_buffer

/-! ### Endpoints -/

/-- Source: `operator<<` of `ichannel`: the send. -/
def ichannel.send {T : Type} [Inhabited T] {buffer_size : Nat}
    (s : channel_buffer T buffer_size) (obj : T) : Step Unit (channel_buffer T buffer_size) :=
  s.insert obj

/-- Source: `operator>>` of `ochannel`: the receive. -/
def ochannel.receive {T : Type} [Inhabited T] {buffer_size : Nat}
    (s : channel_buffer T buffer_size) : Step T (channel_buffer T buffer_size) :=
  s.get_next

/-- Source: `ochannel_iterator::operator++`: `val = buffer->get_next()`.  The
result is the new `val`. -/
def ochannel_iterator.incr {T : Type} [Inhabited T] {buffer_size : Nat}
    (s : channel_buffer T buffer_size) : Step T (channel_buffer T buffer_size) :=
  s.get_next

/-- Source: `ochannel_iterator::operator==`, which reads `buffer->status()` and
not its argument. -/
def ochannel_iterator.eq {T : Type} [Inhabited T] {buffer_size : Nat}
    (s : channel_buffer T buffer_size) : Bool :=
  s.status

/-- Source: `ochannel_iterator::operator!=`. -/
def ochannel_iterator.ne {T : Type} [Inhabited T] {buffer_size : Nat}
    (s : channel_buffer T buffer_size) : Bool :=
  !ochannel_iterator.eq s

/-- Source: `ochannel::begin()`: the iterator constructor with `is_end = false`
calls `operator++`. -/
def ochannel.begin_ {T : Type} [Inhabited T] {buffer_size : Nat}
    (s : channel_buffer T buffer_size) : Step T (channel_buffer T buffer_size) :=
  ochannel_iterator.incr s

/-- How the loop `for (it = begin(); it != end(); ++it)` over an output
endpoint ends: it finishes, it blocks in a receive, or a receive throws; `ys`
are the values `*it` that the body has seen.  `fuel` is the end of the
embedding's fuel. -/
inductive Iteration (T σ : Type)
  | finished (ys : List T) (s : σ)
  | blocked (ys : List T) (s : σ)
  | thrown (what : String) (ys : List T) (s : σ)
  | fuel
deriving DecidableEq, Repr

/-- The loop after `begin()`: `val` is the value held by the iterator, `ys` the
values seen so far. -/
def ochannel.range_for_loop {T : Type} [Inhabited T] {buffer_size : Nat} :
    Nat → T → channel_buffer T buffer_size → List T → Iteration T (channel_buffer T buffer_size)
  | 0, _, _, _ => Iteration.fuel
  | fuel + 1, val, s, ys =>
    if ochannel_iterator.ne s then
      match ochannel_iterator.incr s with
      | Step.done v s1 => ochannel.range_for_loop fuel v s1 (ys ++ [val])
      | Step.wait s1 => Iteration.blocked (ys ++ [val]) s1
      | Step.thrown what s1 => Iteration.thrown what (ys ++ [val]) s1
    else Iteration.finished ys s

/-- The loop `for (it = begin(); it != end(); ++it)` with a body that reads
`*it`. -/
def ochannel.range_for {T : Type} [Inhabited T] {buffer_size : Nat} (fuel : Nat)
    (s : channel_buffer T buffer_size) : Iteration T (channel_buffer T buffer_size) :=
  match ochannel.begin_ s with
  | Step.done v s1 => ochannel.range_for_loop fuel v s1 []
  | Step.wait s1 => Iteration.blocked [] s1
  | Step.thrown what s1 => Iteration.thrown what [] s1

/-! ### Runs of a channel -/

/-- One step of a client of a channel. -/
inductive ChanOp (T : Type)
  | send (x : T)
  | receive
deriving DecidableEq, Repr

/-- Runs sends and receives one after another; `sent` and `received` collect
the values.  The run stops with `none` at the first step that waits or
throws. -/
def run_channel {T : Type} [Inhabited T] {buffer_size : Nat} :
    List (ChanOp T) → channel_buffer T buffer_size → List T → List T →
      Option (channel_buffer T buffer_size × List T × List T)
  | [], s, sent, received => some (s, sent, received)
  | ChanOp.send x :: ops, s, sent, received =>
    match ichannel.send s x with
    | Step.done _ s1 => run_channel ops s1 (sent ++ [x]) received
    | _ => none
  | ChanOp.receive :: ops, s, sent, received =>
    match ochannel.receive s with
    | Step.done x s1 => run_channel ops s1 sent (received ++ [x])
    | _ => none

/-- Calls receive `k` times; `none` when a call waits or throws. -/
def receive_n {T : Type} [Inhabited T] {buffer_size : Nat} :
    Nat → channel_buffer T buffer_size → Option (List T × channel_buffer T buffer_size)
  | 0, s => some ([], s)
  | k + 1, s =>
    match ochannel.receive s with
    | Step.done x s1 => (receive_n k s1).map fun p => (x :: p.1, p.2)
    | _ => none

/-- The states of a channel buffer that one thread reaches: a fresh buffer,
followed by sends, receives, try-receives that return, and closes. -/
inductive channel_buffer.Reachable {T : Type} [Inhabited T] {buffer_size : Nat} :
    channel_buffer T buffer_size → Prop
  | init : channel_buffer.Reachable (channel_buffer.new T buffer_size)
  | insert (s s1 : channel_buffer T buffer_size) (x : T) (u : Unit) :
      channel_buffer.Reachable s → s.insert x = Step.done u s1 → channel_buffer.Reachable s1
  | get_next (s s1 : channel_buffer T buffer_size) (x : T) :
      channel_buffer.Reachable s → s.get_next = Step.done x s1 → channel_buffer.Reachable s1
  | try_get_next (s s1 : channel_buffer T buffer_size) (r : Option T) :
      channel_buffer.Reachable s → s.try_get_next = Step.done r s1 → channel_buffer.Reachable s1
  | close (s : channel_buffer T buffer_size) :
      channel_buffer.Reachable s → channel_buffer.Reachable s.close

/-- The states of a ring reached from its construction by `push`, `pop` and
`pop_front`, whether the call returns or throws. -/
inductive circular_buffer.Reachable {T : Type} [Inhabited T] {buffer_size : Nat} :
    circular_buffer T buffer_size → Prop
  | init : circular_buffer.Reachable (circular_buffer.new T buffer_size)
  | push (b : circular_buffer T buffer_size) (x : T) :
      circular_buffer.Reachable b → circular_buffer.Reachable (b.push x).2
  | pop (b : circular_buffer T buffer_size) :
      circular_buffer.Reachable b → circular_buffer.Reachable b.pop.2
  | pop_front (b : circular_buffer T buffer_size) :
      circular_buffer.Reachable b → circular_buffer.Reachable b.pop_front.2

/-- The sent values of a run, in order. -/
def sends {T : Type} : List (ChanOp T) → List T
  | [] => []
  | ChanOp.send x :: ops => x :: sends ops
  | ChanOp.receive :: ops => sends ops

/-- The rings of the reachable states: well-formed, or without slots and
without elements when `buffer_size` is 0. -/
def circular_buffer.Sound {T : Type} [Inhabited T] {buffer_size : Nat}
    (b : circular_buffer T buffer_size) : Prop :=
  b.WF ∨ (buffer_size = 0 ∧ b._size = 0)

/-! ### Select -/

/-- A channel buffer of any capacity, as a `select` case holds it through its
endpoint. -/
structure AnyBuffer (T : Type) where
  buffer_size : Nat
  buffer : channel_buffer T buffer_size

/-- A call of a handler given to `select`: the handler `f` of a case with the
received value, or the handler `f` of the default branch. -/
inductive Event (T : Type)
  | case_handler (f : Nat) (val : T)
  | default_handler (f : Nat)
deriving DecidableEq, Repr

/-- What a `select` acts on: the channel buffers, by channel number, and the
calls of handlers so far.  A handler does nothing but be called. -/
structure World (T : Type) where
  channels : List (AnyBuffer T)
  log : List (Event T)

/-- The buffer of channel `ch`; every case holds the endpoint of an existing
channel. -/
def World.get_buffer {T : Type} [Inhabited T] (w : World T) (ch : Nat) : AnyBuffer T :=
  w.channels.getD ch ⟨0, channel_buffer.new T 0⟩

/-- Source: `case_option`, built from an output endpoint `ch` and a handler `f`. -/
structure case_option where
  ch : Nat
  f : Nat
deriving DecidableEq, Repr

/-- Source: `default_option`, built from a handler `f`. -/
structure default_option where
  f : Nat
deriving DecidableEq, Repr

/-- Source: `case_option::operator()`: the task `try_get_next`, then `f(*val)` when a
value came, and the result `val == nullptr`. -/
def case_option.task {T : Type} [Inhabited T] (c : case_option) (w : World T) :
    Step Bool (World T) :=
  match (w.get_buffer c.ch).buffer.try_get_next with
  | Step.done (some val) b =>
    Step.done false
      ⟨List.set w.channels c.ch ⟨(w.get_buffer c.ch).buffer_size, b⟩,
        w.log ++ [Event.case_handler c.f val]⟩
  | Step.done none b =>
    Step.done true ⟨List.set w.channels c.ch ⟨(w.get_buffer c.ch).buffer_size, b⟩, w.log⟩
  | Step.wait b =>
    Step.wait ⟨List.set w.channels c.ch ⟨(w.get_buffer c.ch).buffer_size, b⟩, w.log⟩
  | Step.thrown what b =>
    Step.thrown what ⟨List.set w.channels c.ch ⟨(w.get_buffer c.ch).buffer_size, b⟩, w.log⟩

/-- Source: `default_option::operator()`. -/
def default_option.call {T : Type} (d : default_option) (w : World T) : World T :=
  ⟨w.channels, w.log ++ [Event.default_handler d.f]⟩

/-- The loop `for (auto& c : cases) if (!c()) return true; return false` of
`random_exec`. -/
def select.random_exec_loop {T : Type} [Inhabited T] :
    List case_option → World T → Step Bool (World T)
  | [], w => Step.done false w
  | c :: rest, w =>
    match c.task w with
    | Step.done r w1 => if !r then Step.done true w1 else select.random_exec_loop rest w1
    | Step.wait w1 => Step.wait w1
    | Step.thrown what w1 => Step.thrown what w1

/-- Source: `select::random_exec()`; `shuffle` is what `std::shuffle` does to the
cases with the random generator of this call. -/
def select.random_exec {T : Type} [Inhabited T] (shuffle : List case_option → List case_option)
    (cases : List case_option) (w : World T) : Step Bool (World T) :=
  select.random_exec_loop (shuffle cases) w

/-- Source: `select(c1, ..., cn)` and `select(c1, ..., cn, d)`: the `exec` overloads
collect the cases; the last one runs `random_exec()`, and with a default
branch calls it when `random_exec()` returned false. -/
def select.new {T : Type} [Inhabited T] (cases : List case_option) (d : Option default_option)
    (shuffle : List case_option → List case_option) (w : World T) : Step Unit (World T) :=
  match select.random_exec shuffle cases w with
  | Step.done r w1 =>
    match d with
    | some d1 => if !r then Step.done () (d1.call w1) else Step.done () w1
    | none => Step.done () w1
  | Step.wait w1 => Step.wait w1
  | Step.thrown what w1 => Step.thrown what w1

/-- The case would receive a value: `try_get_next` on its channel returns one. -/
def case_option.ready {T : Type} [Inhabited T] (c : case_option) (w : World T) : Bool :=
  match (w.get_buffer c.ch).buffer.try_get_next with
  | Step.done (some _) _ => true
  | _ => false

end channel

namespace channel

/-! ## Channels: example states -/

/-- A `circular_buffer<Nat, 3>` after `push(1)`, `push(2)`, `pop()`. -/
def example_ring : circular_buffer Nat 3 :=
  ((((circular_buffer.new Nat 3).push 1).2.push 2).2.pop).2

/-- Producer sends 10, 20, 30; consumer receives twice; producer sends 40. -/
def example_ops : List (ChanOp Nat) :=
  [ChanOp.send 10, ChanOp.send 20, ChanOp.send 30, ChanOp.receive, ChanOp.receive,
    ChanOp.send 40]

/-- The `channel<Nat, 3>` after `example_ops`. -/
def example_after : channel_buffer Nat 3 := ⟨⟨[40, 0, 30], 2, 1, 2⟩, false⟩

/-- The `channel<Nat, 3>` after `send(10)`. -/
def example_one : channel_buffer Nat 3 := ⟨⟨[10, 0, 0], 0, 1, 1⟩, false⟩

/-- The `channel<Nat, 2>` after `send(1)`, `send(2)`. -/
def example_two : channel_buffer Nat 2 := ⟨⟨[1, 2], 0, 0, 2⟩, false⟩

/-- The `channel<Nat, 2>` after `send(1)`, `send(2)`, `close()`. -/
def example_closed : channel_buffer Nat 2 := ⟨⟨[1, 2], 0, 0, 2⟩, true⟩

/-- Three cases on the channels 0, 1 and 2, with the handlers 10, 11 and 12. -/
def example_cases : List case_option := [⟨0, 10⟩, ⟨1, 11⟩, ⟨2, 12⟩]

/-- Three channels `channel<Nat, 2>`; only the second holds a value, 5. -/
def example_world : World Nat :=
  ⟨[⟨2, channel_buffer.new Nat 2⟩, ⟨2, ⟨⟨[5, 0], 0, 1, 1⟩, false⟩⟩,
    ⟨2, channel_buffer.new Nat 2⟩], []⟩

/-- Three open channels `channel<Nat, 2>` with empty rings. -/
def example_idle : World Nat :=
  ⟨[⟨2, channel_buffer.new Nat 2⟩, ⟨2, channel_buffer.new Nat 2⟩,
    ⟨2, channel_buffer.new Nat 2⟩], []⟩

/-- Three channels `channel<Nat, 2>`; the second holds 5 and the third holds 6. -/
def example_busy : World Nat :=
  ⟨[⟨2, channel_buffer.new Nat 2⟩, ⟨2, ⟨⟨[5, 0], 0, 1, 1⟩, false⟩⟩,
    ⟨2, ⟨⟨[6, 0], 0, 1, 1⟩, false⟩⟩], []⟩

/-- Three channels `channel<Nat, 2>`; the first and the third are open and empty, the
second is closed with the values 1 and 2 still in its ring. -/
def example_shut : World Nat :=
  ⟨[⟨2, channel_buffer.new Nat 2⟩, ⟨2, example_closed⟩, ⟨2, channel_buffer.new Nat 2⟩], []⟩

end channel

namespace channel

/-! ## Select: the parameter pack of the constructor -/

/-- One argument of `select(...)`: a `case_option` or a `default_option`. -/
inductive option_param
  | case_ (c : case_option)
  | default_ (d : default_option)
deriving DecidableEq, Repr

/-- What `select(params...)` comes to: the program is ill-formed (no overload of
`exec` fits, or the `static_assert` of an overload fails, with the
diagnostic), or the constructor runs. -/
inductive Construction (σ : Type)
  | ill_formed (what : String)
  | run (r : Step Unit σ)
deriving DecidableEq, Repr

/-- Source: the four overloads of `select::exec`, chosen by the first argument and
by whether more follow; `cases` is the vector collected so far.
* `exec(case_option&& c, T&&... params)`: `cases.emplace_back(c); exec(params...)`;
* `exec(case_option&& c)`: `cases.emplace_back(c); random_exec();`
* `exec(default_option&& d)`: `if (!random_exec()) d();`
* `exec(default_option&& c, T&&... params)`: `static_assert(dependent_error<T...>, ...)`.
A non-template overload is preferred to a template with an empty pack, and
`exec()` without arguments fits none. -/
def select.exec {T : Type} [Inhabited T] (shuffle : List case_option → List case_option) :
    List option_param → List case_option → World T → Construction (World T)
  | [], _, _ => Construction.ill_formed "no matching function for call to exec()"
  | [option_param.case_ c], cases, w =>
    Construction.run
      (match select.random_exec shuffle (cases ++ [c]) w with
        | Step.done _ w1 => Step.done () w1
        | Step.wait w1 => Step.wait w1
        | Step.thrown what w1 => Step.thrown what w1)
  | [option_param.default_ d], cases, w =>
    Construction.run
      (match select.random_exec shuffle cases w with
        | Step.done r w1 => if !r then Step.done () (d.call w1) else Step.done () w1
        | Step.wait w1 => Step.wait w1
        | Step.thrown what w1 => Step.thrown what w1)
  | option_param.case_ c :: p :: params, cases, w =>
    select.exec shuffle (p :: params) (cases ++ [c]) w
  | option_param.default_ _ :: _ :: _, _, _ =>
    Construction.ill_formed "at least 1 option required!"

/-- Source: `select(T&&... params)`: `cases.reserve(sizeof...(params)); exec(params...)`. -/
def select.construct {T : Type} [Inhabited T] (shuffle : List case_option → List case_option)
    (params : List option_param) (w : World T) : Construction (World T) :=
  select.exec shuffle params [] w

/-- The handlers that ran: the events the log gained. -/
def World.invoked {T : Type} (w w1 : World T) : List (Event T) := w1.log.drop w.log.length

/-- The numbers of the case handlers that a select of `cases` ran in the world `w`
when the shuffle put the cases in the order `order`. -/
def select.case_handlers {T : Type} [Inhabited T] (cases : List case_option)
    (d : Option default_option) (order : List case_option) (w : World T) : List Nat :=
  match select.new cases d (fun _ => order) w with
  | Step.done _ w1 =>
    (w.invoked w1).filterMap fun e =>
      match e with
      | Event.case_handler f _ => some f
      | Event.default_handler _ => none
  | _ => []

end channel

namespace network

/-! ## Header decoders (`Include/noname/network`)

A `const uint8_t* data` is a buffer of bytes together with the offset `p` of
the pointer in it.  An access outside the buffer is undefined behaviour in
C++; the embedding returns `none` for it.  No decoder takes a length, tests
one, or throws. -/

/-- A byte. -/
abbrev uint8_t : Type := Fin 256

/-- Source: `enum class PacketType`. -/
inductive PacketType
  | Ethernet
  | ARP
  | RARP
  | IP
  | TCP
  | UDP
  | HTTP
  | UNKNOWN
deriving DecidableEq, Repr

/-- Source: `bswap16(value)`: `(uint16_t)(((value >> 8) & 0xff) | ((value & 0xff) << 8))`. -/
def bswap16 (value : Nat) : Nat :=
  (((value >>> 8) &&& 0xff) ||| ((value &&& 0xff) <<< 8)) % 65536

/-- Source: `struct mac_address`: `uint8_t address[LEN]`. -/
structure mac_address where
  address : List uint8_t
deriving DecidableEq, Repr

/-- Source: `mac_address::LEN`. -/
def mac_address.LEN : Nat := 6

/-- Source: `mac_address(const uint8_t* data)`: `address{ 0 }`, then
`for (int i = 0; i < LEN; ++i) address[i] = data[i];`. -/
def mac_address.new (data : List uint8_t) (p : Nat) : Option mac_address :=
  ((List.range mac_address.LEN).foldlM
    (fun (address : List uint8_t) (i : Nat) => (data[p + i]?).map fun b => List.set address i b)
    (List.replicate mac_address.LEN 0)).map mac_address.mk

/-- Source: `mac_address(const mac_address& m)`: the same loop over `m.address`. -/
def mac_address.copy (m : mac_address) : mac_address :=
  ⟨(List.range mac_address.LEN).foldl
    (fun (address : List uint8_t) (i : Nat) => List.set address i (m.address.getD i 0))
    (List.replicate mac_address.LEN 0)⟩

/-- What `ss << std::uppercase << std::hex << n` prints. -/
def hex_upper (n : Nat) : String := String.mk ((Nat.toDigits 16 n).map Char.toUpper)

/-- What `std::setfill(c) << std::setw(w)` does to the next field. -/
def setw_fill (w : Nat) (c : Char) (s : String) : String :=
  String.mk (List.replicate (w - s.length) c) ++ s

/-- Source: `mac_address::to_string(delimiter)`.  `std::setw(2)` holds for the first
field only: the stream resets the width after each output. -/
def mac_address.to_string (m : mac_address) (delimiter : Char) : String :=
  setw_fill 2 '0' (hex_upper (m.address.getD 0 0).val) ++ delimiter.toString
    ++ hex_upper (m.address.getD 1 0).val ++ delimiter.toString
    ++ hex_upper (m.address.getD 2 0).val ++ delimiter.toString
    ++ hex_upper (m.address.getD 3 0).val ++ delimiter.toString
    ++ hex_upper (m.address.getD 4 0).val ++ delimiter.toString
    ++ hex_upper (m.address.getD 5 0).val

/-- Source: `struct ethernet_header`. -/
structure ethernet_header where
  destination : mac_address
  source : mac_address
  ether_type : Nat
deriving DecidableEq, Repr

namespace ethernet_header

/-- Source: `ETHER_TYPE_IP = 0x0800`. -/
def ETHER_TYPE_IP : Nat := 0x0800

/-- Source: `ETHER_TYPE_ARP = 0x0806`. -/
def ETHER_TYPE_ARP : Nat := 0x0806

/-- Source: `ETHER_TYPE_RARP = 0x0835`. -/
def ETHER_TYPE_RARP : Nat := 0x0835

/-- Source: `ethernet_header(const uint8_t* data)`: `destination(data)`,
`source(data + mac_address::LEN)`, `ether_type(*(data + 2 * mac_address::LEN))`.
The last initialiser dereferences a `const uint8_t*`: it reads one byte. -/
def new (data : List uint8_t) (p : Nat) : Option ethernet_header := do
  let destination ← mac_address.new data p
  let source ← mac_address.new data (p + mac_address.LEN)
  let ether_type ← data[p + 2 * mac_address.LEN]?
  pure ⟨destination, source, ether_type.val⟩

/-- Source: `get_destination()`, which returns a copy. -/
def get_destination (e : ethernet_header) : mac_address := e.destination.copy

/-- Source: `get_source()`, which returns a copy. -/
def get_source (e : ethernet_header) : mac_address := e.source.copy

/-- Source: `get_ether_type()`. -/
def get_ether_type (e : ethernet_header) : Nat := e.ether_type

/-- Source: `ethernet_header::get_next_packet_type()`. -/
def get_next_packet_type (e : ethernet_header) : PacketType :=
  if e.ether_type = ETHER_TYPE_IP then PacketType.IP
  else if e.ether_type = ETHER_TYPE_ARP then PacketType.ARP
  else if e.ether_type = ETHER_TYPE_RARP then PacketType.RARP
  else PacketType.UNKNOWN

/-- The size of the packed members: two addresses of 6 bytes and a `uint16_t`;
the base `header<ethernet_header>` adds no member. -/
def sizeof : Nat := 14

end ethernet_header

/-- Source: `struct ip_address`: `uint8_t address[LEN]` with `LEN = 4`. -/
structure ip_address where
  address : List uint8_t
deriving DecidableEq, Repr

namespace ip_address

/-- Source: `ip_address::LEN`. -/
def LEN : Nat := 4

/-- The call `std::copy(first, first + n, d_first)` with the source range
`src[0 .. n)` and the destination range starting at `dst[p]`; it writes
`dst[p + i] = src[i]`. -/
def std_copy (src : List uint8_t) (n : Nat) (dst : List uint8_t) (p : Nat) :
    Option (List uint8_t) :=
  (List.range n).foldlM
    (fun (d : List uint8_t) (i : Nat) =>
      match src[i]? with
      | some b => if p + i < d.length then some (List.set d (p + i) b) else none
      | none => none)
    dst

/-- Source: `ip_address(const uint8_t* data) : address{ 0 }` with the body
`std::copy(address, address+3, data);`.  The source range of the copy is the
new, zeroed `address`, and the destination is `data`: the address stays
`0.0.0.0` and three zero bytes are written through `data`.  The result is the
address and the buffer after the call. -/
def new (data : List uint8_t) (p : Nat) : Option (ip_address × List uint8_t) :=
  let address : List uint8_t := List.replicate LEN 0
  (std_copy address 3 data p).map fun data1 => (⟨address⟩, data1)

/-- Source: `ip_address(const ip_address& i) : address{ 0 }` with the body
`std::copy(address, address+3, i.address);`: the new address stays `0.0.0.0`
and the first three bytes of `i.address` are overwritten with zeros.  The
result is the new address and `i` after the call. -/
def copy (i : ip_address) : ip_address × ip_address :=
  let address : List uint8_t := List.replicate LEN 0
  (⟨address⟩, ⟨(std_copy address 3 i.address 0).getD i.address⟩)

/-- Source: `ip_address::to_string()`: `address[3]`, `address[2]`, `address[1]`,
`address[0]` in decimal, separated by dots. -/
def to_string (a : ip_address) : String :=
  toString (a.address.getD 3 0).val ++ "."
    ++ toString (a.address.getD 2 0).val ++ "."
    ++ toString (a.address.getD 1 0).val ++ "."
    ++ toString (a.address.getD 0 0).val

end ip_address

/-- Source: `struct ip_header`. -/
structure ip_header where
  header_length_and_version : Nat
  ip_type_of_serivce : Nat
  ip_length : Nat
  ip_id : Nat
  ip_flag_offset : Nat
  ip_ttl : Nat
  ip_proto : Nat
  ip_check_sum : Nat
  src_ip_addr : ip_address
  des_ip_addr : ip_address
deriving DecidableEq, Repr

namespace ip_header

/-- Source: `IP_PROTO_TCP = 6`. -/
def IP_PROTO_TCP : Nat := 6

/-- Source: `IP_PROTO_UDP = 17`. -/
def IP_PROTO_UDP : Nat := 17

/-- Source: `ip_header(const uint8_t* data)`: every member is initialised from one
byte, `ip_length(data[2])`, `ip_id(data[4])`, `ip_flag_offset(data[6])`,
`ip_check_sum(data[10])` included; then `src_ip_addr(data + 12)` and
`des_ip_addr(data + 16)`.  The result is the header and the buffer after the
call. -/
def new (data : List uint8_t) (p : Nat) : Option (ip_header × List uint8_t) := do
  let header_length_and_version ← data[p + 0]?
  let ip_type_of_serivce ← data[p + 1]?
  let ip_length ← data[p + 2]?
  let ip_id ← data[p + 4]?
  let ip_flag_offset ← data[p + 6]?
  let ip_ttl ← data[p + 8]?
  let ip_proto ← data[p + 9]?
  let ip_check_sum ← data[p + 10]?
  let (src_ip_addr, data1) ← ip_address.new data (p + 12)
  let (des_ip_addr, data2) ← ip_address.new data1 (p + 16)
  pure (⟨header_length_and_version.val, ip_type_of_serivce.val, ip_length.val, ip_id.val,
    ip_flag_offset.val, ip_ttl.val, ip_proto.val, ip_check_sum.val, src_ip_addr,
    des_ip_addr⟩, data2)

/-- Source: `get_version()`: `header_length_and_version >> 4`, returned as `uint8_t`. -/
def get_version (i : ip_header) : Nat := (i.header_length_and_version >>> 4) % 256

/-- Source: `get_header_length()`: `header_length_and_version & 0x0F`. -/
def get_header_length (i : ip_header) : Nat := (i.header_length_and_version &&& 0x0F) % 256

/-- Source: `get_length()`: `bswap16(ip_length)`. -/
def get_length (i : ip_header) : Nat := bswap16 i.ip_length

/-- Source: `get_id()`: `bswap16(ip_id)`. -/
def get_id (i : ip_header) : Nat := bswap16 i.ip_id

/-- Source: `get_flag()`: `ip_flag_offset >> 13`, returned as `uint8_t`. -/
def get_flag (i : ip_header) : Nat := (i.ip_flag_offset >>> 13) % 256

/-- Source: `get_frag_offset()`: `ip_flag_offset & 0x1FFF`. -/
def get_frag_offset (i : ip_header) : Nat := (i.ip_flag_offset &&& 0x1FFF) % 65536

/-- Source: `get_ttl()`. -/
def get_ttl (i : ip_header) : Nat := i.ip_ttl

/-- Source: `get_proto()`. -/
def get_proto (i : ip_header) : Nat := i.ip_proto

/-- Source: `get_checksum()`: `bswap16(ip_check_sum)`. -/
def get_checksum (i : ip_header) : Nat := bswap16 i.ip_check_sum

/-- Source: `get_src_ip()`: returns a copy of `src_ip_addr`, made by the copy
constructor of `ip_address`.  The result is the copy and the header after
the call. -/
def get_src_ip (i : ip_header) : ip_address × ip_header :=
  ((ip_address.copy i.src_ip_addr).1, { i with src_ip_addr := (ip_address.copy i.src_ip_addr).2 })

/-- Source: `get_des_ip()`: returns a copy of `des_ip_addr`. -/
def get_des_ip (i : ip_header) : ip_address × ip_header :=
  ((ip_address.copy i.des_ip_addr).1, { i with des_ip_addr := (ip_address.copy i.des_ip_addr).2 })

/-- Source: `ip_header::get_next_packet_type()`. -/
def get_next_packet_type (i : ip_header) : PacketType :=
  if i.ip_proto = IP_PROTO_TCP then PacketType.TCP
  else if i.ip_proto = IP_PROTO_UDP then PacketType.UDP
  else PacketType.UNKNOWN

/-- The size of the packed members, 20 bytes; the base `header<ip_header>` adds no
member. -/
def sizeof : Nat := 20

end ip_header

/-- Source: `struct tcp_header`. -/
structure tcp_header where
  src_port : Nat
  des_port : Nat
  seq_num : Nat
  ack_num : Nat
  header_len_flags : Nat
  window_size : Nat
  check_sum : Nat
  urgent_ptr : Nat
deriving DecidableEq, Repr

namespace tcp_header

/-- Source: `tcp_header(const uint8_t* data)`: every member is initialised from one
byte: `src_port(data[0])`, `des_port(data[2])`, `seq_num(data[4])`,
`ack_num(data[8])`, `header_len_flags(data[12])`, `window_size(data[14])`,
`check_sum(data[16])`, `urgent_ptr(data[18])`. -/
def new (data : List uint8_t) (p : Nat) : Option tcp_header := do
  let src_port ← data[p + 0]?
  let des_port ← data[p + 2]?
  let seq_num ← data[p + 4]?
  let ack_num ← data[p + 8]?
  let header_len_flags ← data[p + 12]?
  let window_size ← data[p + 14]?
  let check_sum ← data[p + 16]?
  let urgent_ptr ← data[p + 18]?
  pure ⟨src_port.val, des_port.val, seq_num.val, ack_num.val, header_len_flags.val,
    window_size.val, check_sum.val, urgent_ptr.val⟩

/-- Source: `get_src_port()`. -/
def get_src_port (t : tcp_header) : Nat := t.src_port

/-- Source: `get_des_port()`. -/
def get_des_port (t : tcp_header) : Nat := t.des_port

/-- Source: `get_seq_num()`. -/
def get_seq_num (t : tcp_header) : Nat := t.seq_num

/-- Source: `get_ack_num()`. -/
def get_ack_num (t : tcp_header) : Nat := t.ack_num

/-- Source: `get_header_length()`: `header_len_flags >> 12`, returned as `uint8_t`. -/
def get_header_length (t : tcp_header) : Nat := (t.header_len_flags >>> 12) % 256

/-- Source: `get_reserved()`: `(header_len_flags >> 6) & 0x3F`. -/
def get_reserved (t : tcp_header) : Nat := ((t.header_len_flags >>> 6) &&& 0x3F) % 256

/-- Source: `get_flags()`: `header_len_flags & 0x3F`. -/
def get_flags (t : tcp_header) : Nat := (t.header_len_flags &&& 0x3F) % 256

/-- Source: `get_window_size()`. -/
def get_window_size (t : tcp_header) : Nat := t.window_size

/-- Source: `get_check_sum()`. -/
def get_check_sum (t : tcp_header) : Nat := t.check_sum

/-- Source: `get_urgent_prt()`. -/
def get_urgent_prt (t : tcp_header) : Nat := t.urgent_ptr

end tcp_header

/-- The buffer after `ip_header(data + p)`: the writes of the two address
constructors. -/
def ip_header.buffer_after (data : List uint8_t) (p : Nat) : List uint8_t :=
  List.set (List.set (List.set (List.set (List.set (List.set data (p + 12) 0) (p + 12 + 1) 0)
    (p + 12 + 2) 0) (p + 16) 0) (p + 16 + 1) 0) (p + 16 + 2) 0

/-! ## Header decoders: example buffers -/

/-- An Ethernet frame header: destination `AA:BB:CC:DD:EE:FF`, source
`11:22:33:44:55:66`, type bytes `08 00`. -/
def example_frame : List uint8_t :=
  [0xAA, 0xBB, 0xCC, 0xDD, 0xEE, 0xFF, 0x11, 0x22, 0x33, 0x44, 0x55, 0x66, 0x08, 0x00]

/-- An IPv4 header: version 4, header length 5, total length `0x0028`, id
`0x1234`, flags and offset `0x4000`, TTL 64, protocol 6, checksum `0xABCD`,
source `192.168.0.1`, destination `192.168.0.2`. -/
def example_ip : List uint8_t :=
  [0x45, 0x00, 0x00, 0x28, 0x12, 0x34, 0x40, 0x00, 0x40, 0x06, 0xAB, 0xCD,
    192, 168, 0, 1, 192, 168, 0, 2]

/-- A TCP header: source port `0x1F90`, destination port `0x01BB`, sequence number
`0x01020304`, acknowledgement number `0x05060708`, data offset 5, flags
`0x12`, window `0x7210`, checksum `0xBEEF`, urgent pointer `0x0001`. -/
def example_tcp : List uint8_t :=
  [0x1F, 0x90, 0x01, 0xBB, 0x01, 0x02, 0x03, 0x04, 0x05, 0x06, 0x07, 0x08,
    0x50, 0x12, 0x72, 0x10, 0xBE, 0xEF, 0x00, 0x01]

end network

namespace pcap_stats

/-! ## The worker of the demonstration (`src/pcap_stats.cpp`) -/

/-- Source: `struct packet_and_bytes`. -/
structure packet_and_bytes where
  packet : Int
  bytes : Int
deriving DecidableEq, Repr

/-- Source: `struct send_data`. -/
structure send_data where
  tx : packet_and_bytes
  rx : packet_and_bytes
deriving DecidableEq, Repr

/-- Source: `send_data{}`: every counter is zero. -/
instance : Inhabited send_data := ⟨⟨⟨0, 0⟩, ⟨0, 0⟩⟩⟩

/-- The member of `struct pcap_pkthdr` that the worker reads. -/
structure pcap_pkthdr where
  caplen : Nat
deriving DecidableEq, Repr

/-- Source: `struct Packet`: two pointers, `none` for `nullptr`; `data` points to the
bytes of the frame. -/
structure Packet where
  header : Option pcap_pkthdr
  data : Option (List network.uint8_t)
deriving DecidableEq, Repr

/-- Source: `Packet{}`: both pointers are null. -/
instance : Inhabited Packet := ⟨⟨none, none⟩⟩

/-- Source: `std::map<std::pair<std::string, std::string>, send_data>`, kept as the list
of its entries, one per key.  The worker never iterates over the map, so the
order of the entries is not observed. -/
abbrev stat_map : Type := List ((String × String) × send_data)

/-- Source: `ret.count(key)`. -/
def stat_map.count (ret : stat_map) (key : String × String) : Nat :=
  if (ret.lookup key).isSome then 1 else 0

/-- Source: `ret[key]` followed by a write through the reference: `operator[]` inserts a
value-initialised `send_data` when the key is missing, and `f` is the write. -/
def stat_map.update (ret : stat_map) (key : String × String) (f : send_data → send_data) :
    stat_map :=
  if (ret.lookup key).isSome then
    ret.map fun e => if e.1 = key then (e.1, f e.2) else e
  else ret ++ [(key, f default)]

/-- Source: `setup_map(ret, src, des, bytes)`. -/
def setup_map (ret : stat_map) (src des : String) (bytes : Int) : stat_map :=
  let key := (src, des)
  let reverse_key := (des, src)
  if ret.count key > 0 then
    let ret1 := ret.update key fun v => { v with tx := { v.tx with bytes := v.tx.bytes + bytes } }
    ret1.update key fun v => { v with tx := { v.tx with packet := v.tx.packet + 1 } }
  else if ret.count reverse_key > 0 then
    let ret1 := ret.update reverse_key fun v =>
      { v with rx := { v.rx with bytes := v.rx.bytes + bytes } }
    ret1.update reverse_key fun v => { v with rx := { v.rx with packet := v.rx.packet + 1 } }
  else
    let ret1 := ret.update key fun _ => default
    let ret2 := ret1.update key fun v =>
      { v with tx := { v.tx with bytes := v.tx.bytes + bytes } }
    ret2.update key fun v => { v with tx := { v.tx with packet := v.tx.packet + 1 } }

/-- The map type of the three shared tables. -/
abbrev shared_map : Type :=
  concurrent.concurrent_unordered_map (String × String) send_data

/-- What `get_stats` works on: the three shared maps and the channel it was
given by reference, and its local tables `mac_stat`, `ip_stat`, `port_stat`. -/
structure Worker where
  ret_mac : shared_map
  ret_ip : shared_map
  ret_port : shared_map
  input_chan : channel.channel_buffer Packet 10
  mac_stat : stat_map
  ip_stat : stat_map
  port_stat : stat_map
deriving DecidableEq, Repr

/-- How a call of `get_stats` ends: it returns `code`; it waits for ever on an
open, empty channel; a ring operation throws; it dereferences a null pointer
or reads outside a frame (undefined behaviour); or the fuel of the embedding
is used up. -/
inductive Ending
  | returned (code : Int) (s : Worker)
  | waiting (s : Worker)
  | thrown (what : String) (s : Worker)
  | undefined
  | fuel
deriving DecidableEq, Repr

/-- The `while (1)` loop of `get_stats`.  The captured length `caplen` is passed as
the `int bytes`. -/
def get_stats_loop : Nat → Worker → Ending
  | 0, _ => Ending.fuel
  | fuel + 1, s =>
    match channel.ochannel.receive s.input_chan with
    | channel.Step.wait c => Ending.waiting { s with input_chan := c }
    | channel.Step.thrown what c => Ending.thrown what { s with input_chan := c }
    | channel.Step.done packet c =>
      let s0 : Worker := { s with input_chan := c }
      if packet.data.isNone && packet.header.isNone then Ending.returned 0 s0
      else
        match packet.data, packet.header with
        | some data, some header =>
          match network.ethernet_header.new data 0 with
          | none => Ending.undefined
          | some ether =>
            let s1 : Worker := { s0 with mac_stat :=
              (setup_map s0.mac_stat (ether.get_source.to_string ':')
                (ether.get_destination.to_string ':') header.caplen) }
            if ether.get_next_packet_type ≠ network.PacketType.IP then get_stats_loop fuel s1
            else
              match network.ip_header.new data network.ethernet_header.sizeof with
              | none => Ending.undefined
              | some (ip, data1) =>
                let src := ip.get_src_ip
                let des := src.2.get_des_ip
                let s2 : Worker := { s1 with ip_stat :=
                  (setup_map s1.ip_stat src.1.to_string des.1.to_string header.caplen) }
                if des.2.get_next_packet_type ≠ network.PacketType.TCP then
                  get_stats_loop fuel s2
                else
                  match network.tcp_header.new data1
                      (network.ethernet_header.sizeof + network.ip_header.sizeof) with
                  | none => Ending.undefined
                  | some port =>
                    get_stats_loop fuel { s2 with port_stat :=
                      (setup_map s2.port_stat (toString (network.bswap16 port.get_src_port))
                        (toString (network.bswap16 port.get_des_port)) header.caplen) }
        | _, _ => Ending.undefined

/-- Source: `get_stats(ret_mac, ret_ip, ret_port, input_chan)`, with the fuel of its loop.
The three local tables start empty. -/
def get_stats (fuel : Nat) (ret_mac ret_ip ret_port : shared_map)
    (input_chan : channel.channel_buffer Packet 10) : Ending :=
  get_stats_loop fuel ⟨ret_mac, ret_ip, ret_port, input_chan, [], [], []⟩

/-- The three shared maps in the state in which a call ended are `a`, `b` and `c`. -/
def Ending.keeps (e : Ending) (a b c : shared_map) : Prop :=
  match e with
  | Ending.returned _ s => s.ret_mac = a ∧ s.ret_ip = b ∧ s.ret_port = c
  | Ending.waiting s => s.ret_mac = a ∧ s.ret_ip = b ∧ s.ret_port = c
  | Ending.thrown _ s => s.ret_mac = a ∧ s.ret_ip = b ∧ s.ret_port = c
  | Ending.undefined => True
  | Ending.fuel => True

/-- A packet with both pointers set whose frame holds the 13 bytes that the
Ethernet decoder reads. -/
def Packet.decodable (p : Packet) : Prop :=
  ∃ header data, p = ⟨some header, some data⟩ ∧ 13 ≤ data.length

/-! ## The worker: example input -/

/-- A frame from `A` (MAC `0A:00:00:00:00:01`, address `10.0.0.1`, port `0x1F90`) to `B`
(MAC `0B:00:00:00:00:02`, address `10.0.0.2`, port `0x01BB`): Ethernet type
`08 00`, IPv4 protocol 6, TCP. -/
def example_a_to_b : List network.uint8_t :=
  [0x0B, 0, 0, 0, 0, 2, 0x0A, 0, 0, 0, 0, 1, 0x08, 0x00,
    0x45, 0, 0, 40, 0, 1, 0x40, 0, 64, 6, 0, 0, 10, 0, 0, 1, 10, 0, 0, 2,
    0x1F, 0x90, 0x01, 0xBB, 0, 0, 0, 1, 0, 0, 0, 0, 0x50, 0x10, 0x72, 0x10, 0, 0, 0, 0]

/-- The frame in the other direction, from `B` to `A`. -/
def example_b_to_a : List network.uint8_t :=
  [0x0A, 0, 0, 0, 0, 1, 0x0B, 0, 0, 0, 0, 2, 0x08, 0x00,
    0x45, 0, 0, 40, 0, 2, 0x40, 0, 64, 6, 0, 0, 10, 0, 0, 2, 10, 0, 0, 1,
    0x01, 0xBB, 0x1F, 0x90, 0, 0, 0, 1, 0, 0, 0, 1, 0x50, 0x10, 0x72, 0x10, 0, 0, 0, 0]

/-- The channel after the producer sent `A->B`, `A->B`, `B->A`, each of captured
length 54, and closed it. -/
def example_input : channel.channel_buffer Packet 10 :=
  ⟨⟨[⟨some ⟨54⟩, some example_a_to_b⟩, ⟨some ⟨54⟩, some example_a_to_b⟩,
      ⟨some ⟨54⟩, some example_b_to_a⟩, default, default, default, default, default,
      default, default], 0, 3, 3⟩, true⟩

/-- An empty shared map: `concurrent_unordered_map(0, 0.75f, 4)`. -/
def example_shared : shared_map :=
  { maxload_factor := concurrent.DEFAULT_MAX_LOAD_FACTOR
    num_submaps := 1
    submaps := [some (concurrent.Submap.new 11 concurrent.DEFAULT_MAX_LOAD_FACTOR),
      none, none, none]
    num_entries := 0
    expanding := false }

end pcap_stats

namespace concurrent

/-! ## Concurrent inserts: the atomic steps of `insert`

Several threads run `insert` on one map.  Between two atomic steps of a
thread any other thread may run; a schedule says which thread takes the next
step. -/

/-- The point at which a thread stands in `insert_helper`, with `Submap::insert`
inlined: the next atomic step it will take. -/
inductive Pc
  | start
  | load
  | cas
  | write_key
  | write_value
  | store_valid
  | count_bucket
  | count_entry
  | reload
  | compare
  | advance
  | expand
  | returned (it : const_iterator) (inserted : Bool)
  | failed
deriving DecidableEq, Repr

/-- The arguments and the local variables of one call of `insert_helper` and of
the `Submap::insert` it calls. -/
structure Thread (K V : Type) where
  key : K
  hash1 : Nat
  hash2 : Nat
  ivalue : V
  pc : Pc
  lastSubmapIndex : Nat
  startIndex : Nat
  probeIncrement : Nat
  index : Nat
  bucket_state : Bucket.State
  value : V
  valueComputed : Bool
deriving DecidableEq, Repr

namespace concurrent_unordered_map

variable {K V : Type} [DecidableEq K] [Inhabited K] [Inhabited V]

/-- A write to the bucket `index` of the submap `submapIndex`. -/
def update_bucket (m : concurrent_unordered_map K V) (submapIndex index : Nat)
    (f : Bucket K V → Bucket K V) : concurrent_unordered_map K V :=
  let sm := m.get_submap submapIndex
  { m with submaps := (List.set m.submaps submapIndex
      (some { sm with buckets := List.set sm.buckets index (f (sm.get_bucket index)) })) }

end concurrent_unordered_map

namespace Thread

variable {K V : Type} [DecidableEq K] [Inhabited K] [Inhabited V]

/-- A thread that calls `insert(key, ivalue)`. -/
def new (h : Hashers K) (key : K) (ivalue : V) : Thread K V :=
  { key := key
    hash1 := h.keyHash1 key
    hash2 := h.keyHash2 key
    ivalue := ivalue
    pc := Pc.start
    lastSubmapIndex := 0
    startIndex := 0
    probeIncrement := 0
    index := 0
    bucket_state := Bucket.State.EMPTY
    value := default
    valueComputed := false }

/-- The test `bucket_state == VALID || bucket.state.load(...) == VALID` of `Submap::insert`:
with `bucket_state` VALID the second load is not made. -/
def valid_test (t : Thread K V) : Thread K V :=
  if t.bucket_state = Bucket.State.VALID then { t with pc := Pc.compare }
  else { t with pc := Pc.reload }

/-- One atomic step of a thread on the shared map.
* `start`: the top of `while (1)` in `insert_helper`: the last submap index is read,
  the older submaps are searched, the load of the last submap is tested, and
  `Submap::insert` begins;
* `load`: `bucket_state = bucket.state.load(...)`;
* `cas`: `bucket.state.compare_exchange_strong(bucket_state, BUSY)`, which on failure
  stores the state it found in `bucket_state`;
* `write_key`, `write_value`: the two writes of the entry;
* `store_valid`: `bucket.state.store(VALID)`;
* `count_bucket`, `count_entry`: the two counters;
* `reload`: the second load of the VALID test;
* `compare`: `key_equal(bucket.entry.first, key)`;
* `advance`: `index = (index + probeIncrement) % get_capacity()` and the loop test; when
  the probe is back at its start `FullSubmapException` is thrown and caught;
* `expand`: `expand(); continue;`. -/
def step (m : concurrent_unordered_map K V) (t : Thread K V) :
    concurrent_unordered_map K V × Thread K V :=
  match t.pc with
  | Pc.start =>
    let lastSubmapIndex := m.get_last_submap_index
    let findIterator := m.find_helper t.key t.hash1 t.hash2 (lastSubmapIndex - 1)
    if lastSubmapIndex > 0 ∧ findIterator.ne m.end_ = true then
      (m, { t with lastSubmapIndex := lastSubmapIndex, pc := Pc.returned findIterator false })
    else
      let lastSubmap := m.get_submap lastSubmapIndex
      if lastSubmap.is_overloaded then
        (m, { t with lastSubmapIndex := lastSubmapIndex, pc := Pc.expand })
      else
        (m, { t with
          lastSubmapIndex := lastSubmapIndex
          value := default
          valueComputed := false
          startIndex := t.hash1 % lastSubmap.get_capacity
          probeIncrement := lastSubmap.calculate_probe_increment t.hash2
          index := t.hash1 % lastSubmap.get_capacity
          pc := Pc.load })
  | Pc.load =>
    let bucket_state := ((m.get_submap t.lastSubmapIndex).get_bucket t.index).state
    if bucket_state = Bucket.State.EMPTY then
      (m, { t with
        bucket_state := bucket_state
        value := (if t.valueComputed then t.value else t.ivalue)
        valueComputed := true
        pc := Pc.cas })
    else (m, valid_test { t with bucket_state := bucket_state })
  | Pc.cas =>
    let found := ((m.get_submap t.lastSubmapIndex).get_bucket t.index).state
    if found = t.bucket_state then
      (m.update_bucket t.lastSubmapIndex t.index fun b => { b with state := Bucket.State.BUSY },
        { t with pc := Pc.write_key })
    else (m, valid_test { t with bucket_state := found })
  | Pc.write_key =>
    (m.update_bucket t.lastSubmapIndex t.index fun b => { b with entry := (t.key, b.entry.2) },
      { t with pc := Pc.write_value })
  | Pc.write_value =>
    (m.update_bucket t.lastSubmapIndex t.index fun b => { b with entry := (b.entry.1, t.value) },
      { t with pc := Pc.store_valid })
  | Pc.store_valid =>
    (m.update_bucket t.lastSubmapIndex t.index fun b => { b with state := Bucket.State.VALID },
      { t with pc := Pc.count_bucket })
  | Pc.count_bucket =>
    ({ m with submaps := (List.set m.submaps t.lastSubmapIndex
        (some (m.get_submap t.lastSubmapIndex).increment_num_valid_buckets)) },
      { t with pc := Pc.count_entry })
  | Pc.count_entry =>
    (m.incrementnum_entries,
      { t with pc := Pc.returned ⟨t.lastSubmapIndex, t.index, false⟩ true })
  | Pc.reload =>
    if ((m.get_submap t.lastSubmapIndex).get_bucket t.index).state = Bucket.State.VALID then
      (m, { t with pc := Pc.compare })
    else (m, { t with pc := Pc.advance })
  | Pc.compare =>
    if ((m.get_submap t.lastSubmapIndex).get_bucket t.index).entry.1 = t.key then
      (m, { t with pc := Pc.returned ⟨t.lastSubmapIndex, t.index, false⟩ false })
    else (m, { t with pc := Pc.advance })
  | Pc.advance =>
    let index := (t.index + t.probeIncrement) % (m.get_submap t.lastSubmapIndex).get_capacity
    if index ≠ t.startIndex then (m, { t with index := index, pc := Pc.load })
    else (m, { t with index := index, pc := Pc.expand })
  | Pc.expand =>
    match m.expand with
    | Outcome.ret _ m1 => (m1, { t with pc := Pc.start })
    | Outcome.runtime_error m1 => (m1, { t with pc := Pc.failed })
    | Outcome.spin => (m, t)
    | Outcome.fuel => (m, t)
  | Pc.returned _ _ => (m, t)
  | Pc.failed => (m, t)

end Thread

/-- The threads take steps in the order of the schedule, a list of thread
numbers. -/
def run_schedule {K V : Type} [DecidableEq K] [Inhabited K] [Inhabited V] :
    List Nat → concurrent_unordered_map K V × List (Thread K V) →
      concurrent_unordered_map K V × List (Thread K V)
  | [], s => s
  | i :: schedule, (m, threads) =>
    match threads[i]? with
    | some t =>
      let r := t.step m
      run_schedule schedule (r.1, List.set threads i r.2)
    | none => run_schedule schedule (m, threads)

/-- Two threads that insert the key 5, with the values 100 and 200. -/
def example_threads : List (Thread Nat Nat) :=
  [Thread.new example_hashers 5 100, Thread.new example_hashers 5 200]

/-- Thread 0 runs up to its compare-and-swap on bucket 5, thread 1 runs its
whole call, then thread 0 finishes. -/
def example_race : List Nat :=
  [0, 0, 0, 1, 1, 1, 1, 1, 1, 1, 1, 1, 1, 1, 0, 0, 0, 0, 0]

/-- Thread 0 runs its whole call, then thread 1 runs its whole call. -/
def example_serial : List Nat :=
  [0, 0, 0, 0, 0, 0, 0, 0, 1, 1, 1]

end concurrent

namespace pcap_stats

/-! ## The table of `setup_map` over a sequence of records -/

/-- The calls `setup_map(ret, src, des, bytes)` for the records `(src, des, bytes)` of the
list, in order, on a table that starts empty. -/
def run_setup (records : List (String × String × Int)) : stat_map :=
  records.foldl (fun ret r => setup_map ret r.1 r.2.1 r.2.2) []

/-- The byte counts of the records with source `a` and destination `b`, in order. -/
def direction (records : List (String × String × Int)) (a b : String) : List Int :=
  (records.filter fun r => decide (r.1 = a ∧ r.2.1 = b)).map fun r => r.2.2

/-- The direction `(src, des)` of the first record between the peers `a` and `b`, in
either direction; `none` when there is no such record. -/
def first_direction (records : List (String × String × Int)) (a b : String) :
    Option (String × String) :=
  (records.find? fun r => decide ((r.1 = a ∧ r.2.1 = b) ∨ (r.1 = b ∧ r.2.1 = a))).map
    fun r => (r.1, r.2.1)

/-- The row that the records call for under the key `(a, b)`: as tx the number and
the byte total of the records from `a` to `b`, as rx those of the records from
`b` to `a`, the other direction (none when `a` is `b`). -/
def tally (records : List (String × String × Int)) (a b : String) : send_data :=
  ⟨⟨(direction records a b).length, (direction records a b).sum⟩,
    ⟨if a = b then 0 else (direction records b a).length,
      if a = b then 0 else (direction records b a).sum⟩⟩

/-- The sum, over the rows of the table, of the tx and rx packet counts. -/
def stat_map.packets (ret : stat_map) : Int :=
  (ret.map fun e => e.2.tx.packet + e.2.rx.packet).sum

end pcap_stats

namespace concurrent

/-! ## `is_prime` and `next_prime`: lemmas -/

theorem is_prime_loop_spec (n : Nat) (hn3 : 3 ≤ n) (hodd : n % 2 = 1) :
    ∀ (fuel div : Nat), n < div + fuel → 3 ≤ div → div % 2 = 1 →
      (∀ d, 2 ≤ d → d < div → ¬ d ∣ n) →
      is_prime_loop n (fuel + 1) div = some (decide (Nat.Prime n)) := by
  intro fuel
  induction fuel with
  | zero =>
    intro div hlt h3 _ hnd
    have hgt : ¬ div * div ≤ n := by nlinarith
    simp only [is_prime_loop, hgt, if_false, Option.some.injEq]
    symm
    rw [decide_eq_true_iff, Nat.prime_def_le_sqrt]
    refine ⟨by omega, fun m hm hms => hnd m hm ?_⟩
    have := Nat.sqrt_le_self n
    omega
  | succ fuel ih =>
    intro div hlt h3 hdodd hnd
    rw [is_prime_loop]
    by_cases hsq : div * div ≤ n
    · simp only [hsq, if_true]
      by_cases hdiv : n % div = 0
      · simp only [hdiv, if_true, Option.some.injEq]
        symm
        rw [decide_eq_false_iff_not]
        intro hp
        have hd : div ∣ n := Nat.dvd_of_mod_eq_zero hdiv
        rcases (Nat.dvd_prime hp).mp hd with h1 | h1
        · omega
        · subst h1
          nlinarith
      · simp only [hdiv, if_false]
        apply ih (div + 2) (by omega) (by omega) (by omega)
        intro d hd2 hdlt hdn
        rcases Nat.lt_or_ge d div with h | h
        · exact hnd d hd2 h hdn
        · rcases Nat.eq_or_lt_of_le h with h | h
          · subst h
            exact hdiv (Nat.mod_eq_zero_of_dvd hdn)
          · have hd1 : d = div + 1 := by omega
            have h2 : 2 ∣ d := Nat.dvd_of_mod_eq_zero (by omega)
            have h2n : 2 ∣ n := Nat.dvd_trans h2 hdn
            omega
    · simp only [hsq, if_false, Option.some.injEq]
      symm
      rw [decide_eq_true_iff, Nat.prime_def_le_sqrt]
      refine ⟨by omega, fun m hm hms => hnd m hm ?_⟩
      have hmm : m * m ≤ n := Nat.le_sqrt.mp hms
      by_contra hge
      have : div ≤ m := by omega
      have : div * div ≤ m * m := Nat.mul_le_mul this this
      omega

/-- The fuel `n` is enough for the loop of `is_prime(n)`, and the result says
whether `n` is prime. -/
theorem is_prime_fuel_spec (n : Nat) : is_prime_fuel n n = some (decide (Nat.Prime n)) := by
  unfold is_prime_fuel
  by_cases h2 : n < 2
  · simp only [h2, if_true, Option.some.injEq]
    symm
    rw [decide_eq_false_iff_not]
    intro hp
    have := hp.two_le
    omega
  · simp only [h2, if_false]
    by_cases he : n = 2
    · subst he
      simp [Nat.prime_two]
    · simp only [he, if_false]
      by_cases hev : n % 2 = 0
      · simp only [hev, if_true, Option.some.injEq]
        symm
        rw [decide_eq_false_iff_not]
        intro hp
        rcases (Nat.dvd_prime hp).mp (Nat.dvd_of_mod_eq_zero hev) with h | h <;> omega
      · simp only [hev, if_false]
        obtain ⟨f, hf⟩ : ∃ f, n = f + 1 := ⟨n - 1, by omega⟩
        have := is_prime_loop_spec n (by omega) (by omega) f 3 (by omega) (by omega) (by omega)
          (by
            intro d hd2 hd3 hdn
            have : d = 2 := by omega
            subst this
            have := Nat.mod_eq_zero_of_dvd hdn
            omega)
        rw [hf] at this ⊢
        exact this

theorem is_prime_eq (n : Nat) : is_prime n = decide (Nat.Prime n) := by
  simp [is_prime, is_prime_fuel_spec]

theorem is_prime_iff (n : Nat) : is_prime n = true ↔ Nat.Prime n := by
  simp [is_prime_eq]

theorem next_prime_loop_spec :
    ∀ (fuel n : Nat), 3 ≤ n → n % 2 = 1 →
      (∃ p, Nat.Prime p ∧ n ≤ p ∧ p < n + 2 * fuel) →
      ∃ q, next_prime_loop fuel n = some q ∧ Nat.Prime q ∧ n ≤ q ∧
        ∀ p, Nat.Prime p → n ≤ p → q ≤ p := by
  intro fuel
  induction fuel with
  | zero =>
    intro n _ _ hp
    obtain ⟨p, _, h1, h2⟩ := hp
    omega
  | succ fuel ih =>
    intro n h3 hodd hp
    rw [next_prime_loop]
    by_cases hn : is_prime n = true
    · simp only [hn, if_true]
      exact ⟨n, rfl, (is_prime_iff n).mp hn, le_refl _, fun p _ h => h⟩
    · simp only [hn]
      have hnp : ¬ Nat.Prime n := fun h => hn ((is_prime_iff n).mpr h)
      have hstep : ∀ p, Nat.Prime p → n ≤ p → n + 2 ≤ p := by
        intro p hp hle
        have hne : p ≠ n := fun h => hnp (h ▸ hp)
        have hpodd : p % 2 = 1 := by
          rcases hp.eq_two_or_odd with h | h
          · omega
          · exact h
        omega
      obtain ⟨p, hp1, hp2, hp3⟩ := hp
      obtain ⟨q, hq1, hq2, hq3, hq4⟩ := ih (n + 2) (by omega) (by omega)
        ⟨p, hp1, hstep p hp1 hp2, by omega⟩
      exact ⟨q, by simpa using hq1, hq2, by omega, fun p' hp' hle => hq4 p' hp' (hstep p' hp' hle)⟩

/-- The fuel `n + 1` is enough for the loop of `next_prime(n)`; the result is
the least prime that is at least `n`. -/
theorem next_prime_fuel_spec (n : Nat) :
    next_prime_fuel (n + 1) n = some (next_prime n) ∧ Nat.Prime (next_prime n) ∧
      n ≤ next_prime n ∧ ∀ p, Nat.Prime p → n ≤ p → next_prime n ≤ p := by
  by_cases h2 : n ≤ 2
  · have h : next_prime n = 2 := by simp [next_prime, next_prime_fuel, h2]
    rw [h]
    refine ⟨by simp [next_prime_fuel, h2], Nat.prime_two, h2, fun p hp _ => hp.two_le⟩
  · obtain ⟨p, hp1, hp2, hp3⟩ := Nat.exists_prime_lt_and_le_two_mul n (by omega)
    have hpodd : p % 2 = 1 := by
      rcases hp1.eq_two_or_odd with h | h
      · omega
      · exact h
    have key : ∃ q, next_prime_fuel (n + 1) n = some q ∧ Nat.Prime q ∧ n ≤ q ∧
        ∀ p, Nat.Prime p → n ≤ p → q ≤ p := by
      unfold next_prime_fuel
      simp only [h2, if_false]
      by_cases hev : n % 2 = 0
      · simp only [hev, if_true]
        obtain ⟨q, hq1, hq2, hq3, hq4⟩ := next_prime_loop_spec (n + 1) (n + 1) (by omega)
          (by omega) ⟨p, hp1, by omega, by omega⟩
        refine ⟨q, hq1, hq2, by omega, fun p' hp' hle => hq4 p' hp' ?_⟩
        have : p' ≠ n := by
          intro h
          subst h
          rcases hp'.eq_two_or_odd with h | h <;> omega
        omega
      · simp only [hev, if_false]
        exact next_prime_loop_spec (n + 1) n (by omega) (by omega) ⟨p, hp1, by omega, by omega⟩
    obtain ⟨q, hq1, hq2, hq3, hq4⟩ := key
    have h : next_prime n = q := by simp [next_prime, hq1]
    rw [h]
    exact ⟨hq1, hq2, hq3, hq4⟩

theorem next_prime_prime (n : Nat) : Nat.Prime (next_prime n) := (next_prime_fuel_spec n).2.1

theorem le_next_prime (n : Nat) : n ≤ next_prime n := (next_prime_fuel_spec n).2.2.1

end concurrent

namespace concurrent

namespace Flt

/-! ## Floats: lemmas -/

theorem bits_fuel_spec : ∀ fuel n, n ≤ fuel → n ≠ 0 → 2 ^ (bits_fuel fuel n - 1) ≤ n := by
  intro fuel
  induction fuel with
  | zero =>
    intro n hn h0
    omega
  | succ fuel ih =>
    intro n hn h0
    simp only [bits_fuel, h0, if_false, Nat.add_sub_cancel]
    by_cases h2 : n / 2 = 0
    · cases fuel with
      | zero => simp only [bits_fuel, pow_zero]; omega
      | succ fuel1 => simp only [bits_fuel, h2, if_true, pow_zero]; omega
    · have hle : n / 2 ≤ fuel := by omega
      have h1 := ih (n / 2) hle h2
      have hpos : 1 ≤ bits_fuel fuel (n / 2) := by
        cases fuel with
        | zero => omega
        | succ fuel1 => simp only [bits_fuel, h2, if_false]; omega
      have hpow : 2 ^ bits_fuel fuel (n / 2) = 2 * 2 ^ (bits_fuel fuel (n / 2) - 1) := by
        rw [← pow_succ']
        congr 1
        omega
      rw [hpow]
      omega

/-- The leading binary digit of `n`. -/
theorem two_pow_bits_le (n : Nat) (h0 : n ≠ 0) : 2 ^ (bits n - 1) ≤ n :=
  bits_fuel_spec n n (le_refl n) h0

theorem bits_pos (n : Nat) (h0 : n ≠ 0) : 1 ≤ bits n := by
  unfold bits
  cases n with
  | zero => exact absurd rfl h0
  | succ k => simp only [bits_fuel, if_false, Nat.succ_ne_zero]; omega

theorem le_round_half_even (num den : Nat) : num / den ≤ round_half_even num den := by
  unfold round_half_even
  simp only
  split_ifs <;> omega

/-- The conversion of a positive size is a positive finite float. -/
theorem ofNat_pos (n : Nat) (h0 : n ≠ 0) : ∃ m e, ofNat n = fin false m e ∧ m ≠ 0 := by
  refine ⟨(round_core n 1 0).1, (round_core n 1 0).2, by simp [ofNat, h0], ?_⟩
  have hb := two_pow_bits_le n h0
  have hp := bits_pos n h0
  have hb1 : bits 1 = 1 := by rfl
  obtain ⟨d, hd⟩ : ∃ d : Nat, bits n = d + 1 := ⟨bits n - 1, by omega⟩
  have hdn : 2 ^ d ≤ n := by
    have : bits n - 1 = d := by omega
    rw [this] at hb
    exact hb
  have hcast : ((bits n : Nat) : Int) - ((bits 1 : Nat) : Int) = (d : Int) := by
    rw [hb1, hd]
    push_cast
    ring
  have hcond : 1 * 2 ^ ((d : Int)).toNat ≤ n * 2 ^ (-(d : Int)).toNat := by
    have h2 : (-(d : Int)).toNat = 0 := by omega
    rw [h2, Int.toNat_ofNat]
    simpa using hdn
  have hmax : max ((d : Int) + 0 - 23) (-149) = (d : Int) - 23 := by
    rw [max_eq_left (by omega)]
    ring
  have hq : 1 ≤ n * 2 ^ ((0 : Int) - ((d : Int) - 23)).toNat /
      (1 * 2 ^ (((d : Int) - 23) - 0).toNat) := by
    apply (Nat.one_le_div_iff (by positivity)).mpr
    by_cases h23 : d ≤ 23
    · have e1 : (((d : Int) - 23) - 0).toNat = 0 := by omega
      rw [e1]
      have : 1 ≤ 2 ^ ((0 : Int) - ((d : Int) - 23)).toNat := Nat.one_le_two_pow
      calc 1 * 2 ^ 0 = 1 := by norm_num
        _ ≤ n * 1 := by omega
        _ ≤ n * 2 ^ ((0 : Int) - ((d : Int) - 23)).toNat := Nat.mul_le_mul_left n this
    · have e1 : (((d : Int) - 23) - 0).toNat = d - 23 := by omega
      have e2 : ((0 : Int) - ((d : Int) - 23)).toNat = 0 := by omega
      rw [e1, e2]
      have : 2 ^ (d - 23) ≤ 2 ^ d := Nat.pow_le_pow_right (by norm_num) (by omega)
      simp only [one_mul, pow_zero, mul_one]
      omega
  have hm : (round_core n 1 0).1 =
      round_half_even (n * 2 ^ ((0 : Int) - ((d : Int) - 23)).toNat)
        (1 * 2 ^ (((d : Int) - 23) - 0).toNat) := by
    simp only [round_core, hcast, hcond, if_true, hmax]
  rw [hm]
  have := le_round_half_even (n * 2 ^ ((0 : Int) - ((d : Int) - 23)).toNat)
    (1 * 2 ^ (((d : Int) - 23) - 0).toNat)
  omega

/-- A positive finite float divided by itself is `1.0f`. -/
theorem div_self_eq (m : Nat) (e : Int) (hm : m ≠ 0) :
    div (fin false m e) (fin false m e) = fin false 8388608 (-23) := by
  have hpos : 0 < m := Nat.pos_of_ne_zero hm
  have hq : m * 8388608 / m = 8388608 := Nat.mul_div_cancel_left 8388608 hpos
  have hr : m * 8388608 % m = 0 := Nat.mul_mod_right m 8388608
  simp [div, hm, round, round_core, round_half_even, hq, hr, hpos]

/-- The float zero divided by a positive finite float is zero. -/
theorem zero_div_eq (m : Nat) (e : Int) (hm : m ≠ 0) :
    div (fin false 0 0) (fin false m e) = fin false 0 0 := by
  simp [div, hm, round]

theorem ofNat_zero : ofNat 0 = fin false 0 0 := rfl

theorem ofNat_one : ofNat 1 = fin false 8388608 (-23) := by rfl

/-- Of two finite floats one is at most the other. -/
theorem le_fin_total (n1 : Bool) (m1 : Nat) (e1 : Int) (n2 : Bool) (m2 : Nat) (e2 : Int)
    (h : le (fin n1 m1 e1) (fin n2 m2 e2) = false) :
    le (fin n2 m2 e2) (fin n1 m1 e1) = true := by
  simp only [le, decide_eq_false_iff_not, not_le, decide_eq_true_eq] at h ⊢
  rw [min_comm]
  exact le_of_lt h

/-- A load factor that passed the range tests of the constructor and is a number is
at most `1.0f`. -/
theorem le_one_of_range (f : Flt) (h0 : le f (ofNat 0) = false) (h1 : ge f (ofNat 1) = false)
    (hn : f ≠ nan) : le f (fin false 8388608 (-23)) = true := by
  rw [ge, ofNat_one] at h1
  cases f with
  | nan => exact absurd rfl hn
  | inf neg =>
    cases neg with
    | true => rw [ofNat_zero] at h0; simp [le] at h0
    | false => simp [le] at h1
  | fin neg m e => exact le_fin_total _ _ _ _ _ _ h1

/-- The quotient `(float)n / n` of a positive size by itself reaches every load factor
that passed the range tests. -/
theorem ge_div_self (n : Nat) (hn0 : n ≠ 0) (f : Flt) (h0 : le f (ofNat 0) = false)
    (h1 : ge f (ofNat 1) = false) (hn : f ≠ nan) :
    ge (div (ofNat n) (ofNat n)) f = true := by
  obtain ⟨m, e, hm, hm0⟩ := ofNat_pos n hn0
  rw [hm, div_self_eq m e hm0, ge]
  exact le_one_of_range f h0 h1 hn

/-- The quotient `(float)0 / n` by a positive size is below every load factor that
passed the first range test. -/
theorem ge_zero_div (n : Nat) (hn0 : n ≠ 0) (f : Flt) (h0 : le f (ofNat 0) = false) :
    ge (div (ofNat 0) (ofNat n)) f = false := by
  obtain ⟨m, e, hm, hm0⟩ := ofNat_pos n hn0
  rw [hm, ofNat_zero, zero_div_eq m e hm0, ge, ← ofNat_zero]
  exact h0

/-- A NaN passes both range tests of the constructor. -/
theorem nan_passes : le nan (ofNat 0) = false ∧ ge nan (ofNat 1) = false :=
  ⟨rfl, by rfl⟩

/-- No arithmetic on a NaN load factor gives a size. -/
theorem toSize_div_nan (x : Flt) : toSize (div x nan) = none := by
  cases x <;> rfl

/-- The load test rounds the quotient.  At 10000004 of 13333339 buckets the ratio is
below 3/4, the `float` quotient is `0.75f` and the test against `0.75f` holds; at 1 of
11 buckets the quotient is the `float` nearest to 1/11, which is above 1/11; at 9 of
11 the test against `0.75f` holds and at 8 of 11 it does not. -/
theorem load_test_rounds :
    div (ofNat 10000004) (ofNat 13333339) = fin false 12582912 (-24) ∧
      ge (div (ofNat 10000004) (ofNat 13333339)) DEFAULT_MAX_LOAD_FACTOR = true ∧
      10000004 * 4 < 3 * 13333339 ∧
      div (ofNat 1) (ofNat 11) = fin false 12201612 (-27) ∧
      2 ^ 27 < 11 * 12201612 ∧
      ge (div (ofNat 9) (ofNat 11)) DEFAULT_MAX_LOAD_FACTOR = true ∧
      ge (div (ofNat 8) (ofNat 11)) DEFAULT_MAX_LOAD_FACTOR = false :=
  ⟨by rfl, by rfl, by decide, by rfl, by decide, by rfl, by rfl⟩

end Flt

end concurrent

namespace concurrent

/-! ## Submaps: lemmas -/

namespace Submap

variable {K V : Type} [DecidableEq K] [Inhabited K] [Inhabited V]

theorem get_bucket_lt (sm : Submap K V) (j : Nat)
    (hv : (sm.get_bucket j).state = Bucket.State.VALID) : j < sm.get_capacity := by
  by_contra hge
  have : sm.get_bucket j = Bucket.new K V := by
    unfold get_bucket
    rw [List.getD_eq_getElem?_getD, List.getElem?_eq_none (by unfold get_capacity at hge; omega)]
    rfl
  rw [this] at hv
  simp [Bucket.new] at hv

theorem get_bucket_eq_getElem (sm : Submap K V) (j : Nat) (hj : j < sm.buckets.length) :
    sm.get_bucket j = sm.buckets[j] := by
  unfold get_bucket
  rw [List.getD_eq_getElem?_getD, List.getElem?_eq_getElem hj]
  rfl

theorem probe_lt (sm : Submap K V) (h1 h2 t : Nat) (hc : 0 < sm.get_capacity) :
    sm.probe h1 h2 t < sm.get_capacity := Nat.mod_lt _ hc

theorem probe_zero (sm : Submap K V) (h1 h2 : Nat) :
    sm.probe h1 h2 0 = h1 % sm.get_capacity := by
  simp [probe]

theorem probe_succ (sm : Submap K V) (h1 h2 t : Nat) :
    (sm.probe h1 h2 t + sm.calculate_probe_increment h2) % sm.get_capacity
      = sm.probe h1 h2 (t + 1) := by
  unfold probe
  rw [Nat.mod_add_mod, Nat.add_assoc, Nat.succ_mul]

theorem increment_coprime (sm : Submap K V) (h2 : Nat) (hp : Nat.Prime sm.get_capacity) :
    Nat.gcd sm.get_capacity (sm.calculate_probe_increment h2) = 1 := by
  have h2le := hp.two_le
  have hinc : sm.calculate_probe_increment h2 = 1 + h2 % (sm.get_capacity - 1) := rfl
  have hlt : sm.calculate_probe_increment h2 < sm.get_capacity := by
    have := Nat.mod_lt h2 (show 0 < sm.get_capacity - 1 by omega)
    omega
  have hpos : 0 < sm.calculate_probe_increment h2 := by omega
  exact (Nat.Prime.coprime_iff_not_dvd hp).mpr (Nat.not_dvd_of_pos_of_lt hpos hlt)

theorem probe_inj (sm : Submap K V) (h1 h2 : Nat) (hp : Nat.Prime sm.get_capacity)
    {s t : Nat} (hs : s < sm.get_capacity) (ht : t < sm.get_capacity)
    (h : sm.probe h1 h2 s = sm.probe h1 h2 t) : s = t := by
  unfold probe at h
  have e1 : s * sm.calculate_probe_increment h2 ≡ t * sm.calculate_probe_increment h2
      [MOD sm.get_capacity] := Nat.ModEq.add_left_cancel' _ h
  have e2 := Nat.ModEq.cancel_right_of_coprime (increment_coprime sm h2 hp) e1
  exact Nat.ModEq.eq_of_lt_of_lt e2 hs ht

theorem probe_surj (sm : Submap K V) (h1 h2 : Nat) (hp : Nat.Prime sm.get_capacity)
    (j : Nat) (hj : j < sm.get_capacity) : ∃ t, t < sm.get_capacity ∧ sm.probe h1 h2 t = j := by
  let f : Fin sm.get_capacity → Fin sm.get_capacity :=
    fun t => ⟨sm.probe h1 h2 t.1, probe_lt sm h1 h2 t.1 hp.pos⟩
  have hinj : Function.Injective f := by
    intro a b hab
    have : sm.probe h1 h2 a.1 = sm.probe h1 h2 b.1 := congrArg Fin.val hab
    exact Fin.ext (probe_inj sm h1 h2 hp a.2 b.2 this)
  obtain ⟨t, ht⟩ := (Finite.injective_iff_surjective.mp hinj) ⟨j, hj⟩
  exact ⟨t.1, t.2, congrArg Fin.val ht⟩

theorem probe_ne_start (sm : Submap K V) (h1 h2 : Nat) (hp : Nat.Prime sm.get_capacity)
    {t : Nat} (h0 : 0 < t) (ht : t < sm.get_capacity) :
    sm.probe h1 h2 t ≠ h1 % sm.get_capacity := by
  intro h
  rw [← probe_zero sm h1 h2] at h
  have := probe_inj sm h1 h2 hp ht hp.pos h
  omega

/-! ### The loop of `find` -/

theorem find_loop_hit (sm : Submap K V) (key : K) (start inc fuel idx : Nat)
    (h : sm.holds key idx) :
    sm.find_loop key start inc (fuel + 1) idx = some (idx, true) := by
  obtain ⟨h1, h2⟩ := h
  simp [find_loop, h1, h2]

theorem find_loop_empty (sm : Submap K V) (key : K) (start inc fuel idx : Nat)
    (h : (sm.get_bucket idx).state = Bucket.State.EMPTY) :
    sm.find_loop key start inc (fuel + 1) idx = some (0, false) := by
  simp [find_loop, h]

theorem find_loop_pass (sm : Submap K V) (key : K) (start inc fuel idx : Nat)
    (h : sm.passes key idx) :
    sm.find_loop key start inc (fuel + 1) idx =
      if (idx + inc) % sm.get_capacity ≠ start then
        sm.find_loop key start inc fuel ((idx + inc) % sm.get_capacity)
      else some (0, false) := by
  obtain ⟨h1, h2⟩ := h
  unfold holds at h2
  cases hs : (sm.get_bucket idx).state with
  | EMPTY => exact absurd hs h1
  | BUSY => simp [find_loop, hs]
  | VALID =>
    have hk : (sm.get_bucket idx).entry.1 ≠ key := fun hk => h2 ⟨hs, hk⟩
    simp [find_loop, hs, hk]

theorem find_loop_skip (sm : Submap K V) (key : K) (h1 h2 : Nat)
    (hp : Nat.Prime sm.get_capacity) :
    ∀ (t fuel : Nat), t < sm.get_capacity → (∀ s, s < t → sm.passes key (sm.probe h1 h2 s)) →
      sm.find_loop key (h1 % sm.get_capacity) (sm.calculate_probe_increment h2) (fuel + t)
          (h1 % sm.get_capacity) =
        sm.find_loop key (h1 % sm.get_capacity) (sm.calculate_probe_increment h2) fuel
          (sm.probe h1 h2 t) := by
  intro t
  induction t with
  | zero =>
    intro fuel _ _
    rw [probe_zero, Nat.add_zero]
  | succ t ih =>
    intro fuel ht hpass
    have e : fuel + (t + 1) = (fuel + 1) + t := by omega
    rw [e, ih (fuel + 1) (by omega) (fun s hs => hpass s (by omega)),
      find_loop_pass _ _ _ _ _ _ (hpass t (by omega)), probe_succ,
      if_pos (probe_ne_start sm h1 h2 hp (by omega) ht)]

theorem find_loop_sound (sm : Submap K V) (key : K) (start inc : Nat) :
    ∀ (fuel idx j : Nat), sm.find_loop key start inc fuel idx = some (j, true) →
      sm.holds key j := by
  intro fuel
  induction fuel with
  | zero =>
    intro idx j h
    simp [find_loop] at h
  | succ fuel ih =>
    intro idx j h
    by_cases he : (sm.get_bucket idx).state = Bucket.State.EMPTY
    · rw [find_loop_empty _ _ _ _ _ _ he] at h
      simp at h
    · by_cases hh : sm.holds key idx
      · rw [find_loop_hit _ _ _ _ _ _ hh] at h
        simp only [Option.some.injEq, Prod.mk.injEq, and_true] at h
        exact h ▸ hh
      · rw [find_loop_pass _ _ _ _ _ _ ⟨he, hh⟩] at h
        split_ifs at h with hne
        · exact ih _ _ h
        · simp at h

theorem find_sound (sm : Submap K V) (key : K) (h1 h2 : Nat)
    (h : (sm.find key h1 h2).2 = true) : sm.holds key (sm.find key h1 h2).1 := by
  unfold find at h ⊢
  cases hf : sm.find_fuel sm.get_capacity key h1 h2 with
  | none => simp [hf] at h
  | some r =>
    obtain ⟨j, b⟩ := r
    simp only [hf, Option.getD_some] at h ⊢
    subst h
    exact find_loop_sound sm key _ _ _ _ _ hf

theorem find_eq_loop (sm : Submap K V) (key : K) (h1 h2 t f : Nat)
    (hf : sm.get_capacity = f + t) :
    sm.find key h1 h2 =
      (sm.find_loop key (h1 % sm.get_capacity) (sm.calculate_probe_increment h2) (f + t)
        (h1 % sm.get_capacity)).getD (0, false) := by
  unfold find find_fuel
  rw [← hf]

/-- A bucket on the probe sequence of `key` that holds `key`, with only
passed buckets before it, is what `find` returns. -/
theorem find_of_chain (sm : Submap K V) (key : K) (h1 h2 : Nat)
    (hp : Nat.Prime sm.get_capacity) (t : Nat) (ht : t < sm.get_capacity)
    (hpass : ∀ s, s < t → sm.passes key (sm.probe h1 h2 s))
    (hh : sm.holds key (sm.probe h1 h2 t)) :
    sm.find key h1 h2 = (sm.probe h1 h2 t, true) := by
  rw [find_eq_loop sm key h1 h2 t (sm.get_capacity - 1 - t + 1) (by omega),
    find_loop_skip sm key h1 h2 hp t _ ht hpass, find_loop_hit _ _ _ _ _ _ hh]
  rfl

/-- When the probe sequence of `key` reaches an EMPTY bucket after passed
buckets only, `find` does not find `key`. -/
theorem find_of_empty (sm : Submap K V) (key : K) (h1 h2 : Nat)
    (hp : Nat.Prime sm.get_capacity) (t : Nat) (ht : t < sm.get_capacity)
    (hpass : ∀ s, s < t → sm.passes key (sm.probe h1 h2 s))
    (he : (sm.get_bucket (sm.probe h1 h2 t)).state = Bucket.State.EMPTY) :
    sm.find key h1 h2 = (0, false) := by
  rw [find_eq_loop sm key h1 h2 t (sm.get_capacity - 1 - t + 1) (by omega),
    find_loop_skip sm key h1 h2 hp t _ ht hpass, find_loop_empty _ _ _ _ _ _ he]
  rfl

end Submap

end concurrent

namespace concurrent

theorem list_set_self {α : Type} (l : List α) (i : Nat) (a : α) (h : l[i]? = some a) :
    l.set i a = l := by
  apply List.ext_getElem?
  intro j
  rw [List.getElem?_set]
  split_ifs with h1 h2
  · subst h1; exact h.symm
  · subst h1
    rw [List.getElem?_eq_none (by omega)]
  · rfl

namespace Submap

variable {K V : Type} [DecidableEq K] [Inhabited K] [Inhabited V]

/-! ### The loop of `insert` -/

theorem insert_loop_hit (sm : Submap K V) (key : K) (v : V) (start inc fuel idx : Nat)
    (h : sm.holds key idx) :
    sm.insert_loop key v start inc (fuel + 1) idx = some (InsertResult.done idx false sm) := by
  obtain ⟨h1, h2⟩ := h
  simp [insert_loop, h1, h2]

theorem insert_loop_empty (sm : Submap K V) (key : K) (v : V) (start inc fuel idx : Nat)
    (h : (sm.get_bucket idx).state = Bucket.State.EMPTY) :
    sm.insert_loop key v start inc (fuel + 1) idx =
      some (InsertResult.done idx true (sm.store idx key v)) := by
  simp [insert_loop, h]

theorem insert_loop_pass (sm : Submap K V) (key : K) (v : V) (start inc fuel idx : Nat)
    (h : sm.passes key idx) :
    sm.insert_loop key v start inc (fuel + 1) idx =
      if (idx + inc) % sm.get_capacity ≠ start then
        sm.insert_loop key v start inc fuel ((idx + inc) % sm.get_capacity)
      else some InsertResult.FullSubmapException := by
  obtain ⟨h1, h2⟩ := h
  unfold holds at h2
  cases hs : (sm.get_bucket idx).state with
  | EMPTY => exact absurd hs h1
  | BUSY => simp [insert_loop, hs]
  | VALID =>
    have hk : (sm.get_bucket idx).entry.1 ≠ key := fun hk => h2 ⟨hs, hk⟩
    simp [insert_loop, hs, hk]

theorem insert_loop_skip (sm : Submap K V) (key : K) (v : V) (h1 h2 : Nat)
    (hp : Nat.Prime sm.get_capacity) :
    ∀ (t fuel : Nat), t < sm.get_capacity → (∀ s, s < t → sm.passes key (sm.probe h1 h2 s)) →
      sm.insert_loop key v (h1 % sm.get_capacity) (sm.calculate_probe_increment h2) (fuel + t)
          (h1 % sm.get_capacity) =
        sm.insert_loop key v (h1 % sm.get_capacity) (sm.calculate_probe_increment h2) fuel
          (sm.probe h1 h2 t) := by
  intro t
  induction t with
  | zero =>
    intro fuel _ _
    rw [probe_zero, Nat.add_zero]
  | succ t ih =>
    intro fuel ht hpass
    have e : fuel + (t + 1) = (fuel + 1) + t := by omega
    rw [e, ih (fuel + 1) (by omega) (fun s hs => hpass s (by omega)),
      insert_loop_pass _ _ _ _ _ _ _ (hpass t (by omega)), probe_succ,
      if_pos (probe_ne_start sm h1 h2 hp (by omega) ht)]

theorem insert_eq_loop (sm : Submap K V) (key : K) (v : V) (h1 h2 t f : Nat)
    (hf : sm.get_capacity = f + t) :
    sm.insert key h1 h2 v =
      (sm.insert_loop key v (h1 % sm.get_capacity) (sm.calculate_probe_increment h2) (f + t)
        (h1 % sm.get_capacity)).getD InsertResult.FullSubmapException := by
  unfold insert insert_fuel
  rw [← hf]

theorem insert_of_chain (sm : Submap K V) (key : K) (v : V) (h1 h2 : Nat)
    (hp : Nat.Prime sm.get_capacity) (t : Nat) (ht : t < sm.get_capacity)
    (hpass : ∀ s, s < t → sm.passes key (sm.probe h1 h2 s))
    (hh : sm.holds key (sm.probe h1 h2 t)) :
    sm.insert key h1 h2 v = InsertResult.done (sm.probe h1 h2 t) false sm := by
  rw [insert_eq_loop sm key v h1 h2 t (sm.get_capacity - 1 - t + 1) (by omega),
    insert_loop_skip sm key v h1 h2 hp t _ ht hpass, insert_loop_hit _ _ _ _ _ _ _ hh]
  rfl

theorem insert_of_empty (sm : Submap K V) (key : K) (v : V) (h1 h2 : Nat)
    (hp : Nat.Prime sm.get_capacity) (t : Nat) (ht : t < sm.get_capacity)
    (hpass : ∀ s, s < t → sm.passes key (sm.probe h1 h2 s))
    (he : (sm.get_bucket (sm.probe h1 h2 t)).state = Bucket.State.EMPTY) :
    sm.insert key h1 h2 v =
      InsertResult.done (sm.probe h1 h2 t) true (sm.store (sm.probe h1 h2 t) key v) := by
  rw [insert_eq_loop sm key v h1 h2 t (sm.get_capacity - 1 - t + 1) (by omega),
    insert_loop_skip sm key v h1 h2 hp t _ ht hpass, insert_loop_empty _ _ _ _ _ _ _ he]
  rfl

/-! ### The bucket write -/

theorem store_capacity (sm : Submap K V) (e : Nat) (key : K) (v : V) :
    (sm.store e key v).get_capacity = sm.get_capacity := by
  simp [store, increment_num_valid_buckets, get_capacity]

theorem store_maxload_factor (sm : Submap K V) (e : Nat) (key : K) (v : V) :
    (sm.store e key v).maxload_factor = sm.maxload_factor := rfl

theorem store_num_valid (sm : Submap K V) (e : Nat) (key : K) (v : V) :
    (sm.store e key v).num_valid_buckets = sm.num_valid_buckets + 1 := rfl

theorem store_get_bucket (sm : Submap K V) (e : Nat) (key : K) (v : V) (he : e < sm.get_capacity)
    (j : Nat) :
    (sm.store e key v).get_bucket j =
      if j = e then ⟨Bucket.State.VALID, (key, v)⟩ else sm.get_bucket j := by
  unfold get_bucket store increment_num_valid_buckets
  simp only [List.getD_eq_getElem?_getD, List.getElem?_set]
  unfold get_capacity at he
  by_cases h : j = e
  · subst h
    simp [he]
  · have h1 : ¬ e = j := fun h1 => h h1.symm
    simp [h, h1]

theorem store_probe (sm : Submap K V) (e : Nat) (key : K) (v : V) (a b t : Nat) :
    (sm.store e key v).probe a b t = sm.probe a b t := by
  unfold probe calculate_probe_increment
  rw [store_capacity]

theorem store_valid_entries (sm : Submap K V) (e : Nat) (key : K) (v : V)
    (he : (sm.get_bucket e).state = Bucket.State.EMPTY) (hlt : e < sm.get_capacity) :
    ∃ l1 l2, sm.valid_entries = l1 ++ l2 ∧ (sm.store e key v).valid_entries = l1 ++ (key, v) :: l2 := by
  unfold get_capacity at hlt
  have hb : sm.buckets = sm.buckets.take e ++ sm.buckets[e] :: sm.buckets.drop (e + 1) := by
    rw [← List.drop_eq_getElem_cons hlt, List.take_append_drop]
  have hs : (sm.store e key v).buckets =
      sm.buckets.take e ++ ⟨Bucket.State.VALID, (key, v)⟩ :: sm.buckets.drop (e + 1) := by
    simp [store, increment_num_valid_buckets, List.set_eq_take_append_cons_drop, hlt]
  have he1 : sm.buckets[e].state = Bucket.State.EMPTY := by
    rw [← get_bucket_eq_getElem sm e hlt]; exact he
  refine ⟨((sm.buckets.take e).filter fun b => decide (b.state = Bucket.State.VALID)).map
      fun b => b.entry,
    ((sm.buckets.drop (e + 1)).filter fun b => decide (b.state = Bucket.State.VALID)).map
      fun b => b.entry, ?_, ?_⟩
  · have hf : (sm.buckets.filter fun b => decide (b.state = Bucket.State.VALID)) =
        ((sm.buckets.take e).filter fun b => decide (b.state = Bucket.State.VALID)) ++
        ((sm.buckets.drop (e + 1)).filter fun b => decide (b.state = Bucket.State.VALID)) := by
      conv_lhs => rw [hb]
      rw [List.filter_append, List.filter_cons, he1]
      rfl
    rw [valid_entries, hf, List.map_append]
  · rw [valid_entries, hs, List.filter_append, List.filter_cons, List.map_append]
    rfl

end Submap

end concurrent

namespace concurrent

namespace Submap

variable {K V : Type} [DecidableEq K] [Inhabited K] [Inhabited V]

/-! ### Consequences of the submap invariant -/

theorem Inv.state_cases {h : Hashers K} {sm : Submap K V} (hi : sm.Inv h) (j : Nat) :
    (sm.get_bucket j).state = Bucket.State.EMPTY ∨ (sm.get_bucket j).state = Bucket.State.VALID := by
  have := hi.no_busy j
  cases hs : (sm.get_bucket j).state with
  | EMPTY => exact Or.inl rfl
  | BUSY => exact absurd hs this
  | VALID => exact Or.inr rfl

theorem Inv.chain_of_holds {h : Hashers K} {sm : Submap K V} (hi : sm.Inv h) {key : K} {j : Nat}
    (hh : sm.holds key j) :
    ∃ t, t < sm.get_capacity ∧ sm.probe (h.keyHash1 key) (h.keyHash2 key) t = j ∧
      ∀ s, s < t → sm.passes key (sm.probe (h.keyHash1 key) (h.keyHash2 key) s) := by
  obtain ⟨t, ht, hpt, hs⟩ := hi.chain j hh.1
  rw [hh.2] at hpt hs
  refine ⟨t, ht, hpt, fun s hst => ?_⟩
  obtain ⟨h1, h2⟩ := hs s hst
  exact ⟨by rw [h2]; simp, h1⟩

theorem Inv.sub_find_of_holds {h : Hashers K} {sm : Submap K V} (hi : sm.Inv h) {key : K} {j : Nat}
    (hh : sm.holds key j) :
    sm.find key (h.keyHash1 key) (h.keyHash2 key) = (j, true) := by
  obtain ⟨t, ht, hpt, hs⟩ := hi.chain_of_holds hh
  have := find_of_chain sm key _ _ hi.prime t ht hs (by rw [hpt]; exact hh)
  rw [this, hpt]

theorem Inv.insert_of_holds {h : Hashers K} {sm : Submap K V} (hi : sm.Inv h) {key : K} {j : Nat}
    (v : V) (hh : sm.holds key j) :
    sm.insert key (h.keyHash1 key) (h.keyHash2 key) v = InsertResult.done j false sm := by
  obtain ⟨t, ht, hpt, hs⟩ := hi.chain_of_holds hh
  have := insert_of_chain sm key v _ _ hi.prime t ht hs (by rw [hpt]; exact hh)
  rw [this, hpt]

theorem find_of_not_holds (sm : Submap K V) (key : K) (h1 h2 : Nat)
    (hn : ∀ j, ¬ sm.holds key j) : (sm.find key h1 h2).2 = false := by
  cases hf : (sm.find key h1 h2).2 with
  | false => rfl
  | true => exact absurd (find_sound sm key h1 h2 hf) (hn _)

/-- In a submap a key is held by one bucket at most. -/
theorem Inv.sub_holds_unique {h : Hashers K} {sm : Submap K V} (hi : sm.Inv h) {key : K} {j j1 : Nat}
    (hh : sm.holds key j) (hh1 : sm.holds key j1) : j = j1 := by
  obtain ⟨t, ht, hpt, hs⟩ := hi.chain_of_holds hh
  obtain ⟨t1, ht1, hpt1, hs1⟩ := hi.chain_of_holds hh1
  rcases Nat.lt_trichotomy t t1 with hlt | heq | hgt
  · exact absurd (hpt ▸ hh) (hs1 t hlt).2
  · rw [← hpt, ← hpt1, heq]
  · exact absurd (hpt1 ▸ hh1) (hs t1 hgt).2

theorem valid_entries_length_le (sm : Submap K V) : sm.valid_entries.length ≤ sm.get_capacity := by
  unfold valid_entries get_capacity
  rw [List.length_map]
  exact List.length_filter_le _ _

theorem Inv.exists_empty {h : Hashers K} {sm : Submap K V} (hi : sm.Inv h)
    (hlt : sm.num_valid_buckets < sm.get_capacity) :
    ∃ j, j < sm.get_capacity ∧ (sm.get_bucket j).state = Bucket.State.EMPTY := by
  rw [hi.count] at hlt
  unfold valid_entries get_capacity at hlt
  rw [List.length_map] at hlt
  have hne : ¬ ∀ b ∈ sm.buckets, decide (b.state = Bucket.State.VALID) = true := by
    intro hall
    have := List.filter_length_eq_length.mpr hall
    omega
  push_neg at hne
  obtain ⟨b, hb, hbs⟩ := hne
  obtain ⟨j, hj, hjb⟩ := List.mem_iff_getElem.mp hb
  refine ⟨j, hj, ?_⟩
  rcases hi.state_cases j with h1 | h1
  · exact h1
  · rw [get_bucket_eq_getElem sm j hj, hjb] at h1
    simp [h1] at hbs

theorem mem_valid_entries (sm : Submap K V) (x : K × V) :
    x ∈ sm.valid_entries ↔
      ∃ j, (sm.get_bucket j).state = Bucket.State.VALID ∧ (sm.get_bucket j).entry = x := by
  unfold valid_entries
  simp only [List.mem_map, List.mem_filter, decide_eq_true_eq]
  constructor
  · rintro ⟨b, ⟨hb, hs⟩, hx⟩
    obtain ⟨j, hj, hjb⟩ := List.mem_iff_getElem.mp hb
    exact ⟨j, by rw [get_bucket_eq_getElem sm j hj, hjb]; exact hs,
      by rw [get_bucket_eq_getElem sm j hj, hjb]; exact hx⟩
  · rintro ⟨j, hs, hx⟩
    have hj := get_bucket_lt sm j hs
    unfold get_capacity at hj
    rw [get_bucket_eq_getElem sm j hj] at hs hx
    exact ⟨sm.buckets[j], ⟨List.getElem_mem hj, hs⟩, hx⟩

/-- The bucket write keeps the invariant when it fills the first EMPTY bucket
on the probe sequence of a key that the submap does not hold. -/
theorem Inv.store {h : Hashers K} {sm : Submap K V} (hi : sm.Inv h) (key : K) (v : V) (t : Nat)
    (ht : t < sm.get_capacity)
    (hpass : ∀ s, s < t → sm.passes key (sm.probe (h.keyHash1 key) (h.keyHash2 key) s))
    (he : (sm.get_bucket (sm.probe (h.keyHash1 key) (h.keyHash2 key) t)).state
      = Bucket.State.EMPTY) :
    (sm.store (sm.probe (h.keyHash1 key) (h.keyHash2 key) t) key v).Inv h := by
  have hc := hi.prime.pos
  have helt := probe_lt sm (h.keyHash1 key) (h.keyHash2 key) t hc
  have hgb := store_get_bucket sm _ key v helt
  have hkeep : ∀ j, (sm.get_bucket j).state = Bucket.State.VALID →
      (sm.store (sm.probe (h.keyHash1 key) (h.keyHash2 key) t) key v).get_bucket j
        = sm.get_bucket j := by
    intro j hj
    rw [hgb, if_neg]
    intro hje
    rw [hje, he] at hj
    simp at hj
  refine ⟨by rw [store_capacity]; exact hi.prime, ?_, ?_, ?_⟩
  · intro j
    rw [hgb]
    split_ifs
    · simp
    · exact hi.no_busy j
  · obtain ⟨l1, l2, e1, e2⟩ := store_valid_entries sm _ key v he helt
    rw [store_num_valid, hi.count, e1, e2]
    simp
    omega
  · intro j hj
    rw [store_capacity]
    simp only [store_probe]
    by_cases hje : j = sm.probe (h.keyHash1 key) (h.keyHash2 key) t
    · have hent : ((sm.store (sm.probe (h.keyHash1 key) (h.keyHash2 key) t) key v).get_bucket
          j).entry.1 = key := by rw [hgb, if_pos hje]
      rw [hent]
      refine ⟨t, ht, hje.symm, fun s hs => ?_⟩
      obtain ⟨p1, p2⟩ := hpass s hs
      have hv : (sm.get_bucket (sm.probe (h.keyHash1 key) (h.keyHash2 key) s)).state
          = Bucket.State.VALID := by
        rcases hi.state_cases (sm.probe (h.keyHash1 key) (h.keyHash2 key) s) with h1 | h1
        · exact absurd h1 p1
        · exact h1
      unfold holds
      rw [hkeep _ hv]
      exact ⟨p2, hv⟩
    · rw [hgb, if_neg hje] at hj ⊢
      obtain ⟨t1, ht1, hpt1, hs1⟩ := hi.chain j hj
      refine ⟨t1, ht1, hpt1, fun s hs => ?_⟩
      obtain ⟨p1, p2⟩ := hs1 s hs
      unfold holds
      rw [hkeep _ p2]
      exact ⟨p1, p2⟩

/-- Source: `Submap::insert` of a key that the submap does not hold, when a bucket is
free: the key is stored in an EMPTY bucket and the invariant is kept. -/
theorem Inv.insert_new {h : Hashers K} {sm : Submap K V} (hi : sm.Inv h) (key : K) (v : V)
    (hn : ∀ j, ¬ sm.holds key j) (hlt : sm.num_valid_buckets < sm.get_capacity) :
    ∃ e, e < sm.get_capacity ∧ (sm.get_bucket e).state = Bucket.State.EMPTY ∧
      sm.insert key (h.keyHash1 key) (h.keyHash2 key) v
        = InsertResult.done e true (sm.store e key v) ∧
      (sm.store e key v).Inv h := by
  obtain ⟨j, hj, hje⟩ := hi.exists_empty hlt
  obtain ⟨t0, ht0, hpt0⟩ := probe_surj sm (h.keyHash1 key) (h.keyHash2 key) hi.prime j hj
  have hex : ∃ t, (sm.get_bucket (sm.probe (h.keyHash1 key) (h.keyHash2 key) t)).state
      = Bucket.State.EMPTY := ⟨t0, by rw [hpt0]; exact hje⟩
  have hmin : ∀ {s}, s < Nat.find hex →
      ¬ (sm.get_bucket (sm.probe (h.keyHash1 key) (h.keyHash2 key) s)).state
        = Bucket.State.EMPTY := fun hs => Nat.find_min hex hs
  have hspec := Nat.find_spec hex
  have hle : Nat.find hex ≤ t0 := Nat.find_min' hex (by rw [hpt0]; exact hje)
  have hpass : ∀ s, s < Nat.find hex →
      sm.passes key (sm.probe (h.keyHash1 key) (h.keyHash2 key) s) :=
    fun s hs => ⟨hmin hs, hn _⟩
  have hlt1 : Nat.find hex < sm.get_capacity := by omega
  exact ⟨_, probe_lt sm _ _ _ hi.prime.pos, hspec,
    insert_of_empty sm key v _ _ hi.prime _ hlt1 hpass hspec,
    hi.store key v _ hlt1 hpass hspec⟩

/-! ### The load test -/

/-- The load test is the float comparison of the source. -/
theorem is_overloaded_eq (sm : Submap K V) :
    sm.is_overloaded =
      Flt.ge (Flt.div (Flt.ofNat sm.get_num_valid_buckets) (Flt.ofNat sm.get_capacity))
        sm.maxload_factor := rfl

theorem Inv.num_valid_le {h : Hashers K} {sm : Submap K V} (hi : sm.Inv h) :
    sm.num_valid_buckets ≤ sm.get_capacity := by
  rw [hi.count]
  exact valid_entries_length_le sm

/-- A submap all of whose buckets are counted VALID is overloaded, for a load factor
that passed the range tests. -/
theorem overloaded_of_full (sm : Submap K V) (hc : 0 < sm.get_capacity)
    (hp : Flt.le sm.maxload_factor (Flt.ofNat 0) = false)
    (hf : Flt.ge sm.maxload_factor (Flt.ofNat 1) = false) (hn : sm.maxload_factor ≠ Flt.nan)
    (heq : sm.num_valid_buckets = sm.get_capacity) : sm.is_overloaded = true := by
  rw [is_overloaded_eq, get_num_valid_buckets, heq]
  exact Flt.ge_div_self _ (by omega) _ hp hf hn

/-- A submap that is not overloaded has a free bucket, for a load factor
below 1. -/
theorem Inv.not_overloaded_lt {h : Hashers K} {sm : Submap K V} (hi : sm.Inv h)
    (hp : Flt.le sm.maxload_factor (Flt.ofNat 0) = false)
    (hf : Flt.ge sm.maxload_factor (Flt.ofNat 1) = false) (hn : sm.maxload_factor ≠ Flt.nan)
    (hno : sm.is_overloaded = false) : sm.num_valid_buckets < sm.get_capacity := by
  by_contra hge
  have heq : sm.num_valid_buckets = sm.get_capacity := le_antisymm hi.num_valid_le (by omega)
  have : sm.is_overloaded = true := overloaded_of_full sm hi.prime.pos hp hf hn heq
  rw [this] at hno
  exact absurd hno (by simp)

/-- A submap without entries is not overloaded, for a positive load factor. -/
theorem not_overloaded_of_zero (sm : Submap K V) (hc : 0 < sm.get_capacity)
    (hf : Flt.le sm.maxload_factor (Flt.ofNat 0) = false) (hz : sm.num_valid_buckets = 0) :
    sm.is_overloaded = false := by
  rw [is_overloaded_eq, get_num_valid_buckets, hz]
  exact Flt.ge_zero_div _ (by omega) _ hf

/-! ### A fresh submap -/

theorem new_get_bucket (capacity : Nat) (f : Flt) (j : Nat) :
    (Submap.new capacity f : Submap K V).get_bucket j = Bucket.new K V := by
  unfold get_bucket Submap.new
  rw [List.getD_eq_getElem?_getD, List.getElem?_replicate]
  split_ifs <;> rfl

theorem new_capacity (capacity : Nat) (f : Flt) :
    (Submap.new capacity f : Submap K V).get_capacity = capacity := by
  simp [Submap.new, get_capacity]

theorem new_valid_entries (capacity : Nat) (f : Flt) :
    (Submap.new capacity f : Submap K V).valid_entries = [] := by
  unfold valid_entries Submap.new
  simp only [List.map_eq_nil_iff, List.filter_eq_nil_iff]
  intro b hb
  rw [List.eq_of_mem_replicate hb]
  simp [Bucket.new]

theorem new_not_holds (capacity : Nat) (f : Flt) (key : K) (j : Nat) :
    ¬ (Submap.new capacity f : Submap K V).holds key j := by
  intro hh
  have := hh.1
  rw [new_get_bucket] at this
  simp [Bucket.new] at this

theorem new_sub_Inv (h : Hashers K) (capacity : Nat) (f : Flt) (hp : Nat.Prime capacity) :
    (Submap.new capacity f : Submap K V).Inv h := by
  refine ⟨by rw [new_capacity]; exact hp, ?_, ?_, ?_⟩
  · intro j
    rw [new_get_bucket]
    simp [Bucket.new]
  · rw [new_valid_entries]
    rfl
  · intro j hj
    rw [new_get_bucket] at hj
    simp [Bucket.new] at hj

end Submap

end concurrent

namespace concurrent

namespace concurrent_unordered_map

variable {K V : Type} [DecidableEq K] [Inhabited K] [Inhabited V]

/-! ## The map: lemmas -/

theorem get_submap_of_live (m : concurrent_unordered_map K V) (i : Nat) (sm : Submap K V)
    (h : m.submaps[i]? = some (some sm)) : m.get_submap i = sm := by
  unfold get_submap
  rw [List.getD_eq_getElem?_getD, h]
  rfl

theorem get_submap_set (m : concurrent_unordered_map K V) (a : Nat) (sm : Submap K V)
    (n : Nat) (e : Nat) (x : Bool) (ha : a < m.submaps.length) (i : Nat) :
    get_submap (⟨m.maxload_factor, n, List.set m.submaps a (some sm), e, x⟩ :
        concurrent_unordered_map K V) i
      = if i = a then sm else m.get_submap i := by
  unfold get_submap
  simp only [List.getD_eq_getElem?_getD, List.getElem?_set]
  by_cases h : i = a
  · subst h
    simp [ha]
  · have h1 : ¬ a = i := fun h1 => h h1.symm
    simp [h, h1]

theorem Inv.last_lt {h : Hashers K} {m : concurrent_unordered_map K V} (hi : m.Inv h) :
    m.get_last_submap_index < m.num_submaps := by
  have := hi.num_pos
  unfold get_last_submap_index get_num_submaps
  omega

theorem Inv.last_lt_length {h : Hashers K} {m : concurrent_unordered_map K V} (hi : m.Inv h) :
    m.get_last_submap_index < m.submaps.length := lt_of_lt_of_le hi.last_lt hi.num_le

/-! ### `find_helper` -/

theorem find_helper_found (m : concurrent_unordered_map K V) (key : K) (h1 h2 : Nat) :
    ∀ (L : Nat), (m.find_helper key h1 h2 L).end_ = false →
      (m.find_helper key h1 h2 L).submapIndex ≤ L ∧
      (m.get_submap (m.find_helper key h1 h2 L).submapIndex).holds key
        (m.find_helper key h1 h2 L).bucketIndex := by
  intro L
  induction L with
  | zero =>
    intro he
    unfold find_helper at he ⊢
    by_cases hf : ((m.get_submap 0).find key h1 h2).2 = true
    · simp only [hf, if_true] at he ⊢
      exact ⟨le_refl _, Submap.find_sound _ _ _ _ hf⟩
    · simp only [hf] at he
      simp [end_] at he
  | succ L ih =>
    intro he
    unfold find_helper at he ⊢
    by_cases hf : ((m.get_submap (L + 1)).find key h1 h2).2 = true
    · simp only [hf, if_true] at he ⊢
      exact ⟨le_refl _, Submap.find_sound _ _ _ _ hf⟩
    · simp only [hf] at he ⊢
      obtain ⟨h3, h4⟩ := ih he
      exact ⟨by simp only [Bool.false_eq_true, if_false]; omega,
        by simpa using h4⟩

theorem find_helper_end_or (m : concurrent_unordered_map K V) (key : K) (h1 h2 : Nat) :
    ∀ (L : Nat), m.find_helper key h1 h2 L = m.end_ ∨ (m.find_helper key h1 h2 L).end_ = false := by
  intro L
  induction L with
  | zero =>
    unfold find_helper
    by_cases hf : ((m.get_submap 0).find key h1 h2).2 = true
    · right; simp [hf]
    · left; simp [hf]
  | succ L ih =>
    unfold find_helper
    by_cases hf : ((m.get_submap (L + 1)).find key h1 h2).2 = true
    · right; simp [hf]
    · simpa [hf] using ih

theorem find_helper_of_not_holds (m : concurrent_unordered_map K V) (key : K) (h1 h2 : Nat) :
    ∀ (L : Nat), (∀ i j, i ≤ L → ¬ (m.get_submap i).holds key j) →
      m.find_helper key h1 h2 L = m.end_ := by
  intro L
  induction L with
  | zero =>
    intro hn
    simp only [find_helper, Submap.find_of_not_holds _ _ _ _ (fun j => hn 0 j (le_refl _))]
    simp
  | succ L ih =>
    intro hn
    simp only [find_helper, Submap.find_of_not_holds _ _ _ _ (fun j => hn (L + 1) j (le_refl _))]
    simpa using ih (fun i j hi => hn i j (by omega))

theorem Inv.find_helper_of_holds {h : Hashers K} {m : concurrent_unordered_map K V}
    (hi : m.Inv h) (key : K) {i j : Nat} (hh : m.holds key i j) :
    ∀ (L : Nat), i ≤ L → L < m.num_submaps →
      m.find_helper key (h.keyHash1 key) (h.keyHash2 key) L = ⟨i, j, false⟩ := by
  intro L
  induction L with
  | zero =>
    intro hle _
    have hi0 : i = 0 := by omega
    subst hi0
    simp only [find_helper, (hi.sub_inv 0 hh.1).sub_find_of_holds hh.2]
    simp
  | succ L ih =>
    intro hle hlt
    by_cases heq : i = L + 1
    · subst heq
      simp only [find_helper, (hi.sub_inv _ hh.1).sub_find_of_holds hh.2]
      simp
    · have hn : ∀ j1, ¬ (m.get_submap (L + 1)).holds key j1 := by
        intro j1 hh1
        exact heq (hi.disjoint key i j (L + 1) j1 hh ⟨hlt, hh1⟩)
      simp only [find_helper, Submap.find_of_not_holds _ _ _ _ hn]
      simpa using ih (by omega) (by omega)

/-- Under the invariant a key is held by one bucket at most. -/
theorem Inv.holds_unique {h : Hashers K} {m : concurrent_unordered_map K V} (hi : m.Inv h)
    {key : K} {i j i1 j1 : Nat} (hh : m.holds key i j) (hh1 : m.holds key i1 j1) :
    i = i1 ∧ j = j1 := by
  have e := hi.disjoint key i j i1 j1 hh hh1
  subst e
  exact ⟨rfl, (hi.sub_inv i hh.1).sub_holds_unique hh.2 hh1.2⟩

/-! ### Entries -/

theorem mem_entries (m : concurrent_unordered_map K V) (x : K × V) :
    x ∈ m.entries ↔ ∃ i j, m.holds x.1 i j ∧ ((m.get_submap i).get_bucket j).entry = x := by
  unfold entries holds Submap.holds
  simp only [List.mem_flatMap, List.mem_range, Submap.mem_valid_entries]
  constructor
  · rintro ⟨i, hi, j, hs, he⟩
    exact ⟨i, j, ⟨hi, hs, by rw [he]⟩, he⟩
  · rintro ⟨i, j, ⟨hi, hs, _⟩, he⟩
    exact ⟨i, hi, j, hs, he⟩

theorem mem_keys_iff (m : concurrent_unordered_map K V) (key : K) :
    key ∈ m.entries.map Prod.fst ↔ ∃ i j, m.holds key i j := by
  simp only [List.mem_map]
  constructor
  · rintro ⟨x, hx, rfl⟩
    obtain ⟨i, j, hh, _⟩ := (mem_entries m x).mp hx
    exact ⟨i, j, hh⟩
  · rintro ⟨i, j, hh⟩
    exact ⟨((m.get_submap i).get_bucket j).entry,
      (mem_entries m _).mpr ⟨i, j, by rw [hh.2.2]; exact hh, rfl⟩, hh.2.2⟩

end concurrent_unordered_map

end concurrent

namespace concurrent

namespace concurrent_unordered_map

variable {K V : Type} [DecidableEq K] [Inhabited K] [Inhabited V]

/-! ### The state after a bucket write -/

theorem stored_get_submap {h : Hashers K} {m : concurrent_unordered_map K V} (hi : m.Inv h)
    (e : Nat) (key : K) (v : V) (i : Nat) :
    (m.stored e key v).get_submap i =
      if i = m.get_last_submap_index then (m.get_submap m.get_last_submap_index).store e key v
      else m.get_submap i :=
  get_submap_set m _ _ _ _ _ hi.last_lt_length i

theorem stored_num_submaps (m : concurrent_unordered_map K V) (e : Nat) (key : K) (v : V) :
    (m.stored e key v).num_submaps = m.num_submaps := rfl

theorem stored_num_entries (m : concurrent_unordered_map K V) (e : Nat) (key : K) (v : V) :
    (m.stored e key v).num_entries = m.num_entries + 1 := rfl

theorem num_eq_last_succ {h : Hashers K} {m : concurrent_unordered_map K V} (hi : m.Inv h) :
    m.num_submaps = m.get_last_submap_index + 1 := by
  have := hi.num_pos
  unfold get_last_submap_index get_num_submaps
  omega

theorem stored_holds {h : Hashers K} {m : concurrent_unordered_map K V} (hi : m.Inv h)
    (e : Nat) (key : K) (v : V) (he : e < (m.get_submap m.get_last_submap_index).get_capacity)
    (hemp : ((m.get_submap m.get_last_submap_index).get_bucket e).state = Bucket.State.EMPTY)
    (k1 : K) (i j : Nat) :
    (m.stored e key v).holds k1 i j ↔
      m.holds k1 i j ∨ (k1 = key ∧ i = m.get_last_submap_index ∧ j = e) := by
  unfold holds Submap.holds
  rw [stored_get_submap hi]
  show i < m.num_submaps ∧ _ ↔ i < m.num_submaps ∧ _ ∨ _
  have hL := hi.last_lt
  by_cases hil : i = m.get_last_submap_index
  · subst hil
    rw [if_pos rfl, Submap.store_get_bucket _ _ _ _ he]
    by_cases hje : j = e
    · subst hje
      rw [if_pos rfl, hemp]
      constructor
      · rintro ⟨_, _, hk⟩
        exact Or.inr ⟨hk.symm, rfl, rfl⟩
      · rintro (⟨_, hc, _⟩ | ⟨hk, _, _⟩)
        · exact absurd hc (by simp)
        · exact ⟨hL, rfl, hk.symm⟩
    · rw [if_neg hje]
      constructor
      · intro hh
        exact Or.inl hh
      · rintro (hh | ⟨_, _, hc⟩)
        · exact hh
        · exact absurd hc hje
  · rw [if_neg hil]
    constructor
    · intro hh
      exact Or.inl hh
    · rintro (hh | ⟨_, hc, _⟩)
      · exact hh
      · exact absurd hc hil

theorem stored_get_entry_old {h : Hashers K} {m : concurrent_unordered_map K V} (hi : m.Inv h)
    (e : Nat) (key : K) (v : V) (he : e < (m.get_submap m.get_last_submap_index).get_capacity)
    (hemp : ((m.get_submap m.get_last_submap_index).get_bucket e).state = Bucket.State.EMPTY)
    (i j : Nat) (hv : ((m.get_submap i).get_bucket j).state = Bucket.State.VALID) :
    ((m.stored e key v).get_submap i).get_bucket j = (m.get_submap i).get_bucket j := by
  rw [stored_get_submap hi]
  by_cases hil : i = m.get_last_submap_index
  · subst hil
    rw [if_pos rfl, Submap.store_get_bucket _ _ _ _ he, if_neg]
    intro hje
    rw [hje, hemp] at hv
    simp at hv
  · rw [if_neg hil]

theorem stored_get_entry_new {h : Hashers K} {m : concurrent_unordered_map K V} (hi : m.Inv h)
    (e : Nat) (key : K) (v : V) (he : e < (m.get_submap m.get_last_submap_index).get_capacity) :
    (m.stored e key v).get_entry ⟨m.get_last_submap_index, e, false⟩ = (key, v) := by
  unfold get_entry
  simp only [stored_get_submap hi, if_true, Submap.store_get_bucket _ _ _ _ he]

theorem stored_entries {h : Hashers K} {m : concurrent_unordered_map K V} (hi : m.Inv h)
    (e : Nat) (key : K) (v : V) (he : e < (m.get_submap m.get_last_submap_index).get_capacity)
    (hemp : ((m.get_submap m.get_last_submap_index).get_bucket e).state = Bucket.State.EMPTY) :
    ∃ l1 l2, m.entries = l1 ++ l2 ∧ (m.stored e key v).entries = l1 ++ (key, v) :: l2 := by
  obtain ⟨a, b, e1, e2⟩ := Submap.store_valid_entries _ e key v hemp he
  refine ⟨(List.range m.get_last_submap_index).flatMap (fun i => (m.get_submap i).valid_entries)
    ++ a, b, ?_, ?_⟩
  · unfold entries get_num_submaps
    rw [num_eq_last_succ hi, List.range_succ, List.flatMap_append, List.flatMap_singleton, e1,
      List.append_assoc]
  · unfold entries get_num_submaps
    rw [stored_num_submaps, num_eq_last_succ hi, List.range_succ, List.flatMap_append,
      List.flatMap_singleton, stored_get_submap hi, if_pos rfl, e2, List.append_assoc]
    congr 1
    apply List.flatMap_congr
    intro i hir
    have : i ≠ m.get_last_submap_index := by
      have := List.mem_range.mp hir
      omega
    rw [stored_get_submap hi, if_neg this]

theorem Inv.stored {h : Hashers K} {m : concurrent_unordered_map K V} (hi : m.Inv h)
    (e : Nat) (key : K) (v : V) (he : e < (m.get_submap m.get_last_submap_index).get_capacity)
    (hemp : ((m.get_submap m.get_last_submap_index).get_bucket e).state = Bucket.State.EMPTY)
    (hsub : ((m.get_submap m.get_last_submap_index).store e key v).Inv h)
    (hnew : ∀ i j, ¬ m.holds key i j) : (m.stored e key v).Inv h := by
  have hL := hi.last_lt_length
  refine ⟨hi.num_pos, ?_, ?_, ?_, ?_, hi.factor_pos, hi.factor_lt, hi.factor_number, ?_, ?_, hi.not_expanding⟩
  · show m.num_submaps ≤ (List.set m.submaps _ _).length
    rw [List.length_set]
    exact hi.num_le
  · intro i hlt
    rw [stored_get_submap hi]
    show (List.set m.submaps _ _)[i]? = _
    rw [List.getElem?_set]
    by_cases hil : i = m.get_last_submap_index
    · subst hil
      simp [hL]
    · have h1 : ¬ m.get_last_submap_index = i := fun h1 => hil h1.symm
      simp only [h1, hil, if_false]
      exact hi.live i hlt
  · intro i hlt
    rw [stored_get_submap hi]
    split_ifs
    · exact hsub
    · exact hi.sub_inv i hlt
  · intro i hlt
    rw [stored_get_submap hi]
    split_ifs
    · rw [Submap.store_maxload_factor]
      exact hi.factor _ hi.last_lt
    · exact hi.factor i hlt
  · rw [stored_num_entries, stored_num_submaps, hi.count, num_eq_last_succ hi,
      List.sum_range_succ, List.sum_range_succ, stored_get_submap hi, if_pos rfl,
      Submap.store_num_valid]
    have : (List.map (fun i => ((m.stored e key v).get_submap i).num_valid_buckets)
        (List.range m.get_last_submap_index)) =
        (List.map (fun i => (m.get_submap i).num_valid_buckets)
        (List.range m.get_last_submap_index)) := by
      apply List.map_congr_left
      intro i hir
      have : i ≠ m.get_last_submap_index := by
        have := List.mem_range.mp hir
        omega
      simp only [stored_get_submap hi, if_neg this]
    rw [this]
    omega
  · intro k1 i j i1 j1 hh hh1
    rcases (stored_holds hi e key v he hemp k1 i j).mp hh with h1 | ⟨hk, h1, _⟩
    · rcases (stored_holds hi e key v he hemp k1 i1 j1).mp hh1 with h2 | ⟨hk, _, _⟩
      · exact hi.disjoint k1 i j i1 j1 h1 h2
      · exact absurd (hk ▸ h1) (hnew i j)
    · rcases (stored_holds hi e key v he hemp k1 i1 j1).mp hh1 with h2 | ⟨_, h2, _⟩
      · exact absurd (hk ▸ h2) (hnew i1 j1)
      · rw [h1, h2]

/-! ### The state after `expand` -/

theorem expanded_get_submap {h : Hashers K} {m : concurrent_unordered_map K V} (hi : m.Inv h)
    (hlt : m.num_submaps < m.submaps.length) (i : Nat) :
    m.expanded.get_submap i =
      if i = m.num_submaps then
        Submap.new (next_prime ((m.get_submap m.get_last_submap_index).get_capacity
          * NEW_SUBMAPS_CAPACITY_MULTIPLIER)) m.maxload_factor
      else m.get_submap i := by
  have := get_submap_set m (m.get_last_submap_index + 1)
    (Submap.new (next_prime ((m.get_submap m.get_last_submap_index).get_capacity
          * NEW_SUBMAPS_CAPACITY_MULTIPLIER)) m.maxload_factor) (m.num_submaps + 1)
    m.num_entries false (by rw [← num_eq_last_succ hi]; exact hlt) i
  have e : m.expanded.get_submap i = _ := this
  rw [e, ← num_eq_last_succ hi]

theorem expanded_num_submaps (m : concurrent_unordered_map K V) :
    m.expanded.num_submaps = m.num_submaps + 1 := rfl

theorem expanded_num_entries (m : concurrent_unordered_map K V) :
    m.expanded.num_entries = m.num_entries := rfl

theorem expanded_last (m : concurrent_unordered_map K V) :
    m.expanded.get_last_submap_index = m.num_submaps := by
  simp [get_last_submap_index, get_num_submaps, expanded]

theorem expanded_holds {h : Hashers K} {m : concurrent_unordered_map K V} (hi : m.Inv h)
    (hlt : m.num_submaps < m.submaps.length) (k1 : K) (i j : Nat) :
    m.expanded.holds k1 i j ↔ m.holds k1 i j := by
  unfold holds
  rw [expanded_get_submap hi hlt]
  show i < m.num_submaps + 1 ∧ _ ↔ i < m.num_submaps ∧ _
  by_cases hin : i = m.num_submaps
  · subst hin
    simp only [if_true]
    constructor
    · rintro ⟨_, hc⟩
      exact absurd hc (Submap.new_not_holds _ _ _ _)
    · rintro ⟨hc, _⟩
      omega
  · simp only [hin, if_false]
    constructor
    · rintro ⟨h1, h2⟩
      exact ⟨by omega, h2⟩
    · rintro ⟨h1, h2⟩
      exact ⟨by omega, h2⟩

theorem expanded_entries {h : Hashers K} {m : concurrent_unordered_map K V} (hi : m.Inv h)
    (hlt : m.num_submaps < m.submaps.length) : m.expanded.entries = m.entries := by
  unfold entries get_num_submaps
  rw [expanded_num_submaps, List.range_succ, List.flatMap_append, List.flatMap_singleton,
    expanded_get_submap hi hlt, if_pos rfl, Submap.new_valid_entries, List.append_nil]
  apply List.flatMap_congr
  intro i hir
  have : i ≠ m.num_submaps := by
    have := List.mem_range.mp hir
    omega
  rw [expanded_get_submap hi hlt, if_neg this]

theorem Inv.expanded {h : Hashers K} {m : concurrent_unordered_map K V} (hi : m.Inv h)
    (hlt : m.num_submaps < m.submaps.length) : m.expanded.Inv h := by
  refine ⟨?_, ?_, ?_, ?_, ?_, hi.factor_pos, hi.factor_lt, hi.factor_number, ?_, ?_, rfl⟩
  · rw [expanded_num_submaps]; omega
  · show m.num_submaps + 1 ≤ (List.set m.submaps _ _).length
    rw [List.length_set]
    omega
  · intro i hil
    rw [expanded_get_submap hi hlt]
    show (List.set m.submaps _ _)[i]? = _
    rw [List.getElem?_set, ← num_eq_last_succ hi]
    by_cases hin : i = m.num_submaps
    · subst hin
      simp [hlt]
    · have h1 : ¬ m.num_submaps = i := fun h1 => hin h1.symm
      simp only [h1, hin, if_false]
      exact hi.live i (by rw [expanded_num_submaps] at hil; omega)
  · intro i hil
    rw [expanded_get_submap hi hlt]
    split_ifs with hin
    · exact Submap.new_sub_Inv h _ _ (next_prime_prime _)
    · exact hi.sub_inv i (by rw [expanded_num_submaps] at hil; omega)
  · intro i hil
    rw [expanded_get_submap hi hlt]
    split_ifs with hin
    · rfl
    · exact hi.factor i (by rw [expanded_num_submaps] at hil; omega)
  · rw [expanded_num_entries, expanded_num_submaps, List.sum_range_succ,
      expanded_get_submap hi hlt, if_pos rfl, hi.count]
    have : (List.map (fun i => (m.expanded.get_submap i).num_valid_buckets)
        (List.range m.num_submaps)) =
        (List.map (fun i => (m.get_submap i).num_valid_buckets)
        (List.range m.num_submaps)) := by
      apply List.map_congr_left
      intro i hir
      have : i ≠ m.num_submaps := by
        have := List.mem_range.mp hir
        omega
      simp only [expanded_get_submap hi hlt, if_neg this]
    rw [this]
    rfl
  · intro k1 i j i1 j1 hh hh1
    exact hi.disjoint k1 i j i1 j1 ((expanded_holds hi hlt k1 i j).mp hh)
      ((expanded_holds hi hlt k1 i1 j1).mp hh1)

/-! ### `expand` -/

theorem Inv.expand_at_cap {h : Hashers K} {m : concurrent_unordered_map K V} (hi : m.Inv h)
    (hcap : m.num_submaps = m.submaps.length) :
    m.expand = Outcome.runtime_error { m with expanding := true } := by
  unfold expand
  simp [hi.not_expanding, get_num_submaps, get_maxnum_submaps, hcap]

theorem Inv.expand_grow {h : Hashers K} {m : concurrent_unordered_map K V} (hi : m.Inv h)
    (hcap : m.num_submaps ≠ m.submaps.length)
    (ho : (m.get_submap m.get_last_submap_index).is_overloaded = true) :
    m.expand = Outcome.ret true m.expanded := by
  unfold expand
  have hg : ∀ x, get_submap ({ m with expanding := x } : concurrent_unordered_map K V)
      (m.num_submaps - 1) = m.get_submap m.get_last_submap_index := fun _ => rfl
  simp only [hi.not_expanding, get_num_submaps, get_maxnum_submaps, hcap, hg, ho]
  rfl

theorem Inv.expand_noop {h : Hashers K} {m : concurrent_unordered_map K V} (hi : m.Inv h)
    (hcap : m.num_submaps ≠ m.submaps.length)
    (ho : (m.get_submap m.get_last_submap_index).is_overloaded = false) :
    m.expand = Outcome.ret false m := by
  unfold expand
  have hg : ∀ x, get_submap ({ m with expanding := x } : concurrent_unordered_map K V)
      (m.num_submaps - 1) = m.get_submap m.get_last_submap_index := fun _ => rfl
  simp only [hi.not_expanding, get_num_submaps, get_maxnum_submaps, hcap, hg, ho]
  have := hi.not_expanding
  cases m
  simp_all

end concurrent_unordered_map

end concurrent

namespace concurrent

namespace concurrent_unordered_map

variable {K V : Type} [DecidableEq K] [Inhabited K] [Inhabited V]

/-! ### `insert_helper` -/

theorem ne_end_of_not_end (m : concurrent_unordered_map K V) (i j : Nat) :
    (⟨i, j, false⟩ : const_iterator).ne m.end_ = true := by
  simp [const_iterator.ne, const_iterator.eq, end_]

theorem end_ne_end (m : concurrent_unordered_map K V) : m.end_.ne m.end_ = false := by
  simp [const_iterator.ne, const_iterator.eq, end_]

/-- The key is held by a submap older than the newest: `insert_helper` returns
at once. -/
theorem Inv.insert_helper_older {h : Hashers K} {m : concurrent_unordered_map K V}
    (hi : m.Inv h) (key : K) (v : V) (fuel : Nat) {i j : Nat} (hh : m.holds key i j)
    (hlt : i < m.get_last_submap_index) :
    insert_helper key (h.keyHash1 key) (h.keyHash2 key) v (fuel + 1) m
      = Outcome.ret (⟨i, j, false⟩, false) m := by
  have hL := hi.last_lt
  have hf := hi.find_helper_of_holds key hh (m.get_last_submap_index - 1) (by omega) (by omega)
  rw [insert_helper]
  rw [hf, if_pos ⟨by omega, ne_end_of_not_end m i j⟩]

/-- The key is held by no submap older than the newest: `insert_helper` goes
on to the newest submap. -/
theorem insert_helper_not_older (m : concurrent_unordered_map K V) (key : K) (h1 h2 : Nat)
    (v : V) (fuel : Nat)
    (hn : ∀ i j, i < m.get_last_submap_index → ¬ (m.get_submap i).holds key j) :
    insert_helper key h1 h2 v (fuel + 1) m =
      if (m.get_submap m.get_last_submap_index).is_overloaded = true then
        match m.expand with
        | Outcome.ret _ m1 => insert_helper key h1 h2 v fuel m1
        | Outcome.runtime_error m1 => Outcome.runtime_error m1
        | Outcome.spin => Outcome.spin
        | Outcome.fuel => Outcome.fuel
      else
        match (m.get_submap m.get_last_submap_index).insert key h1 h2 v with
        | Submap.InsertResult.done index inserted sm =>
          Outcome.ret (⟨m.get_last_submap_index, index, false⟩, inserted)
            (if inserted = true then
              incrementnum_entries
                { m with submaps := List.set m.submaps m.get_last_submap_index (some sm) }
            else { m with submaps := List.set m.submaps m.get_last_submap_index (some sm) })
        | Submap.InsertResult.FullSubmapException =>
          match m.expand with
          | Outcome.ret _ m1 => insert_helper key h1 h2 v fuel m1
          | Outcome.runtime_error m1 => Outcome.runtime_error m1
          | Outcome.spin => Outcome.spin
          | Outcome.fuel => Outcome.fuel := by
  rw [insert_helper]
  have hc : ¬ (m.get_last_submap_index > 0 ∧
      (m.find_helper key h1 h2 (m.get_last_submap_index - 1)).ne m.end_ = true) := by
    rintro ⟨hpos, hne⟩
    rw [find_helper_of_not_holds m key h1 h2 _ (fun i j hle => hn i j (by omega)),
      end_ne_end] at hne
    exact absurd hne (by simp)
  simp only [hc, if_false]

theorem Inv.not_older_of_last {h : Hashers K} {m : concurrent_unordered_map K V}
    (hi : m.Inv h) {key : K} {j : Nat} (hh : m.holds key m.get_last_submap_index j) :
    ∀ i j1, i < m.get_last_submap_index → ¬ (m.get_submap i).holds key j1 := by
  intro i j1 hlt hc
  have := hi.disjoint key i j1 _ j ⟨by have := hi.last_lt; unfold get_num_submaps; omega, hc⟩ hh
  omega

theorem not_older_of_absent (m : concurrent_unordered_map K V) (key : K)
    (hn : ∀ i j, ¬ m.holds key i j) (hL : m.get_last_submap_index < m.num_submaps) :
    ∀ i j1, i < m.get_last_submap_index → ¬ (m.get_submap i).holds key j1 := by
  intro i j1 hlt hc
  exact hn i j1 ⟨by unfold get_num_submaps; omega, hc⟩

theorem Inv.set_last_self {h : Hashers K} {m : concurrent_unordered_map K V} (hi : m.Inv h) :
    ({ m with submaps := (List.set m.submaps m.get_last_submap_index
        (some (m.get_submap m.get_last_submap_index))) } : concurrent_unordered_map K V) = m := by
  have := list_set_self m.submaps _ _ (hi.live _ hi.last_lt)
  cases m
  simp_all

/-- The key is held by the newest submap, which is not overloaded. -/
theorem Inv.insert_helper_last {h : Hashers K} {m : concurrent_unordered_map K V}
    (hi : m.Inv h) (key : K) (v : V) (fuel : Nat) {j : Nat}
    (hh : m.holds key m.get_last_submap_index j)
    (ho : (m.get_submap m.get_last_submap_index).is_overloaded = false) :
    insert_helper key (h.keyHash1 key) (h.keyHash2 key) v (fuel + 1) m
      = Outcome.ret (⟨m.get_last_submap_index, j, false⟩, false) m := by
  rw [insert_helper_not_older m key _ _ v fuel (hi.not_older_of_last hh), ho,
    (hi.sub_inv _ hi.last_lt).insert_of_holds v hh.2]
  simp only [Bool.false_eq_true, if_false]
  rw [hi.set_last_self]

/-- The key is held by no submap and the newest submap is not overloaded: the
entry is stored in an EMPTY bucket of the newest submap. -/
theorem Inv.insert_helper_new {h : Hashers K} {m : concurrent_unordered_map K V}
    (hi : m.Inv h) (key : K) (v : V) (fuel : Nat) (hn : ∀ i j, ¬ m.holds key i j)
    (ho : (m.get_submap m.get_last_submap_index).is_overloaded = false) :
    ∃ e, e < (m.get_submap m.get_last_submap_index).get_capacity ∧
      ((m.get_submap m.get_last_submap_index).get_bucket e).state = Bucket.State.EMPTY ∧
      insert_helper key (h.keyHash1 key) (h.keyHash2 key) v (fuel + 1) m
        = Outcome.ret (⟨m.get_last_submap_index, e, false⟩, true) (m.stored e key v) ∧
      (m.stored e key v).Inv h := by
  have hsi := hi.sub_inv _ hi.last_lt
  have hlt := hsi.not_overloaded_lt (by rw [hi.factor _ hi.last_lt]; exact hi.factor_pos)
    (by rw [hi.factor _ hi.last_lt]; exact hi.factor_lt)
    (by rw [hi.factor _ hi.last_lt]; exact hi.factor_number) ho
  obtain ⟨e, he, hemp, hins, hinv⟩ := hsi.insert_new key v (fun j hc => hn _ j ⟨hi.last_lt, hc⟩) hlt
  refine ⟨e, he, hemp, ?_, hi.stored e key v he hemp hinv hn⟩
  rw [insert_helper_not_older m key _ _ v fuel (not_older_of_absent m key hn hi.last_lt), ho, hins]
  rfl

/-- The key is held by no submap older than the newest, which is overloaded:
`expand` throws at the cap, and else appends a submap for the next turn of the
loop. -/
theorem Inv.insert_helper_overloaded {h : Hashers K} {m : concurrent_unordered_map K V}
    (hi : m.Inv h) (key : K) (v : V) (fuel : Nat)
    (hn : ∀ i j, i < m.get_last_submap_index → ¬ (m.get_submap i).holds key j)
    (ho : (m.get_submap m.get_last_submap_index).is_overloaded = true) :
    insert_helper key (h.keyHash1 key) (h.keyHash2 key) v (fuel + 1) m =
      if m.num_submaps = m.submaps.length then Outcome.runtime_error { m with expanding := true }
      else insert_helper key (h.keyHash1 key) (h.keyHash2 key) v fuel m.expanded := by
  rw [insert_helper_not_older m key _ _ v fuel hn, if_pos ho]
  by_cases hcap : m.num_submaps = m.submaps.length
  · rw [hi.expand_at_cap hcap, if_pos hcap]
  · rw [hi.expand_grow hcap ho, if_neg hcap]

theorem Inv.expanded_not_overloaded {h : Hashers K} {m : concurrent_unordered_map K V}
    (hi : m.Inv h) (hlt : m.num_submaps < m.submaps.length) :
    (m.expanded.get_submap m.expanded.get_last_submap_index).is_overloaded = false := by
  rw [expanded_last, expanded_get_submap hi hlt, if_pos rfl]
  apply Submap.not_overloaded_of_zero
  · rw [Submap.new_capacity]
    exact (next_prime_prime _).pos
  · exact hi.factor_pos
  · rfl

end concurrent_unordered_map

end concurrent

namespace concurrent

namespace concurrent_unordered_map

variable {K V : Type} [DecidableEq K] [Inhabited K] [Inhabited V]

/-! ### `insert`: the outcome -/

/-- More fuel does not change what `insert_helper` does once the fuel was
enough. -/
theorem insert_helper_fuel_mono (key : K) (h1 h2 : Nat) (v : V) :
    ∀ (fuel : Nat) (m : concurrent_unordered_map K V),
      insert_helper key h1 h2 v fuel m ≠ Outcome.fuel →
      insert_helper key h1 h2 v (fuel + 1) m = insert_helper key h1 h2 v fuel m := by
  intro fuel
  induction fuel with
  | zero =>
    intro m hne
    exact absurd rfl hne
  | succ fuel ih =>
    intro m hne
    rw [insert_helper] at hne
    rw [insert_helper, insert_helper.eq_2]
    simp only [] at hne ⊢
    by_cases hc : m.get_last_submap_index > 0 ∧
        (m.find_helper key h1 h2 (m.get_last_submap_index - 1)).ne m.end_ = true
    · rw [if_pos hc, if_pos hc]
    · rw [if_neg hc] at hne ⊢
      rw [if_neg hc]
      cases ho : (m.get_submap m.get_last_submap_index).is_overloaded with
      | true =>
        simp only [ho, if_true] at hne ⊢
        cases he : m.expand with
        | ret b m1 =>
          simp only [he] at hne ⊢
          exact ih m1 hne
        | runtime_error m1 => rfl
        | spin => rfl
        | fuel => rfl
      | false =>
        simp only [ho, Bool.false_eq_true, if_false] at hne ⊢
        cases hs : (m.get_submap m.get_last_submap_index).insert key h1 h2 v with
        | done index inserted sm => rfl
        | FullSubmapException =>
          simp only [hs] at hne ⊢
          cases he : m.expand with
          | ret b m1 =>
            simp only [he] at hne ⊢
            exact ih m1 hne
          | runtime_error m1 => rfl
          | spin => rfl
          | fuel => rfl

theorem insert_helper_fuel_add (key : K) (h1 h2 : Nat) (v : V) (fuel : Nat)
    (m : concurrent_unordered_map K V) (hne : insert_helper key h1 h2 v fuel m ≠ Outcome.fuel) :
    ∀ n, insert_helper key h1 h2 v (fuel + n) m = insert_helper key h1 h2 v fuel m := by
  intro n
  induction n with
  | zero => rfl
  | succ n ih =>
    rw [← Nat.add_assoc, insert_helper_fuel_mono key h1 h2 v (fuel + n) m (by rw [ih]; exact hne),
      ih]

/-- With fuel for two turns of its loop, `insert` on a map that satisfies the
invariant ends in one of the six ways of `InsertStep`. -/
theorem Inv.insert_step {h : Hashers K} {m : concurrent_unordered_map K V} (hi : m.Inv h)
    (key : K) (v : V) (fuel : Nat) :
    InsertStep h m key v (insert h (fuel + 2) m key v) := by
  unfold insert
  have hL := hi.last_lt
  by_cases hp : ∃ i j, m.holds key i j
  · obtain ⟨i, j, hh⟩ := hp
    have hile : i ≤ m.get_last_submap_index := by
      have := hh.1
      unfold get_last_submap_index
      omega
    rcases Nat.lt_or_ge i m.get_last_submap_index with hlt | hge
    · rw [hi.insert_helper_older key v (fuel + 1) hh hlt]
      exact InsertStep.older i j hh hlt
    · have hil : i = m.get_last_submap_index := le_antisymm hile hge
      subst hil
      cases ho : (m.get_submap m.get_last_submap_index).is_overloaded with
      | false =>
        rw [hi.insert_helper_last key v (fuel + 1) hh ho]
        exact InsertStep.last j hh ho
      | true =>
        rw [hi.insert_helper_overloaded key v (fuel + 1) (hi.not_older_of_last hh) ho]
        by_cases hcap : m.num_submaps = m.submaps.length
        · rw [if_pos hcap]
          exact InsertStep.error
            (fun i1 j1 hlt hc => hi.not_older_of_last hh i1 j1 hlt hc.2) ho hcap
        · rw [if_neg hcap]
          have hlt : m.num_submaps < m.submaps.length := lt_of_le_of_ne hi.num_le hcap
          have hie := hi.expanded hlt
          have hh1 : m.expanded.holds key m.get_last_submap_index j :=
            (expanded_holds hi hlt key _ j).mpr hh
          rw [hie.insert_helper_older key v fuel hh1 (by rw [expanded_last]; exact hL)]
          exact InsertStep.last_grow j hh ho hlt
  · have hn : ∀ i j, ¬ m.holds key i j := fun i j hc => hp ⟨i, j, hc⟩
    cases ho : (m.get_submap m.get_last_submap_index).is_overloaded with
    | false =>
      obtain ⟨e, he, hemp, hins, hinv⟩ := hi.insert_helper_new key v (fuel + 1) hn ho
      rw [hins]
      exact InsertStep.new e hn ho he hemp hinv
    | true =>
      rw [hi.insert_helper_overloaded key v (fuel + 1) (not_older_of_absent m key hn hL) ho]
      by_cases hcap : m.num_submaps = m.submaps.length
      · rw [if_pos hcap]
        exact InsertStep.error (fun i1 j1 _ hc => hn i1 j1 hc) ho hcap
      · rw [if_neg hcap]
        have hlt : m.num_submaps < m.submaps.length := lt_of_le_of_ne hi.num_le hcap
        have hie := hi.expanded hlt
        have hn1 : ∀ i j, ¬ m.expanded.holds key i j :=
          fun i j hc => hn i j ((expanded_holds hi hlt key i j).mp hc)
        obtain ⟨e, he, hemp, hins, hinv⟩ :=
          hie.insert_helper_new key v fuel hn1 (hi.expanded_not_overloaded hlt)
        rw [hins]
        exact InsertStep.new_grow e hn ho hlt he hemp hinv

/-- A call of `insert` that returns or throws, with whatever fuel, ends in one
of the six ways of `InsertStep`. -/
theorem Inv.insert_step_of_ne_fuel {h : Hashers K} {m : concurrent_unordered_map K V}
    (hi : m.Inv h) (key : K) (v : V) (fuel : Nat)
    (hne : insert h fuel m key v ≠ Outcome.fuel) :
    InsertStep h m key v (insert h fuel m key v) := by
  have h2 := insert_helper_fuel_add key (h.keyHash1 key) (h.keyHash2 key) v fuel m hne 2
  have := hi.insert_step key v fuel
  unfold insert at this ⊢
  have e : fuel + 2 = fuel + 2 := rfl
  rw [h2] at this
  exact this

theorem Inv.insert_step_of_ret {h : Hashers K} {m m1 : concurrent_unordered_map K V}
    (hi : m.Inv h) {key : K} {v : V} {fuel : Nat} {r : const_iterator × Bool}
    (hr : insert h fuel m key v = Outcome.ret r m1) :
    InsertStep h m key v (Outcome.ret r m1) := by
  have := hi.insert_step_of_ne_fuel key v fuel (by rw [hr]; simp)
  rwa [hr] at this

end concurrent_unordered_map

end concurrent

namespace concurrent

namespace concurrent_unordered_map

variable {K V : Type} [DecidableEq K] [Inhabited K] [Inhabited V]

/-! ### The constructor -/

theorem first_capacity_prime (n : Nat) : Nat.Prime (first_capacity n) := by
  unfold first_capacity FIRST_SUBMAP_MIN_CAPACITY
  rcases max_cases 11 (next_prime n) with ⟨h1, _⟩ | ⟨h1, _⟩
  · rw [h1]; norm_num
  · rw [h1]; exact next_prime_prime _

theorem first_capacity_ge (n : Nat) : 11 ≤ first_capacity n :=
  le_max_left _ _

theorem new_eq (n : Nat) (f : Flt) (M : Nat) :
    (concurrent_unordered_map.new n f M : Except Failure (concurrent_unordered_map K V)) =
      if Flt.le f (Flt.ofNat 0) || Flt.ge f (Flt.ofNat 1) then
        Except.error (Failure.logic_error "Invalid maximum load factor")
      else if M < 1 then Except.error (Failure.logic_error "Invalid maximum number of submaps")
      else
        match first_estimate n f with
        | none => Except.error Failure.undefined
        | some q =>
          Except.ok
            ⟨f, 1, (List.replicate M none).set 0 (some (Submap.new (first_capacity q) f)), 0,
              false⟩ := rfl

theorem new_ok {n : Nat} {f : Flt} {M : Nat} {m : concurrent_unordered_map K V}
    (hm : concurrent_unordered_map.new n f M = Except.ok m) :
    Flt.le f (Flt.ofNat 0) = false ∧ Flt.ge f (Flt.ofNat 1) = false ∧ 1 ≤ M ∧
      ∃ q, first_estimate n f = some q ∧
        m = ⟨f, 1, (List.replicate M none).set 0 (some (Submap.new (first_capacity q) f)), 0,
          false⟩ := by
  rw [new_eq] at hm
  split_ifs at hm with h1 h2
  simp only [Bool.or_eq_true, not_or, Bool.not_eq_true] at h1
  cases hq : first_estimate n f with
  | none =>
    rw [hq] at hm
    exact absurd hm (by simp)
  | some q =>
    rw [hq] at hm
    simp only [Except.ok.injEq] at hm
    exact ⟨h1.1, h1.2, by omega, q, rfl, hm.symm⟩

/-- A map that the constructor built has a load factor that is a number. -/
theorem first_estimate_number {n : Nat} {f : Flt} {q : Nat}
    (hq : first_estimate n f = some q) : f ≠ Flt.nan := by
  intro hf
  subst hf
  rw [first_estimate, Flt.toSize_div_nan] at hq
  exact absurd hq (by simp)

theorem new_get_submap_zero (f : Flt) (M : Nat) (hM : 1 ≤ M) (sm : Submap K V) (a b : Nat)
    (x : Bool) :
    get_submap (⟨f, a, (List.replicate M none).set 0 (some sm), b, x⟩ :
      concurrent_unordered_map K V) 0 = sm := by
  unfold get_submap
  rw [List.getD_eq_getElem?_getD, List.getElem?_set_eq_of_lt]
  · rfl
  · simp; omega

theorem new_Inv (h : Hashers K) {n : Nat} {f : Flt} {M : Nat} {m : concurrent_unordered_map K V}
    (hm : concurrent_unordered_map.new n f M = Except.ok m) : m.Inv h := by
  obtain ⟨h1, h2, hM, q, hq, rfl⟩ := new_ok hm
  have hg := new_get_submap_zero f M hM (Submap.new (first_capacity q) f : Submap K V) 1 0 false
  refine ⟨le_refl _, by simp; omega, ?_, ?_, ?_, h1, h2, first_estimate_number hq, ?_, ?_, rfl⟩
  · intro i hi
    have hi0 : i = 0 := by
      have : i < 1 := hi
      omega
    subst hi0
    rw [hg]
    show ((List.replicate M none).set 0 _)[0]? = _
    rw [List.getElem?_set_eq_of_lt]
    simp; omega
  · intro i hi
    have hi0 : i = 0 := by
      have : i < 1 := hi
      omega
    subst hi0
    rw [hg]
    exact Submap.new_sub_Inv h _ _ (first_capacity_prime q)
  · intro i hi
    have hi0 : i = 0 := by
      have : i < 1 := hi
      omega
    subst hi0
    rw [hg]
    rfl
  · show 0 = (List.map _ (List.range 1)).sum
    rw [show List.range 1 = [0] from rfl]
    simp only [List.map_cons, List.map_nil, List.sum_cons, List.sum_nil, hg]
    rfl
  · intro key i j i1 j1 hh hh1
    have a : i < 1 := hh.1
    have b : i1 < 1 := hh1.1
    omega

theorem new_entries {n : Nat} {f : Flt} {M : Nat} {m : concurrent_unordered_map K V}
    (hm : concurrent_unordered_map.new n f M = Except.ok m) : m.entries = [] := by
  obtain ⟨h1, h2, hM, q, hq, rfl⟩ := new_ok hm
  have hg := new_get_submap_zero f M hM (Submap.new (first_capacity q) f : Submap K V) 1 0 false
  unfold entries get_num_submaps
  rw [show List.range 1 = [0] from rfl]
  simp only [List.flatMap_singleton, hg, Submap.new_valid_entries]

/-! ### After `insert` -/

theorem InsertStep.inv_after {h : Hashers K} {m m1 : concurrent_unordered_map K V} (hi : m.Inv h)
    {key : K} {v : V} {r : const_iterator × Bool}
    (hs : InsertStep h m key v (Outcome.ret r m1)) : m1.Inv h := by
  cases hs with
  | older i j hh hlt => exact hi
  | last j hh ho => exact hi
  | last_grow j hh ho hlt => exact hi.expanded hlt
  | new e hn ho he hemp hinv => exact hinv
  | new_grow e hn ho hlt he hemp hinv => exact hinv

/-- Every reachable state satisfies the invariant. -/
theorem Reachable.inv {h : Hashers K} {m : concurrent_unordered_map K V}
    (hr : Reachable h m) : m.Inv h := by
  induction hr with
  | init n f M m hm => exact new_Inv h hm
  | step fuel m m1 key v r _ hins ih => exact (ih.insert_step_of_ret hins).inv_after ih

/-- An `insert` that returns `false` found the key: the entries and the entry
counter are unchanged and the returned iterator is at the bucket that holds
the key. -/
theorem InsertStep.of_false {h : Hashers K} {m m1 : concurrent_unordered_map K V} (hi : m.Inv h)
    {key : K} {v : V} {it : const_iterator}
    (hs : InsertStep h m key v (Outcome.ret (it, false) m1)) :
    m.holds key it.submapIndex it.bucketIndex ∧ it.end_ = false ∧
      m1.entries = m.entries ∧ m1.num_entries = m.num_entries ∧
      m1.get_entry it = m.get_entry it ∧ (m1 = m ∨ m1 = m.expanded) := by
  cases hs with
  | older i j hh hlt => exact ⟨hh, rfl, rfl, rfl, rfl, Or.inl rfl⟩
  | last j hh ho => exact ⟨hh, rfl, rfl, rfl, rfl, Or.inl rfl⟩
  | last_grow j hh ho hlt =>
    refine ⟨hh, rfl, expanded_entries hi hlt, rfl, ?_, Or.inr rfl⟩
    unfold get_entry
    rw [expanded_get_submap hi hlt, if_neg]
    have := hi.last_lt
    show m.get_last_submap_index ≠ m.num_submaps
    omega

/-- An `insert` that returns `true` did not find the key: the new entry is
added to the entries, the entry counter is incremented and the returned
iterator is at the new entry. -/
theorem InsertStep.of_true {h : Hashers K} {m m1 : concurrent_unordered_map K V} (hi : m.Inv h)
    {key : K} {v : V} {it : const_iterator}
    (hs : InsertStep h m key v (Outcome.ret (it, true) m1)) :
    (∀ i j, ¬ m.holds key i j) ∧ it.end_ = false ∧
      (∃ l1 l2, m.entries = l1 ++ l2 ∧ m1.entries = l1 ++ (key, v) :: l2) ∧
      m1.num_entries = m.num_entries + 1 ∧ m1.get_entry it = (key, v) ∧
      m1.holds key it.submapIndex it.bucketIndex := by
  cases hs with
  | new e hn ho he hemp hinv =>
    refine ⟨hn, rfl, stored_entries hi e key v he hemp, rfl, stored_get_entry_new hi e key v he,
      (stored_holds hi e key v he hemp key _ _).mpr (Or.inr ⟨rfl, rfl, rfl⟩)⟩
  | new_grow e hn ho hlt he hemp hinv =>
    have hie := hi.expanded hlt
    have := stored_entries hie e key v he hemp
    rw [expanded_entries hi hlt] at this
    refine ⟨hn, rfl, this, rfl, stored_get_entry_new hie e key v he,
      (stored_holds hie e key v he hemp key _ _).mpr (Or.inr ⟨rfl, rfl, rfl⟩)⟩

end concurrent_unordered_map

end concurrent
namespace channel

/-! ## Ring: lemmas -/

namespace circular_buffer

variable {T : Type} [Inhabited T] {buffer_size : Nat}

theorem increment_eq_mod (b : circular_buffer T buffer_size) (p : Nat) (hp : p < buffer_size) :
    b.increment p = (p + 1) % buffer_size := by
  unfold increment
  split_ifs with h
  · rw [h, Nat.mod_self]
  · rw [Nat.mod_eq_of_lt (by omega)]

theorem offset_inj {f i j n : Nat} (hi : i < n) (hj : j < n)
    (h : (f + i) % n = (f + j) % n) : i = j := by
  have h1 : i ≡ j [MOD n] := Nat.ModEq.add_left_cancel' f h
  exact Nat.ModEq.eq_of_lt_of_lt h1 hi hj

theorem new_WF (hN : 1 ≤ buffer_size) : (new T buffer_size).WF := by
  refine ⟨by simp [new], by simp [new]; omega, by simp [new], ?_⟩
  simp [new]

theorem new_contents : (new T buffer_size).contents = [] := by
  simp [new, contents]

theorem push_back_full (b : circular_buffer T buffer_size) (x : T) (h : b.full = true) :
    b.push_back x = (Except.error "container is full", b) := by
  simp [push_back, h]

theorem push_back_ok (b : circular_buffer T buffer_size) (x : T) (hwf : b.WF)
    (h : b.full = false) :
    ∃ b1, b.push_back x = (Except.ok (), b1) ∧ b1.WF ∧ b1.contents = b.contents ++ [x] := by
  have hne : b._size ≠ buffer_size := by simpa [full] using h
  have hlt : b._size < buffer_size := lt_of_le_of_ne hwf.size_le hne
  have hpos : 0 < buffer_size := by omega
  have hend : b._end < buffer_size := by rw [hwf.end_eq]; exact Nat.mod_lt _ hpos
  refine ⟨⟨List.set b.buffer b._end x, b._front, b.increment b._end, b._size + 1⟩,
    by simp [push_back, h, increment], ?_, ?_⟩
  · refine ⟨by simp [hwf.length_eq], hwf.front_lt, by simp; omega, ?_⟩
    simp only
    rw [increment_eq_mod _ _ hend, hwf.end_eq, Nat.mod_add_mod, Nat.add_assoc]
  · simp only [contents, List.range_succ, List.map_append, List.map_cons, List.map_nil]
    congr 1
    · apply List.map_congr_left
      intro i hi
      have hi' : i < b._size := List.mem_range.mp hi
      rw [List.getD_eq_getElem?_getD, List.getD_eq_getElem?_getD, List.getElem?_set_ne]
      rw [hwf.end_eq]
      intro heq
      have := offset_inj (by omega) (by omega) heq
      omega
    · rw [hwf.end_eq, List.getD_eq_getElem?_getD, List.getElem?_set_eq_of_lt]
      · simp
      · rw [hwf.length_eq]; exact Nat.mod_lt _ hpos

theorem contents_cons (b : circular_buffer T buffer_size) (hwf : b.WF) (h : b.empty = false) :
    ∃ b1 : circular_buffer T buffer_size,
      b1 = { b with _size := b._size - 1, _front := b.increment b._front } ∧ b1.WF ∧
      b.contents = b.buffer.getD b._front default :: b1.contents := by
  have hpos : 0 < b._size := by
    have : ¬ b._size ≤ 0 := by simpa [empty] using h
    omega
  have hf := hwf.front_lt
  refine ⟨_, rfl, ?_, ?_⟩
  · refine ⟨hwf.length_eq, ?_, by simp; have := hwf.size_le; omega, ?_⟩
    · simp only
      rw [increment_eq_mod _ _ hf]
      exact Nat.mod_lt _ (by omega)
    · simp only
      rw [increment_eq_mod _ _ hf, hwf.end_eq, Nat.mod_add_mod]
      congr 1
      omega
  · obtain ⟨n, hn⟩ : ∃ n, b._size = n + 1 := ⟨b._size - 1, by omega⟩
    simp only [contents, hn, Nat.add_sub_cancel, List.range_succ_eq_map, List.map_cons,
      List.map_map, Nat.add_zero, Nat.mod_eq_of_lt hf]
    congr 1
    apply List.map_congr_left
    intro i _
    simp only [Function.comp]
    rw [increment_eq_mod _ _ hf, Nat.mod_add_mod]
    congr 2
    omega

theorem pop_ok (b : circular_buffer T buffer_size) (hwf : b.WF) (h : b.empty = false) :
    ∃ b1, b.pop = (Except.ok (), b1) ∧ b1.WF ∧
      b.contents = b.buffer.getD b._front default :: b1.contents := by
  obtain ⟨b1, hb1, hwf1, hc⟩ := contents_cons b hwf h
  refine ⟨b1, ?_, hwf1, hc⟩
  simp [pop, h, hb1, increment]

theorem pop_front_ok (b : circular_buffer T buffer_size) (hwf : b.WF) (h : b.empty = false) :
    ∃ b1, b.pop_front = (Except.ok (b.buffer.getD b._front default), b1) ∧ b1.WF ∧
      b.contents = b.buffer.getD b._front default :: b1.contents := by
  obtain ⟨b1, hb1, hwf1, hc⟩ := contents_cons b hwf h
  refine ⟨b1, ?_, hwf1, hc⟩
  simp [pop_front, h, hb1, increment]

end circular_buffer

theorem run_ring_spec {T : Type} [Inhabited T] {buffer_size : Nat} (ops : List (RingOp T)) :
    ∀ (b : circular_buffer T buffer_size) (pushed popped : List T)
      (r : circular_buffer T buffer_size × List T × List T),
      b.WF → pushed = popped ++ b.contents → run_ring ops b pushed popped = some r →
        r.1.WF ∧ r.2.1 = r.2.2 ++ r.1.contents ∧ r.2.1 = pushed ++ pushes ops ∧
          r.2.2.length = popped.length + pops ops := by
  induction ops with
  | nil =>
    intro b pushed popped r hwf hc hr
    simp only [run_ring, Option.some.injEq] at hr
    subst hr
    simp [hwf, hc, pushes, pops]
  | cons op ops ih =>
    intro b pushed popped r hwf hc hr
    cases op with
    | push x =>
      cases hfull : b.full with
      | true =>
        simp [run_ring, circular_buffer.push, circular_buffer.push_back_full b x hfull] at hr
      | false =>
        obtain ⟨b1, hb1, hwf1, hc1⟩ := circular_buffer.push_back_ok b x hwf hfull
        simp only [run_ring, circular_buffer.push, hb1] at hr
        have := ih b1 (pushed ++ [x]) popped r hwf1 (by rw [hc1, hc, List.append_assoc]) hr
        simpa [pushes, pops] using this
    | pop =>
      cases hemp : b.empty with
      | true => simp [run_ring, circular_buffer.front, hemp] at hr
      | false =>
        obtain ⟨b1, hb1, hwf1, hc1⟩ := circular_buffer.pop_ok b hwf hemp
        simp only [run_ring, circular_buffer.front, hemp] at hr
        simp only [Bool.false_eq_true, if_false, hb1] at hr
        have := ih b1 pushed (popped ++ [b.buffer.getD b._front default]) r hwf1
          (by rw [hc, hc1]; simp) hr
        simpa [pushes, pops, Nat.add_assoc, Nat.add_comm 1] using this
    | pop_front =>
      cases hemp : b.empty with
      | true => simp [run_ring, circular_buffer.pop_front, hemp] at hr
      | false =>
        obtain ⟨b1, hb1, hwf1, hc1⟩ := circular_buffer.pop_front_ok b hwf hemp
        simp only [run_ring, hb1] at hr
        have := ih b1 pushed (popped ++ [b.buffer.getD b._front default]) r hwf1
          (by rw [hc, hc1]; simp) hr
        simpa [pushes, pops, Nat.add_assoc, Nat.add_comm 1] using this

end channel

namespace concurrent

namespace Submap

variable {K V : Type} [DecidableEq K] [Inhabited K] [Inhabited V]

theorem Inv.valid_keys_nodup {h : Hashers K} {sm : Submap K V} (hi : sm.Inv h) :
    (sm.valid_entries.map Prod.fst).Nodup := by
  unfold valid_entries
  rw [List.map_map]
  unfold List.Nodup
  rw [List.pairwise_map]
  have hp : List.Pairwise (fun a b : Bucket K V =>
      a.state = Bucket.State.VALID → b.state = Bucket.State.VALID → a.entry.1 ≠ b.entry.1)
      sm.buckets := by
    rw [List.pairwise_iff_getElem]
    intro i j hil hjl hij ha hb heq
    have h1 : sm.holds (sm.buckets[j]).entry.1 i := by
      rw [holds, get_bucket_eq_getElem sm i hil]
      exact ⟨ha, heq⟩
    have h2 : sm.holds (sm.buckets[j]).entry.1 j := by
      rw [holds, get_bucket_eq_getElem sm j hjl]
      exact ⟨hb, rfl⟩
    have := hi.sub_holds_unique h1 h2
    omega
  have hf := hp.filter (fun b => decide (b.state = Bucket.State.VALID))
  refine List.Pairwise.imp_of_mem ?_ hf
  intro a b ha hb hab
  have ha1 := (List.mem_filter.mp ha).2
  have hb1 := (List.mem_filter.mp hb).2
  simp only [decide_eq_true_eq] at ha1 hb1
  exact hab ha1 hb1

theorem mem_valid_keys (sm : Submap K V) (key : K) :
    key ∈ sm.valid_entries.map Prod.fst ↔ ∃ j, sm.holds key j := by
  simp only [List.mem_map]
  constructor
  · rintro ⟨x, hx, rfl⟩
    obtain ⟨j, h1, h2⟩ := (mem_valid_entries sm x).mp hx
    exact ⟨j, h1, by rw [h2]⟩
  · rintro ⟨j, h1, h2⟩
    exact ⟨(sm.get_bucket j).entry, (mem_valid_entries sm _).mpr ⟨j, h1, rfl⟩, h2⟩

end Submap

namespace concurrent_unordered_map

variable {K V : Type} [DecidableEq K] [Inhabited K] [Inhabited V]

/-- Under the invariant the keys of the entries are pairwise different. -/
theorem Inv.keys_nodup {h : Hashers K} {m : concurrent_unordered_map K V} (hi : m.Inv h) :
    (m.entries.map Prod.fst).Nodup := by
  unfold entries
  rw [List.map_flatMap, List.nodup_flatMap]
  constructor
  · intro i hir
    exact (hi.sub_inv i (List.mem_range.mp hir)).valid_keys_nodup
  · apply List.Nodup.pairwise_of_forall_ne (List.nodup_range _)
    intro a ha b hb hab
    have ha1 := List.mem_range.mp ha
    have hb1 := List.mem_range.mp hb
    show List.Disjoint _ _
    intro key hka hkb
    obtain ⟨j, hj⟩ := (Submap.mem_valid_keys _ key).mp hka
    obtain ⟨j1, hj1⟩ := (Submap.mem_valid_keys _ key).mp hkb
    exact hab (hi.disjoint key a j b j1 ⟨ha1, hj⟩ ⟨hb1, hj1⟩)

/-- Under the invariant the entry counter is the number of entries. -/
theorem Inv.entries_length {h : Hashers K} {m : concurrent_unordered_map K V} (hi : m.Inv h) :
    m.entries.length = m.num_entries := by
  unfold entries get_num_submaps
  rw [List.length_flatMap, hi.count]
  congr 1
  apply List.map_congr_left
  intro i hir
  simp only [Function.comp]
  exact ((hi.sub_inv i (List.mem_range.mp hir)).count).symm

theorem num_valid_eq (m : concurrent_unordered_map K V) : m.num_valid = m.entries.length := by
  unfold num_valid entries
  rw [List.length_flatMap]
  congr 1
  apply List.map_congr_left
  intro i _
  simp [Submap.valid_entries]

theorem stats_sum {h : Hashers K} {m : concurrent_unordered_map K V} (hi : m.Inv h) :
    (m.get_stats.submaps_stats.map fun s => s.num_valid_buckets).sum = m.num_entries := by
  unfold get_stats
  simp only [List.map_map]
  rw [hi.count]
  rfl

/-- Under the invariant `find` returns the iterator at the bucket that holds
the key. -/
theorem Inv.find_of_holds {h : Hashers K} {m : concurrent_unordered_map K V} (hi : m.Inv h)
    {key : K} {i j : Nat} (hh : m.holds key i j) : find h m key = ⟨i, j, false⟩ := by
  unfold find
  have := hh.1
  exact hi.find_helper_of_holds key hh m.get_last_submap_index
    (by unfold get_last_submap_index; omega) hi.last_lt

theorem find_of_absent (h : Hashers K) (m : concurrent_unordered_map K V) (key : K)
    (hL : m.get_last_submap_index < m.num_submaps) (hn : ∀ i j, ¬ m.holds key i j) :
    find h m key = m.end_ := by
  unfold find
  apply find_helper_of_not_holds
  intro i j hle hc
  exact hn i j ⟨by unfold get_num_submaps; omega, hc⟩

theorem Inv.find_of_mem {h : Hashers K} {m : concurrent_unordered_map K V} (hi : m.Inv h)
    {key : K} {v : V} (hmem : (key, v) ∈ m.entries) :
    (find h m key).ne m.end_ = true ∧ m.get_entry (find h m key) = (key, v) ∧
      at_ h m key = Except.ok v := by
  obtain ⟨i, j, hh, he⟩ := (mem_entries m (key, v)).mp hmem
  have hf := hi.find_of_holds hh
  have hg : m.get_entry (find h m key) = (key, v) := by
    rw [hf]
    exact he
  refine ⟨by rw [hf]; exact ne_end_of_not_end m i j, hg, ?_⟩
  unfold at_
  simp only [hg]
  rw [hf]
  simp [const_iterator.eq, end_]

theorem Inv.find_of_not_mem {h : Hashers K} {m : concurrent_unordered_map K V} (hi : m.Inv h)
    {key : K} (hn : key ∉ m.entries.map Prod.fst) :
    find h m key = m.end_ ∧ at_ h m key = Except.error "entry not found" := by
  have hf := find_of_absent h m key hi.last_lt
    (fun i j hc => hn ((mem_keys_iff m key).mpr ⟨i, j, hc⟩))
  refine ⟨hf, ?_⟩
  unfold at_
  simp only [hf]
  simp [const_iterator.eq, end_]

/-- Under the invariant a key has one value at most. -/
theorem Inv.value_unique {h : Hashers K} {m : concurrent_unordered_map K V} (hi : m.Inv h)
    {key : K} {v v1 : V} (hm : (key, v) ∈ m.entries) (hm1 : (key, v1) ∈ m.entries) : v = v1 := by
  have a := (hi.find_of_mem hm).2.1
  have b := (hi.find_of_mem hm1).2.1
  rw [a] at b
  exact (Prod.mk.inj b).2

/-! ### A run of inserts -/

theorem first_write_cons (k : K) (v0 : V) (kvs : List (K × V)) (key : K) :
    first_write ((k, v0) :: kvs) key = if k = key then some v0 else first_write kvs key := by
  unfold first_write
  rw [List.find?_cons]
  by_cases hkk : k = key
  · simp [hkk]
  · simp [hkk]

theorem run_inserts_spec (h : Hashers K) (fuel : Nat) :
    ∀ (kvs : List (K × V)) (m0 m : concurrent_unordered_map K V)
      (rs : List (const_iterator × Bool)),
      m0.Inv h → Reachable h m0 → run_inserts h fuel kvs m0 = some (rs, m) →
      m.Inv h ∧ Reachable h m ∧
        m.num_entries = m0.num_entries + (rs.filter fun r => r.2).length ∧
        (∀ key v, (key, v) ∈ m.entries ↔
          (key, v) ∈ m0.entries ∨
            (key ∉ m0.entries.map Prod.fst ∧ first_write kvs key = some v)) := by
  intro kvs
  induction kvs with
  | nil =>
    intro m0 m rs hi hr hrun
    simp only [run_inserts, Option.some.injEq, Prod.mk.injEq] at hrun
    obtain ⟨rfl, rfl⟩ := hrun
    refine ⟨hi, hr, by simp, fun key v => ?_⟩
    simp [first_write]
  | cons kv kvs ih =>
    intro m0 m rs hi hr hrun
    obtain ⟨k, v0⟩ := kv
    rw [run_inserts] at hrun
    cases hins : insert h fuel m0 k v0 with
    | runtime_error m1 => simp [hins] at hrun
    | spin => simp [hins] at hrun
    | fuel => simp [hins] at hrun
    | ret r m1 =>
      simp only [hins] at hrun
      cases hrest : run_inserts h fuel kvs m1 with
      | none => simp [hrest] at hrun
      | some p =>
        obtain ⟨rs1, m2⟩ := p
        simp only [hrest, Option.map_some', Option.some.injEq, Prod.mk.injEq] at hrun
        obtain ⟨rfl, rfl⟩ := hrun
        have hstep := hi.insert_step_of_ret hins
        have hi1 := hstep.inv_after hi
        have hr1 : Reachable h m1 := Reachable.step fuel m0 m1 k v0 r hr hins
        obtain ⟨hi2, hr2, hcnt, hent⟩ := ih m1 m2 rs1 hi1 hr1 hrest
        refine ⟨hi2, hr2, ?_, ?_⟩
        · obtain ⟨it, b⟩ := r
          cases b with
          | false =>
            have := (hstep.of_false hi).2.2.2.1
            rw [hcnt, this]
            simp
          | true =>
            have := (hstep.of_true hi).2.2.2.1
            rw [hcnt, this]
            simp
            omega
        · intro key v
          rw [hent]
          obtain ⟨it, b⟩ := r
          cases b with
          | false =>
            obtain ⟨hh, _, he, _⟩ := hstep.of_false hi
            rw [he]
            have hk : k ∈ m0.entries.map Prod.fst := (mem_keys_iff m0 k).mpr ⟨_, _, hh⟩
            constructor
            · rintro (h1 | ⟨h1, h2⟩)
              · exact Or.inl h1
              · refine Or.inr ⟨h1, ?_⟩
                have hne : k ≠ key := fun e => h1 (e ▸ hk)
                rw [first_write_cons, if_neg hne]
                exact h2
            · rintro (h1 | ⟨h1, h2⟩)
              · exact Or.inl h1
              · refine Or.inr ⟨h1, ?_⟩
                have hne : k ≠ key := fun e => h1 (e ▸ hk)
                rw [first_write_cons, if_neg hne] at h2
                exact h2
          | true =>
            obtain ⟨hn, _, ⟨l1, l2, e1, e2⟩, _⟩ := hstep.of_true hi
            have hk : k ∉ m0.entries.map Prod.fst :=
              fun hc => by
                obtain ⟨i, j, hh⟩ := (mem_keys_iff m0 k).mp hc
                exact hn i j hh
            have hmem : ∀ x, x ∈ m1.entries ↔ x = (k, v0) ∨ x ∈ m0.entries := by
              intro x
              rw [e1, e2]
              simp only [List.mem_append, List.mem_cons]
              tauto
            have hkeys : ∀ a, a ∈ m1.entries.map Prod.fst ↔ a = k ∨ a ∈ m0.entries.map Prod.fst := by
              intro a
              simp only [List.mem_map, hmem]
              constructor
              · rintro ⟨x, (hx | hx), rfl⟩
                · left; rw [hx]
                · right; exact ⟨x, hx, rfl⟩
              · rintro (rfl | ⟨x, hx, rfl⟩)
                · exact ⟨(a, v0), Or.inl rfl, rfl⟩
                · exact ⟨x, Or.inr hx, rfl⟩
            rw [hmem, hkeys, first_write_cons]
            by_cases hkk : k = key
            · subst hkk
              simp only [if_true, Option.some.injEq, Prod.mk.injEq, true_and, true_or,
                not_true_eq_false, false_and, or_false]
              constructor
              · rintro (h1 | h1)
                · exact Or.inr ⟨hk, h1.symm⟩
                · exact Or.inl h1
              · rintro (h1 | ⟨_, h1⟩)
                · exact Or.inr h1
                · exact Or.inl h1.symm
            · have hne : ¬ key = k := fun e => hkk e.symm
              simp only [hkk, if_false, Prod.mk.injEq, hne, false_and, false_or]

end concurrent_unordered_map

end concurrent

namespace concurrent

namespace concurrent_unordered_map

variable {K V : Type} [DecidableEq K] [Inhabited K] [Inhabited V]

/-! ### Capacities -/

theorem stored_capacity {h : Hashers K} {m : concurrent_unordered_map K V} (hi : m.Inv h)
    (e : Nat) (key : K) (v : V) (i : Nat) :
    ((m.stored e key v).get_submap i).get_capacity = (m.get_submap i).get_capacity := by
  rw [stored_get_submap hi]
  split_ifs with hil
  · rw [Submap.store_capacity, hil]
  · rfl

theorem capacity_chain_stored {h : Hashers K} {m : concurrent_unordered_map K V} (hi : m.Inv h)
    (e : Nat) (key : K) (v : V) (hc : m.capacity_chain) : (m.stored e key v).capacity_chain := by
  obtain ⟨h1, h2, h3⟩ := hc
  refine ⟨by rw [stored_capacity hi]; exact h1, by rw [stored_capacity hi]; exact h2, ?_⟩
  intro i hlt
  rw [stored_capacity hi, stored_capacity hi]
  exact h3 i hlt

theorem capacity_chain_expanded {h : Hashers K} {m : concurrent_unordered_map K V}
    (hi : m.Inv h) (hlt : m.num_submaps < m.submaps.length) (hc : m.capacity_chain) :
    m.expanded.capacity_chain := by
  obtain ⟨h1, h2, h3⟩ := hc
  have hpos := hi.num_pos
  have h0 : m.expanded.get_submap 0 = m.get_submap 0 := by
    rw [expanded_get_submap hi hlt, if_neg (by omega)]
  refine ⟨by rw [h0]; exact h1, by rw [h0]; exact h2, ?_⟩
  intro i hil
  have hil1 : i + 1 < m.num_submaps + 1 := hil
  rw [expanded_get_submap hi hlt, expanded_get_submap hi hlt]
  by_cases hin : i + 1 = m.num_submaps
  · rw [if_pos hin, if_neg (by omega), Submap.new_capacity]
    have : i = m.get_last_submap_index := by
      unfold get_last_submap_index get_num_submaps
      omega
    rw [this]
  · rw [if_neg hin, if_neg (by omega)]
    exact h3 i (by unfold get_num_submaps; omega)

theorem new_capacity_chain {n : Nat} {f : Flt} {M : Nat} {m : concurrent_unordered_map K V}
    (hm : concurrent_unordered_map.new n f M = Except.ok m) : m.capacity_chain := by
  obtain ⟨h1, h2, hM, q, hq, rfl⟩ := new_ok hm
  have hg := new_get_submap_zero f M hM (Submap.new (first_capacity q) f : Submap K V) 1 0 false
  refine ⟨?_, ?_, ?_⟩
  · rw [hg, Submap.new_capacity]
    exact first_capacity_prime q
  · rw [hg, Submap.new_capacity]
    exact first_capacity_ge q
  · intro i hi
    have : i + 1 < 1 := hi
    omega

theorem InsertStep.capacity_chain_after {h : Hashers K} {m m1 : concurrent_unordered_map K V}
    (hi : m.Inv h) (hc : m.capacity_chain) {key : K} {v : V} {r : const_iterator × Bool}
    (hs : InsertStep h m key v (Outcome.ret r m1)) : m1.capacity_chain := by
  cases hs with
  | older i j hh hlt => exact hc
  | last j hh ho => exact hc
  | last_grow j hh ho hlt => exact capacity_chain_expanded hi hlt hc
  | new e hn ho he hemp hinv => exact capacity_chain_stored hi e key v hc
  | new_grow e hn ho hlt he hemp hinv =>
    exact capacity_chain_stored (hi.expanded hlt) e key v (capacity_chain_expanded hi hlt hc)

theorem Reachable.capacity_chain {h : Hashers K} {m : concurrent_unordered_map K V}
    (hr : Reachable h m) : m.capacity_chain := by
  induction hr with
  | init n f M m hm => exact new_capacity_chain hm
  | step fuel m m1 key v r hr0 hins ih =>
    exact (hr0.inv.insert_step_of_ret hins).capacity_chain_after hr0.inv ih

theorem InsertStep.num_submaps_ret {h : Hashers K} {m m1 : concurrent_unordered_map K V}
    {key : K} {v : V} {r : const_iterator × Bool}
    (hs : InsertStep h m key v (Outcome.ret r m1)) :
    m.num_submaps ≤ m1.num_submaps ∧ m1.num_submaps ≤ m.num_submaps + 1 := by
  cases hs with
  | older i j hh hlt => exact ⟨le_refl _, by omega⟩
  | last j hh ho => exact ⟨le_refl _, by omega⟩
  | last_grow j hh ho hlt => exact ⟨by rw [expanded_num_submaps]; omega, by rw [expanded_num_submaps]⟩
  | new e hn ho he hemp hinv => exact ⟨le_refl _, by rw [stored_num_submaps]; omega⟩
  | new_grow e hn ho hlt he hemp hinv =>
    exact ⟨by rw [stored_num_submaps, expanded_num_submaps]; omega,
      by rw [stored_num_submaps, expanded_num_submaps]⟩

theorem InsertStep.num_submaps_error {h : Hashers K} {m m1 : concurrent_unordered_map K V}
    {key : K} {v : V} (hs : InsertStep h m key v (Outcome.runtime_error m1)) :
    m1.num_submaps = m.num_submaps := by
  cases hs with
  | error hn ho hcap => rfl

end concurrent_unordered_map

end concurrent

namespace concurrent

namespace Submap

variable {K V : Type} [DecidableEq K] [Inhabited K] [Inhabited V]

/-! ### Iteration -/

theorem valid_from_zero (sm : Submap K V) : sm.valid_from 0 = sm.valid_entries := rfl

theorem valid_from_nil (sm : Submap K V) (idx : Nat) (hge : sm.get_capacity ≤ idx) :
    sm.valid_from idx = [] := by
  unfold valid_from
  rw [List.drop_eq_nil_of_le hge]
  rfl

theorem valid_from_cons (sm : Submap K V) (idx : Nat) (hlt : idx < sm.get_capacity)
    (hv : (sm.get_bucket idx).state = Bucket.State.VALID) :
    sm.valid_from idx = (sm.get_bucket idx).entry :: sm.valid_from (idx + 1) := by
  unfold get_capacity at hlt
  rw [get_bucket_eq_getElem sm idx hlt] at hv ⊢
  unfold valid_from
  rw [List.drop_eq_getElem_cons hlt, List.filter_cons, hv]
  rfl

theorem valid_from_skip (sm : Submap K V) (idx : Nat) (hlt : idx < sm.get_capacity)
    (hv : (sm.get_bucket idx).state ≠ Bucket.State.VALID) :
    sm.valid_from idx = sm.valid_from (idx + 1) := by
  unfold get_capacity at hlt
  rw [get_bucket_eq_getElem sm idx hlt] at hv
  unfold valid_from
  rw [List.drop_eq_getElem_cons hlt, List.filter_cons]
  simp [hv]

/-- With fuel for the buckets from `idx` on, the loop of `Submap::seek` stops
at the first VALID bucket from `idx` on, or finds none. -/
theorem bucket_seek_loop_spec (sm : Submap K V) :
    ∀ (fuel idx : Nat), sm.get_capacity ≤ idx + fuel →
      (∃ j, sm.seek_loop (fuel + 1) idx = some (true, j) ∧ j < sm.get_capacity ∧
        sm.valid_from idx = (sm.get_bucket j).entry :: sm.valid_from (j + 1)) ∨
      (∃ j, sm.seek_loop (fuel + 1) idx = some (false, j) ∧ sm.valid_from idx = []) := by
  intro fuel
  induction fuel with
  | zero =>
    intro idx hle
    right
    refine ⟨idx, ?_, valid_from_nil sm idx (by omega)⟩
    rw [seek_loop, if_neg (by omega)]
  | succ fuel ih =>
    intro idx hle
    rw [seek_loop]
    by_cases hlt : idx < sm.get_capacity
    · rw [if_pos hlt]
      by_cases hv : (sm.get_bucket idx).state = Bucket.State.VALID
      · rw [if_pos hv]
        exact Or.inl ⟨idx, rfl, hlt, valid_from_cons sm idx hlt hv⟩
      · rw [if_neg hv, valid_from_skip sm idx hlt hv]
        exact ih (idx + 1) (by omega)
    · rw [if_neg hlt]
      exact Or.inr ⟨idx, rfl, valid_from_nil sm idx (by omega)⟩

theorem bucket_seek_spec (sm : Submap K V) (idx : Nat) :
    (∃ j, sm.seek idx = (true, j) ∧ j < sm.get_capacity ∧
        sm.valid_from idx = (sm.get_bucket j).entry :: sm.valid_from (j + 1)) ∨
      (∃ j, sm.seek idx = (false, j) ∧ sm.valid_from idx = []) := by
  unfold seek
  rcases bucket_seek_loop_spec sm sm.get_capacity idx (by omega) with ⟨j, h1, h2⟩ | ⟨j, h1, h2⟩
  · exact Or.inl ⟨j, by rw [h1]; rfl, h2⟩
  · exact Or.inr ⟨j, by rw [h1]; rfl, h2⟩

end Submap

namespace concurrent_unordered_map

variable {K V : Type} [DecidableEq K] [Inhabited K] [Inhabited V]

theorem entries_from_zero (m : concurrent_unordered_map K V) (hpos : 1 ≤ m.num_submaps) :
    m.entries_from 0 0 = m.entries := by
  unfold entries_from entries get_num_submaps
  obtain ⟨n, hn⟩ : ∃ n, m.num_submaps = n + 1 := ⟨m.num_submaps - 1, by omega⟩
  rw [hn, List.range_eq_range', List.range'_succ, List.flatMap_cons, Submap.valid_from_zero]
  rfl

theorem entries_from_next (m : concurrent_unordered_map K V) (i : Nat)
    (hlt : i + 1 < m.num_submaps) :
    (List.range' (i + 1) (m.get_num_submaps - (i + 1))).flatMap
        (fun a => (m.get_submap a).valid_entries) = m.entries_from (i + 1) 0 := by
  unfold entries_from get_num_submaps
  obtain ⟨n, hn⟩ : ∃ n, m.num_submaps - (i + 1) = n + 1 := ⟨m.num_submaps - (i + 1) - 1, by omega⟩
  have hn1 : m.num_submaps - (i + 1 + 1) = n := by omega
  rw [hn, hn1, List.range'_succ, List.flatMap_cons, Submap.valid_from_zero]

/-- With fuel for the live submaps from `i` on, the loop of
`const_iterator::seek` stops at the first VALID bucket at or after bucket `b`
of submap `i`, or reaches the end. -/
theorem seek_loop_spec (m : concurrent_unordered_map K V) :
    ∀ (fuel i b : Nat), i < m.num_submaps → m.num_submaps - i ≤ fuel →
      (m.entries_from i b = [] ∧ m.seek_loop (fuel + 1) ⟨i, b, false⟩ = some ⟨0, 0, true⟩) ∨
      (∃ i1 b1, i1 < m.num_submaps ∧
        m.seek_loop (fuel + 1) ⟨i, b, false⟩ = some ⟨i1, b1, false⟩ ∧
        m.entries_from i b = m.get_entry ⟨i1, b1, false⟩ :: m.entries_from i1 (b1 + 1)) := by
  intro fuel
  induction fuel with
  | zero =>
    intro i b hlt hle
    omega
  | succ fuel ih =>
    intro i b hlt hle
    rw [seek_loop]
    simp only [Bool.false_eq_true, if_false]
    rcases Submap.bucket_seek_spec (m.get_submap i) b with ⟨j, h1, h2, h3⟩ | ⟨j, h1, h3⟩
    · rw [h1]
      right
      refine ⟨i, j, hlt, rfl, ?_⟩
      unfold entries_from get_entry
      rw [h3]
      rfl
    · rw [h1]
      simp only []
      by_cases hlast : i + 1 > m.get_last_submap_index
      · rw [if_pos hlast]
        left
        refine ⟨?_, by rw [seek_loop]; rfl⟩
        unfold entries_from
        have : m.get_num_submaps - (i + 1) = 0 := by
          unfold get_last_submap_index at hlast
          omega
        rw [h3, this]
        rfl
      · rw [if_neg hlast]
        have hlt1 : i + 1 < m.num_submaps := by
          unfold get_last_submap_index get_num_submaps at hlast
          omega
        have hfrom : m.entries_from i b = m.entries_from (i + 1) 0 := by
          rw [← entries_from_next m i hlt1]
          unfold entries_from
          rw [h3]
          rfl
        rw [hfrom]
        exact ih (i + 1) 0 hlt1 (by omega)

theorem seek_spec (m : concurrent_unordered_map K V) (i b : Nat) (hlt : i < m.num_submaps) :
    (m.entries_from i b = [] ∧ m.seek ⟨i, b, false⟩ = m.end_) ∨
      (∃ i1 b1, i1 < m.num_submaps ∧ m.seek ⟨i, b, false⟩ = ⟨i1, b1, false⟩ ∧
        m.entries_from i b = m.get_entry ⟨i1, b1, false⟩ :: m.entries_from i1 (b1 + 1)) := by
  unfold seek
  rcases seek_loop_spec m (m.get_num_submaps + 1) i b hlt (by unfold get_num_submaps; omega)
    with ⟨h1, h2⟩ | ⟨i1, b1, h1, h2, h3⟩
  · exact Or.inl ⟨h1, by rw [h2]; rfl⟩
  · exact Or.inr ⟨i1, b1, h1, by rw [h2]; rfl, h3⟩

theorem iterate_loop_end (m : concurrent_unordered_map K V) (fuel : Nat) :
    m.iterate_loop (fuel + 1) m.end_ = some [] := by
  rw [iterate_loop, end_ne_end]
  rfl

/-- With fuel for the entries ahead, the loop from an iterator at a VALID
bucket collects the entry of that bucket and the entries after it. -/
theorem iterate_loop_spec (m : concurrent_unordered_map K V) :
    ∀ (n fuel i b : Nat), i < m.num_submaps → (m.entries_from i (b + 1)).length = n →
      n + 2 ≤ fuel →
      m.iterate_loop fuel ⟨i, b, false⟩
        = some (m.get_entry ⟨i, b, false⟩ :: m.entries_from i (b + 1)) := by
  intro n
  induction n with
  | zero =>
    intro fuel i b hlt hlen hf
    obtain ⟨f, rfl⟩ : ∃ f, fuel = f + 2 := ⟨fuel - 2, by omega⟩
    rw [iterate_loop, ne_end_of_not_end, if_pos rfl]
    have hnil : m.entries_from i (b + 1) = [] := List.length_eq_zero.mp hlen
    rcases seek_spec m i (b + 1) hlt with ⟨h1, h2⟩ | ⟨i1, b1, h1, h2, h3⟩
    · rw [next, h2, iterate_loop_end, hnil]
      rfl
    · rw [hnil] at h3
      exact absurd h3 (by simp)
  | succ n ih =>
    intro fuel i b hlt hlen hf
    obtain ⟨f, rfl⟩ : ∃ f, fuel = f + 1 := ⟨fuel - 1, by omega⟩
    rw [iterate_loop, ne_end_of_not_end, if_pos rfl]
    rcases seek_spec m i (b + 1) hlt with ⟨h1, h2⟩ | ⟨i1, b1, h1, h2, h3⟩
    · rw [h1] at hlen
      simp at hlen
    · rw [next, h2, h3, ih f i1 b1 h1 (by rw [h3] at hlen; simpa using hlen) (by omega)]
      rfl

/-- With more fuel than entries the loop from `begin()` to `end()` collects
the entries of the VALID buckets by ascending submap index and bucket
position. -/
theorem iterate_spec (m : concurrent_unordered_map K V) (hpos : 1 ≤ m.num_submaps) (fuel : Nat)
    (hf : m.entries.length < fuel) : m.iterate fuel = some m.entries := by
  unfold iterate begin_
  rcases seek_spec m 0 0 (by omega) with ⟨h1, h2⟩ | ⟨i1, b1, h1, h2, h3⟩
  · rw [entries_from_zero m hpos] at h1
    obtain ⟨f, rfl⟩ : ∃ f, fuel = f + 1 := ⟨fuel - 1, by omega⟩
    rw [h2, iterate_loop_end, h1]
  · rw [entries_from_zero m hpos] at h3
    rw [h2, h3]
    apply iterate_loop_spec m _ fuel i1 b1 h1 rfl
    rw [h3] at hf
    simp only [List.length_cons] at hf
    omega

theorem begin_eq_end_iff (m : concurrent_unordered_map K V) (hpos : 1 ≤ m.num_submaps) :
    m.begin_.eq m.end_ = true ↔ m.entries = [] := by
  unfold begin_
  rcases seek_spec m 0 0 (by omega) with ⟨h1, h2⟩ | ⟨i1, b1, h1, h2, h3⟩
  · rw [entries_from_zero m hpos] at h1
    rw [h2, h1]
    simp [const_iterator.eq, end_]
  · rw [entries_from_zero m hpos] at h3
    rw [h2, h3]
    simp [const_iterator.eq, end_]

end concurrent_unordered_map

end concurrent

namespace channel

/-! ## Rings and channel buffers: lemmas -/

namespace circular_buffer

variable {T : Type} [Inhabited T] {buffer_size : Nat}

theorem empty_iff (b : circular_buffer T buffer_size) : b.empty = true ↔ b._size = 0 := by
  simp [empty]

theorem full_iff (b : circular_buffer T buffer_size) : b.full = true ↔ b._size = buffer_size := by
  simp [full]

theorem WF.end_lt {b : circular_buffer T buffer_size} (hwf : b.WF) : b._end < buffer_size := by
  rw [hwf.end_eq]
  exact Nat.mod_lt _ (by have := hwf.front_lt; omega)

theorem push_WF (b : circular_buffer T buffer_size) (x : T) (hwf : b.WF) : (b.push x).2.WF := by
  cases hf : b.full with
  | true =>
    rw [push, push_back_full b x hf]
    exact hwf
  | false =>
    obtain ⟨b1, h1, h2, _⟩ := push_back_ok b x hwf hf
    rw [push, h1]
    exact h2

theorem pop_WF (b : circular_buffer T buffer_size) (hwf : b.WF) : b.pop.2.WF := by
  cases he : b.empty with
  | true =>
    simp only [pop, he, if_true]
    exact hwf
  | false =>
    obtain ⟨b1, h1, h2, _⟩ := pop_ok b hwf he
    rw [h1]
    exact h2

theorem pop_front_WF (b : circular_buffer T buffer_size) (hwf : b.WF) : b.pop_front.2.WF := by
  cases he : b.empty with
  | true =>
    simp only [pop_front, he, if_true]
    exact hwf
  | false =>
    obtain ⟨b1, h1, h2, _⟩ := pop_front_ok b hwf he
    rw [h1]
    exact h2

/-- Every ring reached from the construction of a ring with at least one slot
is well-formed. -/
theorem Reachable.wf (hN : 1 ≤ buffer_size) {b : circular_buffer T buffer_size}
    (hr : circular_buffer.Reachable b) : b.WF := by
  induction hr with
  | init => exact new_WF hN
  | push b x _ ih => exact push_WF b x ih
  | pop b _ ih => exact pop_WF b ih
  | pop_front b _ ih => exact pop_front_WF b ih

theorem contents_eq_nil_iff (b : circular_buffer T buffer_size) :
    b.contents = [] ↔ b.empty = true := by
  rw [empty_iff]
  unfold contents
  simp

theorem contents_length (b : circular_buffer T buffer_size) : b.contents.length = b._size := by
  simp [contents]

/-- The ring that `get_next` leaves: the slot at the head is overwritten and
the head element is removed. -/
theorem contents_after_swap (b : circular_buffer T buffer_size) (hwf : b.WF)
    (h : b.empty = false) (d : T) :
    (⟨List.set b.buffer b._front d, b.increment b._front, b._end, b._size - 1⟩ :
        circular_buffer T buffer_size).WF ∧
      b.contents = b.buffer.getD b._front default ::
        (⟨List.set b.buffer b._front d, b.increment b._front, b._end, b._size - 1⟩ :
          circular_buffer T buffer_size).contents := by
  obtain ⟨b1, hb1, hwf1, hc⟩ := contents_cons b hwf h
  subst hb1
  have hpos : 0 < b._size := by
    have : ¬ b._size ≤ 0 := by simpa [empty] using h
    omega
  have hf := hwf.front_lt
  have hsz := hwf.size_le
  constructor
  · exact ⟨by simp [hwf.length_eq], hwf1.front_lt, hwf1.size_le, hwf1.end_eq⟩
  · rw [hc]
    congr 1
    unfold contents
    apply List.map_congr_left
    intro i hi
    have hi1 : i < b._size - 1 := List.mem_range.mp hi
    simp only
    rw [List.getD_eq_getElem?_getD, List.getD_eq_getElem?_getD, List.getElem?_set_ne]
    rw [increment_eq_mod _ _ hf, Nat.mod_add_mod]
    intro heq
    have e : (b._front + 0) % buffer_size = (b._front + (1 + i)) % buffer_size := by
      rw [Nat.add_zero, Nat.mod_eq_of_lt hf, ← Nat.add_assoc]
      exact heq
    have := offset_inj (by omega) (by omega) e
    omega

end circular_buffer

namespace channel_buffer

variable {T : Type} [Inhabited T] {buffer_size : Nat}

theorem take_ok (s : channel_buffer T buffer_size) (hwf : s.buffer.WF)
    (h : s.buffer.empty = false) :
    ∃ x rest s1, s.contents = x :: rest ∧ s.take = Step.done x s1 ∧ s1.contents = rest ∧
      s1.is_closed = s.is_closed ∧ s1.buffer.WF := by
  obtain ⟨hwf1, hc⟩ := circular_buffer.contents_after_swap s.buffer hwf h default
  refine ⟨_, _, ⟨_, s.is_closed⟩, hc, ?_, rfl, rfl, hwf1⟩
  have hne : s.buffer._size ≠ 0 := by
    have : ¬ s.buffer._size ≤ 0 := by simpa [circular_buffer.empty] using h
    omega
  simp [take, circular_buffer.front, circular_buffer.pop, circular_buffer.empty,
    circular_buffer.increment, hne]

theorem get_next_ok (s : channel_buffer T buffer_size) (hwf : s.buffer.WF)
    (h : s.buffer.empty = false) :
    ∃ x rest s1, s.contents = x :: rest ∧ s.get_next = Step.done x s1 ∧ s1.contents = rest ∧
      s1.is_closed = s.is_closed ∧ s1.buffer.WF := by
  obtain ⟨x, rest, s1, h1, h2, h3⟩ := take_ok s hwf h
  exact ⟨x, rest, s1, h1, by simp [get_next, h, h2], h3⟩

theorem get_next_closed_empty (s : channel_buffer T buffer_size) (hc : s.is_closed = true)
    (h : s.buffer.empty = true) : s.get_next = Step.done default s := by
  simp [get_next, h, hc]

theorem get_next_open_empty (s : channel_buffer T buffer_size) (hc : s.is_closed = false)
    (h : s.buffer.empty = true) : s.get_next = Step.wait s := by
  simp [get_next, h, hc]

theorem try_get_next_closed (s : channel_buffer T buffer_size) (hc : s.is_closed = true) :
    s.try_get_next = Step.done (some default) s := by
  simp [try_get_next, hc]

theorem try_get_next_open_empty (s : channel_buffer T buffer_size) (hc : s.is_closed = false)
    (h : s.buffer.empty = true) : s.try_get_next = Step.done none s := by
  simp [try_get_next, h, hc]

/-- On an open channel with a non-empty ring `try_get_next` returns the element
at the head and pops it, whatever the ring. -/
theorem try_get_next_open_nonempty (s : channel_buffer T buffer_size) (hc : s.is_closed = false)
    (h : s.buffer.empty = false) :
    s.try_get_next = Step.done (some (s.buffer.buffer.getD s.buffer._front default))
      ⟨s.buffer.pop.2, false⟩ := by
  simp [try_get_next, hc, h, circular_buffer.front, circular_buffer.pop]

theorem try_get_next_ok (s : channel_buffer T buffer_size) (hwf : s.buffer.WF)
    (hc : s.is_closed = false) (h : s.buffer.empty = false) :
    ∃ x rest s1, s.contents = x :: rest ∧ s.try_get_next = Step.done (some x) s1 ∧
      s1.contents = rest ∧ s1.is_closed = false ∧ s1.buffer.WF := by
  obtain ⟨b1, hb1, hwf1, hcont⟩ := circular_buffer.pop_ok s.buffer hwf h
  refine ⟨_, _, ⟨b1, false⟩, hcont, ?_, rfl, rfl, hwf1⟩
  rw [try_get_next_open_nonempty s hc h, hb1]

/-- The outcome of `try_get_next` is never a wait and never an exception. -/
theorem try_get_next_done (s : channel_buffer T buffer_size) :
    ∃ r s1, s.try_get_next = Step.done r s1 := by
  cases hc : s.is_closed with
  | true => exact ⟨_, _, try_get_next_closed s hc⟩
  | false =>
    cases h : s.buffer.empty with
    | true => exact ⟨_, _, try_get_next_open_empty s hc h⟩
    | false => exact ⟨_, _, try_get_next_open_nonempty s hc h⟩

theorem insert_closed (s : channel_buffer T buffer_size) (x : T) (hc : s.is_closed = true) :
    s.insert x = Step.done () s := by
  simp [insert, hc]

theorem insert_open_full (s : channel_buffer T buffer_size) (x : T) (hc : s.is_closed = false)
    (h : s.buffer.full = true) : s.insert x = Step.wait s := by
  simp [insert, hc, h]

theorem insert_ok (s : channel_buffer T buffer_size) (x : T) (hwf : s.buffer.WF)
    (hc : s.is_closed = false) (h : s.buffer.full = false) :
    ∃ s1, s.insert x = Step.done () s1 ∧ s1.contents = s.contents ++ [x] ∧
      s1.is_closed = false ∧ s1.buffer.WF := by
  obtain ⟨b1, hb1, hwf1, hcont⟩ := circular_buffer.push_back_ok s.buffer x hwf h
  refine ⟨⟨b1, false⟩, ?_, hcont, rfl, hwf1⟩
  simp [insert, hc, h, put, circular_buffer.push, hb1]

/-- A `get_next` that returns keeps a sound ring sound. -/
theorem get_next_sound (s s1 : channel_buffer T buffer_size) (x : T)
    (hs : s.buffer.Sound) (h : s.get_next = Step.done x s1) : s1.buffer.Sound := by
  cases he : s.buffer.empty with
  | true =>
    cases hc : s.is_closed with
    | true =>
      rw [get_next_closed_empty s hc he] at h
      simp only [Step.done.injEq] at h
      rw [← h.2]
      exact hs
    | false =>
      rw [get_next_open_empty s hc he] at h
      exact absurd h (by simp)
  | false =>
    rcases hs with hwf | ⟨_, h0⟩
    · obtain ⟨x1, rest, s2, _, h2, _, _, h5⟩ := get_next_ok s hwf he
      rw [h2] at h
      simp only [Step.done.injEq] at h
      rw [← h.2]
      exact Or.inl h5
    · have := (circular_buffer.empty_iff s.buffer).mpr h0
      rw [this] at he
      exact absurd he (by simp)

theorem try_get_next_sound (s s1 : channel_buffer T buffer_size) (r : Option T)
    (hs : s.buffer.Sound) (h : s.try_get_next = Step.done r s1) : s1.buffer.Sound := by
  cases hc : s.is_closed with
  | true =>
    rw [try_get_next_closed s hc] at h
    simp only [Step.done.injEq] at h
    rw [← h.2]
    exact hs
  | false =>
    cases he : s.buffer.empty with
    | true =>
      rw [try_get_next_open_empty s hc he] at h
      simp only [Step.done.injEq] at h
      rw [← h.2]
      exact hs
    | false =>
      rcases hs with hwf | ⟨_, h0⟩
      · obtain ⟨x1, rest, s2, _, h2, _, _, h5⟩ := try_get_next_ok s hwf hc he
        rw [h2] at h
        simp only [Step.done.injEq] at h
        rw [← h.2]
        exact Or.inl h5
      · have := (circular_buffer.empty_iff s.buffer).mpr h0
        rw [this] at he
        exact absurd he (by simp)

theorem insert_sound (s s1 : channel_buffer T buffer_size) (x : T) (u : Unit)
    (hs : s.buffer.Sound) (h : s.insert x = Step.done u s1) : s1.buffer.Sound := by
  cases hc : s.is_closed with
  | true =>
    rw [insert_closed s x hc] at h
    simp only [Step.done.injEq] at h
    rw [← h.2]
    exact hs
  | false =>
    cases hf : s.buffer.full with
    | true =>
      rw [insert_open_full s x hc hf] at h
      exact absurd h (by simp)
    | false =>
      rcases hs with hwf | ⟨hN, h0⟩
      · obtain ⟨s2, h2, _, _, h5⟩ := insert_ok s x hwf hc hf
        rw [h2] at h
        simp only [Step.done.injEq] at h
        rw [← h.2]
        exact Or.inl h5
      · have : s.buffer.full = true := by
          rw [circular_buffer.full_iff, h0, hN]
        rw [this] at hf
        exact absurd hf (by simp)

/-- Every reachable state has a sound ring. -/
theorem Reachable.sound {s : channel_buffer T buffer_size} (hr : channel_buffer.Reachable s) :
    s.buffer.Sound := by
  induction hr with
  | init =>
    rcases Nat.eq_zero_or_pos buffer_size with h0 | hpos
    · exact Or.inr ⟨h0, rfl⟩
    · exact Or.inl (circular_buffer.new_WF hpos)
  | insert s s1 x u _ h ih => exact insert_sound s s1 x u ih h
  | get_next s s1 x _ h ih => exact get_next_sound s s1 x ih h
  | try_get_next s s1 r _ h ih => exact try_get_next_sound s s1 r ih h
  | close s _ ih => exact ih

theorem Sound.wf_of_nonempty {b : circular_buffer T buffer_size} (hs : b.Sound)
    (h : b.empty = false) : b.WF := by
  rcases hs with hwf | ⟨_, h0⟩
  · exact hwf
  · have := (circular_buffer.empty_iff b).mpr h0
    rw [this] at h
    exact absurd h (by simp)

end channel_buffer

end channel

namespace channel

/-! ## Runs of a channel: lemmas -/

section channel_runs

variable {T : Type} [Inhabited T] {buffer_size : Nat}

/-- On a non-empty ring `take` returns the slot at the head, whatever the ring. -/
theorem channel_buffer.take_eq (s : channel_buffer T buffer_size)
    (h : s.buffer.empty = false) :
    s.take = Step.done (s.buffer.buffer.getD s.buffer._front default)
      ⟨⟨List.set s.buffer.buffer s.buffer._front default, s.buffer.increment s.buffer._front,
        s.buffer._end, s.buffer._size - 1⟩, s.is_closed⟩ := by
  have hne : s.buffer._size ≠ 0 := by
    have : ¬ s.buffer._size ≤ 0 := by simpa [circular_buffer.empty] using h
    omega
  simp [channel_buffer.take, circular_buffer.front, circular_buffer.pop, circular_buffer.empty,
    circular_buffer.increment, hne]

/-- On a closed channel `get_next` returns, and the channel stays closed. -/
theorem channel_buffer.get_next_closed_done (s : channel_buffer T buffer_size)
    (hc : s.is_closed = true) :
    ∃ v s1, s.get_next = Step.done v s1 ∧ s1.is_closed = true := by
  cases he : s.buffer.empty with
  | true => exact ⟨_, _, channel_buffer.get_next_closed_empty s hc he, hc⟩
  | false =>
    have h1 : s.get_next = s.take := by
      simp [channel_buffer.get_next, he]
    rw [h1, channel_buffer.take_eq s he]
    exact ⟨_, _, rfl, hc⟩

theorem channel_buffer.try_get_next_none (s s1 : channel_buffer T buffer_size)
    (h : s.try_get_next = Step.done none s1) : s1 = s := by
  cases hc : s.is_closed with
  | true =>
    rw [channel_buffer.try_get_next_closed s hc] at h
    simp at h
  | false =>
    cases he : s.buffer.empty with
    | true =>
      rw [channel_buffer.try_get_next_open_empty s hc he] at h
      simp only [Step.done.injEq, true_and] at h
      exact h.symm
    | false =>
      rw [channel_buffer.try_get_next_open_nonempty s hc he] at h
      simp at h

theorem run_channel_spec (ops : List (ChanOp T)) :
    ∀ (s : channel_buffer T buffer_size) (sent received : List T)
      (r : channel_buffer T buffer_size × List T × List T),
      s.buffer.WF → s.is_closed = false → sent = received ++ s.contents →
      run_channel ops s sent received = some r →
      r.1.buffer.WF ∧ r.1.is_closed = false ∧ r.2.1 = r.2.2 ++ r.1.contents ∧
        r.2.1 = sent ++ sends ops ∧ received <+: r.2.2 := by
  induction ops with
  | nil =>
    intro s sent received r hwf hc hinv h
    simp only [run_channel, Option.some.injEq] at h
    subst h
    exact ⟨hwf, hc, hinv, by simp [sends], List.prefix_refl _⟩
  | cons op ops ih =>
    intro s sent received r hwf hc hinv h
    cases op with
    | send x =>
      cases hf : s.buffer.full with
      | true =>
        simp [run_channel, ichannel.send, channel_buffer.insert_open_full s x hc hf] at h
      | false =>
        obtain ⟨s1, h1, h2, h3, h4⟩ := channel_buffer.insert_ok s x hwf hc hf
        simp only [run_channel, ichannel.send, h1] at h
        have := ih s1 (sent ++ [x]) received r h4 h3
          (by rw [h2, hinv, List.append_assoc]) h
        obtain ⟨a, b, c, d, e⟩ := this
        refine ⟨a, b, c, ?_, e⟩
        rw [d]
        simp [sends]
    | receive =>
      cases he : s.buffer.empty with
      | true =>
        simp [run_channel, ochannel.receive, channel_buffer.get_next_open_empty s hc he] at h
      | false =>
        obtain ⟨x, rest, s1, h1, h2, h3, h4, h5⟩ := channel_buffer.get_next_ok s hwf he
        simp only [run_channel, ochannel.receive, h2] at h
        have := ih s1 sent (received ++ [x]) r h5 (by rw [h4, hc])
          (by rw [h3, hinv, h1]; simp) h
        obtain ⟨a, b, c, d, e⟩ := this
        refine ⟨a, b, c, ?_, ?_⟩
        · rw [d]
          simp [sends]
        · exact List.IsPrefix.trans (List.prefix_append _ _) e

theorem receive_n_closed (k : Nat) :
    ∀ (s : channel_buffer T buffer_size), s.buffer.WF → s.is_closed = true →
      ∃ s2, receive_n k s =
          some (s.contents.take k ++ List.replicate (k - s.contents.length) default, s2) ∧
        s2.contents = s.contents.drop k ∧ s2.is_closed = true ∧ s2.buffer.WF := by
  induction k with
  | zero =>
    intro s hwf hc
    exact ⟨s, by simp [receive_n], by simp, hc, hwf⟩
  | succ k ih =>
    intro s hwf hc
    cases he : s.buffer.empty with
    | true =>
      have hnil : s.contents = [] := (circular_buffer.contents_eq_nil_iff s.buffer).mpr he
      obtain ⟨s2, h1, h2, h3, h4⟩ := ih s hwf hc
      refine ⟨s2, ?_, ?_, h3, h4⟩
      · simp only [receive_n, ochannel.receive, channel_buffer.get_next_closed_empty s hc he, h1,
          Option.map_some']
        simp [hnil, List.replicate_succ]
      · rw [h2, hnil]
        simp
    | false =>
      obtain ⟨x, rest, s1, h1, h2, h3, h4, h5⟩ := channel_buffer.get_next_ok s hwf he
      obtain ⟨s2, g1, g2, g3, g4⟩ := ih s1 h5 (by rw [h4, hc])
      refine ⟨s2, ?_, ?_, g3, g4⟩
      · simp only [receive_n, ochannel.receive, h2, g1, Option.map_some']
        simp [h1, h3]
      · rw [g2, h1, h3]
        simp

/-- The loop of a range-based `for` over an open channel yields what the ring
holds and then waits. -/
theorem range_for_loop_open (rest : List T) :
    ∀ (fuel : Nat) (val : T) (s : channel_buffer T buffer_size) (ys : List T),
      s.buffer.Sound → s.is_closed = false → s.contents = rest → rest.length + 1 ≤ fuel →
      ∃ s1, ochannel.range_for_loop fuel val s ys = Iteration.blocked (ys ++ val :: rest) s1 ∧
        s1.contents = [] ∧ s1.is_closed = false := by
  induction rest with
  | nil =>
    intro fuel val s ys hs hc hcont hfuel
    obtain ⟨f, rfl⟩ : ∃ f, fuel = f + 1 := ⟨fuel - 1, by omega⟩
    have he : s.buffer.empty = true := (circular_buffer.contents_eq_nil_iff s.buffer).mp hcont
    refine ⟨s, ?_, hcont, hc⟩
    simp [ochannel.range_for_loop, ochannel_iterator.ne, ochannel_iterator.eq,
      channel_buffer.status, hc, ochannel_iterator.incr,
      channel_buffer.get_next_open_empty s hc he]
  | cons y rest ih =>
    intro fuel val s ys hs hc hcont hfuel
    obtain ⟨f, rfl⟩ : ∃ f, fuel = f + 1 := ⟨fuel - 1, by omega⟩
    have he : s.buffer.empty = false := by
      cases h : s.buffer.empty with
      | false => rfl
      | true =>
        have := (circular_buffer.contents_eq_nil_iff s.buffer).mpr h
        rw [channel_buffer.contents] at hcont
        rw [hcont] at this
        exact absurd this (by simp)
    obtain ⟨x, r, s1, h1, h2, h3, h4, h5⟩ :=
      channel_buffer.get_next_ok s (channel_buffer.Sound.wf_of_nonempty hs he) he
    rw [hcont] at h1
    simp only [List.cons.injEq] at h1
    obtain ⟨rfl, rfl⟩ := h1
    simp only [List.length_cons] at hfuel
    obtain ⟨s2, g1, g2, g3⟩ := ih f y s1 (ys ++ [val]) (Or.inl h5) (by rw [h4, hc]) h3
      (by omega)
    refine ⟨s2, ?_, g2, g3⟩
    simp only [ochannel.range_for_loop, ochannel_iterator.ne, ochannel_iterator.eq,
      channel_buffer.status, hc, Bool.not_false, if_true, ochannel_iterator.incr, h2, g1]
    simp

theorem range_for_open (s : channel_buffer T buffer_size) (fuel : Nat)
    (hs : s.buffer.Sound) (hc : s.is_closed = false) (hfuel : s.contents.length ≤ fuel) :
    ∃ s1, ochannel.range_for fuel s = Iteration.blocked s.contents s1 ∧
      s1.contents = [] ∧ s1.is_closed = false := by
  cases he : s.buffer.empty with
  | true =>
    have hnil : s.contents = [] := (circular_buffer.contents_eq_nil_iff s.buffer).mpr he
    refine ⟨s, ?_, hnil, hc⟩
    simp [ochannel.range_for, ochannel.begin_, ochannel_iterator.incr,
      channel_buffer.get_next_open_empty s hc he, hnil]
  | false =>
    obtain ⟨x, r, s1, h1, h2, h3, h4, h5⟩ :=
      channel_buffer.get_next_ok s (channel_buffer.Sound.wf_of_nonempty hs he) he
    rw [h1] at hfuel ⊢
    simp only [List.length_cons] at hfuel
    obtain ⟨s2, g1, g2, g3⟩ := range_for_loop_open r fuel x s1 [] (Or.inl h5) (by rw [h4, hc]) h3
      hfuel
    refine ⟨s2, ?_, g2, g3⟩
    simp only [ochannel.range_for, ochannel.begin_, ochannel_iterator.incr, h2, g1]
    simp

theorem range_for_closed (s : channel_buffer T buffer_size) (fuel : Nat)
    (hc : s.is_closed = true) :
    ∃ v s1, s.get_next = Step.done v s1 ∧
      ochannel.range_for (fuel + 1) s = Iteration.finished [] s1 := by
  obtain ⟨v, s1, h1, h2⟩ := channel_buffer.get_next_closed_done s hc
  refine ⟨v, s1, h1, ?_⟩
  simp [ochannel.range_for, ochannel.begin_, ochannel_iterator.incr, h1,
    ochannel.range_for_loop, ochannel_iterator.ne, ochannel_iterator.eq,
    channel_buffer.status, h2]

/-- The ring of a channel without slots never holds a value. -/
theorem zero_size_of_sound (s : channel_buffer T 0) (hs : s.buffer.Sound) :
    s.buffer._size = 0 := by
  rcases hs with hwf | ⟨_, h0⟩
  · exact absurd hwf.front_lt (by omega)
  · exact h0

end channel_runs

/-! ## Select: lemmas -/

section select_lemmas

variable {T : Type} [Inhabited T]

theorem set_getD_self {α : Type} (l : List α) :
    ∀ (i : Nat) (d : α), List.set l i (l.getD i d) = l := by
  induction l with
  | nil => intro i d; rfl
  | cons a l ih =>
    intro i d
    cases i with
    | zero => rfl
    | succ i =>
      simp only [List.set_cons_succ, List.getD_cons_succ]
      rw [ih]

theorem case_option.task_not_ready (c : case_option) (w : World T)
    (h : c.ready w = false) : c.task w = Step.done true w := by
  obtain ⟨r, s1, hr⟩ := channel_buffer.try_get_next_done (w.get_buffer c.ch).buffer
  cases r with
  | some v => simp [case_option.ready, hr] at h
  | none =>
    have hs := channel_buffer.try_get_next_none _ _ hr
    subst hs
    simp only [case_option.task, hr]
    have : (⟨(w.get_buffer c.ch).buffer_size, (w.get_buffer c.ch).buffer⟩ : AnyBuffer T) =
        w.channels.getD c.ch ⟨0, channel_buffer.new T 0⟩ := rfl
    rw [this, set_getD_self]

theorem case_option.task_ready (c : case_option) (w : World T)
    (h : c.ready w = true) :
    ∃ val b, (w.get_buffer c.ch).buffer.try_get_next = Step.done (some val) b ∧
      c.task w = Step.done false
        ⟨List.set w.channels c.ch ⟨(w.get_buffer c.ch).buffer_size, b⟩,
          w.log ++ [Event.case_handler c.f val]⟩ := by
  obtain ⟨r, s1, hr⟩ := channel_buffer.try_get_next_done (w.get_buffer c.ch).buffer
  cases r with
  | none => simp [case_option.ready, hr] at h
  | some v =>
    refine ⟨v, s1, hr, ?_⟩
    simp only [case_option.task, hr]

theorem random_exec_loop_none (l : List case_option) (w : World T)
    (h : ∀ p ∈ l, p.ready w = false) : select.random_exec_loop l w = Step.done false w := by
  induction l with
  | nil => rfl
  | cons c rest ih =>
    simp only [select.random_exec_loop,
      case_option.task_not_ready c w (h c (List.mem_cons_self _ _))]
    simpa using ih (fun p hp => h p (List.mem_cons_of_mem _ hp))

theorem random_exec_loop_first (pre : List case_option) (c : case_option)
    (post : List case_option) (w w1 : World T)
    (hpre : ∀ p ∈ pre, p.ready w = false) (hc : c.task w = Step.done false w1) :
    select.random_exec_loop (pre ++ c :: post) w = Step.done true w1 := by
  induction pre with
  | nil => simp [select.random_exec_loop, hc]
  | cons p rest ih =>
    simp only [List.cons_append, select.random_exec_loop,
      case_option.task_not_ready p w (hpre p (List.mem_cons_self _ _))]
    simpa using ih (fun q hq => hpre q (List.mem_cons_of_mem _ hq))

/-- A list with an element that satisfies `P` splits at the first such element. -/
theorem split_at_first {α : Type} (P : α → Bool) (l : List α) (h : ∃ c ∈ l, P c = true) :
    ∃ pre c post, l = pre ++ c :: post ∧ (∀ p ∈ pre, P p = false) ∧ P c = true := by
  induction l with
  | nil =>
    obtain ⟨c, hc, _⟩ := h
    exact absurd hc (List.not_mem_nil c)
  | cons a l ih =>
    cases ha : P a with
    | true => exact ⟨[], a, l, rfl, by simp, ha⟩
    | false =>
      obtain ⟨c, hc, hp⟩ := h
      have hcl : c ∈ l := by
        rcases List.mem_cons.mp hc with rfl | h1
        · rw [ha] at hp
          exact absurd hp (by simp)
        · exact h1
      obtain ⟨pre, c1, post, h1, h2, h3⟩ := ih ⟨c, hcl, hp⟩
      refine ⟨a :: pre, c1, post, by rw [h1]; rfl, ?_, h3⟩
      intro p hp1
      rcases List.mem_cons.mp hp1 with rfl | h4
      · exact ha
      · exact h2 p h4

end select_lemmas

end channel

namespace network

/-! ## Header decoders: lemmas -/

set_option maxRecDepth 100000 in
/-- On a byte, `bswap16` moves the byte to the high half. -/
theorem bswap16_byte (v : uint8_t) : bswap16 v.val = 256 * v.val := by
  revert v
  decide

set_option maxRecDepth 100000 in
theorem byte_bits (v : uint8_t) :
    (v.val >>> 4) % 256 = v.val / 16 ∧ (v.val &&& 0x0F) % 256 = v.val % 16 ∧
      (v.val >>> 13) % 256 = 0 ∧ (v.val &&& 0x1FFF) % 65536 = v.val ∧
      (v.val >>> 12) % 256 = 0 ∧ (v.val &&& 0x3F) % 256 = v.val % 64 := by
  revert v
  decide

theorem getD_eq_of_lt {α : Type} (l : List α) (i : Nat) (d : α) (h : i < l.length) :
    l[i]? = some (l.getD i d) := by
  rw [List.getD_eq_getElem?_getD, List.getElem?_eq_getElem h]
  rfl

theorem mac_new_eq (data : List uint8_t) (p : Nat) (h : p + 6 ≤ data.length) :
    mac_address.new data p = some ⟨(data.drop p).take 6⟩ := by
  have hget : ∀ i, data[p + i]? = (data.drop p)[i]? := fun i => (List.getElem?_drop data p i).symm
  have hlen : 6 ≤ (data.drop p).length := by
    rw [List.length_drop]
    omega
  unfold mac_address.new
  simp only [hget]
  generalize data.drop p = l at hlen
  rcases l with _ | ⟨a, _ | ⟨b, _ | ⟨c, _ | ⟨d, _ | ⟨e, _ | ⟨f, rest⟩⟩⟩⟩⟩⟩ <;>
    simp at hlen
  simp [mac_address.LEN, show List.range 6 = [0, 1, 2, 3, 4, 5] from rfl, List.replicate]

theorem mac_new_none (data : List uint8_t) (p : Nat) (h : data.length < p + 6) :
    mac_address.new data p = none := by
  have hget : ∀ i, data[p + i]? = (data.drop p)[i]? := fun i => (List.getElem?_drop data p i).symm
  have hlen : (data.drop p).length < 6 := by
    rw [List.length_drop]
    omega
  unfold mac_address.new
  simp only [hget]
  generalize data.drop p = l at hlen
  rcases l with _ | ⟨a, _ | ⟨b, _ | ⟨c, _ | ⟨d, _ | ⟨e, _ | ⟨f, rest⟩⟩⟩⟩⟩⟩
  all_goals first
    | (simp at hlen; omega)
    | simp [mac_address.LEN, show List.range 6 = [0, 1, 2, 3, 4, 5] from rfl, List.replicate]

theorem ethernet_new_eq (data : List uint8_t) (p : Nat) (h : p + 13 ≤ data.length) :
    ethernet_header.new data p =
      some ⟨⟨(data.drop p).take 6⟩, ⟨(data.drop (p + 6)).take 6⟩, (data.getD (p + 12) 0).val⟩ := by
  unfold ethernet_header.new
  rw [mac_new_eq data p (by omega)]
  simp only [mac_address.LEN]
  rw [mac_new_eq data (p + 6) (by omega), getD_eq_of_lt data (p + 2 * 6) 0 (by omega)]
  rfl

theorem ethernet_new_none (data : List uint8_t) (p : Nat) (h : data.length < p + 13) :
    ethernet_header.new data p = none := by
  unfold ethernet_header.new
  by_cases h1 : data.length < p + 6
  · rw [mac_new_none data p h1]
    rfl
  · rw [mac_new_eq data p (by omega)]
    by_cases h2 : data.length < p + 6 + 6
    · simp only [mac_address.LEN]
      rw [mac_new_none data (p + 6) h2]
      rfl
    · simp only [mac_address.LEN]
      rw [mac_new_eq data (p + 6) (by omega)]
      have : data[p + 2 * 6]? = none := List.getElem?_eq_none (by omega)
      simp [this]

/-- The ether type of a decoded header is one byte, below every `ETHER_TYPE_*`. -/
theorem ethernet_header.new_unknown (data : List uint8_t) (p : Nat) (e : ethernet_header)
    (h : ethernet_header.new data p = some e) :
    e.ether_type < 256 ∧ e.get_next_packet_type = PacketType.UNKNOWN := by
  have hlt : e.ether_type < 256 := by
    by_cases hl : data.length < p + 13
    · rw [ethernet_new_none data p hl] at h
      exact absurd h (by simp)
    · rw [ethernet_new_eq data p (by omega)] at h
      simp only [Option.some.injEq] at h
      rw [← h]
      exact (data.getD (p + 12) 0).isLt
  refine ⟨hlt, ?_⟩
  simp only [ethernet_header.get_next_packet_type, ethernet_header.ETHER_TYPE_IP,
    ethernet_header.ETHER_TYPE_ARP, ethernet_header.ETHER_TYPE_RARP]
  rw [if_neg (by omega), if_neg (by omega), if_neg (by omega)]

theorem ip_address.std_copy_zero (data : List uint8_t) (p : Nat) (h : p + 3 ≤ data.length) :
    ip_address.std_copy (List.replicate ip_address.LEN 0) 3 data p =
      some (List.set (List.set (List.set data p 0) (p + 1) 0) (p + 2) 0) := by
  simp only [ip_address.std_copy, ip_address.LEN, show List.range 3 = [0, 1, 2] from rfl,
    List.replicate, List.foldlM_cons, List.foldlM_nil, List.getElem?_cons_zero,
    List.getElem?_cons_succ, Nat.add_zero]
  rw [if_pos (by omega)]
  simp only [Option.some_bind, Option.bind_eq_bind, List.length_set]
  rw [if_pos (by omega)]
  simp only [Option.some_bind, List.length_set]
  rw [if_pos (by omega)]
  rfl

theorem ip_address.std_copy_none (data : List uint8_t) (p : Nat) (h : data.length < p + 3) :
    ip_address.std_copy (List.replicate ip_address.LEN 0) 3 data p = none := by
  simp only [ip_address.std_copy, ip_address.LEN, show List.range 3 = [0, 1, 2] from rfl,
    List.replicate, List.foldlM_cons, List.foldlM_nil, List.getElem?_cons_zero,
    List.getElem?_cons_succ, Nat.add_zero]
  by_cases h0 : p < data.length
  · rw [if_pos h0]
    simp only [Option.some_bind, Option.bind_eq_bind, List.length_set]
    by_cases h1 : p + 1 < data.length
    · rw [if_pos h1]
      simp only [Option.some_bind, List.length_set]
      rw [if_neg (by omega)]
      rfl
    · rw [if_neg h1]
      rfl
  · rw [if_neg h0]
    rfl

end network

namespace network

theorem mac_address.copy_eq (m : mac_address) (h : m.address.length = 6) : m.copy = m := by
  rcases m with ⟨l⟩
  rcases l with _ | ⟨a, _ | ⟨b, _ | ⟨c, _ | ⟨d, _ | ⟨e, _ | ⟨f, _ | ⟨g, rest⟩⟩⟩⟩⟩⟩⟩ <;>
    simp at h
  rfl

theorem ip_address_new_eq (data : List uint8_t) (p : Nat) (h : p + 3 ≤ data.length) :
    ip_address.new data p =
      some (⟨[0, 0, 0, 0]⟩, List.set (List.set (List.set data p 0) (p + 1) 0) (p + 2) 0) := by
  unfold ip_address.new
  simp only []
  rw [ip_address.std_copy_zero data p h]
  rfl

theorem ip_address_new_none (data : List uint8_t) (p : Nat) (h : data.length < p + 3) :
    ip_address.new data p = none := by
  unfold ip_address.new
  simp only []
  rw [ip_address.std_copy_none data p h]
  rfl

/-- The copy constructor of `ip_address` makes the address `0.0.0.0`. -/
theorem ip_address.copy_fst (i : ip_address) : (ip_address.copy i).1 = ⟨[0, 0, 0, 0]⟩ := rfl

theorem ip_header_new_eq (data : List uint8_t) (p : Nat) (h : p + 19 ≤ data.length) :
    ip_header.new data p =
      some (⟨(data.getD p 0).val, (data.getD (p + 1) 0).val, (data.getD (p + 2) 0).val,
        (data.getD (p + 4) 0).val, (data.getD (p + 6) 0).val, (data.getD (p + 8) 0).val,
        (data.getD (p + 9) 0).val, (data.getD (p + 10) 0).val, ⟨[0, 0, 0, 0]⟩, ⟨[0, 0, 0, 0]⟩⟩,
        ip_header.buffer_after data p) := by
  unfold ip_header.new
  rw [getD_eq_of_lt data (p + 0) 0 (by omega), getD_eq_of_lt data (p + 1) 0 (by omega),
    getD_eq_of_lt data (p + 2) 0 (by omega), getD_eq_of_lt data (p + 4) 0 (by omega),
    getD_eq_of_lt data (p + 6) 0 (by omega), getD_eq_of_lt data (p + 8) 0 (by omega),
    getD_eq_of_lt data (p + 9) 0 (by omega), getD_eq_of_lt data (p + 10) 0 (by omega),
    ip_address_new_eq data (p + 12) (by omega)]
  simp only [Option.bind_eq_bind, Option.some_bind]
  rw [ip_address_new_eq _ (p + 16) (by simp only [List.length_set]; omega)]
  rfl

theorem ip_header_new_none (data : List uint8_t) (p : Nat) (h : data.length < p + 19) :
    ip_header.new data p = none := by
  unfold ip_header.new
  by_cases h0 : p + 15 ≤ data.length
  · rw [getD_eq_of_lt data (p + 0) 0 (by omega), getD_eq_of_lt data (p + 1) 0 (by omega),
      getD_eq_of_lt data (p + 2) 0 (by omega), getD_eq_of_lt data (p + 4) 0 (by omega),
      getD_eq_of_lt data (p + 6) 0 (by omega), getD_eq_of_lt data (p + 8) 0 (by omega),
      getD_eq_of_lt data (p + 9) 0 (by omega), getD_eq_of_lt data (p + 10) 0 (by omega),
      ip_address_new_eq data (p + 12) (by omega)]
    simp only [Option.bind_eq_bind, Option.some_bind]
    rw [ip_address_new_none _ (p + 16) (by simp only [List.length_set]; omega)]
    rfl
  · have hnone : ip_address.new data (p + 12) = none := ip_address_new_none data (p + 12) (by omega)
    rw [hnone]
    simp only [Option.bind_eq_bind, Option.bind_eq_none, Option.none_bind, implies_true,
      reduceCtorEq, not_false_eq_true]

theorem tcp_new_eq (data : List uint8_t) (p : Nat) (h : p + 19 ≤ data.length) :
    tcp_header.new data p =
      some ⟨(data.getD p 0).val, (data.getD (p + 2) 0).val, (data.getD (p + 4) 0).val,
        (data.getD (p + 8) 0).val, (data.getD (p + 12) 0).val, (data.getD (p + 14) 0).val,
        (data.getD (p + 16) 0).val, (data.getD (p + 18) 0).val⟩ := by
  unfold tcp_header.new
  rw [getD_eq_of_lt data (p + 0) 0 (by omega), getD_eq_of_lt data (p + 2) 0 (by omega),
    getD_eq_of_lt data (p + 4) 0 (by omega), getD_eq_of_lt data (p + 8) 0 (by omega),
    getD_eq_of_lt data (p + 12) 0 (by omega), getD_eq_of_lt data (p + 14) 0 (by omega),
    getD_eq_of_lt data (p + 16) 0 (by omega), getD_eq_of_lt data (p + 18) 0 (by omega)]
  rfl

theorem tcp_new_none (data : List uint8_t) (p : Nat) (h : data.length < p + 19) :
    tcp_header.new data p = none := by
  unfold tcp_header.new
  have : data[p + 18]? = none := List.getElem?_eq_none (by omega)
  rw [this]
  simp only [Option.bind_eq_bind, Option.bind_eq_none, Option.none_bind, implies_true,
    reduceCtorEq, not_false_eq_true]

end network

namespace channel

/-! ## Select: counting the orderings -/


section fairness_count

variable {α : Type} [DecidableEq α]

/-- Swapping two elements on which `P` agrees does not change `P`. -/
theorem swap_pred (P : α → Bool) (c r : α) (hc : P c = true) (hr : P r = true) (x : α) :
    P (Equiv.swap c r x) = P x := by
  rw [Equiv.swap_apply_def]
  by_cases h1 : x = c
  · rw [if_pos h1, h1, hc, hr]
  · rw [if_neg h1]
    by_cases h2 : x = r
    · rw [if_pos h2, h2, hc, hr]
    · rw [if_neg h2]

theorem swap_mem (l : List α) (c r : α) (hc : c ∈ l) (hr : r ∈ l) (x : α) (hx : x ∈ l) :
    Equiv.swap c r x ∈ l := by
  rw [Equiv.swap_apply_def]
  by_cases h1 : x = c
  · rw [if_pos h1]
    exact hr
  · rw [if_neg h1]
    by_cases h2 : x = r
    · rw [if_pos h2]
      exact hc
    · rw [if_neg h2]
      exact hx

theorem map_swap_perm (l : List α) (hnd : l.Nodup) (c r : α) (hc : c ∈ l) (hr : r ∈ l) :
    (l.map (Equiv.swap c r)).Perm l := by
  rw [List.perm_ext_iff_of_nodup (hnd.map (Equiv.swap c r).injective) hnd]
  intro a
  constructor
  · intro ha
    obtain ⟨b, hb, rfl⟩ := List.mem_map.mp ha
    exact swap_mem l c r hc hr b hb
  · intro ha
    refine List.mem_map.mpr ⟨Equiv.swap c r a, swap_mem l c r hc hr a ha, ?_⟩
    exact Equiv.swap_apply_self c r a

theorem map_swap_map_swap (l : List α) (c r : α) :
    (l.map (Equiv.swap c r)).map (Equiv.swap c r) = l := by
  rw [List.map_map]
  have : (Equiv.swap c r : α → α) ∘ (Equiv.swap c r) = id := by
    funext x
    exact Equiv.swap_apply_self c r x
  rw [this, List.map_id]

theorem find_map_swap (P : α → Bool) (l : List α) (c r : α) (hc : P c = true)
    (hr : P r = true) :
    (l.map (Equiv.swap c r)).find? P = (l.find? P).map (Equiv.swap c r) := by
  rw [List.find?_map]
  have : P ∘ (Equiv.swap c r) = P := by
    funext x
    exact swap_pred P c r hc hr x
  rw [this]

/-- Among the orderings of a list without duplicates, those whose first element
with `P` is `c` are as many as those whose first element with `P` is `r`. -/
theorem first_count_eq (P : α → Bool) (cases : List α) (hnd : cases.Nodup) (c r : α)
    (hc : c ∈ cases) (hr : r ∈ cases) (hPc : P c = true) (hPr : P r = true) :
    (cases.permutations.toFinset.filter (fun l => l.find? P = some r)).card =
      (cases.permutations.toFinset.filter (fun l => l.find? P = some c)).card := by
  apply Finset.card_nbij' (fun l => l.map (Equiv.swap c r)) (fun l => l.map (Equiv.swap c r))
  · intro l hl
    simp only [Finset.mem_filter, List.mem_toFinset, List.mem_permutations] at hl ⊢
    refine ⟨(hl.1.map _).trans (map_swap_perm cases hnd c r hc hr), ?_⟩
    rw [find_map_swap P l c r hPc hPr, hl.2]
    simp
  · intro l hl
    simp only [Finset.mem_filter, List.mem_toFinset, List.mem_permutations] at hl ⊢
    refine ⟨(hl.1.map _).trans (map_swap_perm cases hnd c r hc hr), ?_⟩
    rw [find_map_swap P l c r hPc hPr, hl.2]
    simp
  · intro l _
    exact map_swap_map_swap l c r
  · intro l _
    exact map_swap_map_swap l c r

/-- Counting the orderings of a list without duplicates by their first element
with `P`: each of the `k` elements with `P` comes first in `n! / k` of them. -/
theorem first_count (P : α → Bool) (cases : List α) (hnd : cases.Nodup) (c : α)
    (hc : c ∈ cases) (hPc : P c = true) :
    (cases.permutations.filter (fun l => decide (l.find? P = some c))).length *
      (cases.filter P).length = cases.length.factorial := by
  have hS : cases.permutations.toFinset.card = cases.length.factorial := by
    rw [List.toFinset_card_of_nodup (List.nodup_permutations cases hnd),
      List.length_permutations]
  have hk : (cases.filter P).toFinset.card = (cases.filter P).length :=
    List.toFinset_card_of_nodup (hnd.filter _)
  have hcount : (cases.permutations.filter (fun l => decide (l.find? P = some c))).length =
      (cases.permutations.toFinset.filter (fun l => l.find? P = some c)).card := by
    rw [← List.toFinset_card_of_nodup ((List.nodup_permutations cases hnd).filter _),
      List.toFinset_filter]
    congr 1
    ext l
    simp
  have hfib := Finset.card_eq_sum_card_fiberwise
    (f := fun l : List α => (l.find? P).getD c)
    (s := cases.permutations.toFinset) (t := (cases.filter P).toFinset) (by
      intro l hl
      simp only [List.mem_toFinset, List.mem_permutations] at hl
      simp only [List.mem_toFinset, List.mem_filter]
      cases hf : l.find? P with
      | none => exact ⟨hc, hPc⟩
      | some x =>
        exact ⟨hl.mem_iff.mp (List.mem_of_find?_eq_some hf), List.find?_some hf⟩)
  have hfiber : ∀ r ∈ (cases.filter P).toFinset,
      (cases.permutations.toFinset.filter (fun l => (l.find? P).getD c = r)).card =
        (cases.permutations.toFinset.filter (fun l => l.find? P = some c)).card := by
    intro r hr
    simp only [List.mem_toFinset, List.mem_filter] at hr
    rw [← first_count_eq P cases hnd c r hc hr.1 hPc hr.2]
    congr 1
    apply Finset.filter_congr
    intro l hl
    simp only [List.mem_toFinset, List.mem_permutations] at hl
    cases hf : l.find? P with
    | none =>
      have := (List.find?_eq_none.mp hf) c (hl.mem_iff.mpr hc)
      exact absurd hPc this
    | some x => simp
  rw [hS, Finset.sum_congr rfl hfiber, Finset.sum_const, hk, smul_eq_mul] at hfib
  rw [hcount, hfib, Nat.mul_comm]


end fairness_count

section fairness_select

variable {T : Type} [Inhabited T]

theorem find_first {α : Type} (P : α → Bool) (pre : List α) (c : α) (post : List α)
    (hpre : ∀ p ∈ pre, P p = false) (hc : P c = true) :
    (pre ++ c :: post).find? P = some c := by
  induction pre with
  | nil => simp [hc]
  | cons a pre ih =>
    simp only [List.cons_append, List.find?_cons, hpre a (List.mem_cons_self _ _)]
    exact ih (fun p hp => hpre p (List.mem_cons_of_mem _ hp))

/-- Under the ordering `order`, select runs the handler of the first ready case of
`order` and no other case handler. -/
theorem case_handlers_first (cases : List case_option) (d : Option default_option)
    (order : List case_option) (w : World T) (c : case_option)
    (h : order.find? (fun p => p.ready w) = some c) :
    select.case_handlers cases d order w = [c.f] := by
  have hrc : c.ready w = true := by
    have h1 := List.find?_some h
    exact h1
  obtain ⟨pre, c1, post, hsplit, hpre, hc1⟩ :=
    split_at_first (fun p => p.ready w) order ⟨c, List.mem_of_find?_eq_some h, hrc⟩
  have hfind := find_first (fun p => p.ready w) pre c1 post hpre hc1
  rw [← hsplit, h] at hfind
  simp only [Option.some.injEq] at hfind
  subst hfind
  obtain ⟨val, b, _, htask⟩ := case_option.task_ready c w hc1
  have hloop := random_exec_loop_first pre c post w _ hpre htask
  have hnew : select.new cases d (fun _ => order) w = Step.done ()
      ⟨List.set w.channels c.ch ⟨(w.get_buffer c.ch).buffer_size, b⟩,
        w.log ++ [Event.case_handler c.f val]⟩ := by
    simp only [select.new, select.random_exec, hsplit, hloop]
    cases d <;> simp
  simp only [select.case_handlers, hnew, World.invoked, List.drop_left]
  rfl

end fairness_select

end channel

namespace pcap_stats

/-! ## The worker: lemmas -/

/-- Whatever the channel delivers, `get_stats` ends with the three shared maps
it was given. -/
theorem get_stats_loop_keeps (fuel : Nat) :
    ∀ s : Worker, (get_stats_loop fuel s).keeps s.ret_mac s.ret_ip s.ret_port := by
  induction fuel with
  | zero =>
    intro s
    simp [get_stats_loop, Ending.keeps]
  | succ fuel ih =>
    intro s
    unfold get_stats_loop
    split
    · simp [Ending.keeps]
    · simp [Ending.keeps]
    · simp only []
      split
      · simp [Ending.keeps]
      · split
        · split
          · simp [Ending.keeps]
          · split
            · exact ih _
            · split
              · simp [Ending.keeps]
              · split
                · exact ih _
                · split
                  · simp [Ending.keeps]
                  · exact ih _
        · simp [Ending.keeps]

/-- On a closed channel that holds decodable packets the worker drains the
channel and returns 0; it never classifies a frame as IP, so its local IP
and port tables stay as they were. -/
theorem get_stats_loop_closed (packets : List Packet) :
    ∀ (fuel : Nat) (s : Worker), s.input_chan.buffer.Sound → s.input_chan.is_closed = true →
      s.input_chan.contents = packets → (∀ p ∈ packets, p.decodable) →
      packets.length + 1 ≤ fuel →
      ∃ s1, get_stats_loop fuel s = Ending.returned 0 s1 ∧
        s1.ret_mac = s.ret_mac ∧ s1.ret_ip = s.ret_ip ∧ s1.ret_port = s.ret_port ∧
        s1.ip_stat = s.ip_stat ∧ s1.port_stat = s.port_stat ∧
        s1.input_chan.contents = [] ∧ s1.input_chan.is_closed = true := by
  induction packets with
  | nil =>
    intro fuel s hs hc hcont _ hfuel
    obtain ⟨f, rfl⟩ : ∃ f, fuel = f + 1 := ⟨fuel - 1, by omega⟩
    have he : s.input_chan.buffer.empty = true :=
      (channel.circular_buffer.contents_eq_nil_iff s.input_chan.buffer).mp hcont
    refine ⟨s, ?_, rfl, rfl, rfl, rfl, rfl, hcont, hc⟩
    simp only [get_stats_loop, channel.ochannel.receive,
      channel.channel_buffer.get_next_closed_empty s.input_chan hc he]
    rfl
  | cons p rest ih =>
    intro fuel s hs hc hcont hdec hfuel
    obtain ⟨f, rfl⟩ : ∃ f, fuel = f + 1 := ⟨fuel - 1, by omega⟩
    have he : s.input_chan.buffer.empty = false := by
      cases h : s.input_chan.buffer.empty with
      | false => rfl
      | true =>
        have := (channel.circular_buffer.contents_eq_nil_iff s.input_chan.buffer).mpr h
        rw [channel.channel_buffer.contents] at hcont
        rw [hcont] at this
        exact absurd this (by simp)
    obtain ⟨x, r, c, h1, h2, h3, h4, h5⟩ := channel.channel_buffer.get_next_ok s.input_chan
      (channel.channel_buffer.Sound.wf_of_nonempty hs he) he
    rw [hcont] at h1
    simp only [List.cons.injEq] at h1
    obtain ⟨rfl, rfl⟩ := h1
    obtain ⟨header, data, rfl, hlen⟩ := hdec _ (List.mem_cons_self _ _)
    have hnew := network.ethernet_new_eq data 0 (by omega)
    have hunk := (network.ethernet_header.new_unknown data 0 _ hnew).2
    simp only [List.length_cons] at hfuel
    obtain ⟨s1, g1, g2, g3, g4, g5, g6, g7, g8⟩ := ih f
      { s with
        input_chan := c
        mac_stat := (setup_map s.mac_stat
          ((network.ethernet_header.get_source
            ⟨⟨(data.drop 0).take 6⟩, ⟨(data.drop (0 + 6)).take 6⟩,
              (data.getD (0 + 12) 0).val⟩).to_string ':')
          ((network.ethernet_header.get_destination
            ⟨⟨(data.drop 0).take 6⟩, ⟨(data.drop (0 + 6)).take 6⟩,
              (data.getD (0 + 12) 0).val⟩).to_string ':') header.caplen) }
      (Or.inl h5) (by rw [h4, hc]) h3 (fun q hq => hdec q (List.mem_cons_of_mem _ hq))
      (by omega)
    refine ⟨s1, ?_, g2, g3, g4, g5, g6, g7, g8⟩
    rw [← g1]
    simp only [get_stats_loop, channel.ochannel.receive, h2, hnew, hunk]
    simp

end pcap_stats

namespace concurrent

namespace concurrent_unordered_map

variable {K V : Type} [DecidableEq K] [Inhabited K] [Inhabited V]

/-! ### What `insert` and `expand` leave in place -/

/-- However an `insert` ends, a VALID bucket of a live submap is afterwards the
bucket it was. -/
theorem InsertStep.keeps_valid {h : Hashers K} {m : concurrent_unordered_map K V}
    (hi : m.Inv h) {key : K} {v : V}
    {o : Outcome (const_iterator × Bool) (concurrent_unordered_map K V)}
    (hs : InsertStep h m key v o) (m1 : concurrent_unordered_map K V)
    (ho : (∃ r, o = Outcome.ret r m1) ∨ o = Outcome.runtime_error m1)
    (i j : Nat) (hlive : i < m.num_submaps)
    (hv : ((m.get_submap i).get_bucket j).state = Bucket.State.VALID) :
    (m1.get_submap i).get_bucket j = (m.get_submap i).get_bucket j ∧
      m.num_submaps ≤ m1.num_submaps ∧ m.num_entries ≤ m1.num_entries := by
  cases hs with
  | older i1 j1 hh hlt =>
    rcases ho with ⟨r, hr⟩ | hr
    · simp only [Outcome.ret.injEq] at hr
      rw [← hr.2]
      exact ⟨rfl, le_refl _, le_refl _⟩
    · exact absurd hr (by simp)
  | last j1 hh hno =>
    rcases ho with ⟨r, hr⟩ | hr
    · simp only [Outcome.ret.injEq] at hr
      rw [← hr.2]
      exact ⟨rfl, le_refl _, le_refl _⟩
    · exact absurd hr (by simp)
  | last_grow j1 hh hov hlt =>
    rcases ho with ⟨r, hr⟩ | hr
    · simp only [Outcome.ret.injEq] at hr
      rw [← hr.2, expanded_get_submap hi hlt, if_neg (by omega)]
      exact ⟨rfl, by rw [expanded_num_submaps]; omega, by rw [expanded_num_entries]⟩
    · exact absurd hr (by simp)
  | error hn hov hcap =>
    rcases ho with ⟨r, hr⟩ | hr
    · exact absurd hr (by simp)
    · simp only [Outcome.runtime_error.injEq] at hr
      rw [← hr]
      exact ⟨rfl, le_refl _, le_refl _⟩
  | new e hn hno he hemp hinv =>
    rcases ho with ⟨r, hr⟩ | hr
    · simp only [Outcome.ret.injEq] at hr
      rw [← hr.2]
      exact ⟨stored_get_entry_old hi e key v he hemp i j hv,
        by rw [stored_num_submaps], by rw [stored_num_entries]; omega⟩
    · exact absurd hr (by simp)
  | new_grow e hn hov hlt he hemp hinv =>
    rcases ho with ⟨r, hr⟩ | hr
    · simp only [Outcome.ret.injEq] at hr
      rw [← hr.2]
      have hsame : m.expanded.get_submap i = m.get_submap i := by
        rw [expanded_get_submap hi hlt, if_neg (by omega)]
      have hv1 : ((m.expanded.get_submap i).get_bucket j).state = Bucket.State.VALID := by
        rw [hsame]
        exact hv
      refine ⟨?_, ?_, ?_⟩
      · rw [stored_get_entry_old (hi.expanded hlt) e key v he hemp i j hv1, hsame]
      · rw [stored_num_submaps, expanded_num_submaps]
        omega
      · rw [stored_num_entries, expanded_num_entries]
        omega
    · exact absurd hr (by simp)

/-- What `expand` does to a map that satisfies the invariant. -/
theorem Inv.expand_cases {h : Hashers K} {m : concurrent_unordered_map K V} (hi : m.Inv h) :
    (m.num_submaps = m.submaps.length ∧
        m.expand = Outcome.runtime_error { m with expanding := true }) ∨
      (m.num_submaps < m.submaps.length ∧
        (m.get_submap m.get_last_submap_index).is_overloaded = true ∧
        m.expand = Outcome.ret true m.expanded) ∨
      (m.num_submaps < m.submaps.length ∧
        (m.get_submap m.get_last_submap_index).is_overloaded = false ∧
        m.expand = Outcome.ret false m) := by
  by_cases hcap : m.num_submaps = m.submaps.length
  · exact Or.inl ⟨hcap, hi.expand_at_cap hcap⟩
  · have hlt : m.num_submaps < m.submaps.length := lt_of_le_of_ne hi.num_le hcap
    cases hov : (m.get_submap m.get_last_submap_index).is_overloaded with
    | true => exact Or.inr (Or.inl ⟨hlt, rfl, hi.expand_grow hcap hov⟩)
    | false => exact Or.inr (Or.inr ⟨hlt, rfl, hi.expand_noop hcap hov⟩)

/-- On a newest submap that is not overloaded `Submap::insert` returns a position. -/
theorem Inv.sub_insert_done {h : Hashers K} {m : concurrent_unordered_map K V} (hi : m.Inv h)
    (key : K) (v : V)
    (hno : (m.get_submap m.get_last_submap_index).is_overloaded = false) :
    (∃ j, j < (m.get_submap m.get_last_submap_index).get_capacity ∧
        ((m.get_submap m.get_last_submap_index).get_bucket j).state = Bucket.State.EMPTY) ∧
      ∃ index inserted sm,
        (m.get_submap m.get_last_submap_index).insert key (h.keyHash1 key) (h.keyHash2 key) v =
          Submap.InsertResult.done index inserted sm ∧
        index < (m.get_submap m.get_last_submap_index).get_capacity := by
  have hsub := hi.sub_inv _ hi.last_lt
  have hlt := hsub.not_overloaded_lt (by rw [hi.factor _ hi.last_lt]; exact hi.factor_pos)
    (by rw [hi.factor _ hi.last_lt]; exact hi.factor_lt)
    (by rw [hi.factor _ hi.last_lt]; exact hi.factor_number) hno
  refine ⟨hsub.exists_empty hlt, ?_⟩
  by_cases hex : ∃ j, (m.get_submap m.get_last_submap_index).holds key j
  · obtain ⟨j, hj⟩ := hex
    exact ⟨j, false, _, hsub.insert_of_holds v hj, Submap.get_bucket_lt _ j hj.1⟩
  · have hn : ∀ j, ¬ (m.get_submap m.get_last_submap_index).holds key j :=
      fun j hj => hex ⟨j, hj⟩
    obtain ⟨e, he, _, hins, _⟩ := hsub.insert_new key v hn hlt
    exact ⟨e, true, _, hins, he⟩

/-- After the throw of `expand` the flag is set: a later `insert` of the same key
spins on it. -/
theorem insert_after_error (h : Hashers K) (m : concurrent_unordered_map K V) (key : K) (v : V)
    (hn : ∀ i j, i < m.get_last_submap_index → ¬ m.holds key i j)
    (hL : m.get_last_submap_index < m.num_submaps)
    (hov : (m.get_submap m.get_last_submap_index).is_overloaded = true) (fuel : Nat) :
    insert h (fuel + 1) { m with expanding := true } key v = Outcome.spin := by
  have hn1 : ∀ i j, i < get_last_submap_index ({ m with expanding := true }) →
      ¬ (get_submap ({ m with expanding := true }) i).holds key j := by
    intro i j hlt hh
    have hlt1 : i < m.get_last_submap_index := hlt
    exact hn i j hlt1 ⟨by unfold get_num_submaps; omega, hh⟩
  unfold insert
  rw [insert_helper_not_older _ key _ _ v fuel hn1]
  have hov1 : (get_submap ({ m with expanding := true })
      (get_last_submap_index ({ m with expanding := true }))).is_overloaded = true := hov
  rw [if_pos hov1]
  rfl

end concurrent_unordered_map

end concurrent

namespace pcap_stats

/-! ## The table of `setup_map`: lemmas -/

theorem lookup_map_update (ret : stat_map) (key k1 : String × String)
    (f : send_data → send_data) :
    (ret.map fun e => if e.1 = key then (e.1, f e.2) else e).lookup k1 =
      (ret.lookup k1).map fun v => if k1 = key then f v else v := by
  induction ret with
  | nil => rfl
  | cons e ret ih =>
    obtain ⟨k, v⟩ := e
    have hhead : (if k = key then (k, f v) else (k, v)) = (k, if k = key then f v else v) := by
      by_cases h1 : k = key <;> simp [h1]
    simp only [List.map_cons, hhead, List.lookup_cons]
    by_cases hk : k1 = k
    · subst hk
      simp
    · have hne : (k1 == k) = false := by simpa using hk
      simp only [hne]
      exact ih

theorem keys_map_update (ret : stat_map) (key : String × String) (f : send_data → send_data) :
    (ret.map fun e => if e.1 = key then (e.1, f e.2) else e).map Prod.fst =
      ret.map Prod.fst := by
  rw [List.map_map]
  apply List.map_congr_left
  intro e _
  by_cases h : e.1 = key <;> simp [h]

theorem lookup_isSome_iff (ret : stat_map) (key : String × String) :
    (ret.lookup key).isSome = true ↔ key ∈ ret.map Prod.fst := by
  induction ret with
  | nil => simp
  | cons e ret ih =>
    obtain ⟨k, v⟩ := e
    simp only [List.lookup_cons, List.map_cons, List.mem_cons]
    by_cases hk : key = k
    · simp [hk]
    · have hne : (key == k) = false := by simpa using hk
      simp only [hne, hk, false_or]
      exact ih

theorem update_lookup (ret : stat_map) (key k1 : String × String) (f : send_data → send_data) :
    (ret.update key f).lookup k1 =
      if k1 = key then some (f ((ret.lookup key).getD default)) else ret.lookup k1 := by
  unfold stat_map.update
  cases h : ret.lookup key with
  | some v =>
    simp only [Option.isSome_some, if_true, Option.getD_some]
    rw [lookup_map_update]
    by_cases h1 : k1 = key
    · simp [h1, h]
    · simp [h1]
  | none =>
    simp only [Option.isSome_none, Bool.false_eq_true, if_false, Option.getD_none]
    rw [List.lookup_append]
    by_cases h1 : k1 = key
    · simp [h1, h, List.lookup_cons]
    · have hne : (k1 == key) = false := by simpa using h1
      simp [h1, List.lookup_cons, hne]

theorem update_keys (ret : stat_map) (key : String × String) (f : send_data → send_data) :
    (ret.update key f).map Prod.fst =
      if (ret.lookup key).isSome = true then ret.map Prod.fst else ret.map Prod.fst ++ [key] := by
  unfold stat_map.update
  by_cases h : (ret.lookup key).isSome = true
  · rw [if_pos h, if_pos h, keys_map_update]
  · rw [if_neg h, if_neg h]
    simp

theorem update_nodup (ret : stat_map) (key : String × String) (f : send_data → send_data)
    (hnd : (ret.map Prod.fst).Nodup) : ((ret.update key f).map Prod.fst).Nodup := by
  rw [update_keys]
  by_cases h : (ret.lookup key).isSome = true
  · rw [if_pos h]
    exact hnd
  · rw [if_neg h]
    have hnot : key ∉ ret.map Prod.fst := fun hm => h ((lookup_isSome_iff ret key).mpr hm)
    exact List.Nodup.append hnd (List.nodup_singleton key) (by simpa using hnot)

theorem packets_map_update (ret : stat_map) (key : String × String) (f : send_data → send_data)
    (v : send_data) (hnd : (ret.map Prod.fst).Nodup) (hl : ret.lookup key = some v) :
    stat_map.packets (ret.map fun e => if e.1 = key then (e.1, f e.2) else e) =
      stat_map.packets ret - (v.tx.packet + v.rx.packet)
        + ((f v).tx.packet + (f v).rx.packet) := by
  induction ret with
  | nil => simp at hl
  | cons e ret ih =>
    obtain ⟨k, v1⟩ := e
    simp only [List.map_cons, List.nodup_cons] at hnd
    by_cases hk : key = k
    · subst hk
      have hv : v1 = v := by simpa [List.lookup_cons] using hl
      subst hv
      have htail : (ret.map fun e => if e.1 = key then (e.1, f e.2) else e) = ret := by
        conv_rhs => rw [← List.map_id ret]
        apply List.map_congr_left
        intro e he
        have : e.1 ≠ key := fun heq => hnd.1 (heq ▸ List.mem_map_of_mem Prod.fst he)
        simp [this]
      simp only [stat_map.packets, List.map_cons, if_true, List.sum_cons]
      have htail1 := congrArg (fun l : stat_map =>
        (l.map fun e => e.2.tx.packet + e.2.rx.packet).sum) htail
      simp only at htail1
      rw [htail1]
      ring
    · have hne : (key == k) = false := by simpa using hk
      have hl1 : ret.lookup key = some v := by simpa [List.lookup_cons, hne] using hl
      have hk1 : ¬ k = key := fun h => hk h.symm
      have := ih hnd.2 hl1
      simp only [stat_map.packets, List.map_cons, hk1, if_false, List.sum_cons] at this ⊢
      rw [this]
      ring

theorem update_packets (ret : stat_map) (key : String × String) (f : send_data → send_data)
    (hnd : (ret.map Prod.fst).Nodup) :
    (ret.update key f).packets =
      ret.packets
        - (match ret.lookup key with
          | some v => v.tx.packet + v.rx.packet
          | none => 0)
        + ((f ((ret.lookup key).getD default)).tx.packet
          + (f ((ret.lookup key).getD default)).rx.packet) := by
  unfold stat_map.update
  cases h : ret.lookup key with
  | some v =>
    simp only [Option.isSome_some, if_true, Option.getD_some]
    exact packets_map_update ret key f v hnd h
  | none =>
    simp only [Option.isSome_none, Bool.false_eq_true, if_false, Option.getD_none]
    simp [stat_map.packets]

theorem mem_iff_lookup (ret : stat_map) (hnd : (ret.map Prod.fst).Nodup)
    (key : String × String) (v : send_data) :
    (key, v) ∈ ret ↔ ret.lookup key = some v := by
  induction ret with
  | nil => simp
  | cons e ret ih =>
    obtain ⟨k, v1⟩ := e
    simp only [List.map_cons, List.nodup_cons] at hnd
    simp only [List.mem_cons, List.lookup_cons, Prod.mk.injEq]
    by_cases hk : key = k
    · subst hk
      simp only [beq_self_eq_true, true_and, Option.some.injEq]
      constructor
      · rintro (h | h)
        · exact h.symm
        · exact absurd (List.mem_map_of_mem Prod.fst h) hnd.1
      · intro h
        exact Or.inl h.symm
    · have hne : (key == k) = false := by simpa using hk
      simp only [hne, hk, false_and, false_or]
      exact ih hnd.2

theorem direction_append (rs : List (String × String × Int)) (r : String × String × Int)
    (a b : String) :
    direction (rs ++ [r]) a b =
      direction rs a b ++ (if r.1 = a ∧ r.2.1 = b then [r.2.2] else []) := by
  unfold direction
  rw [List.filter_append, List.map_append]
  by_cases h : r.1 = a ∧ r.2.1 = b
  · simp [List.filter_cons, h]
  · simp [List.filter_cons, h]

theorem first_direction_append (rs : List (String × String × Int)) (r : String × String × Int)
    (a b : String) :
    first_direction (rs ++ [r]) a b =
      match first_direction rs a b with
      | some p => some p
      | none =>
        if (r.1 = a ∧ r.2.1 = b) ∨ (r.1 = b ∧ r.2.1 = a) then some (r.1, r.2.1) else none := by
  unfold first_direction
  rw [List.find?_append]
  cases h : rs.find? fun r => decide ((r.1 = a ∧ r.2.1 = b) ∨ (r.1 = b ∧ r.2.1 = a)) with
  | some q => simp
  | none =>
    by_cases h1 : (r.1 = a ∧ r.2.1 = b) ∨ (r.1 = b ∧ r.2.1 = a)
    · simp [List.find?_cons, h1]
    · simp [List.find?_cons, h1]

theorem first_direction_comm (rs : List (String × String × Int)) (a b : String) :
    first_direction rs a b = first_direction rs b a := by
  unfold first_direction
  have : (fun r : String × String × Int =>
      decide ((r.1 = a ∧ r.2.1 = b) ∨ (r.1 = b ∧ r.2.1 = a))) =
      fun r => decide ((r.1 = b ∧ r.2.1 = a) ∨ (r.1 = a ∧ r.2.1 = b)) := by
    funext r
    exact decide_eq_decide.mpr Or.comm
  rw [this]

theorem first_direction_some (rs : List (String × String × Int)) (a b : String)
    (p : String × String) (h : first_direction rs a b = some p) : p = (a, b) ∨ p = (b, a) := by
  unfold first_direction at h
  cases hf : rs.find? fun r => decide ((r.1 = a ∧ r.2.1 = b) ∨ (r.1 = b ∧ r.2.1 = a)) with
  | none =>
    rw [hf] at h
    exact absurd h (by simp)
  | some q =>
    rw [hf] at h
    have h1 := List.find?_some hf
    simp only [Option.map_some', Option.some.injEq] at h
    simp only [decide_eq_true_eq] at h1
    subst h
    rcases h1 with ⟨h2, h3⟩ | ⟨h2, h3⟩
    · exact Or.inl (by rw [h2, h3])
    · exact Or.inr (by rw [h2, h3])

theorem first_direction_none (rs : List (String × String × Int)) (a b : String)
    (h : first_direction rs a b = none) : direction rs a b = [] ∧ direction rs b a = [] := by
  unfold first_direction at h
  have hf : (rs.find? fun r => decide ((r.1 = a ∧ r.2.1 = b) ∨ (r.1 = b ∧ r.2.1 = a))) = none := by
    simpa using h
  rw [List.find?_eq_none] at hf
  unfold direction
  constructor
  · rw [List.map_eq_nil_iff, List.filter_eq_nil_iff]
    intro r hr hd
    exact hf r hr (by simpa using Or.inl (by simpa using hd))
  · rw [List.map_eq_nil_iff, List.filter_eq_nil_iff]
    intro r hr hd
    exact hf r hr (by simpa using Or.inr (by simpa using hd))

/-- The effect of one `setup_map` call on the lookups of the table. -/
theorem setup_map_lookup (ret : stat_map) (src des : String) (bytes : Int)
    (k1 : String × String) :
    (setup_map ret src des bytes).lookup k1 =
      if (ret.lookup (src, des)).isSome = true then
        if k1 = (src, des) then
          (ret.lookup (src, des)).map fun v =>
            ⟨⟨v.tx.packet + 1, v.tx.bytes + bytes⟩, v.rx⟩
        else ret.lookup k1
      else if (ret.lookup (des, src)).isSome = true then
        if k1 = (des, src) then
          (ret.lookup (des, src)).map fun v =>
            ⟨v.tx, ⟨v.rx.packet + 1, v.rx.bytes + bytes⟩⟩
        else ret.lookup k1
      else
        if k1 = (src, des) then some ⟨⟨1, bytes⟩, ⟨0, 0⟩⟩ else ret.lookup k1 := by
  unfold setup_map stat_map.count
  by_cases h1 : (ret.lookup (src, des)).isSome = true
  · simp only [h1, if_true, gt_iff_lt, Nat.lt_irrefl, Nat.zero_lt_one]
    simp only [update_lookup]
    obtain ⟨v, hv⟩ := Option.isSome_iff_exists.mp h1
    by_cases hk : k1 = (src, des)
    · simp [hk, hv]
    · simp [hk]
  · simp only [h1, if_false, gt_iff_lt, Nat.lt_irrefl, Nat.zero_lt_one, Bool.false_eq_true]
    by_cases h2 : (ret.lookup (des, src)).isSome = true
    · simp only [h2, if_true, Nat.zero_lt_one]
      simp only [update_lookup]
      obtain ⟨v, hv⟩ := Option.isSome_iff_exists.mp h2
      by_cases hk : k1 = (des, src)
      · simp [hk, hv]
      · simp [hk]
    · simp only [h2, if_false, Nat.lt_irrefl, Bool.false_eq_true]
      simp only [update_lookup]
      by_cases hk : k1 = (src, des)
      · simp [hk, show (default : send_data) = ⟨⟨0, 0⟩, ⟨0, 0⟩⟩ from rfl]
      · simp [hk]

/-- One `setup_map` call keeps the keys of the table distinct. -/
theorem setup_map_nodup (ret : stat_map) (src des : String) (bytes : Int)
    (hnd : (ret.map Prod.fst).Nodup) : ((setup_map ret src des bytes).map Prod.fst).Nodup := by
  unfold setup_map
  dsimp only
  split_ifs
  · exact update_nodup _ _ _ (update_nodup _ _ _ hnd)
  · exact update_nodup _ _ _ (update_nodup _ _ _ hnd)
  · exact update_nodup _ _ _ (update_nodup _ _ _ (update_nodup _ _ _ hnd))

/-- One `setup_map` call adds one to the sum of the packet counts of the table. -/
theorem setup_map_packets (ret : stat_map) (src des : String) (bytes : Int)
    (hnd : (ret.map Prod.fst).Nodup) :
    (setup_map ret src des bytes).packets = ret.packets + 1 := by
  unfold setup_map stat_map.count
  by_cases h1 : (ret.lookup (src, des)).isSome = true
  · simp only [h1, if_true, gt_iff_lt, Nat.zero_lt_one]
    obtain ⟨v, hv⟩ := Option.isSome_iff_exists.mp h1
    rw [update_packets _ _ _ (update_nodup _ _ _ hnd), update_lookup, update_packets _ _ _ hnd]
    simp only [hv, if_true, Option.getD_some]
    ring
  · simp only [h1, if_false, gt_iff_lt, Nat.lt_irrefl, Bool.false_eq_true]
    by_cases h2 : (ret.lookup (des, src)).isSome = true
    · simp only [h2, if_true, Nat.zero_lt_one]
      obtain ⟨v, hv⟩ := Option.isSome_iff_exists.mp h2
      rw [update_packets _ _ _ (update_nodup _ _ _ hnd), update_lookup, update_packets _ _ _ hnd]
      simp only [hv, if_true, Option.getD_some]
      ring
    · simp only [h2, if_false, Nat.lt_irrefl, Bool.false_eq_true]
      have hn : ret.lookup (src, des) = none := by
        cases h : ret.lookup (src, des) with
        | none => rfl
        | some v => simp [h] at h1
      rw [update_packets _ _ _ (update_nodup _ _ _ (update_nodup _ _ _ hnd)), update_lookup,
        update_packets _ _ _ (update_nodup _ _ _ hnd), update_lookup, update_packets _ _ _ hnd]
      simp only [hn, if_true, Option.getD_some, Option.getD_none]
      show ret.packets - 0 + _ - _ + _ - _ + _ = _
      simp only [show (default : send_data) = ⟨⟨0, 0⟩, ⟨0, 0⟩⟩ from rfl]
      ring

theorem first_direction_append_some (rs : List (String × String × Int))
    (r : String × String × Int) (a b : String) (p : String × String)
    (h : first_direction rs a b = some p) : first_direction (rs ++ [r]) a b = some p := by
  rw [first_direction_append, h]

theorem first_direction_append_match (rs : List (String × String × Int))
    (r : String × String × Int) (a b : String) (h : first_direction rs a b = none)
    (hm : (r.1 = a ∧ r.2.1 = b) ∨ (r.1 = b ∧ r.2.1 = a)) :
    first_direction (rs ++ [r]) a b = some (r.1, r.2.1) := by
  rw [first_direction_append, h]
  simp only [hm, if_true]

theorem first_direction_append_other (rs : List (String × String × Int))
    (r : String × String × Int) (a b : String)
    (hm : ¬ ((r.1 = a ∧ r.2.1 = b) ∨ (r.1 = b ∧ r.2.1 = a))) :
    first_direction (rs ++ [r]) a b = first_direction rs a b := by
  rw [first_direction_append]
  cases h : first_direction rs a b with
  | none => simp only [hm, if_false]
  | some p => rfl

theorem tally_none (rs : List (String × String × Int)) (a b : String)
    (h : first_direction rs a b = none) : tally rs a b = ⟨⟨0, 0⟩, ⟨0, 0⟩⟩ := by
  obtain ⟨h1, h2⟩ := first_direction_none rs a b h
  unfold tally
  rw [h1, h2]
  simp

theorem tally_append_tx (rs : List (String × String × Int)) (a b : String) (bytes : Int) :
    tally (rs ++ [(a, b, bytes)]) a b =
      ⟨⟨(tally rs a b).tx.packet + 1, (tally rs a b).tx.bytes + bytes⟩, (tally rs a b).rx⟩ := by
  unfold tally
  rw [direction_append, direction_append]
  by_cases hab : a = b
  · simp [hab]
  · have hba : ¬ (a = b ∧ b = a) := fun h => hab h.1
    simp [hab, hba]

theorem tally_append_rx (rs : List (String × String × Int)) (a b : String) (bytes : Int)
    (hab : a ≠ b) :
    tally (rs ++ [(b, a, bytes)]) a b =
      ⟨(tally rs a b).tx, ⟨(tally rs a b).rx.packet + 1, (tally rs a b).rx.bytes + bytes⟩⟩ := by
  unfold tally
  rw [direction_append, direction_append]
  have hba : ¬ (b = a ∧ a = b) := fun h => hab h.2
  simp [hab, hba]

theorem tally_append_other (rs : List (String × String × Int)) (r : String × String × Int)
    (a b : String) (hm : ¬ ((r.1 = a ∧ r.2.1 = b) ∨ (r.1 = b ∧ r.2.1 = a))) :
    tally (rs ++ [r]) a b = tally rs a b := by
  unfold tally
  rw [direction_append, direction_append]
  have h1 : ¬ (r.1 = a ∧ r.2.1 = b) := fun h => hm (Or.inl h)
  have h2 : ¬ (r.1 = b ∧ r.2.1 = a) := fun h => hm (Or.inr h)
  simp [h1, h2]

/-- A record leaves the rows of the other keys as the records before it call for. -/
theorem step_other (rs : List (String × String × Int)) (r : String × String × Int)
    (a b : String) (k : String × String) (hk : (a, b) ≠ k)
    (hold : first_direction rs r.1 r.2.1 = none ∨ first_direction rs r.1 r.2.1 = some k)
    (hnew : first_direction (rs ++ [r]) r.1 r.2.1 = some k) :
    (if first_direction rs a b = some (a, b) then some (tally rs a b) else none) =
      if first_direction (rs ++ [r]) a b = some (a, b) then some (tally (rs ++ [r]) a b)
      else none := by
  by_cases hm : (r.1 = a ∧ r.2.1 = b) ∨ (r.1 = b ∧ r.2.1 = a)
  · have e1 : ∀ l : List (String × String × Int),
        first_direction l a b = first_direction l r.1 r.2.1 := by
      intro l
      rcases hm with ⟨h1, h2⟩ | ⟨h1, h2⟩
      · rw [h1, h2]
      · rw [h1, h2, first_direction_comm]
    have hk1 : ¬ some k = some (a, b) := fun h => hk (Option.some.inj h).symm
    rw [e1 rs, e1 (rs ++ [r]), hnew, if_neg hk1]
    rcases hold with h | h
    · rw [h]
      simp
    · rw [h, if_neg hk1]
  · rw [first_direction_append_other rs r a b hm, tally_append_other rs r a b hm]

/-- One `setup_map` call keeps the rows of the table as the records call for. -/
theorem setup_map_step (rs : List (String × String × Int)) (t : stat_map)
    (r : String × String × Int)
    (hl : ∀ a b, t.lookup (a, b) =
      if first_direction rs a b = some (a, b) then some (tally rs a b) else none)
    (a b : String) :
    (setup_map t r.1 r.2.1 r.2.2).lookup (a, b) =
      if first_direction (rs ++ [r]) a b = some (a, b) then some (tally (rs ++ [r]) a b)
      else none := by
  obtain ⟨src, des, bytes⟩ := r
  show (setup_map t src des bytes).lookup (a, b) = _
  rw [setup_map_lookup, hl src des, hl des src, hl a b]
  cases hfd : first_direction rs src des with
  | none =>
    have hfd2 : first_direction rs des src = none := by
      rw [first_direction_comm]
      exact hfd
    have hnew : first_direction (rs ++ [(src, des, bytes)]) src des = some (src, des) :=
      first_direction_append_match rs (src, des, bytes) src des hfd (Or.inl ⟨rfl, rfl⟩)
    rw [hfd2]
    simp only [reduceCtorEq, if_false, Option.isSome_none, Bool.false_eq_true]
    by_cases hk : (a, b) = (src, des)
    · obtain ⟨h1, h2⟩ := Prod.mk.inj hk
      subst h1 h2
      rw [if_pos rfl, hnew, if_pos rfl, tally_append_tx, tally_none rs a b hfd]
      simp
    · rw [if_neg hk]
      exact step_other rs (src, des, bytes) a b (src, des) hk (Or.inl hfd) hnew
  | some p =>
    have hnew : first_direction (rs ++ [(src, des, bytes)]) src des = some p :=
      first_direction_append_some rs (src, des, bytes) src des p hfd
    have hfd2 : first_direction rs des src = some p := by
      rw [first_direction_comm]
      exact hfd
    rw [hfd2]
    by_cases hp : p = (src, des)
    · subst hp
      simp only [if_true, Option.isSome_some]
      by_cases hk : (a, b) = (src, des)
      · obtain ⟨h1, h2⟩ := Prod.mk.inj hk
        subst h1 h2
        rw [if_pos rfl, hnew, if_pos rfl, tally_append_tx]
        simp
      · rw [if_neg hk]
        exact step_other rs (src, des, bytes) a b (src, des) hk (Or.inr hfd) hnew
    · have hp2 : p = (des, src) := by
        rcases first_direction_some rs src des p hfd with h | h
        · exact absurd h hp
        · exact h
      subst hp2
      have hne : ¬ some (des, src) = some (src, des) := fun h => hp (Option.some.inj h)
      have hsd : des ≠ src := fun h => hp (by rw [h])
      simp only [hne, if_false, if_true, Option.isSome_none, Option.isSome_some,
        Bool.false_eq_true]
      by_cases hk : (a, b) = (des, src)
      · obtain ⟨h1, h2⟩ := Prod.mk.inj hk
        subst h1 h2
        have hnew2 : first_direction (rs ++ [(b, a, bytes)]) a b = some (a, b) := by
          rw [first_direction_comm]
          exact hnew
        rw [if_pos rfl, hnew2, if_pos rfl, tally_append_rx rs a b bytes hsd]
        simp
      · rw [if_neg hk]
        exact step_other rs (src, des, bytes) a b (des, src) hk (Or.inr hfd) hnew

/-- The table of `setup_map` after the records of a list: the keys are distinct, the row
under `(a, b)` exists when the first record between `a` and `b` went from `a` to `b`
and then holds the tally of the records, and the packet counts add up to the number
of records. -/
theorem run_setup_spec (records : List (String × String × Int)) :
    ((run_setup records).map Prod.fst).Nodup ∧
      (∀ a b, (run_setup records).lookup (a, b) =
        if first_direction records a b = some (a, b) then some (tally records a b) else none) ∧
      (run_setup records).packets = records.length := by
  induction records using List.reverseRecOn with
  | nil =>
    refine ⟨List.nodup_nil, ?_, rfl⟩
    intro a b
    rfl
  | append_singleton rs r ih =>
    obtain ⟨h1, h2, h3⟩ := ih
    have hrun : run_setup (rs ++ [r]) = setup_map (run_setup rs) r.1 r.2.1 r.2.2 := by
      unfold run_setup
      rw [List.foldl_append]
      rfl
    rw [hrun]
    refine ⟨setup_map_nodup _ _ _ _ h1, setup_map_step rs _ r h2, ?_⟩
    rw [setup_map_packets _ _ _ _ h1, h3]
    simp

theorem run_setup_append (rs : List (String × String × Int)) (r : String × String × Int) :
    run_setup (rs ++ [r]) = setup_map (run_setup rs) r.1 r.2.1 r.2.2 := by
  unfold run_setup
  rw [List.foldl_append]
  rfl

theorem run_setup_key_iff (records : List (String × String × Int)) (a b : String) :
    (a, b) ∈ (run_setup records).map Prod.fst ↔ first_direction records a b = some (a, b) := by
  rw [← lookup_isSome_iff, (run_setup_spec records).2.1 a b]
  by_cases h : first_direction records a b = some (a, b)
  · simp [h]
  · simp [h]

theorem run_setup_one_key (records : List (String × String × Int)) (a b : String) (hab : a ≠ b) :
    ¬ ((a, b) ∈ (run_setup records).map Prod.fst ∧ (b, a) ∈ (run_setup records).map Prod.fst) := by
  rintro ⟨h1, h2⟩
  rw [run_setup_key_iff] at h1 h2
  rw [first_direction_comm, h1] at h2
  exact hab (Prod.mk.inj (Option.some.inj h2)).1

theorem first_direction_of_mem (records : List (String × String × Int))
    (r : String × String × Int) (hr : r ∈ records) :
    first_direction records r.1 r.2.1 = some (r.1, r.2.1) ∨
      first_direction records r.1 r.2.1 = some (r.2.1, r.1) := by
  cases h : first_direction records r.1 r.2.1 with
  | some p =>
    rcases first_direction_some records r.1 r.2.1 p h with h1 | h1
    · exact Or.inl (by rw [h1])
    · exact Or.inr (by rw [h1])
  | none =>
    exfalso
    unfold first_direction at h
    have hf : (records.find? fun q =>
        decide ((q.1 = r.1 ∧ q.2.1 = r.2.1) ∨ (q.1 = r.2.1 ∧ q.2.1 = r.1))) = none := by
      simpa using h
    rw [List.find?_eq_none] at hf
    exact hf r hr (by simp)

theorem run_setup_row (records : List (String × String × Int)) (a b : String) (v : send_data)
    (hv : ((a, b), v) ∈ run_setup records) : v = tally records a b := by
  obtain ⟨h1, h2, _⟩ := run_setup_spec records
  rw [mem_iff_lookup _ h1, h2 a b] at hv
  by_cases h : first_direction records a b = some (a, b)
  · rw [if_pos h] at hv
    exact (Option.some.inj hv).symm
  · rw [if_neg h] at hv
    exact absurd hv (by simp)

end pcap_stats

namespace concurrent

namespace concurrent_unordered_map

variable {K V : Type} [DecidableEq K] [Inhabited K] [Inhabited V]

/-! ## The map: claims -/

theorem first_write_of_not_mem (kvs : List (K × V)) (key : K) (hn : key ∉ kvs.map Prod.fst) :
    first_write kvs key = none := by
  unfold first_write
  rw [Option.map_eq_none', List.find?_eq_none]
  intro p hp hc
  simp only [decide_eq_true_eq] at hc
  exact hn (List.mem_map.mpr ⟨p, hp, hc⟩)

theorem first_write_of_first (kvs : List (K × V)) (key : K) :
    ∀ (j : Nat) (hj : j < kvs.length), kvs[j].1 = key →
      (∀ (i : Nat) (hi : i < kvs.length), i < j → kvs[i].1 ≠ key) →
      first_write kvs key = some kvs[j].2 := by
  induction kvs with
  | nil =>
    intro j hj
    simp at hj
  | cons kv kvs ih =>
    intro j hj hk hfirst
    obtain ⟨k, v0⟩ := kv
    rw [first_write_cons]
    cases j with
    | zero =>
      simp only [List.getElem_cons_zero] at hk ⊢
      rw [if_pos hk]
    | succ j =>
      have h0 := hfirst 0 (by simp) (by omega)
      simp only [List.getElem_cons_zero] at h0
      rw [if_neg h0]
      simp only [List.getElem_cons_succ] at hk ⊢
      apply ih j (by simpa using hj) hk
      intro i hi hij
      have := hfirst (i + 1) (by simpa using hi) (by omega)
      simpa using this

/-- C1. First write wins: after a run of `insert(k_i, v_i)` calls on a freshly
constructed map, each of which returned, `find(key)` is `end()` (and `at(key)`
throws) when `key` is not among the `k_i`; and when `j` is the first index with
`k_j = key`, `find(key)` is not `end()`, it points at the entry `(key, v_j)`
and `at(key)` returns `v_j`. -/
theorem C1_first_write_wins (h : Hashers K) (estimatednum_entries : Nat) (maxload_factor : Flt)
    (maxnum_submaps fuel : Nat) (m0 m : concurrent_unordered_map K V) (kvs : List (K × V))
    (rs : List (const_iterator × Bool))
    (h0 : concurrent_unordered_map.new estimatednum_entries maxload_factor maxnum_submaps
      = Except.ok m0)
    (hrun : run_inserts h fuel kvs m0 = some (rs, m)) (key : K) :
    (key ∉ kvs.map Prod.fst →
        find h m key = m.end_ ∧ at_ h m key = Except.error "entry not found") ∧
      (∀ (j : Nat) (hj : j < kvs.length), kvs[j].1 = key →
        (∀ (i : Nat) (hi : i < kvs.length), i < j → kvs[i].1 ≠ key) →
        (find h m key).ne m.end_ = true ∧ m.get_entry (find h m key) = (key, kvs[j].2) ∧
          at_ h m key = Except.ok kvs[j].2) := by
  obtain ⟨hi, _, _, hent⟩ := run_inserts_spec h fuel kvs m0 m rs (new_Inv h h0)
    (Reachable.init _ _ _ m0 h0) hrun
  have he0 := new_entries h0
  simp only [he0, List.not_mem_nil, List.map_nil, not_false_eq_true, true_and, false_or]
    at hent
  constructor
  · intro hn
    apply hi.find_of_not_mem
    intro hc
    obtain ⟨x, hx, hk⟩ := List.mem_map.mp hc
    have := (hent key x.2).mp (by rw [← hk]; exact hx)
    rw [first_write_of_not_mem kvs key hn] at this
    exact absurd this (by simp)
  · intro j hj hk hfirst
    exact hi.find_of_mem ((hent key _).mpr (first_write_of_first kvs key j hj hk hfirst))

/-- C1 on the run insert (1, 10), (2, 20), (1, 30) of the spec: key 3 is not
found, and key 1 has the value 10 of its first insert. -/
theorem C1_first_write_wins_witness :
    (find example_hashers (example_state example_fresh [(1, 10), (2, 20), (1, 30)]) 3
        = (example_state example_fresh [(1, 10), (2, 20), (1, 30)]).end_ ∧
      at_ example_hashers (example_state example_fresh [(1, 10), (2, 20), (1, 30)]) 3
        = Except.error "entry not found") ∧
    ((find example_hashers (example_state example_fresh [(1, 10), (2, 20), (1, 30)]) 1).ne
        (example_state example_fresh [(1, 10), (2, 20), (1, 30)]).end_ = true ∧
      (example_state example_fresh [(1, 10), (2, 20), (1, 30)]).get_entry
        (find example_hashers (example_state example_fresh [(1, 10), (2, 20), (1, 30)]) 1)
        = (1, 10) ∧
      at_ example_hashers (example_state example_fresh [(1, 10), (2, 20), (1, 30)]) 1
        = Except.ok 10) :=
  ⟨(C1_first_write_wins example_hashers 0 DEFAULT_MAX_LOAD_FACTOR 2 2 example_fresh
      (example_state example_fresh [(1, 10), (2, 20), (1, 30)]) [(1, 10), (2, 20), (1, 30)]
      (example_results example_fresh [(1, 10), (2, 20), (1, 30)]) (by rfl) (by rfl) 3).1 (by decide),
    (C1_first_write_wins example_hashers 0 DEFAULT_MAX_LOAD_FACTOR 2 2 example_fresh
      (example_state example_fresh [(1, 10), (2, 20), (1, 30)]) [(1, 10), (2, 20), (1, 30)]
      (example_results example_fresh [(1, 10), (2, 20), (1, 30)]) (by rfl) (by rfl) 1).2 0 (by decide) (by rfl)
      (fun i _ hi => absurd hi (by omega))⟩

/-- C3. Key uniqueness under sequential use: in every state reached from
construction by calls of `insert`, two VALID buckets of live submaps that hold
the same key are the same bucket of the same submap. -/
theorem C3_key_uniqueness (h : Hashers K) (m : concurrent_unordered_map K V)
    (hr : Reachable h m) (key : K) (i j i1 j1 : Nat)
    (hh : m.holds key i j) (hh1 : m.holds key i1 j1) : i = i1 ∧ j = j1 :=
  hr.inv.holds_unique hh hh1

/-- C3 on the map after insert (1, 10): key 1 is held by bucket 1 of
submap 0. -/
theorem C3_key_uniqueness_witness : (0 : Nat) = 0 ∧ (1 : Nat) = 1 :=
  C3_key_uniqueness example_hashers (example_state example_fresh [(1, 10)])
    (Reachable.step 2 example_fresh (example_state example_fresh [(1, 10)]) 1 10
      (⟨0, 1, false⟩, true) (Reachable.init 0 DEFAULT_MAX_LOAD_FACTOR 2 example_fresh (by rfl)) (by rfl))
    1 0 1 0 1 ⟨by decide, by rfl, by rfl⟩ ⟨by decide, by rfl, by rfl⟩

/-- C4. After a run of `insert` calls on a fresh map, each of which returned,
`size()` is the number of distinct keys inserted, the number of calls that
returned `true`, the sum of the valid-bucket counts that `get_stats` reports
for the submaps, and the number of VALID buckets. -/
theorem C4_size_counts (h : Hashers K) (estimatednum_entries : Nat) (maxload_factor : Flt)
    (maxnum_submaps fuel : Nat) (m0 m : concurrent_unordered_map K V) (kvs : List (K × V))
    (rs : List (const_iterator × Bool))
    (h0 : concurrent_unordered_map.new estimatednum_entries maxload_factor maxnum_submaps
      = Except.ok m0)
    (hrun : run_inserts h fuel kvs m0 = some (rs, m)) :
    m.size = (kvs.map Prod.fst).dedup.length ∧
      m.size = (rs.filter fun r => r.2).length ∧
      m.size = (m.get_stats.submaps_stats.map fun s => s.num_valid_buckets).sum ∧
      m.size = m.num_valid ∧
      m.get_stats.num_entries = m.size := by
  obtain ⟨hi, _, hcnt, hent⟩ := run_inserts_spec h fuel kvs m0 m rs (new_Inv h h0)
    (Reachable.init _ _ _ m0 h0) hrun
  have he0 := new_entries h0
  have hz : m0.num_entries = 0 := by
    rw [← (new_Inv h h0).entries_length, he0]
    rfl
  simp only [he0, List.not_mem_nil, List.map_nil, not_false_eq_true, true_and, false_or]
    at hent
  refine ⟨?_, by rw [size, get_num_entries, hcnt, hz, Nat.zero_add],
    (stats_sum hi).symm, by rw [num_valid_eq, hi.entries_length]; rfl, rfl⟩
  show m.num_entries = _
  rw [← hi.entries_length, ← List.length_map m.entries Prod.fst,
    ← List.toFinset_card_of_nodup hi.keys_nodup, ← List.card_toFinset]
  congr 1
  ext key
  simp only [List.mem_toFinset]
  constructor
  · intro hk
    obtain ⟨x, hx, rfl⟩ := List.mem_map.mp hk
    have hfw := (hent x.1 x.2).mp hx
    by_contra hn
    rw [first_write_of_not_mem kvs x.1 hn] at hfw
    exact absurd hfw (by simp)
  · intro hk
    cases hfw : first_write kvs key with
    | none =>
      unfold first_write at hfw
      rw [Option.map_eq_none', List.find?_eq_none] at hfw
      obtain ⟨x, hx, rfl⟩ := List.mem_map.mp hk
      exact absurd (by simp) (hfw x hx)
    | some v =>
      exact List.mem_map.mpr ⟨(key, v), (hent key v).mpr hfw, rfl⟩

/-- C4 on the run insert (1, 10), (2, 20), (1, 30): size 2. -/
theorem C4_size_counts_witness :
    (example_state example_fresh [(1, 10), (2, 20), (1, 30)]).size
        = (([(1, 10), (2, 20), (1, 30)] : List (Nat × Nat)).map Prod.fst).dedup.length ∧
      (example_state example_fresh [(1, 10), (2, 20), (1, 30)]).size
        = ((example_results example_fresh [(1, 10), (2, 20), (1, 30)]).filter
            fun r => r.2).length ∧
      (example_state example_fresh [(1, 10), (2, 20), (1, 30)]).size
        = ((example_state example_fresh [(1, 10), (2, 20), (1, 30)]).get_stats.submaps_stats.map
            fun s => s.num_valid_buckets).sum ∧
      (example_state example_fresh [(1, 10), (2, 20), (1, 30)]).size
        = (example_state example_fresh [(1, 10), (2, 20), (1, 30)]).num_valid ∧
      (example_state example_fresh [(1, 10), (2, 20), (1, 30)]).get_stats.num_entries
        = (example_state example_fresh [(1, 10), (2, 20), (1, 30)]).size :=
  C4_size_counts example_hashers 0 DEFAULT_MAX_LOAD_FACTOR 2 2 example_fresh
    (example_state example_fresh [(1, 10), (2, 20), (1, 30)]) [(1, 10), (2, 20), (1, 30)]
    (example_results example_fresh [(1, 10), (2, 20), (1, 30)]) (by rfl) (by rfl)

end concurrent_unordered_map

end concurrent

namespace concurrent

namespace concurrent_unordered_map

variable {K V : Type} [DecidableEq K] [Inhabited K] [Inhabited V]

/-- C7. The constructor throws its domain error exactly when one of its tests holds:
the float comparisons `maxload_factor <= 0.0f` and `maxload_factor >= 1.0f`, and
`maxnum_submaps < 1`.  With other arguments everything hangs on the conversion
`(std::size_t)(1.0f * estimatednum_entries / maxload_factor)`.  When it has a value
`q`, the constructor builds a map whose vector holds `maxnum_submaps` pointers, the
first to a submap of `max(11, next_prime(q))` buckets, a prime number of them,
each EMPTY with a default entry, and the others null: one live submap, no
entries.  When its behaviour is undefined, so is that of the constructor.  A NaN
load factor passes both range tests and leaves the conversion undefined: it is
not rejected, and no map is built from it. -/
theorem C7_constructor (K V : Type) [DecidableEq K] [Inhabited K] [Inhabited V]
    (estimatednum_entries : Nat) (maxload_factor : Flt) (maxnum_submaps : Nat) :
    ((∃ msg, (concurrent_unordered_map.new estimatednum_entries maxload_factor maxnum_submaps :
          Except Failure (concurrent_unordered_map K V)) =
            Except.error (Failure.logic_error msg)) ↔
        (Flt.le maxload_factor (Flt.ofNat 0) = true ∨ Flt.ge maxload_factor (Flt.ofNat 1) = true ∨
          maxnum_submaps < 1)) ∧
      (∀ m : concurrent_unordered_map K V,
        concurrent_unordered_map.new estimatednum_entries maxload_factor maxnum_submaps
          = Except.ok m →
        ∃ q, Flt.toSize (Flt.div
              (Flt.mul FIRST_SUBMAP_CAPACITY_MULTIPLIER (Flt.ofNat estimatednum_entries))
              maxload_factor) = some q ∧
          m.submaps = some (Submap.new (max FIRST_SUBMAP_MIN_CAPACITY (next_prime q))
            maxload_factor) :: List.replicate (maxnum_submaps - 1) none ∧
          m.get_submap 0 =
            Submap.new (max FIRST_SUBMAP_MIN_CAPACITY (next_prime q)) maxload_factor ∧
          (m.get_submap 0).buckets =
            List.replicate (max FIRST_SUBMAP_MIN_CAPACITY (next_prime q))
              ⟨Bucket.State.EMPTY, (default, default)⟩ ∧
          (m.get_submap 0).get_capacity = max FIRST_SUBMAP_MIN_CAPACITY (next_prime q) ∧
          Nat.Prime (m.get_submap 0).get_capacity ∧ 11 ≤ (m.get_submap 0).get_capacity ∧
          (m.get_submap 0).get_num_valid_buckets = 0 ∧
          (m.get_submap 0).maxload_factor = maxload_factor ∧
          m.maxload_factor = maxload_factor ∧ maxload_factor ≠ Flt.nan ∧
          m.expanding = false ∧
          m.get_num_submaps = 1 ∧ m.size = 0 ∧ m.empty = true ∧ m.entries = [] ∧
          m.get_maxnum_submaps = maxnum_submaps ∧
          (∀ j, ((m.get_submap 0).get_bucket j).state = Bucket.State.EMPTY) ∧
          (∀ i, 1 ≤ i → m.submaps.getD i none = none)) ∧
      ((∃ m : concurrent_unordered_map K V,
          concurrent_unordered_map.new estimatednum_entries maxload_factor maxnum_submaps
            = Except.ok m) ↔
        ¬ (Flt.le maxload_factor (Flt.ofNat 0) = true ∨
          Flt.ge maxload_factor (Flt.ofNat 1) = true ∨ maxnum_submaps < 1) ∧
          (Flt.toSize (Flt.div
            (Flt.mul FIRST_SUBMAP_CAPACITY_MULTIPLIER (Flt.ofNat estimatednum_entries))
            maxload_factor)).isSome = true) ∧
      ((concurrent_unordered_map.new estimatednum_entries maxload_factor maxnum_submaps :
          Except Failure (concurrent_unordered_map K V)) = Except.error Failure.undefined ↔
        ¬ (Flt.le maxload_factor (Flt.ofNat 0) = true ∨
          Flt.ge maxload_factor (Flt.ofNat 1) = true ∨ maxnum_submaps < 1) ∧
          Flt.toSize (Flt.div
            (Flt.mul FIRST_SUBMAP_CAPACITY_MULTIPLIER (Flt.ofNat estimatednum_entries))
            maxload_factor) = none) ∧
      Flt.le Flt.nan (Flt.ofNat 0) = false ∧ Flt.ge Flt.nan (Flt.ofNat 1) = false ∧
      (1 ≤ maxnum_submaps →
        (concurrent_unordered_map.new estimatednum_entries Flt.nan maxnum_submaps :
          Except Failure (concurrent_unordered_map K V)) = Except.error Failure.undefined) := by
  have hchk : (Flt.le maxload_factor (Flt.ofNat 0) || Flt.ge maxload_factor (Flt.ofNat 1)) = true ↔
      (Flt.le maxload_factor (Flt.ofNat 0) = true ∨ Flt.ge maxload_factor (Flt.ofNat 1) = true) := by
    simp only [Bool.or_eq_true]
  have hest : first_estimate estimatednum_entries maxload_factor = Flt.toSize (Flt.div
      (Flt.mul FIRST_SUBMAP_CAPACITY_MULTIPLIER (Flt.ofNat estimatednum_entries))
      maxload_factor) := rfl
  refine ⟨?_, ?_, ?_, ?_, Flt.nan_passes.1, Flt.nan_passes.2, ?_⟩
  · rw [new_eq]
    constructor
    · rintro ⟨msg, hm⟩
      split_ifs at hm with h1 h2
      · rcases hchk.mp h1 with h1 | h1
        · exact Or.inl h1
        · exact Or.inr (Or.inl h1)
      · exact Or.inr (Or.inr h2)
      · cases hq : first_estimate estimatednum_entries maxload_factor with
        | none => rw [hq] at hm; exact absurd hm (by simp)
        | some q => rw [hq] at hm; exact absurd hm (by simp)
    · intro hc
      by_cases h1 : (Flt.le maxload_factor (Flt.ofNat 0) || Flt.ge maxload_factor (Flt.ofNat 1))
          = true
      · rw [if_pos h1]
        exact ⟨_, rfl⟩
      · rw [if_neg h1]
        rw [hchk, not_or] at h1
        rcases hc with hc | hc | hc
        · exact absurd hc h1.1
        · exact absurd hc h1.2
        · rw [if_pos hc]
          exact ⟨_, rfl⟩
  · intro m hm
    obtain ⟨h1, h2, hM, q, hq, rfl⟩ := new_ok hm
    have hg := new_get_submap_zero maxload_factor maxnum_submaps hM
      (Submap.new (first_capacity q) maxload_factor : Submap K V) 1 0 false
    have hsub : (List.replicate maxnum_submaps (none : Option (Submap K V))).set 0
        (some (Submap.new (first_capacity q) maxload_factor)) =
        some (Submap.new (first_capacity q) maxload_factor) ::
          List.replicate (maxnum_submaps - 1) none := by
      obtain ⟨k, rfl⟩ : ∃ k, maxnum_submaps = k + 1 := ⟨maxnum_submaps - 1, by omega⟩
      rfl
    have hcap : (Submap.new (first_capacity q) maxload_factor : Submap K V).get_capacity =
        first_capacity q := Submap.new_capacity _ _
    refine ⟨q, hest ▸ hq, hsub, hg, ?_, ?_, ?_, ?_, ?_, ?_, rfl, first_estimate_number hq, rfl,
      rfl, rfl, rfl, new_entries hm, by simp [get_maxnum_submaps], ?_, ?_⟩
    · rw [hg]
      rfl
    · rw [hg, hcap]
      rfl
    · rw [hg, hcap]
      exact first_capacity_prime q
    · rw [hg, hcap]
      exact first_capacity_ge q
    · rw [hg]
      rfl
    · rw [hg]
      rfl
    · intro j
      rw [hg, Submap.new_get_bucket]
      rfl
    · intro i hi
      show ((List.replicate maxnum_submaps none).set 0 _).getD i none = none
      rw [List.getD_eq_getElem?_getD, List.getElem?_set_ne (by omega),
        List.getElem?_replicate]
      split_ifs <;> rfl
  · rw [new_eq, ← hest]
    constructor
    · rintro ⟨m, hm⟩
      split_ifs at hm with h1 h2
      rw [hchk] at h1
      cases hq : first_estimate estimatednum_entries maxload_factor with
      | none => rw [hq] at hm; exact absurd hm (by simp)
      | some q =>
        refine ⟨?_, rfl⟩
        rintro (hc | hc | hc)
        · exact h1 (Or.inl hc)
        · exact h1 (Or.inr hc)
        · exact h2 hc
    · rintro ⟨hc, hq⟩
      simp only [not_or] at hc
      have h1 : ¬ (Flt.le maxload_factor (Flt.ofNat 0) || Flt.ge maxload_factor (Flt.ofNat 1))
          = true := by
        rw [hchk, not_or]
        exact ⟨hc.1, hc.2.1⟩
      rw [if_neg h1, if_neg hc.2.2]
      obtain ⟨q, hq1⟩ := Option.isSome_iff_exists.mp hq
      rw [hq1]
      exact ⟨_, rfl⟩
  · rw [new_eq, ← hest]
    constructor
    · intro hm
      split_ifs at hm with h1 h2
      · exact absurd hm (by simp)
      · exact absurd hm (by simp)
      · rw [hchk] at h1
        cases hq : first_estimate estimatednum_entries maxload_factor with
        | some q => rw [hq] at hm; exact absurd hm (by simp)
        | none =>
          refine ⟨?_, rfl⟩
          rintro (hc | hc | hc)
          · exact h1 (Or.inl hc)
          · exact h1 (Or.inr hc)
          · exact h2 hc
    · rintro ⟨hc, hq⟩
      simp only [not_or] at hc
      have h1 : ¬ (Flt.le maxload_factor (Flt.ofNat 0) || Flt.ge maxload_factor (Flt.ofNat 1))
          = true := by
        rw [hchk, not_or]
        exact ⟨hc.1, hc.2.1⟩
      rw [if_neg h1, if_neg hc.2.2, hq]
  · intro hM
    rw [new_eq]
    have h1 : ¬ (Flt.le Flt.nan (Flt.ofNat 0) || Flt.ge Flt.nan (Flt.ofNat 1)) = true := by
      rw [Flt.nan_passes.1, Flt.nan_passes.2]
      simp
    have hq : first_estimate estimatednum_entries Flt.nan = none := Flt.toSize_div_nan _
    rw [if_neg h1, if_neg (by omega), hq]

/-- C7 at `concurrent_unordered_map(0, 0.75f, 2)`: the conversion gives 0 and the first
submap has 11 buckets.  With a NaN load factor, and with the load factor `2^-100` for
one estimated entry (the quotient `2^100` is no `std::size_t`), nothing is thrown and
the behaviour is undefined. -/
theorem C7_constructor_witness :
    (concurrent_unordered_map.new 0 DEFAULT_MAX_LOAD_FACTOR 2 :
        Except Failure (concurrent_unordered_map Nat Nat)) = Except.ok example_fresh ∧
      (concurrent_unordered_map.new 0 Flt.nan 1 :
        Except Failure (concurrent_unordered_map Nat Nat)) = Except.error Failure.undefined ∧
      (concurrent_unordered_map.new 1 (Flt.fin false 1 (-100)) 1 :
        Except Failure (concurrent_unordered_map Nat Nat)) = Except.error Failure.undefined ∧
      example_fresh.submaps = [some (Submap.new 11 DEFAULT_MAX_LOAD_FACTOR), none] ∧
      (example_fresh.get_submap 0).get_capacity = 11 ∧
      ∃ q, Flt.toSize (Flt.div (Flt.mul FIRST_SUBMAP_CAPACITY_MULTIPLIER (Flt.ofNat 0))
            DEFAULT_MAX_LOAD_FACTOR) = some q ∧
        example_fresh.submaps = some (Submap.new (max FIRST_SUBMAP_MIN_CAPACITY (next_prime q))
          DEFAULT_MAX_LOAD_FACTOR) :: List.replicate (2 - 1) none ∧
        example_fresh.get_submap 0 =
          Submap.new (max FIRST_SUBMAP_MIN_CAPACITY (next_prime q)) DEFAULT_MAX_LOAD_FACTOR ∧
        (example_fresh.get_submap 0).buckets =
          List.replicate (max FIRST_SUBMAP_MIN_CAPACITY (next_prime q))
            ⟨Bucket.State.EMPTY, (default, default)⟩ ∧
        (example_fresh.get_submap 0).get_capacity =
          max FIRST_SUBMAP_MIN_CAPACITY (next_prime q) ∧
        Nat.Prime (example_fresh.get_submap 0).get_capacity ∧
        11 ≤ (example_fresh.get_submap 0).get_capacity ∧
        (example_fresh.get_submap 0).get_num_valid_buckets = 0 ∧
        (example_fresh.get_submap 0).maxload_factor = DEFAULT_MAX_LOAD_FACTOR ∧
        example_fresh.maxload_factor = DEFAULT_MAX_LOAD_FACTOR ∧
        DEFAULT_MAX_LOAD_FACTOR ≠ Flt.nan ∧
        example_fresh.expanding = false ∧
        example_fresh.get_num_submaps = 1 ∧ example_fresh.size = 0 ∧
        example_fresh.empty = true ∧ example_fresh.entries = [] ∧
        example_fresh.get_maxnum_submaps = 2 ∧
        (∀ j, ((example_fresh.get_submap 0).get_bucket j).state = Bucket.State.EMPTY) ∧
        (∀ i, 1 ≤ i → example_fresh.submaps.getD i none = none) :=
  ⟨by rfl, (C7_constructor Nat Nat 0 DEFAULT_MAX_LOAD_FACTOR 1).2.2.2.2.2.2 (le_refl 1), by rfl,
    by rfl, by rfl,
    (C7_constructor Nat Nat 0 DEFAULT_MAX_LOAD_FACTOR 2).2.1 example_fresh (by rfl)⟩

/-- C8. Growth: in every reachable state the first submap has a prime capacity
of at least 11 and every later live submap has the capacity `next_prime(2 * c)`,
a prime that is at least `2 * c`, for the capacity `c` of the submap before it;
a call of `expand` that returns leaves the live-submap count or adds one to it,
and when it adds a submap that submap has the capacity `next_prime(2 * c)` for
the capacity `c` of the newest submap before the call; a call of `insert` that
returns never lowers the count; a call that throws leaves the count. -/
theorem C8_growth (h : Hashers K) (m : concurrent_unordered_map K V) (hr : Reachable h m) :
    (Nat.Prime (m.get_submap 0).get_capacity ∧ 11 ≤ (m.get_submap 0).get_capacity) ∧
      (∀ i, i + 1 < m.get_num_submaps →
        (m.get_submap (i + 1)).get_capacity = next_prime (2 * (m.get_submap i).get_capacity) ∧
        Nat.Prime (m.get_submap (i + 1)).get_capacity ∧
        2 * (m.get_submap i).get_capacity ≤ (m.get_submap (i + 1)).get_capacity) ∧
      (∀ b m1, m.expand = Outcome.ret b m1 →
        m.get_num_submaps ≤ m1.get_num_submaps ∧ m1.get_num_submaps ≤ m.get_num_submaps + 1 ∧
        (m1.get_num_submaps = m.get_num_submaps + 1 →
          (m1.get_submap m.get_num_submaps).get_capacity =
            next_prime (2 * (m.get_submap m.get_last_submap_index).get_capacity))) ∧
      (∀ m1, m.expand = Outcome.runtime_error m1 → m1.get_num_submaps = m.get_num_submaps) ∧
      (∀ fuel key v r m1, insert h fuel m key v = Outcome.ret r m1 →
        m.get_num_submaps ≤ m1.get_num_submaps ∧ m1.get_num_submaps ≤ m.get_num_submaps + 1) ∧
      (∀ fuel key v m1, insert h fuel m key v = Outcome.runtime_error m1 →
        m1.get_num_submaps = m.get_num_submaps) := by
  have hi := hr.inv
  obtain ⟨c1, c2, c3⟩ := hr.capacity_chain
  refine ⟨⟨c1, c2⟩, ?_, ?_, ?_, ?_, ?_⟩
  · intro i hlt
    have e := c3 i hlt
    rw [show NEW_SUBMAPS_CAPACITY_MULTIPLIER = 2 from rfl, Nat.mul_comm] at e
    refine ⟨e, ?_, ?_⟩
    · rw [e]; exact next_prime_prime _
    · rw [e]; exact le_next_prime _
  · intro b m1 he
    by_cases hcap : m.num_submaps = m.submaps.length
    · rw [hi.expand_at_cap hcap] at he
      exact absurd he (by simp)
    · cases ho : (m.get_submap m.get_last_submap_index).is_overloaded with
      | true =>
        rw [hi.expand_grow hcap ho] at he
        simp only [Outcome.ret.injEq] at he
        obtain ⟨_, rfl⟩ := he
        have hlt : m.num_submaps < m.submaps.length := lt_of_le_of_ne hi.num_le hcap
        refine ⟨by show m.num_submaps ≤ m.num_submaps + 1; omega, le_refl _, fun _ => ?_⟩
        show (m.expanded.get_submap m.num_submaps).get_capacity = _
        rw [expanded_get_submap hi hlt, if_pos rfl, Submap.new_capacity,
          show NEW_SUBMAPS_CAPACITY_MULTIPLIER = 2 from rfl, Nat.mul_comm]
      | false =>
        rw [hi.expand_noop hcap ho] at he
        simp only [Outcome.ret.injEq] at he
        obtain ⟨_, rfl⟩ := he
        exact ⟨le_refl _, by omega, fun hc => by omega⟩
  · intro m1 he
    by_cases hcap : m.num_submaps = m.submaps.length
    · rw [hi.expand_at_cap hcap] at he
      simp only [Outcome.runtime_error.injEq] at he
      rw [← he]
      rfl
    · cases ho : (m.get_submap m.get_last_submap_index).is_overloaded with
      | true =>
        rw [hi.expand_grow hcap ho] at he
        exact absurd he (by simp)
      | false =>
        rw [hi.expand_noop hcap ho] at he
        exact absurd he (by simp)
  · intro fuel key v r m1 hins
    exact (hi.insert_step_of_ret hins).num_submaps_ret
  · intro fuel key v m1 hins
    have := hi.insert_step_of_ne_fuel key v fuel (by rw [hins]; simp)
    rw [hins] at this
    exact this.num_submaps_error

/-- C8 on the map after ten inserts with different keys into
`concurrent_unordered_map(0, 0.75f, 2)`: submaps of 11 and 23 buckets. -/
theorem C8_growth_witness :
    (example_state example_fresh ((9, 90) :: example_nine)).get_num_submaps = 2 ∧
      ((example_state example_fresh ((9, 90) :: example_nine)).get_submap 0).get_capacity = 11 ∧
      ((example_state example_fresh ((9, 90) :: example_nine)).get_submap 1).get_capacity
        = next_prime (2 *
          ((example_state example_fresh ((9, 90) :: example_nine)).get_submap 0).get_capacity) ∧
      ((example_state example_fresh ((9, 90) :: example_nine)).get_submap 1).get_capacity = 23 :=
  ⟨by decide, by decide,
    ((C8_growth example_hashers (example_state example_fresh ((9, 90) :: example_nine))
      (run_inserts_spec example_hashers 2 ((9, 90) :: example_nine) example_fresh _ _
        (new_Inv example_hashers (by rfl : concurrent_unordered_map.new 0 DEFAULT_MAX_LOAD_FACTOR 2
          = Except.ok example_fresh))
        (Reachable.init 0 DEFAULT_MAX_LOAD_FACTOR 2 example_fresh (by rfl)) (by rfl)).2.1).2.1 0
      (by decide)).1,
    by decide⟩

end concurrent_unordered_map

end concurrent

namespace concurrent

namespace concurrent_unordered_map

variable {K V : Type} [DecidableEq K] [Inhabited K] [Inhabited V]

theorem example_single_full_reachable :
    Reachable example_hashers (example_state example_single example_nine) :=
  (run_inserts_spec example_hashers 2 example_nine example_single _ _
    (new_Inv example_hashers (by rfl : concurrent_unordered_map.new 0 DEFAULT_MAX_LOAD_FACTOR 1
      = Except.ok example_single))
    (Reachable.init 0 DEFAULT_MAX_LOAD_FACTOR 1 example_single (by rfl)) (by rfl)).2.1

/-- C2 fails as stated.  `concurrent_unordered_map(0, 0.75f, 1)` after nine
inserts with different keys is reachable, its only submap holds key 0 in
bucket 0 and is overloaded (9/11 >= 0.75), and `insert(0, 1)` throws the
maximum-submaps error instead of returning `(iterator, false)`. -/
theorem C2_counterexample :
    Reachable example_hashers (example_state example_single example_nine) ∧
      (example_state example_single example_nine).holds 0 0 0 ∧
      insert example_hashers 2 (example_state example_single example_nine) 0 1 =
        Outcome.runtime_error
          { example_state example_single example_nine with expanding := true } :=
  ⟨example_single_full_reachable, ⟨by decide, by rfl, by rfl⟩, by rfl⟩

/-- C2, amended.  In every reachable state, for a key held by bucket `j` of
submap `i`, when the submap is older than the newest, or the newest submap is
not overloaded, or the live-submap count is below the cap: `insert(key, v)`
returns `(iterator at that bucket, false)`, and the entry of the bucket, the
entries of the map, `size()` and `at(key)` are what they were. -/
theorem C2_insert_present (h : Hashers K) (m : concurrent_unordered_map K V)
    (hr : Reachable h m) (key : K) (v : V) (i j fuel : Nat) (hh : m.holds key i j)
    (hc : i < m.get_last_submap_index ∨
      (m.get_submap m.get_last_submap_index).is_overloaded = false ∨
      m.get_num_submaps < m.get_maxnum_submaps) :
    ∃ m1, insert h (fuel + 2) m key v = Outcome.ret (⟨i, j, false⟩, false) m1 ∧
      m1.get_entry ⟨i, j, false⟩ = m.get_entry ⟨i, j, false⟩ ∧
      (m1.get_entry ⟨i, j, false⟩).1 = key ∧
      m1.entries = m.entries ∧ m1.size = m.size ∧ at_ h m1 key = at_ h m key := by
  have hi := hr.inv
  have hs := hi.insert_step key v fuel
  have hfin : ∀ it m1, it = (⟨i, j, false⟩ : const_iterator) →
      InsertStep h m key v (Outcome.ret (it, false) m1) →
      ∃ m2, Outcome.ret (it, false) m1 = Outcome.ret (⟨i, j, false⟩, false) m2 ∧
        m2.get_entry ⟨i, j, false⟩ = m.get_entry ⟨i, j, false⟩ ∧
        (m2.get_entry ⟨i, j, false⟩).1 = key ∧
        m2.entries = m.entries ∧ m2.size = m.size ∧ at_ h m2 key = at_ h m key := by
    intro it m1 hit hstep
    subst hit
    obtain ⟨_, _, he, hn, hg, _⟩ := hstep.of_false hi
    have hi1 := hstep.inv_after hi
    have hmem : (key, (m.get_entry ⟨i, j, false⟩).2) ∈ m.entries := by
      rw [mem_entries]
      refine ⟨i, j, hh, ?_⟩
      have : (m.get_entry ⟨i, j, false⟩).1 = key := hh.2.2
      rw [← this]
      rfl
    refine ⟨m1, rfl, hg, by rw [hg]; exact hh.2.2, he, hn, ?_⟩
    rw [(hi.find_of_mem hmem).2.2, (hi1.find_of_mem (he ▸ hmem)).2.2]
  generalize ho : insert h (fuel + 2) m key v = o at hs
  cases hs with
  | older i1 j1 hh1 hlt =>
    obtain ⟨rfl, rfl⟩ := hi.holds_unique hh hh1
    exact hfin _ m rfl (InsertStep.older i j hh hlt)
  | last j1 hh1 hov =>
    obtain ⟨rfl, rfl⟩ := hi.holds_unique hh hh1
    exact hfin _ m rfl (InsertStep.last j hh hov)
  | last_grow j1 hh1 hov hlt =>
    obtain ⟨rfl, rfl⟩ := hi.holds_unique hh hh1
    exact hfin _ m.expanded rfl (InsertStep.last_grow j hh hov hlt)
  | error hn hov hcap =>
    exfalso
    rcases hc with hc | hc | hc
    · exact hn i j hc hh
    · rw [hov] at hc
      exact absurd hc (by simp)
    · unfold get_num_submaps get_maxnum_submaps at hc
      omega
  | new e hn hov he hemp hinv => exact absurd hh (hn i j)
  | new_grow e hn hov hlt he hemp hinv => exact absurd hh (hn i j)

/-- C2, amended, on the map after insert (1, 10): insert (1, 99) returns the
iterator at bucket 1 of submap 0 and `false`. -/
theorem C2_insert_present_witness :
    ∃ m1, insert example_hashers (0 + 2) (example_state example_fresh [(1, 10)]) 1 99
        = Outcome.ret (⟨0, 1, false⟩, false) m1 ∧
      m1.get_entry ⟨0, 1, false⟩ = (example_state example_fresh [(1, 10)]).get_entry ⟨0, 1, false⟩ ∧
      (m1.get_entry ⟨0, 1, false⟩).1 = 1 ∧
      m1.entries = (example_state example_fresh [(1, 10)]).entries ∧
      m1.size = (example_state example_fresh [(1, 10)]).size ∧
      at_ example_hashers m1 1 = at_ example_hashers (example_state example_fresh [(1, 10)]) 1 :=
  C2_insert_present example_hashers (example_state example_fresh [(1, 10)])
    (Reachable.step 2 example_fresh (example_state example_fresh [(1, 10)]) 1 10
      (⟨0, 1, false⟩, true) (Reachable.init 0 DEFAULT_MAX_LOAD_FACTOR 2 example_fresh (by rfl)) (by rfl))
    1 99 0 1 0 ⟨by decide, by rfl, by rfl⟩ (Or.inr (Or.inl (by rfl)))

/-- C6 fails as stated.  In the reachable state of
`concurrent_unordered_map(0, 0.75f, 1)` after nine inserts with different
keys, key 100 is not present and the newest submap is not full (bucket 9 is
EMPTY), yet `insert(100, 1)` throws the maximum-submaps error. -/
theorem C6_counterexample :
    Reachable example_hashers (example_state example_single example_nine) ∧
      100 ∉ (example_state example_single example_nine).entries.map Prod.fst ∧
      (((example_state example_single example_nine).get_submap
          (example_state example_single example_nine).get_last_submap_index).get_bucket 9).state
        = Bucket.State.EMPTY ∧
      (example_state example_single example_nine).get_num_submaps
        = (example_state example_single example_nine).get_maxnum_submaps ∧
      insert example_hashers 2 (example_state example_single example_nine) 100 1 =
        Outcome.runtime_error
          { example_state example_single example_nine with expanding := true } :=
  ⟨example_single_full_reachable, by decide, by rfl, by decide, by rfl⟩

/-- The load test in `float`: in `concurrent_unordered_map(0, 1.0f / 11.0f, 1)` the first
submap has 11 buckets, and after one insert the quotient `(float)1 / 11` is the load
factor itself, so the submap is overloaded and the insert of a second key throws. -/
theorem overloaded_by_rounding :
    ∃ m0 m1 : concurrent_unordered_map Nat Nat,
      concurrent_unordered_map.new 0 (Flt.div (Flt.ofNat 1) (Flt.ofNat 11)) 1 = Except.ok m0 ∧
        insert example_hashers 2 m0 1 10 = Outcome.ret (⟨0, 1, false⟩, true) m1 ∧
        (m1.get_submap 0).get_num_valid_buckets = 1 ∧ (m1.get_submap 0).get_capacity = 11 ∧
        (m1.get_submap 0).is_overloaded = true ∧
        insert example_hashers 2 m1 2 20 = Outcome.runtime_error { m1 with expanding := true } :=
  ⟨_, _, by rfl, by rfl, by rfl, by rfl, by rfl, by rfl⟩

/-- C6, amended.  In every reachable state an insert of a key that is not
present throws the maximum-submaps error exactly when the live-submap count
equals the cap and the newest submap is overloaded; in every other state it
returns `(iterator, true)` with the iterator at the new entry, and `size()`
has grown by one.  Overloaded is the float test of the source: the quotient
`(float)valid / capacity`, rounded to a `float`, is at least the maximum load
factor.  A newest submap without an EMPTY bucket is overloaded. -/
theorem C6_insert_absent (h : Hashers K) (m : concurrent_unordered_map K V)
    (hr : Reachable h m) (key : K) (v : V) (fuel : Nat) (hn : ∀ i j, ¬ m.holds key i j) :
    ((∃ m1, insert h (fuel + 2) m key v = Outcome.runtime_error m1) ↔
        (m.get_num_submaps = m.get_maxnum_submaps ∧
          (m.get_submap m.get_last_submap_index).is_overloaded = true)) ∧
      (¬ (m.get_num_submaps = m.get_maxnum_submaps ∧
          (m.get_submap m.get_last_submap_index).is_overloaded = true) →
        ∃ it m1, insert h (fuel + 2) m key v = Outcome.ret (it, true) m1 ∧
          it.end_ = false ∧ m1.get_entry it = (key, v) ∧
          m1.holds key it.submapIndex it.bucketIndex ∧ m1.size = m.size + 1) ∧
      ((m.get_submap m.get_last_submap_index).is_overloaded =
        Flt.ge (Flt.div (Flt.ofNat (m.get_submap m.get_last_submap_index).get_num_valid_buckets)
          (Flt.ofNat (m.get_submap m.get_last_submap_index).get_capacity)) m.maxload_factor ∧
        ((∀ j, j < (m.get_submap m.get_last_submap_index).get_capacity →
            ((m.get_submap m.get_last_submap_index).get_bucket j).state ≠ Bucket.State.EMPTY) →
          (m.get_submap m.get_last_submap_index).is_overloaded = true)) := by
  have hi := hr.inv
  have hs := hi.insert_step key v fuel
  have hov : (m.get_submap m.get_last_submap_index).is_overloaded =
        Flt.ge (Flt.div (Flt.ofNat (m.get_submap m.get_last_submap_index).get_num_valid_buckets)
          (Flt.ofNat (m.get_submap m.get_last_submap_index).get_capacity)) m.maxload_factor ∧
        ((∀ j, j < (m.get_submap m.get_last_submap_index).get_capacity →
            ((m.get_submap m.get_last_submap_index).get_bucket j).state ≠ Bucket.State.EMPTY) →
          (m.get_submap m.get_last_submap_index).is_overloaded = true) := by
    refine ⟨by rw [Submap.is_overloaded_eq, hi.factor _ hi.last_lt], ?_⟩
    intro hfull
    cases ho : (m.get_submap m.get_last_submap_index).is_overloaded with
    | true => rfl
    | false =>
      obtain ⟨⟨j, hj, hje⟩, _⟩ := hi.sub_insert_done key v ho
      exact absurd hje (hfull j hj)
  generalize ho : insert h (fuel + 2) m key v = o at hs
  cases hs with
  | older i1 j1 hh1 hlt => exact absurd hh1 (hn _ _)
  | last j1 hh1 hov1 => exact absurd hh1 (hn _ _)
  | last_grow j1 hh1 hov1 hlt => exact absurd hh1 (hn _ _)
  | error hn1 hov1 hcap =>
    refine ⟨⟨fun _ => ⟨hcap, hov1⟩, fun _ => ⟨_, rfl⟩⟩, fun hc => absurd ⟨hcap, hov1⟩ hc, hov⟩
  | new e hn1 hov1 he hemp hinv =>
    refine ⟨⟨fun hc => ?_, fun hc => ?_⟩, fun _ => ?_, hov⟩
    · obtain ⟨m1, hm1⟩ := hc
      exact absurd hm1 (by simp)
    · rw [hov1] at hc
      exact absurd hc.2 (by simp)
    · have hstep : InsertStep h m key v
          (Outcome.ret (⟨m.get_last_submap_index, e, false⟩, true) (m.stored e key v)) :=
        InsertStep.new e hn1 hov1 he hemp hinv
      obtain ⟨_, h2, _, h4, h5, h6⟩ := hstep.of_true hi
      exact ⟨_, _, rfl, h2, h5, h6, h4⟩
  | new_grow e hn1 hov1 hlt he hemp hinv =>
    refine ⟨⟨fun hc => ?_, fun hc => ?_⟩, fun _ => ?_, hov⟩
    · obtain ⟨m1, hm1⟩ := hc
      exact absurd hm1 (by simp)
    · have := hc.1
      unfold get_num_submaps get_maxnum_submaps at this
      omega
    · have hstep : InsertStep h m key v
          (Outcome.ret (⟨m.expanded.get_last_submap_index, e, false⟩, true)
            (m.expanded.stored e key v)) :=
        InsertStep.new_grow e hn1 hov1 hlt he hemp hinv
      obtain ⟨_, h2, _, h4, h5, h6⟩ := hstep.of_true hi
      exact ⟨_, _, rfl, h2, h5, h6, h4⟩

end concurrent_unordered_map

end concurrent

namespace channel

/-! ## Ring: claims -/

/-- C9. Ring FIFO: on a fresh `circular_buffer<T, N>` with `N >= 1`, when no
step of a sequence of pushes and pops throws, the values seen at the head by
the pops (`front()` before `pop()`, or the result of `pop_front()`) are the
first values pushed, in push order: they are the prefix of the pushed values
whose length is the number of pops. -/
theorem C9_ring_fifo {T : Type} [Inhabited T] (N : Nat) (hN : 1 ≤ N) (ops : List (RingOp T))
    (b : circular_buffer T N) (pushed popped : List T)
    (h : run_ring ops (circular_buffer.new T N) [] [] = some (b, pushed, popped)) :
    pushed = pushes ops ∧ popped.length = pops ops ∧ popped <+: pushed ∧
      popped = pushed.take (pops ops) := by
  have hs := run_ring_spec ops (circular_buffer.new T N) [] [] (b, pushed, popped)
    (circular_buffer.new_WF hN) (by simp [circular_buffer.new_contents]) h
  obtain ⟨_, h1, h2, h3⟩ := hs
  simp only [List.nil_append, List.length_nil, Nat.zero_add] at h1 h2 h3
  refine ⟨h2, h3, ⟨_, h1.symm⟩, ?_⟩
  rw [h1, ← h3, List.take_left']
  rfl

/-- C9 at `circular_buffer<Nat, 3>`: push 1, 2, 3; pop; push 4; pop three times. -/
theorem C9_ring_fifo_witness :
    ([1, 2, 3, 4] : List Nat) =
        pushes [RingOp.push 1, RingOp.push 2, RingOp.push 3, RingOp.pop, RingOp.push 4,
          RingOp.pop, RingOp.pop_front, RingOp.pop] ∧
      ([1, 2, 3, 4] : List Nat).length =
        pops [RingOp.push 1, RingOp.push 2, RingOp.push 3, RingOp.pop, RingOp.push 4,
          RingOp.pop, RingOp.pop_front, RingOp.pop] ∧
      ([1, 2, 3, 4] : List Nat) <+: [1, 2, 3, 4] ∧
      ([1, 2, 3, 4] : List Nat) = ([1, 2, 3, 4] : List Nat).take
        (pops [RingOp.push 1, RingOp.push 2, RingOp.push 3, RingOp.pop, RingOp.push 4,
          RingOp.pop, RingOp.pop_front, RingOp.pop]) :=
  C9_ring_fifo 3 (by decide)
    [RingOp.push 1, RingOp.push 2, RingOp.push 3, RingOp.pop, RingOp.push 4,
      RingOp.pop, RingOp.pop_front, RingOp.pop]
    ⟨[4, 2, 3], 1, 1, 0⟩ [1, 2, 3, 4] [1, 2, 3, 4] (by decide)

/-- C10. On every ring state, `push` (and `push_back`) on a full ring throws,
and `pop`, `pop_front` and `front` on an empty ring throw; the ring after the
failed call (storage, `_front`, `_end`, `_size`) is the ring before it. -/
theorem C10_ring_failure_keeps_state {T : Type} [Inhabited T] {N : Nat}
    (b : circular_buffer T N) (x : T) :
    (b.full = true →
        b.push x = (Except.error "container is full", b) ∧
        b.push_back x = (Except.error "container is full", b)) ∧
      (b.empty = true →
        b.pop = (Except.error "container is empty", b) ∧
        b.pop_front = (Except.error "container is empty", b) ∧
        b.front = (Except.error "container is empty", b)) := by
  constructor
  · intro h
    simp [circular_buffer.push, circular_buffer.push_back, h]
  · intro h
    simp [circular_buffer.pop, circular_buffer.pop_front, circular_buffer.front, h]

/-- C10 at a full and at an empty `circular_buffer<Nat, 3>`. -/
theorem C10_ring_failure_keeps_state_witness :
    ((⟨[1, 2, 3], 0, 0, 3⟩ : circular_buffer Nat 3).push 4 =
        (Except.error "container is full", ⟨[1, 2, 3], 0, 0, 3⟩) ∧
      (⟨[1, 2, 3], 0, 0, 3⟩ : circular_buffer Nat 3).push_back 4 =
        (Except.error "container is full", ⟨[1, 2, 3], 0, 0, 3⟩)) ∧
    ((circular_buffer.new Nat 3).pop =
        (Except.error "container is empty", circular_buffer.new Nat 3) ∧
      (circular_buffer.new Nat 3).pop_front =
        (Except.error "container is empty", circular_buffer.new Nat 3) ∧
      (circular_buffer.new Nat 3).front =
        (Except.error "container is empty", circular_buffer.new Nat 3)) :=
  ⟨(C10_ring_failure_keeps_state (⟨[1, 2, 3], 0, 0, 3⟩ : circular_buffer Nat 3) 4).1 (by decide),
    (C10_ring_failure_keeps_state (circular_buffer.new Nat 3) 0).2 (by decide)⟩

end channel

namespace concurrent

namespace concurrent_unordered_map

variable {K V : Type} [DecidableEq K] [Inhabited K] [Inhabited V]

/-- C6, amended, on the map after insert (1, 10), for the absent key 2. -/
theorem C6_insert_absent_witness :
    ((∃ m1, insert example_hashers (0 + 2) (example_state example_fresh [(1, 10)]) 2 20
          = Outcome.runtime_error m1) ↔
        ((example_state example_fresh [(1, 10)]).get_num_submaps
            = (example_state example_fresh [(1, 10)]).get_maxnum_submaps ∧
          ((example_state example_fresh [(1, 10)]).get_submap
            (example_state example_fresh [(1, 10)]).get_last_submap_index).is_overloaded
            = true)) ∧
      (¬ ((example_state example_fresh [(1, 10)]).get_num_submaps
            = (example_state example_fresh [(1, 10)]).get_maxnum_submaps ∧
          ((example_state example_fresh [(1, 10)]).get_submap
            (example_state example_fresh [(1, 10)]).get_last_submap_index).is_overloaded
            = true) →
        ∃ it m1, insert example_hashers (0 + 2) (example_state example_fresh [(1, 10)]) 2 20
            = Outcome.ret (it, true) m1 ∧
          it.end_ = false ∧ m1.get_entry it = (2, 20) ∧
          m1.holds 2 it.submapIndex it.bucketIndex ∧
          m1.size = (example_state example_fresh [(1, 10)]).size + 1) ∧
      (((example_state example_fresh [(1, 10)]).get_submap
          (example_state example_fresh [(1, 10)]).get_last_submap_index).is_overloaded =
        Flt.ge (Flt.div
          (Flt.ofNat ((example_state example_fresh [(1, 10)]).get_submap
            (example_state example_fresh [(1, 10)]).get_last_submap_index).get_num_valid_buckets)
          (Flt.ofNat ((example_state example_fresh [(1, 10)]).get_submap
            (example_state example_fresh [(1, 10)]).get_last_submap_index).get_capacity))
          (example_state example_fresh [(1, 10)]).maxload_factor ∧
        ((∀ j, j < ((example_state example_fresh [(1, 10)]).get_submap
              (example_state example_fresh [(1, 10)]).get_last_submap_index).get_capacity →
            (((example_state example_fresh [(1, 10)]).get_submap
              (example_state example_fresh [(1, 10)]).get_last_submap_index).get_bucket j).state
              ≠ Bucket.State.EMPTY) →
          ((example_state example_fresh [(1, 10)]).get_submap
            (example_state example_fresh [(1, 10)]).get_last_submap_index).is_overloaded
            = true)) :=
  C6_insert_absent example_hashers (example_state example_fresh [(1, 10)])
    (Reachable.step 2 example_fresh (example_state example_fresh [(1, 10)]) 1 10
      (⟨0, 1, false⟩, true) (Reachable.init 0 DEFAULT_MAX_LOAD_FACTOR 2 example_fresh (by rfl)) (by rfl))
    2 20 0
    (fun i j hc => absurd ((mem_keys_iff (example_state example_fresh [(1, 10)]) 2).mpr
      ⟨i, j, hc⟩) (by decide))

/-- C5. In every reachable state, advancing an iterator from `begin()` until
it equals `end()` yields the list `entries`: the entries of the VALID buckets
of the live submaps, by ascending submap index and, within a submap, by
ascending bucket position.  An entry is in the list exactly when a VALID
bucket holds it, the keys of the list are pairwise different, the key of every
VALID bucket occurs in it once, its length is `size()`, and
`begin() == end()` exactly when the map is empty. -/
theorem C5_iteration (h : Hashers K) (m : concurrent_unordered_map K V) (hr : Reachable h m)
    (fuel : Nat) (hfuel : m.size < fuel) :
    m.iterate fuel = some m.entries ∧
      m.entries = (List.range m.get_num_submaps).flatMap (fun i =>
        ((m.get_submap i).buckets.filter fun b => decide (b.state = Bucket.State.VALID)).map
          fun b => b.entry) ∧
      (∀ x, x ∈ m.entries ↔
        ∃ i j, m.holds x.1 i j ∧ ((m.get_submap i).get_bucket j).entry = x) ∧
      (m.entries.map Prod.fst).Nodup ∧
      (∀ key i j, m.holds key i j → (m.entries.map Prod.fst).count key = 1) ∧
      m.entries.length = m.size ∧
      (m.begin_.eq m.end_ = true ↔ m.empty = true) := by
  have hi := hr.inv
  have hlen := hi.entries_length
  refine ⟨iterate_spec m hi.num_pos fuel (by rw [hlen]; exact hfuel), rfl, mem_entries m,
    hi.keys_nodup, ?_, hlen, ?_⟩
  · intro key i j hh
    exact List.count_eq_one_of_mem hi.keys_nodup ((mem_keys_iff m key).mpr ⟨i, j, hh⟩)
  · rw [begin_eq_end_iff m hi.num_pos]
    unfold empty get_num_entries
    rw [← hlen]
    simp

/-- C5 on the map after insert (1, 10), (2, 20), (1, 30): the iteration yields
(1, 10) and (2, 20). -/
theorem C5_iteration_witness :
    (example_state example_fresh [(1, 10), (2, 20), (1, 30)]).iterate 3
        = some [(1, 10), (2, 20)] ∧
      (example_state example_fresh [(1, 10), (2, 20), (1, 30)]).entries = [(1, 10), (2, 20)] :=
  ⟨(by rfl : (example_state example_fresh [(1, 10), (2, 20), (1, 30)]).entries = [(1, 10), (2, 20)])
      ▸ (C5_iteration example_hashers (example_state example_fresh [(1, 10), (2, 20), (1, 30)])
        (run_inserts_spec example_hashers 2 [(1, 10), (2, 20), (1, 30)] example_fresh _ _
          (new_Inv example_hashers (by rfl : concurrent_unordered_map.new 0 DEFAULT_MAX_LOAD_FACTOR 2
            = Except.ok example_fresh))
          (Reachable.init 0 DEFAULT_MAX_LOAD_FACTOR 2 example_fresh (by rfl)) (by rfl)).2.1
        3 (by decide)).1,
    by rfl⟩

end concurrent_unordered_map

end concurrent

namespace channel

/-! ## Select: construction and fairness, claims -/

/-- C21, counterexample. A select given only a default branch is accepted: on three
idle channels `select(default_option(99))` runs, and its default handler is
invoked once. -/
theorem C21_default_only_counterexample :
    select.construct List.reverse [option_param.default_ ⟨99⟩] example_idle =
      Construction.run
        (Step.done () ⟨example_idle.channels, [Event.default_handler 99]⟩) := by
  rfl

/-- C21, amended. A select needs one option, not one case.  `select()` without
arguments is ill-formed (no overload of `exec` fits), and so is a select whose
default branch is not its last argument (the `static_assert` of `exec` fails);
a select given only a default branch is accepted and invokes the default
handler once; a select whose arguments are cases, followed or not by one
default branch, runs as `select.new` describes. -/
theorem C21_select_needs_one_option {T : Type} [Inhabited T]
    (shuffle : List case_option → List case_option) (hsh : shuffle [] = [])
    (d : default_option) (w : World T) :
    select.construct shuffle [] w =
        Construction.ill_formed "no matching function for call to exec()" ∧
      (∀ p params, select.construct shuffle (option_param.default_ d :: p :: params) w =
        Construction.ill_formed "at least 1 option required!") ∧
      select.construct shuffle [option_param.default_ d] w =
        Construction.run (Step.done () ⟨w.channels, w.log ++ [Event.default_handler d.f]⟩) ∧
      (∀ cases, select.construct shuffle
          (cases.map option_param.case_ ++ [option_param.default_ d]) w =
        Construction.run (select.new cases (some d) shuffle w)) ∧
      (∀ c cases, select.construct shuffle ((cases ++ [c]).map option_param.case_) w =
        Construction.run (select.new (cases ++ [c]) none shuffle w)) := by
  refine ⟨rfl, fun p params => rfl, ?_, ?_, ?_⟩
  · simp [select.construct, select.exec, select.random_exec, hsh, select.random_exec_loop,
      default_option.call]
  · intro cases
    have key : ∀ (cs acc : List case_option),
        select.exec shuffle (cs.map option_param.case_ ++ [option_param.default_ d]) acc w =
          Construction.run (select.new (acc ++ cs) (some d) shuffle w) := by
      intro cs
      induction cs with
      | nil =>
        intro acc
        simp only [List.map_nil, List.nil_append, List.append_nil, select.exec, select.new]
      | cons c cs ih =>
        intro acc
        have hne : ∃ p params, cs.map option_param.case_ ++ [option_param.default_ d] =
            p :: params := by
          cases cs with
          | nil => exact ⟨_, _, rfl⟩
          | cons c1 cs1 => exact ⟨_, _, rfl⟩
        obtain ⟨p, params, hp⟩ := hne
        simp only [List.map_cons, List.cons_append]
        rw [hp, select.exec, ← hp, ih]
        simp
    simpa [select.construct] using key cases []
  · intro c cases
    have key : ∀ (cs acc : List case_option),
        select.exec shuffle ((cs ++ [c]).map option_param.case_) acc w =
          Construction.run (select.new (acc ++ (cs ++ [c])) none shuffle w) := by
      intro cs
      induction cs with
      | nil =>
        intro acc
        simp only [List.nil_append, List.map_cons, List.map_nil, select.exec, select.new]
      | cons c1 cs ih =>
        intro acc
        have hne : ∃ p params, (cs ++ [c]).map option_param.case_ = p :: params := by
          cases cs with
          | nil => exact ⟨_, _, rfl⟩
          | cons c2 cs1 => exact ⟨_, _, rfl⟩
        obtain ⟨p, params, hp⟩ := hne
        simp only [List.cons_append, List.map_cons]
        rw [hp, select.exec, ← hp, ih]
        simp
    simpa [select.construct] using key cases []

/-- C21, amended, at a select given only the default handler 99, on three idle
channels, with a shuffle that reverses. -/
theorem C21_select_needs_one_option_witness :
    select.construct List.reverse [] example_idle =
        Construction.ill_formed "no matching function for call to exec()" ∧
      (∀ p params,
        select.construct List.reverse (option_param.default_ ⟨99⟩ :: p :: params) example_idle =
          Construction.ill_formed "at least 1 option required!") ∧
      select.construct List.reverse [option_param.default_ ⟨99⟩] example_idle =
        Construction.run
          (Step.done () ⟨example_idle.channels, example_idle.log ++ [Event.default_handler 99]⟩) ∧
      (∀ cases, select.construct List.reverse
          (cases.map option_param.case_ ++ [option_param.default_ ⟨99⟩]) example_idle =
        Construction.run (select.new cases (some ⟨99⟩) List.reverse example_idle)) ∧
      (∀ c cases, select.construct List.reverse ((cases ++ [c]).map option_param.case_)
          example_idle =
        Construction.run (select.new (cases ++ [c]) none List.reverse example_idle)) :=
  C21_select_needs_one_option List.reverse (by rfl) ⟨99⟩ example_idle

/-- C22. Select fairness as a count: for every select over `n` cases with distinct
handlers, with or without a default branch, of which `k` are ready (the
others are on open channels with empty rings), and for every ready case `c`,
the number of the `n!` orderings of the cases under which select invokes the
handler of `c`, and no other case handler, is `n! / k`: that number times `k`
is `n!`. -/
theorem C22_select_fairness {T : Type} [Inhabited T] (cases : List case_option)
    (d : Option default_option) (w : World T)
    (hnd : (cases.map case_option.f).Nodup) (c : case_option) (hc : c ∈ cases)
    (hready : c.ready w = true) :
    cases.permutations.length = cases.length.factorial ∧
      1 ≤ (cases.filter fun p => p.ready w).length ∧
      (cases.permutations.filter fun order =>
          decide (select.case_handlers cases d order w = [c.f])).length *
        (cases.filter fun p => p.ready w).length = cases.length.factorial ∧
      (cases.permutations.filter fun order =>
          decide (select.case_handlers cases d order w = [c.f])).length =
        cases.length.factorial / (cases.filter fun p => p.ready w).length := by
  have hnd1 : cases.Nodup := List.Nodup.of_map _ hnd
  have hk : 1 ≤ (cases.filter fun p => p.ready w).length :=
    List.length_pos_of_mem (List.mem_filter.mpr ⟨hc, hready⟩)
  have hfilter : (cases.permutations.filter fun order =>
      decide (select.case_handlers cases d order w = [c.f])) =
      cases.permutations.filter fun order =>
        decide (order.find? (fun p => p.ready w) = some c) := by
    apply List.filter_congr
    intro order horder
    have hperm : order.Perm cases := List.mem_permutations.mp horder
    cases hf : order.find? (fun p => p.ready w) with
    | none =>
      have := (List.find?_eq_none.mp hf) c (hperm.mem_iff.mpr hc)
      exact absurd hready this
    | some c1 =>
      rw [case_handlers_first cases d order w c1 hf]
      have hmem : c1 ∈ cases := hperm.mem_iff.mp (List.mem_of_find?_eq_some hf)
      by_cases heq : c1 = c
      · simp [heq]
      · have hne : c1.f ≠ c.f := fun hf1 =>
          heq (List.inj_on_of_nodup_map hnd hmem hc hf1)
        simp [heq, hne]
  have hcount := first_count (fun p => p.ready w) cases hnd1 c hc hready
  rw [hfilter]
  refine ⟨List.length_permutations cases, hk, hcount, ?_⟩
  rw [← hcount, Nat.mul_div_cancel _ (by omega)]

/-- C22 at three cases of which two are ready: each of the two is selected under
`3! / 2 = 3` of the orderings. -/
theorem C22_select_fairness_witness :
    (example_cases.permutations.length = example_cases.length.factorial ∧
      1 ≤ (example_cases.filter fun p => p.ready example_busy).length ∧
      (example_cases.permutations.filter fun order =>
          decide (select.case_handlers example_cases none order example_busy =
            [(⟨1, 11⟩ : case_option).f])).length *
        (example_cases.filter fun p => p.ready example_busy).length =
          example_cases.length.factorial ∧
      (example_cases.permutations.filter fun order =>
          decide (select.case_handlers example_cases none order example_busy =
            [(⟨1, 11⟩ : case_option).f])).length =
        example_cases.length.factorial /
          (example_cases.filter fun p => p.ready example_busy).length) ∧
      (example_cases.filter fun p => p.ready example_busy) = [⟨1, 11⟩, ⟨2, 12⟩] ∧
      example_cases.length.factorial = 6 ∧
      select.case_handlers example_cases none [⟨0, 10⟩, ⟨1, 11⟩, ⟨2, 12⟩] example_busy = [11] ∧
      select.case_handlers example_cases none [⟨1, 11⟩, ⟨0, 10⟩, ⟨2, 12⟩] example_busy = [11] ∧
      select.case_handlers example_cases none [⟨1, 11⟩, ⟨2, 12⟩, ⟨0, 10⟩] example_busy = [11] ∧
      select.case_handlers example_cases none [⟨0, 10⟩, ⟨2, 12⟩, ⟨1, 11⟩] example_busy = [12] ∧
      select.case_handlers example_cases none [⟨2, 12⟩, ⟨0, 10⟩, ⟨1, 11⟩] example_busy = [12] ∧
      select.case_handlers example_cases none [⟨2, 12⟩, ⟨1, 11⟩, ⟨0, 10⟩] example_busy = [12] :=
  ⟨C22_select_fairness example_cases none example_busy (by decide) ⟨1, 11⟩ (by decide) (by rfl),
    by rfl, by rfl, by rfl, by rfl, by rfl, by rfl, by rfl, by rfl⟩

end channel

namespace channel

/-! ## Ring and channel: claims -/

theorem example_one_reachable : channel_buffer.Reachable example_one :=
  channel_buffer.Reachable.insert (channel_buffer.new Nat 3) example_one 10 ()
    channel_buffer.Reachable.init (by rfl)

theorem example_two_reachable : channel_buffer.Reachable example_two :=
  channel_buffer.Reachable.insert ⟨⟨[1, 0], 0, 1, 1⟩, false⟩ example_two 2 ()
    (channel_buffer.Reachable.insert (channel_buffer.new Nat 2) ⟨⟨[1, 0], 0, 1, 1⟩, false⟩ 1 ()
      channel_buffer.Reachable.init (by rfl)) (by rfl)

theorem example_closed_reachable : channel_buffer.Reachable example_closed :=
  channel_buffer.Reachable.close example_two example_two_reachable

/-- C11. Ring invariant: in every state reached from the construction of a
`circular_buffer<T, N>` with `N >= 1` by `push`, `pop` and `pop_front`
(returning or throwing), `size() <= N`, `empty()` holds exactly when
`size() = 0`, `full()` holds exactly when `size() = N`, `_front` and `_end` are
positions inside the `N` slots of the storage, and
`_end = (_front + size()) mod N`. -/
theorem C11_ring_invariant {T : Type} [Inhabited T] (N : Nat) (hN : 1 ≤ N)
    (b : circular_buffer T N) (hr : circular_buffer.Reachable b) :
    b.size ≤ N ∧ (b.empty = true ↔ b.size = 0) ∧ (b.full = true ↔ b.size = N) ∧
      b._front < N ∧ b._end < N ∧ b._end = (b._front + b.size) % N ∧ b.buffer.length = N := by
  have hwf := circular_buffer.Reachable.wf hN hr
  exact ⟨hwf.size_le, circular_buffer.empty_iff b, circular_buffer.full_iff b, hwf.front_lt,
    hwf.end_lt, hwf.end_eq, hwf.length_eq⟩

/-- C11 at a `circular_buffer<Nat, 3>` after `push(1)`, `push(2)`, `pop()`. -/
theorem C11_ring_invariant_witness :
    example_ring.size ≤ 3 ∧ (example_ring.empty = true ↔ example_ring.size = 0) ∧
      (example_ring.full = true ↔ example_ring.size = 3) ∧
      example_ring._front < 3 ∧ example_ring._end < 3 ∧
      example_ring._end = (example_ring._front + example_ring.size) % 3 ∧
      example_ring.buffer.length = 3 :=
  C11_ring_invariant 3 (by decide) example_ring
    (circular_buffer.Reachable.pop _
      (circular_buffer.Reachable.push _ 2
        (circular_buffer.Reachable.push _ 1 circular_buffer.Reachable.init)))

/-- C12. The code's `back()` reads `*_end`, the slot after the element pushed
last: on a fresh `circular_buffer<Nat, 3>` after `push(7)`, `front()` returns 7
and `back()` returns the value-initialised slot 0, not 7; after `push(1)`,
`push(2)`, `push(3)` the ring is full, `_end` is `_front` again, and `back()`
returns the oldest element 1, not 3. -/
theorem C12_back_reads_past_tail :
    ((circular_buffer.new Nat 3).push 7).2.front.1 = Except.ok 7 ∧
      ((circular_buffer.new Nat 3).push 7).2.back.1 = Except.ok 0 ∧
      ((((circular_buffer.new Nat 3).push 1).2.push 2).2.push 3).2.back.1 = Except.ok 1 :=
  ⟨by rfl, by rfl, by rfl⟩

/-- C13. Channel FIFO: on a fresh channel of capacity `N >= 1`, for every
sequence of sends and receives of one thread in which no step waits, the
values sent are those of the send steps in order and the values received are
a prefix of them; after `close()`, receiving as many more times as the ring
holds values, and `j` more times, returns the remaining sent values in order
followed by `j` times the default `T`, and leaves the ring empty. -/
theorem C13_channel_fifo {T : Type} [Inhabited T] (N : Nat) (hN : 1 ≤ N)
    (ops : List (ChanOp T)) (s : channel_buffer T N) (sent received : List T)
    (h : run_channel ops (channel_buffer.new T N) [] [] = some (s, sent, received))
    (j : Nat) :
    sent = sends ops ∧ received <+: sent ∧
      ∃ rs s2, receive_n (s.contents.length + j) s.close = some (rs, s2) ∧
        received ++ rs = sent ++ List.replicate j default ∧ s2.contents = [] := by
  have hs := run_channel_spec ops (channel_buffer.new T N) [] [] (s, sent, received)
    (circular_buffer.new_WF hN) rfl
    (by simp [channel_buffer.contents, channel_buffer.new, circular_buffer.new_contents]) h
  obtain ⟨h1, h2, h3, h4, _⟩ := hs
  simp only [List.nil_append] at h3 h4
  obtain ⟨s2, g1, g2, _, _⟩ := receive_n_closed (s.contents.length + j) s.close h1 rfl
  have hcl : s.close.contents = s.contents := rfl
  rw [hcl] at g1 g2
  refine ⟨h4, ⟨_, h3.symm⟩, _, s2, g1, ?_, ?_⟩
  · rw [h3]
    simp
  · rw [g2]
    simp

/-- C13 at a `channel<Nat, 3>`: send 10, 20, 30; receive twice; send 40; close;
three more receives return 30, 40 and the default 0. -/
theorem C13_channel_fifo_witness :
    ([10, 20, 30, 40] : List Nat) = sends example_ops ∧
      ([10, 20] : List Nat) <+: [10, 20, 30, 40] ∧
      ∃ rs s2, receive_n (example_after.contents.length + 1) example_after.close =
          some (rs, s2) ∧
        [10, 20] ++ rs = [10, 20, 30, 40] ++ List.replicate 1 default ∧ s2.contents = [] :=
  C13_channel_fifo 3 (by decide) example_ops example_after [10, 20, 30, 40] [10, 20]
    (by decide) 1

/-- C14. In every reachable channel-buffer state, receive on a non-empty ring,
open or closed, returns the oldest buffered value, removes that value only
and keeps the closed flag; receive on a closed channel with an empty ring
returns the default `T` at once and leaves the state as it was.  A receive
woken from its wait does the same in both situations. -/
theorem C14_receive_cases {T : Type} [Inhabited T] {N : Nat} (s : channel_buffer T N)
    (hr : channel_buffer.Reachable s) :
    (s.buffer.empty = false →
        ∃ x rest s1, s.contents = x :: rest ∧ ochannel.receive s = Step.done x s1 ∧
          s.get_next_wake = Step.done x s1 ∧
          s1.contents = rest ∧ s1.is_closed = s.is_closed) ∧
      (s.is_closed = true → s.buffer.empty = true →
        ochannel.receive s = Step.done default s ∧ s.get_next_wake = Step.done default s) := by
  constructor
  · intro he
    obtain ⟨x, rest, s1, h1, h2, h3, h4, _⟩ := channel_buffer.get_next_ok s
      (channel_buffer.Sound.wf_of_nonempty (channel_buffer.Reachable.sound hr) he) he
    refine ⟨x, rest, s1, h1, h2, ?_, h3, h4⟩
    have : s.get_next = s.take := by simp [channel_buffer.get_next, he]
    rw [← h2, this]
    simp [channel_buffer.get_next_wake, he]
  · intro hc he
    exact ⟨channel_buffer.get_next_closed_empty s hc he,
      by simp [channel_buffer.get_next_wake, hc, he]⟩

/-- C14 at the `channel<Nat, 3>` that holds the value 10. -/
theorem C14_receive_cases_witness :
    (example_one.buffer.empty = false →
        ∃ x rest s1, example_one.contents = x :: rest ∧
          ochannel.receive example_one = Step.done x s1 ∧
          example_one.get_next_wake = Step.done x s1 ∧
          s1.contents = rest ∧ s1.is_closed = example_one.is_closed) ∧
      (example_one.is_closed = true → example_one.buffer.empty = true →
        ochannel.receive example_one = Step.done default example_one ∧
          example_one.get_next_wake = Step.done default example_one) :=
  C14_receive_cases example_one example_one_reachable

/-- C15. On every closed channel-buffer state and for every value `x`,
`send(x)` returns without waiting and the state after it (ring storage,
positions, size and closed flag) is the state before it; a send woken from its
wait on a closed channel does the same. -/
theorem C15_send_closed_drops {T : Type} [Inhabited T] {N : Nat} (s : channel_buffer T N)
    (x : T) (hc : s.is_closed = true) :
    ichannel.send s x = Step.done () s ∧ s.insert_wake x = Step.done () s :=
  ⟨channel_buffer.insert_closed s x hc, by simp [channel_buffer.insert_wake, hc]⟩

/-- C15 at the closed `channel<Nat, 2>` that holds 1 and 2. -/
theorem C15_send_closed_drops_witness :
    ichannel.send example_closed 9 = Step.done () example_closed ∧
      example_closed.insert_wake 9 = Step.done () example_closed :=
  C15_send_closed_drops example_closed 9 (by rfl)

/-- C16. In every reachable channel-buffer state `try_get_next` returns
without waiting or throwing, with one of three outcomes: on a closed channel
`Some(default T)`, the state unchanged; on an open channel with an empty ring
`None`, the state unchanged; on an open channel with a non-empty ring
`Some(oldest value)`, and that value only is removed. -/
theorem C16_try_receive_cases {T : Type} [Inhabited T] {N : Nat} (s : channel_buffer T N)
    (hr : channel_buffer.Reachable s) :
    (∃ r s1, s.try_get_next = Step.done r s1) ∧
      (s.is_closed = true → s.try_get_next = Step.done (some default) s) ∧
      (s.is_closed = false → s.buffer.empty = true → s.try_get_next = Step.done none s) ∧
      (s.is_closed = false → s.buffer.empty = false →
        ∃ x rest s1, s.contents = x :: rest ∧ s.try_get_next = Step.done (some x) s1 ∧
          s1.contents = rest ∧ s1.is_closed = false) := by
  refine ⟨channel_buffer.try_get_next_done s, channel_buffer.try_get_next_closed s,
    channel_buffer.try_get_next_open_empty s, ?_⟩
  intro hc he
  obtain ⟨x, rest, s1, h1, h2, h3, h4, _⟩ := channel_buffer.try_get_next_ok s
    (channel_buffer.Sound.wf_of_nonempty (channel_buffer.Reachable.sound hr) he) hc he
  exact ⟨x, rest, s1, h1, h2, h3, h4⟩

/-- C16 at the open `channel<Nat, 2>` that holds 1 and 2. -/
theorem C16_try_receive_cases_witness :
    (∃ r s1, example_two.try_get_next = Step.done r s1) ∧
      (example_two.is_closed = true →
        example_two.try_get_next = Step.done (some default) example_two) ∧
      (example_two.is_closed = false → example_two.buffer.empty = true →
        example_two.try_get_next = Step.done none example_two) ∧
      (example_two.is_closed = false → example_two.buffer.empty = false →
        ∃ x rest s1, example_two.contents = x :: rest ∧
          example_two.try_get_next = Step.done (some x) s1 ∧
          s1.contents = rest ∧ s1.is_closed = false) :=
  C16_try_receive_cases example_two example_two_reachable

/-- C17, counterexample. A `channel<Nat, 2>` after `send(1)`, `send(2)`, `close()`
still holds 1 and 2, yet iterating its output endpoint from `begin()` to
`end()` yields nothing: `begin()` receives 1, the first test against `end()`
reads the closed flag and ends the loop, and 2 stays in the ring. -/
theorem C17_closed_iteration_counterexample :
    run_channel [ChanOp.send 1, ChanOp.send 2] (channel_buffer.new Nat 2) [] [] =
        some (example_two, [1, 2], []) ∧
      example_two.close = example_closed ∧
      example_closed.contents = [1, 2] ∧
      ochannel.range_for 3 example_closed =
        Iteration.finished [] ⟨⟨[0, 2], 1, 0, 1⟩, true⟩ ∧
      ochannel.range_for 3 example_closed ≠
        Iteration.finished [1, 2] ⟨⟨[0, 0], 0, 0, 0⟩, true⟩ :=
  ⟨by rfl, by rfl, by rfl, by rfl, by decide⟩

/-- C17, amended. Iterating an output endpoint from `begin()` to `end()` yields
the received values in FIFO order for as long as the closed flag is clear and
ends as soon as the flag is set, whatever the ring holds: on a closed channel
`begin()` performs one receive and the iteration yields nothing; on an open
channel that holds `x1..xn` the iteration yields `x1..xn`, empties the ring
and then waits for the next value. -/
theorem C17_iteration_ends_at_close {T : Type} [Inhabited T] {N : Nat}
    (s : channel_buffer T N) (fuel : Nat) (hr : channel_buffer.Reachable s) :
    (s.is_closed = true →
        ∃ v s1, ochannel.receive s = Step.done v s1 ∧
          ochannel.range_for (fuel + 1) s = Iteration.finished [] s1) ∧
      (s.is_closed = false → s.contents.length ≤ fuel →
        ∃ s1, ochannel.range_for fuel s = Iteration.blocked s.contents s1 ∧
          s1.contents = [] ∧ s1.is_closed = false) :=
  ⟨fun hc => range_for_closed s fuel hc,
    fun hc hfuel => range_for_open s fuel (channel_buffer.Reachable.sound hr) hc hfuel⟩

/-- C17, amended, at the closed `channel<Nat, 2>` that holds 1 and 2. -/
theorem C17_iteration_ends_at_close_witness :
    (example_closed.is_closed = true →
        ∃ v s1, ochannel.receive example_closed = Step.done v s1 ∧
          ochannel.range_for (2 + 1) example_closed = Iteration.finished [] s1) ∧
      (example_closed.is_closed = false → example_closed.contents.length ≤ 2 →
        ∃ s1, ochannel.range_for 2 example_closed =
            Iteration.blocked example_closed.contents s1 ∧
          s1.contents = [] ∧ s1.is_closed = false) :=
  C17_iteration_ends_at_close example_closed 2 example_closed_reachable

/-- C18, counterexample. On a fresh open `channel<Nat, 0>` the first `send(7)` does
not complete: the ring without slots is full, so the send waits, and the
receive that follows finds the ring empty and waits too. -/
theorem C18_zero_capacity_counterexample :
    (channel_buffer.new Nat 0).buffer.full = true ∧
      (channel_buffer.new Nat 0).buffer.empty = true ∧
      ichannel.send (channel_buffer.new Nat 0) 7 = Step.wait (channel_buffer.new Nat 0) ∧
      ochannel.receive (channel_buffer.new Nat 0) = Step.wait (channel_buffer.new Nat 0) :=
  ⟨by rfl, by rfl, by rfl, by rfl⟩

/-- C18, amended. A channel instantiated with `N = 0` has a ring without slots,
at once empty and full, and there is no rendezvous: in every reachable state
the ring holds nothing; while the channel is open `send(x)` waits, receive
waits and `try_get_next` returns `None`, each leaving the state as it was;
once it is closed `send(x)` drops `x` and receive returns the default `T`. -/
theorem C18_zero_capacity_never_transfers {T : Type} [Inhabited T] (s : channel_buffer T 0)
    (x : T) (hr : channel_buffer.Reachable s) :
    s.contents = [] ∧
      (s.is_closed = false →
        ichannel.send s x = Step.wait s ∧ ochannel.receive s = Step.wait s ∧
          s.try_get_next = Step.done none s) ∧
      (s.is_closed = true →
        ichannel.send s x = Step.done () s ∧ ochannel.receive s = Step.done default s) := by
  have h0 := zero_size_of_sound s (channel_buffer.Reachable.sound hr)
  have he : s.buffer.empty = true := (circular_buffer.empty_iff s.buffer).mpr h0
  have hf : s.buffer.full = true := (circular_buffer.full_iff s.buffer).mpr h0
  refine ⟨(circular_buffer.contents_eq_nil_iff s.buffer).mpr he, ?_, ?_⟩
  · intro hc
    exact ⟨channel_buffer.insert_open_full s x hc hf,
      channel_buffer.get_next_open_empty s hc he,
      channel_buffer.try_get_next_open_empty s hc he⟩
  · intro hc
    exact ⟨channel_buffer.insert_closed s x hc, channel_buffer.get_next_closed_empty s hc he⟩

/-- C18, amended, at a fresh `channel<Nat, 0>` and the value 7. -/
theorem C18_zero_capacity_never_transfers_witness :
    (channel_buffer.new Nat 0).contents = [] ∧
      ((channel_buffer.new Nat 0).is_closed = false →
        ichannel.send (channel_buffer.new Nat 0) 7 = Step.wait (channel_buffer.new Nat 0) ∧
          ochannel.receive (channel_buffer.new Nat 0) = Step.wait (channel_buffer.new Nat 0) ∧
          (channel_buffer.new Nat 0).try_get_next = Step.done none (channel_buffer.new Nat 0)) ∧
      ((channel_buffer.new Nat 0).is_closed = true →
        ichannel.send (channel_buffer.new Nat 0) 7 = Step.done () (channel_buffer.new Nat 0) ∧
          ochannel.receive (channel_buffer.new Nat 0) =
            Step.done default (channel_buffer.new Nat 0)) :=
  C18_zero_capacity_never_transfers (channel_buffer.new Nat 0) 7 channel_buffer.Reachable.init

/-- C19. For every list of receive cases, with or without a default branch, and
every ordering the shuffle produces: when `try_get_next` of at least one case
yields a value, select invokes one handler only, that of the first case `c` in
the shuffled order whose `try_get_next` yields a value, with the value taken
from the channel of `c`; the log gains that one event, no default handler
runs, and only the channel of `c` changes.  When `B` is the only case whose
channel yields a value, `c` is `B`. -/
theorem C19_select_first_ready {T : Type} [Inhabited T] (cases : List case_option)
    (d : Option default_option) (shuffle : List case_option → List case_option)
    (w : World T) (hperm : (shuffle cases).Perm cases)
    (hex : ∃ c ∈ cases, c.ready w = true) :
    ∃ pre c post val b,
      shuffle cases = pre ++ c :: post ∧ (∀ p ∈ pre, p.ready w = false) ∧
        c.ready w = true ∧ c ∈ cases ∧
        (w.get_buffer c.ch).buffer.try_get_next = Step.done (some val) b ∧
        select.new cases d shuffle w = Step.done ()
          ⟨List.set w.channels c.ch ⟨(w.get_buffer c.ch).buffer_size, b⟩,
            w.log ++ [Event.case_handler c.f val]⟩ ∧
        (∀ B ∈ cases, (∀ p ∈ cases, p.ready w = true → p = B) → c = B) := by
  have hex1 : ∃ c ∈ shuffle cases, c.ready w = true := by
    obtain ⟨c, hc, hcr⟩ := hex
    exact ⟨c, hperm.mem_iff.mpr hc, hcr⟩
  obtain ⟨pre, c, post, hsplit, hpre, hc⟩ := split_at_first (fun c => c.ready w) _ hex1
  obtain ⟨val, b, htry, htask⟩ := case_option.task_ready c w hc
  have hmem : c ∈ cases := hperm.mem_iff.mp (by rw [hsplit]; simp)
  refine ⟨pre, c, post, val, b, hsplit, hpre, hc, hmem, htry, ?_, ?_⟩
  · have hloop := random_exec_loop_first pre c post w _ hpre htask
    simp only [select.new, select.random_exec, hsplit, hloop]
    cases d <;> simp
  · intro B _ hB
    exact hB c hmem hc

/-- C19 at three channels of which only the second holds a value, 5, with the
cases tried in reverse order. -/
theorem C19_select_first_ready_witness :
    ∃ pre c post val b,
      List.reverse example_cases = pre ++ c :: post ∧
        (∀ p ∈ pre, p.ready example_world = false) ∧
        c.ready example_world = true ∧ c ∈ example_cases ∧
        (example_world.get_buffer c.ch).buffer.try_get_next = Step.done (some val) b ∧
        select.new example_cases (some ⟨99⟩) List.reverse example_world = Step.done ()
          ⟨List.set example_world.channels c.ch
              ⟨(example_world.get_buffer c.ch).buffer_size, b⟩,
            example_world.log ++ [Event.case_handler c.f val]⟩ ∧
        (∀ B ∈ example_cases,
          (∀ p ∈ example_cases, p.ready example_world = true → p = B) → c = B) :=
  C19_select_first_ready example_cases (some ⟨99⟩) List.reverse example_world
    (List.reverse_perm _) ⟨⟨1, 11⟩, by decide, by rfl⟩

/-- C20. For every select whose cases are all on open channels with empty
rings, and every ordering the shuffle produces: with a default branch the
default handler is invoked once and no case handler is; without a default
branch no handler is invoked; in both situations every channel is left as it
was. -/
theorem C20_select_none_ready {T : Type} [Inhabited T] (cases : List case_option)
    (d : default_option) (shuffle : List case_option → List case_option) (w : World T)
    (hperm : (shuffle cases).Perm cases)
    (hall : ∀ c ∈ cases, (w.get_buffer c.ch).buffer.is_closed = false ∧
      (w.get_buffer c.ch).buffer.buffer.empty = true) :
    select.new cases (some d) shuffle w =
        Step.done () ⟨w.channels, w.log ++ [Event.default_handler d.f]⟩ ∧
      select.new cases none shuffle w = Step.done () w := by
  have hnot : ∀ p ∈ shuffle cases, p.ready w = false := by
    intro p hp
    obtain ⟨hc, he⟩ := hall p (hperm.mem_iff.mp hp)
    simp [case_option.ready, channel_buffer.try_get_next_open_empty _ hc he]
  have hloop := random_exec_loop_none (shuffle cases) w hnot
  constructor
  · simp [select.new, select.random_exec, hloop, default_option.call]
  · simp [select.new, select.random_exec, hloop]

/-- C20 at three open channels with empty rings, with the cases tried in reverse
order and the default handler 99. -/
theorem C20_select_none_ready_witness :
    select.new example_cases (some ⟨99⟩) List.reverse example_idle =
        Step.done () ⟨example_idle.channels, example_idle.log ++ [Event.default_handler 99]⟩ ∧
      select.new example_cases none List.reverse example_idle = Step.done () example_idle :=
  C20_select_none_ready example_cases ⟨99⟩ List.reverse example_idle
    (List.reverse_perm _) (by decide)

end channel

namespace network

/-! ## Header decoders: claims -/

/-- C23. The Ethernet decoder, on a buffer `d` of at least 14 bytes: the
destination is bytes 0..5 and the source is bytes 6..11, but the ether type
is the single byte `d[12]`, not `256 * d[12] + d[13]`, and the next packet
type of a decoded header is UNKNOWN, never IP. -/
theorem C23_ethernet_type_one_byte (d : List uint8_t) (h : 14 ≤ d.length) :
    ∃ e, ethernet_header.new d 0 = some e ∧
      e.get_destination.address = d.take 6 ∧
      e.get_source.address = (d.drop 6).take 6 ∧
      e.get_ether_type = (d.getD 12 0).val ∧
      e.get_next_packet_type = PacketType.UNKNOWN := by
  have he := ethernet_new_eq d 0 (by omega)
  refine ⟨_, he, ?_, ?_, ?_, (ethernet_header.new_unknown d 0 _ he).2⟩
  · simp only [ethernet_header.get_destination]
    rw [mac_address.copy_eq _ (by simp; omega)]
    simp
  · simp only [ethernet_header.get_source]
    rw [mac_address.copy_eq _ (by simp; omega)]
  · simp [ethernet_header.get_ether_type]

/-- C23 at a frame whose bytes 12..13 are `08 00`: the ether type read is 8, not
`0x0800`, and the next packet type is UNKNOWN, not IP. -/
theorem C23_ethernet_type_one_byte_witness :
    (∃ e, ethernet_header.new example_frame 0 = some e ∧
      e.get_destination.address = example_frame.take 6 ∧
      e.get_source.address = (example_frame.drop 6).take 6 ∧
      e.get_ether_type = (example_frame.getD 12 0).val ∧
      e.get_next_packet_type = PacketType.UNKNOWN) ∧
      (example_frame.getD 12 0).val = 8 ∧
      256 * (example_frame.getD 12 0).val + (example_frame.getD 13 0).val = 0x0800 :=
  ⟨C23_ethernet_type_one_byte example_frame (by decide), by decide, by decide⟩

/-- C24. The next packet type of an Ethernet header with ether type `t` is IP for
`t = 0x0800`, ARP for `t = 0x0806`, RARP for `t = 0x0835` (the value of
`ETHER_TYPE_RARP` in the code) and UNKNOWN for every other `t`; for
`t = 0x8035` it is UNKNOWN. -/
theorem C24_rarp_constant (dst src : mac_address) :
    ethernet_header.get_next_packet_type ⟨dst, src, 0x0800⟩ = PacketType.IP ∧
      ethernet_header.get_next_packet_type ⟨dst, src, 0x0806⟩ = PacketType.ARP ∧
      ethernet_header.get_next_packet_type ⟨dst, src, 0x0835⟩ = PacketType.RARP ∧
      ethernet_header.get_next_packet_type ⟨dst, src, 0x8035⟩ = PacketType.UNKNOWN ∧
      ∀ t : Nat, t ≠ 0x0800 → t ≠ 0x0806 → t ≠ 0x0835 →
        ethernet_header.get_next_packet_type ⟨dst, src, t⟩ = PacketType.UNKNOWN := by
  refine ⟨rfl, rfl, rfl, rfl, ?_⟩
  intro t h1 h2 h3
  simp only [ethernet_header.get_next_packet_type, ethernet_header.ETHER_TYPE_IP,
    ethernet_header.ETHER_TYPE_ARP, ethernet_header.ETHER_TYPE_RARP]
  rw [if_neg h1, if_neg h2, if_neg h3]

/-- C25. The IPv4 decoder, on a buffer `d` of at least 20 bytes: version, header
length, TTL and protocol are as the wire format says, and the next packet
type is TCP for protocol 6, UDP for 17, UNKNOWN otherwise; but every 16-bit
member is initialised from its first byte alone, so the total length is
`256 * d[2]`, the id `256 * d[4]`, the checksum `256 * d[10]`, the flags are 0
and the fragment offset is `d[6]`; and the two addresses are `0.0.0.0`,
because the address constructor copies out of the zeroed address into the
buffer. -/
theorem C25_ipv4_single_byte_fields (d : List uint8_t) (h : 20 ≤ d.length) :
    ∃ i d1, ip_header.new d 0 = some (i, d1) ∧
      i.get_version = (d.getD 0 0).val / 16 ∧
      i.get_header_length = (d.getD 0 0).val % 16 ∧
      i.get_length = 256 * (d.getD 2 0).val ∧
      i.get_id = 256 * (d.getD 4 0).val ∧
      i.get_flag = 0 ∧
      i.get_frag_offset = (d.getD 6 0).val ∧
      i.get_ttl = (d.getD 8 0).val ∧
      i.get_proto = (d.getD 9 0).val ∧
      i.get_checksum = 256 * (d.getD 10 0).val ∧
      i.get_src_ip.1 = ⟨[0, 0, 0, 0]⟩ ∧
      i.get_des_ip.1 = ⟨[0, 0, 0, 0]⟩ ∧
      d1 = ip_header.buffer_after d 0 ∧
      i.get_next_packet_type =
        (if (d.getD 9 0).val = 6 then PacketType.TCP
          else if (d.getD 9 0).val = 17 then PacketType.UDP else PacketType.UNKNOWN) := by
  have hi := ip_header_new_eq d 0 (by omega)
  simp only [Nat.zero_add] at hi
  refine ⟨_, _, hi, ?_, ?_, ?_, ?_, ?_, ?_, rfl, rfl, ?_, rfl, rfl, rfl, rfl⟩
  · exact (byte_bits (d.getD 0 0)).1
  · exact (byte_bits (d.getD 0 0)).2.1
  · exact bswap16_byte (d.getD 2 0)
  · exact bswap16_byte (d.getD 4 0)
  · exact (byte_bits (d.getD 6 0)).2.2.1
  · exact (byte_bits (d.getD 6 0)).2.2.2.1
  · exact bswap16_byte (d.getD 10 0)

/-- C25 at an IPv4 header with total length `0x0028`, id `0x1234`, flags 2,
checksum `0xABCD`, source `192.168.0.1`: the decoded values are 0, `0x1200`,
0, `0xAB00` and `0.0.0.0`. -/
theorem C25_ipv4_single_byte_fields_witness :
    (∃ i d1, ip_header.new example_ip 0 = some (i, d1) ∧
      i.get_version = (example_ip.getD 0 0).val / 16 ∧
      i.get_header_length = (example_ip.getD 0 0).val % 16 ∧
      i.get_length = 256 * (example_ip.getD 2 0).val ∧
      i.get_id = 256 * (example_ip.getD 4 0).val ∧
      i.get_flag = 0 ∧
      i.get_frag_offset = (example_ip.getD 6 0).val ∧
      i.get_ttl = (example_ip.getD 8 0).val ∧
      i.get_proto = (example_ip.getD 9 0).val ∧
      i.get_checksum = 256 * (example_ip.getD 10 0).val ∧
      i.get_src_ip.1 = ⟨[0, 0, 0, 0]⟩ ∧
      i.get_des_ip.1 = ⟨[0, 0, 0, 0]⟩ ∧
      d1 = ip_header.buffer_after example_ip 0 ∧
      i.get_next_packet_type =
        (if (example_ip.getD 9 0).val = 6 then PacketType.TCP
          else if (example_ip.getD 9 0).val = 17 then PacketType.UDP
          else PacketType.UNKNOWN)) ∧
      256 * (example_ip.getD 2 0).val = 0 ∧
      256 * (example_ip.getD 2 0).val + (example_ip.getD 3 0).val = 0x0028 ∧
      256 * (example_ip.getD 4 0).val = 0x1200 ∧
      256 * (example_ip.getD 10 0).val = 0xAB00 ∧
      (256 * (example_ip.getD 6 0).val + (example_ip.getD 7 0).val) / 8192 = 2 ∧
      (example_ip.drop 12).take 4 = [192, 168, 0, 1] :=
  ⟨C25_ipv4_single_byte_fields example_ip (by decide), by decide, by decide, by decide,
    by decide, by decide, by decide⟩

/-- C26. The TCP decoder, on a buffer `d` of at least 20 bytes, initialises every
member from one byte and the getters return the members as they are: the
source port is `d[0]`, the destination port `d[2]`, the sequence number
`d[4]`, the acknowledgement number `d[8]`, the data offset 0, the flags
`d[12] & 0x3F`, the window `d[14]`, the checksum `d[16]` and the urgent
pointer `d[18]`. -/
theorem C26_tcp_single_byte_fields (d : List uint8_t) (h : 20 ≤ d.length) :
    ∃ t, tcp_header.new d 0 = some t ∧
      t.get_src_port = (d.getD 0 0).val ∧
      t.get_des_port = (d.getD 2 0).val ∧
      t.get_seq_num = (d.getD 4 0).val ∧
      t.get_ack_num = (d.getD 8 0).val ∧
      t.get_header_length = 0 ∧
      t.get_flags = (d.getD 12 0).val % 64 ∧
      t.get_window_size = (d.getD 14 0).val ∧
      t.get_check_sum = (d.getD 16 0).val ∧
      t.get_urgent_prt = (d.getD 18 0).val := by
  have ht := tcp_new_eq d 0 (by omega)
  simp only [Nat.zero_add] at ht
  refine ⟨_, ht, rfl, rfl, rfl, rfl, ?_, ?_, rfl, rfl, rfl⟩
  · exact (byte_bits (d.getD 12 0)).2.2.2.2.1
  · exact (byte_bits (d.getD 12 0)).2.2.2.2.2

/-- C26 at a TCP header with source port `0x1F90`, data offset 5 and flags `0x12`:
the decoded source port is `0x1F`, the data offset 0 and the flags `0x10`. -/
theorem C26_tcp_single_byte_fields_witness :
    (∃ t, tcp_header.new example_tcp 0 = some t ∧
      t.get_src_port = (example_tcp.getD 0 0).val ∧
      t.get_des_port = (example_tcp.getD 2 0).val ∧
      t.get_seq_num = (example_tcp.getD 4 0).val ∧
      t.get_ack_num = (example_tcp.getD 8 0).val ∧
      t.get_header_length = 0 ∧
      t.get_flags = (example_tcp.getD 12 0).val % 64 ∧
      t.get_window_size = (example_tcp.getD 14 0).val ∧
      t.get_check_sum = (example_tcp.getD 16 0).val ∧
      t.get_urgent_prt = (example_tcp.getD 18 0).val) ∧
      (example_tcp.getD 0 0).val = 0x1F ∧
      256 * (example_tcp.getD 0 0).val + (example_tcp.getD 1 0).val = 0x1F90 ∧
      (example_tcp.getD 12 0).val / 16 = 5 ∧
      (example_tcp.getD 12 0).val % 64 = 0x10 ∧
      (example_tcp.getD 13 0).val % 64 = 0x12 :=
  ⟨C26_tcp_single_byte_fields example_tcp (by decide), by decide, by decide, by decide,
    by decide, by decide⟩

/-- C27, counterexample. The Ethernet decoder makes a header from the first 13 bytes
of a frame, and the IPv4 and TCP decoders make one from the first 19 bytes of
a header: nothing is rejected. -/
theorem C27_short_buffer_counterexample :
    (example_frame.take 13).length < 14 ∧
      (ethernet_header.new (example_frame.take 13) 0).isSome = true ∧
      (example_ip.take 19).length < 20 ∧
      (ip_header.new (example_ip.take 19) 0).isSome = true ∧
      (example_tcp.take 19).length < 20 ∧
      (tcp_header.new (example_tcp.take 19) 0).isSome = true :=
  ⟨by decide, by rfl, by decide, by rfl, by decide, by rfl⟩

/-- C27, amended. The header decoders take a pointer without a length, test no
length and throw nothing: their only results are a header and, for a read
outside the buffer, undefined behaviour (`none` in the embedding).  From every
buffer that holds the minimum header, 14 bytes for Ethernet and 20 bytes for
IPv4 and for TCP, each decoder makes a header; and the bytes that follow the
buffer do not change the header it makes, so the length of the input is not
looked at. -/
theorem C27_decoders_check_no_length (d extra : List uint8_t) :
    (14 ≤ d.length → (ethernet_header.new d 0).isSome = true) ∧
      (20 ≤ d.length → (ip_header.new d 0).isSome = true) ∧
      (20 ≤ d.length → (tcp_header.new d 0).isSome = true) ∧
      (∀ e, ethernet_header.new d 0 = some e → ethernet_header.new (d ++ extra) 0 = some e) ∧
      (∀ i, (ip_header.new d 0).map Prod.fst = some i →
        (ip_header.new (d ++ extra) 0).map Prod.fst = some i) ∧
      (∀ t, tcp_header.new d 0 = some t → tcp_header.new (d ++ extra) 0 = some t) := by
  have hget : ∀ k, k < d.length → (d ++ extra).getD k 0 = d.getD k 0 := by
    intro k hk
    rw [List.getD_append _ _ _ _ hk]
  refine ⟨?_, ?_, ?_, ?_, ?_, ?_⟩
  · intro h
    simp [ethernet_new_eq d 0 (by omega)]
  · intro h
    simp [ip_header_new_eq d 0 (by omega)]
  · intro h
    simp [tcp_new_eq d 0 (by omega)]
  · intro e he
    by_cases h : 13 ≤ d.length
    · have hl : 0 + 13 ≤ (d ++ extra).length := by
        rw [List.length_append]
        omega
      rw [ethernet_new_eq d 0 (by omega)] at he
      rw [ethernet_new_eq (d ++ extra) 0 hl, ← he]
      have h1 : (List.drop 0 (d ++ extra)).take 6 = (List.drop 0 d).take 6 := by
        simp only [List.drop_zero]
        exact List.take_append_of_le_length (by omega)
      have h2 : (List.drop (0 + 6) (d ++ extra)).take 6 = (List.drop (0 + 6) d).take 6 := by
        rw [List.drop_append_of_le_length (by omega)]
        exact List.take_append_of_le_length (by rw [List.length_drop]; omega)
      rw [h1, h2, hget (0 + 12) (by omega)]
    · rw [ethernet_new_none d 0 (by omega)] at he
      exact absurd he (by simp)
  · intro i hi
    by_cases h : 19 ≤ d.length
    · have hl : 0 + 19 ≤ (d ++ extra).length := by
        rw [List.length_append]
        omega
      rw [ip_header_new_eq d 0 (by omega)] at hi
      rw [ip_header_new_eq (d ++ extra) 0 hl]
      simp only [Option.map_some'] at hi ⊢
      rw [← hi, hget 0 (by omega), hget (0 + 1) (by omega), hget (0 + 2) (by omega),
        hget (0 + 4) (by omega), hget (0 + 6) (by omega), hget (0 + 8) (by omega),
        hget (0 + 9) (by omega), hget (0 + 10) (by omega)]
    · rw [ip_header_new_none d 0 (by omega)] at hi
      exact absurd hi (by simp)
  · intro t ht
    by_cases h : 19 ≤ d.length
    · have hl : 0 + 19 ≤ (d ++ extra).length := by
        rw [List.length_append]
        omega
      rw [tcp_new_eq d 0 (by omega)] at ht
      rw [tcp_new_eq (d ++ extra) 0 hl, ← ht, hget 0 (by omega), hget (0 + 2) (by omega),
        hget (0 + 4) (by omega), hget (0 + 8) (by omega), hget (0 + 12) (by omega),
        hget (0 + 14) (by omega), hget (0 + 16) (by omega), hget (0 + 18) (by omega)]
    · rw [tcp_new_none d 0 (by omega)] at ht
      exact absurd ht (by simp)

/-- C27, amended, at a frame of 14 bytes and at an IPv4 and a TCP header of 20 bytes,
alone and followed by two more bytes. -/
theorem C27_decoders_check_no_length_witness :
    (ethernet_header.new example_frame 0).isSome = true ∧
      (ip_header.new example_ip 0).isSome = true ∧
      (tcp_header.new example_tcp 0).isSome = true ∧
      (∀ e, ethernet_header.new example_frame 0 = some e →
        ethernet_header.new (example_frame ++ [1, 2]) 0 = some e) ∧
      (∀ i, (ip_header.new example_ip 0).map Prod.fst = some i →
        (ip_header.new (example_ip ++ [1, 2]) 0).map Prod.fst = some i) ∧
      (∀ t, tcp_header.new example_tcp 0 = some t →
        tcp_header.new (example_tcp ++ [1, 2]) 0 = some t) :=
  ⟨(C27_decoders_check_no_length example_frame [1, 2]).1 (by decide),
    (C27_decoders_check_no_length example_ip [1, 2]).2.1 (by decide),
    (C27_decoders_check_no_length example_tcp [1, 2]).2.2.1 (by decide),
    (C27_decoders_check_no_length example_frame [1, 2]).2.2.2.1,
    (C27_decoders_check_no_length example_ip [1, 2]).2.2.2.2.1,
    (C27_decoders_check_no_length example_tcp [1, 2]).2.2.2.2.2⟩

/-- C28. For wire bytes `a, b, c, d`: the address constructor leaves the address
`0.0.0.0` (and zeroes the bytes `a, b, c` of the buffer), so `to_string` of the
constructed address is `"0.0.0.0"`; and `to_string` of an address whose array
holds `a, b, c, d` prints `d.c.b.a`, the octets in reverse order. -/
theorem C28_ip_to_string (a b c d : uint8_t) :
    ip_address.new [a, b, c, d] 0 = some (⟨[0, 0, 0, 0]⟩, [0, 0, 0, d]) ∧
      ip_address.to_string ⟨[0, 0, 0, 0]⟩ = "0.0.0.0" ∧
      ip_address.to_string ⟨[a, b, c, d]⟩ =
        toString d.val ++ "." ++ toString c.val ++ "." ++ toString b.val ++ "."
          ++ toString a.val ∧
      ip_address.to_string ⟨[192, 168, 0, 1]⟩ = "1.0.168.192" :=
  ⟨by rfl, by decide, by rfl, by decide⟩

end network

namespace pcap_stats

/-! ## The worker: claims -/

/-- C29. The worker never writes the shared maps.  On a closed channel (ring
well-formed, as in every reachable state) that holds decodable packets,
`get_stats` drains the channel and returns 0 with `ret_mac`, `ret_ip` and
`ret_port` as they were passed in; the counts go to the local table
`mac_stat`, which is dropped at the return, and the local tables `ip_stat`
and `port_stat` stay empty, because no decoded frame is classified IP.  On
every channel and with every fuel, a call that ends leaves the three shared
maps as they were. -/
theorem C29_shared_maps_untouched (ret_mac ret_ip ret_port : shared_map)
    (input_chan : channel.channel_buffer Packet 10) (fuel : Nat)
    (hs : input_chan.buffer.Sound) (hc : input_chan.is_closed = true)
    (hdec : ∀ p ∈ input_chan.contents, p.decodable)
    (hfuel : input_chan.contents.length + 1 ≤ fuel) :
    (∃ s, get_stats fuel ret_mac ret_ip ret_port input_chan = Ending.returned 0 s ∧
        s.ret_mac = ret_mac ∧ s.ret_ip = ret_ip ∧ s.ret_port = ret_port ∧
        s.ip_stat = [] ∧ s.port_stat = [] ∧ s.input_chan.contents = []) ∧
      ∀ (fuel1 : Nat) (chan : channel.channel_buffer Packet 10),
        (get_stats fuel1 ret_mac ret_ip ret_port chan).keeps ret_mac ret_ip ret_port := by
  constructor
  · obtain ⟨s, h1, h2, h3, h4, h5, h6, h7, _⟩ := get_stats_loop_closed input_chan.contents fuel
      ⟨ret_mac, ret_ip, ret_port, input_chan, [], [], []⟩ hs hc rfl hdec hfuel
    exact ⟨s, h1, h2, h3, h4, h5, h6, h7⟩
  · intro fuel1 chan
    exact get_stats_loop_keeps fuel1 ⟨ret_mac, ret_ip, ret_port, chan, [], [], []⟩

/-- C29 at the channel that delivered `A->B`, `A->B`, `B->A` (54 captured bytes each)
and was closed, with three empty shared maps: the call returns 0, the shared
IP-pair map is still empty, and the one row counted, 2 packets one way and 1
the other, is in the local MAC table. -/
theorem C29_shared_maps_untouched_witness :
    ((∃ s, get_stats 4 example_shared example_shared example_shared example_input =
          Ending.returned 0 s ∧
        s.ret_mac = example_shared ∧ s.ret_ip = example_shared ∧ s.ret_port = example_shared ∧
        s.ip_stat = [] ∧ s.port_stat = [] ∧ s.input_chan.contents = []) ∧
      ∀ (fuel1 : Nat) (chan : channel.channel_buffer Packet 10),
        (get_stats fuel1 example_shared example_shared example_shared chan).keeps
          example_shared example_shared example_shared) ∧
      example_input.contents = [⟨some ⟨54⟩, some example_a_to_b⟩,
        ⟨some ⟨54⟩, some example_a_to_b⟩, ⟨some ⟨54⟩, some example_b_to_a⟩] ∧
      concurrent.concurrent_unordered_map.size example_shared = 0 ∧
      get_stats 4 example_shared example_shared example_shared example_input =
        Ending.returned 0
          { ret_mac := example_shared
            ret_ip := example_shared
            ret_port := example_shared
            input_chan := ⟨⟨List.replicate 10 default, 3, 3, 0⟩, true⟩
            mac_stat := [(("0A:0:0:0:0:1", "0B:0:0:0:0:2"), ⟨⟨2, 108⟩, ⟨1, 54⟩⟩)]
            ip_stat := []
            port_stat := [] } :=
  ⟨C29_shared_maps_untouched example_shared example_shared example_shared example_input 4
      (Or.inl ⟨by rfl, by decide, by decide, by rfl⟩) (by rfl)
      (by
        intro p hp
        have hcont : example_input.contents = [⟨some ⟨54⟩, some example_a_to_b⟩,
            ⟨some ⟨54⟩, some example_a_to_b⟩, ⟨some ⟨54⟩, some example_b_to_a⟩] := by rfl
        rw [hcont] at hp
        simp only [List.mem_cons, List.mem_singleton, List.not_mem_nil, or_false] at hp
        rcases hp with rfl | rfl | rfl
        · exact ⟨_, _, rfl, by decide⟩
        · exact ⟨_, _, rfl, by decide⟩
        · exact ⟨_, _, rfl, by decide⟩)
      (by decide),
    by rfl, by rfl, by rfl⟩

end pcap_stats

namespace concurrent

/-! ## Concurrent inserts: claims -/

/-- C30. Two threads insert the key 5 into `concurrent_unordered_map(0, 0.75f, 2)` at once.
Thread 0 takes bucket 5 by its compare-and-swap (EMPTY to BUSY) and is
interrupted before it writes the key; thread 1 loads BUSY from bucket 5 twice,
steps to bucket 6, finds it EMPTY and inserts there; thread 0 then finishes.
Both calls return `inserted = true`, the map holds two VALID buckets with the
key 5, and `size()` is 2 for one distinct key.  When the two calls run one
after the other the map holds one entry, as `insert_helper` run by one thread
says. -/
theorem C30_duplicate_key_race :
    (run_schedule example_race (example_fresh, example_threads)).1.entries =
        [(5, 100), (5, 200)] ∧
      (run_schedule example_race (example_fresh, example_threads)).1.size = 2 ∧
      ((run_schedule example_race (example_fresh, example_threads)).2.map fun t => t.pc) =
        [Pc.returned ⟨0, 5, false⟩ true, Pc.returned ⟨0, 6, false⟩ true] ∧
      (((run_schedule example_race (example_fresh, example_threads)).1.get_submap 0).get_bucket 5)
        = ⟨Bucket.State.VALID, (5, 100)⟩ ∧
      (((run_schedule example_race (example_fresh, example_threads)).1.get_submap 0).get_bucket 6)
        = ⟨Bucket.State.VALID, (5, 200)⟩ ∧
      (run_schedule (example_race.take 3) (example_fresh, example_threads)).1.entries = [] ∧
      (((run_schedule (example_race.take 3) (example_fresh, example_threads)).1.get_submap
        0).get_bucket 5).state = Bucket.State.BUSY ∧
      (run_schedule example_serial (example_fresh, example_threads)).1 =
        example_state example_fresh [(5, 100), (5, 200)] ∧
      (run_schedule example_serial (example_fresh, example_threads)).1.entries = [(5, 100)] ∧
      ((run_schedule example_serial (example_fresh, example_threads)).2.map fun t => t.pc) =
        [Pc.returned ⟨0, 5, false⟩ true, Pc.returned ⟨0, 5, false⟩ false] :=
  ⟨by rfl, by rfl, by rfl, by rfl, by rfl, by rfl, by rfl, by rfl, by rfl, by rfl⟩

end concurrent

namespace concurrent

/-! ## Probing, primes and the insert loop: claims -/

/-- C33. For every natural number `n`: `is_prime(n)` ends and is true exactly when `n`
is prime; `next_prime(n)` ends and returns the least prime that is at least
`n`, which is 2 for `n <= 2`; and for every `c` other than 1, `next_prime(2 * c)`,
the capacity that `expand` computes from the capacity `c`, is the least prime
greater than `2 * c`. -/
theorem C33_primes (n : Nat) :
    is_prime_fuel n n = some (is_prime n) ∧
      (is_prime n = true ↔ Nat.Prime n) ∧
      next_prime_fuel (n + 1) n = some (next_prime n) ∧
      Nat.Prime (next_prime n) ∧ n ≤ next_prime n ∧
      (∀ p, Nat.Prime p → n ≤ p → next_prime n ≤ p) ∧
      (n ≤ 2 → next_prime n = 2) ∧
      (n ≠ 1 → 2 * n < next_prime (n * NEW_SUBMAPS_CAPACITY_MULTIPLIER) ∧
        Nat.Prime (next_prime (n * NEW_SUBMAPS_CAPACITY_MULTIPLIER)) ∧
        ∀ p, Nat.Prime p → 2 * n < p → next_prime (n * NEW_SUBMAPS_CAPACITY_MULTIPLIER) ≤ p) := by
  obtain ⟨h1, h2, h3, h4⟩ := next_prime_fuel_spec n
  refine ⟨?_, is_prime_iff n, h1, h2, h3, h4, ?_, ?_⟩
  · rw [is_prime_fuel_spec, is_prime_eq]
  · intro hn
    have hle := h4 2 Nat.prime_two hn
    have := h2.two_le
    omega
  · intro hn
    obtain ⟨_, g2, g3, g4⟩ := next_prime_fuel_spec (n * NEW_SUBMAPS_CAPACITY_MULTIPLIER)
    have hmul : n * NEW_SUBMAPS_CAPACITY_MULTIPLIER = 2 * n := by
      simp [NEW_SUBMAPS_CAPACITY_MULTIPLIER, Nat.mul_comm]
    rw [hmul] at g2 g3 g4 ⊢
    refine ⟨?_, g2, fun p hp hlt => g4 p hp (by omega)⟩
    rcases Nat.lt_or_ge (2 * n) (next_prime (2 * n)) with hlt | hge
    · exact hlt
    · have heq : next_prime (2 * n) = 2 * n := by omega
      rw [heq] at g2
      have hdvd := (Nat.prime_dvd_prime_iff_eq Nat.prime_two g2).mp (Dvd.intro n rfl)
      omega

namespace concurrent_unordered_map

variable {K V : Type} [DecidableEq K] [Inhabited K] [Inhabited V]

theorem example_fresh_full_reachable :
    Reachable example_hashers (example_state example_fresh example_nine) :=
  (run_inserts_spec example_hashers 2 example_nine example_fresh _ _
    (new_Inv example_hashers (by rfl : concurrent_unordered_map.new 0 DEFAULT_MAX_LOAD_FACTOR 2
      = Except.ok example_fresh))
    (Reachable.init 0 DEFAULT_MAX_LOAD_FACTOR 2 example_fresh (by rfl)) (by rfl)).2.1

/-- C32. Entries are written once and never moved.  In every reachable state, however
a call of `insert` ends (it returns or it throws the maximum-submaps error),
every bucket of a live submap that was VALID before the call is afterwards the
same bucket, VALID with the same key and value at the same submap index and
position, and neither the live-submap count nor the entry count has gone
down.  A call of `expand` that returns leaves the entry count and every live
submap (buckets and valid count) as they were: it returns `false` with the map
unchanged, or `true` after appending one submap all of whose buckets are
EMPTY; a call that throws changes the flag `expanding` only.  (`find`,
iteration and `get_stats` are functions of the map that return no new map.) -/
theorem C32_entries_write_once (h : Hashers K) (m : concurrent_unordered_map K V)
    (hr : Reachable h m) (key : K) (ivalue : V) (fuel : Nat) :
    (∀ m1, ((∃ r, insert h fuel m key ivalue = Outcome.ret r m1) ∨
          insert h fuel m key ivalue = Outcome.runtime_error m1) →
        ∀ i j, i < m.num_submaps →
          ((m.get_submap i).get_bucket j).state = Bucket.State.VALID →
          (m1.get_submap i).get_bucket j = (m.get_submap i).get_bucket j ∧
            m.num_submaps ≤ m1.num_submaps ∧ m.num_entries ≤ m1.num_entries) ∧
      (∀ b m1, m.expand = Outcome.ret b m1 →
        m1.num_entries = m.num_entries ∧
          (∀ i, i < m.num_submaps → m1.get_submap i = m.get_submap i) ∧
          (b = false → m1 = m) ∧
          (b = true → m1.num_submaps = m.num_submaps + 1 ∧
            m1.get_submap m.num_submaps =
              Submap.new (next_prime ((m.get_submap m.get_last_submap_index).get_capacity
                * NEW_SUBMAPS_CAPACITY_MULTIPLIER)) m.maxload_factor ∧
            (m1.get_submap m.num_submaps).num_valid_buckets = 0 ∧
            ∀ j, ((m1.get_submap m.num_submaps).get_bucket j).state = Bucket.State.EMPTY)) ∧
      (∀ m1, m.expand = Outcome.runtime_error m1 → m1 = { m with expanding := true }) := by
  have hi := hr.inv
  refine ⟨?_, ?_, ?_⟩
  · intro m1 ho i j hlive hv
    have hne : insert h fuel m key ivalue ≠ Outcome.fuel := by
      rcases ho with ⟨r, hr1⟩ | hr1 <;> rw [hr1] <;> simp
    exact (hi.insert_step_of_ne_fuel key ivalue fuel hne).keeps_valid hi m1 ho i j hlive hv
  · intro b m1 hex
    rcases hi.expand_cases with ⟨_, he⟩ | ⟨hlt, _, he⟩ | ⟨_, _, he⟩
    · rw [he] at hex
      exact absurd hex (by simp)
    · rw [he] at hex
      simp only [Outcome.ret.injEq] at hex
      obtain ⟨rfl, rfl⟩ := hex
      have hnew := expanded_get_submap hi hlt m.num_submaps
      rw [if_pos rfl] at hnew
      refine ⟨expanded_num_entries m, ?_, fun hb => absurd hb (by simp), fun _ =>
        ⟨expanded_num_submaps m, hnew, ?_, ?_⟩⟩
      · intro i hlive
        rw [expanded_get_submap hi hlt, if_neg (by omega)]
      · rw [hnew]
        rfl
      · intro j
        rw [hnew, Submap.new_get_bucket]
        rfl
    · rw [he] at hex
      simp only [Outcome.ret.injEq] at hex
      obtain ⟨rfl, rfl⟩ := hex
      exact ⟨rfl, fun _ _ => rfl, fun _ => rfl, fun hb => absurd hb (by simp)⟩
  · intro m1 hex
    rcases hi.expand_cases with ⟨_, he⟩ | ⟨_, _, he⟩ | ⟨_, _, he⟩
    · rw [he] at hex
      simp only [Outcome.runtime_error.injEq] at hex
      exact hex.symm
    · rw [he] at hex
      exact absurd hex (by simp)
    · rw [he] at hex
      exact absurd hex (by simp)

/-- C32 at `concurrent_unordered_map(0, 0.75f, 1)` after nine inserts, with a tenth
insert that throws. -/
theorem C32_entries_write_once_witness :
    (∀ m1, ((∃ r, insert example_hashers 2 (example_state example_single example_nine) 100 1 =
            Outcome.ret r m1) ∨
          insert example_hashers 2 (example_state example_single example_nine) 100 1 =
            Outcome.runtime_error m1) →
        ∀ i j, i < (example_state example_single example_nine).num_submaps →
          (((example_state example_single example_nine).get_submap i).get_bucket j).state =
            Bucket.State.VALID →
          (m1.get_submap i).get_bucket j =
              ((example_state example_single example_nine).get_submap i).get_bucket j ∧
            (example_state example_single example_nine).num_submaps ≤ m1.num_submaps ∧
            (example_state example_single example_nine).num_entries ≤ m1.num_entries) ∧
      (∀ b m1, (example_state example_single example_nine).expand = Outcome.ret b m1 →
        m1.num_entries = (example_state example_single example_nine).num_entries ∧
          (∀ i, i < (example_state example_single example_nine).num_submaps →
            m1.get_submap i = (example_state example_single example_nine).get_submap i) ∧
          (b = false → m1 = example_state example_single example_nine) ∧
          (b = true →
            m1.num_submaps = (example_state example_single example_nine).num_submaps + 1 ∧
            m1.get_submap (example_state example_single example_nine).num_submaps =
              Submap.new (next_prime (((example_state example_single example_nine).get_submap
                (example_state example_single example_nine).get_last_submap_index).get_capacity
                * NEW_SUBMAPS_CAPACITY_MULTIPLIER))
                (example_state example_single example_nine).maxload_factor ∧
            (m1.get_submap
              (example_state example_single example_nine).num_submaps).num_valid_buckets = 0 ∧
            ∀ j, ((m1.get_submap
              (example_state example_single example_nine).num_submaps).get_bucket j).state =
                Bucket.State.EMPTY)) ∧
      (∀ m1, (example_state example_single example_nine).expand = Outcome.runtime_error m1 →
        m1 = { example_state example_single example_nine with expanding := true }) :=
  C32_entries_write_once example_hashers (example_state example_single example_nine)
    example_single_full_reachable 100 1 2

/-- C34. In every reachable state, run by one thread, `FullSubmapException` is not
thrown.  When the newest submap is not overloaded it has an EMPTY bucket and
`Submap::insert` returns a position in it; when it is overloaded and a slot is
left, `expand` appends a submap that is not overloaded, and `Submap::insert`
returns a position in that one.  A call of `insert` ends within two passes of
the loop of `insert_helper` (never by spinning, never by running out of
fuel): it returns with at most one submap appended, or, when the newest
submap is overloaded at the cap, it throws the maximum-submaps error. -/
theorem C34_full_submap_unreachable (h : Hashers K) (m : concurrent_unordered_map K V)
    (hr : Reachable h m) (key : K) (ivalue : V) (fuel : Nat) :
    ((m.get_submap m.get_last_submap_index).is_overloaded = false →
        (∃ j, j < (m.get_submap m.get_last_submap_index).get_capacity ∧
          ((m.get_submap m.get_last_submap_index).get_bucket j).state = Bucket.State.EMPTY) ∧
        ∃ index inserted sm,
          (m.get_submap m.get_last_submap_index).insert key (h.keyHash1 key) (h.keyHash2 key)
              ivalue = Submap.InsertResult.done index inserted sm ∧
            index < (m.get_submap m.get_last_submap_index).get_capacity) ∧
      ((m.get_submap m.get_last_submap_index).is_overloaded = true →
        m.num_submaps < m.submaps.length →
        m.expand = Outcome.ret true m.expanded ∧
          (m.expanded.get_submap m.expanded.get_last_submap_index).is_overloaded = false ∧
          ∃ index inserted sm,
            (m.expanded.get_submap m.expanded.get_last_submap_index).insert key
                (h.keyHash1 key) (h.keyHash2 key) ivalue =
              Submap.InsertResult.done index inserted sm) ∧
      ((∃ r m1, insert h (fuel + 2) m key ivalue = Outcome.ret r m1 ∧
          m.num_submaps ≤ m1.num_submaps ∧ m1.num_submaps ≤ m.num_submaps + 1) ∨
        (insert h (fuel + 2) m key ivalue = Outcome.runtime_error { m with expanding := true } ∧
          m.num_submaps = m.submaps.length ∧
          (m.get_submap m.get_last_submap_index).is_overloaded = true)) := by
  have hi := hr.inv
  refine ⟨fun hno => hi.sub_insert_done key ivalue hno, ?_, ?_⟩
  · intro hov hlt
    have hno := hi.expanded_not_overloaded hlt
    obtain ⟨_, index, inserted, sm, hins, _⟩ := (hi.expanded hlt).sub_insert_done key ivalue hno
    exact ⟨hi.expand_grow (by omega) hov, hno, index, inserted, sm, hins⟩
  · have hs := hi.insert_step key ivalue fuel
    generalize hout : insert h (fuel + 2) m key ivalue = o at hs
    cases hs with
    | older i j hh hlt => exact Or.inl ⟨_, _, rfl, le_refl _, by omega⟩
    | last j hh hno => exact Or.inl ⟨_, _, rfl, le_refl _, by omega⟩
    | last_grow j hh hov hlt =>
      exact Or.inl ⟨_, _, rfl, by rw [expanded_num_submaps]; omega,
        by rw [expanded_num_submaps]⟩
    | error hn hov hcap => exact Or.inr ⟨rfl, hcap, hov⟩
    | new e hn hno he hemp hinv =>
      exact Or.inl ⟨_, _, rfl, by rw [stored_num_submaps], by rw [stored_num_submaps]; omega⟩
    | new_grow e hn hov hlt he hemp hinv =>
      exact Or.inl ⟨_, _, rfl, by rw [stored_num_submaps, expanded_num_submaps]; omega,
        by rw [stored_num_submaps, expanded_num_submaps]⟩

/-- C34 at `concurrent_unordered_map(0, 0.75f, 2)` after nine inserts, whose first submap
is overloaded, and the insert of a tenth key. -/
theorem C34_full_submap_unreachable_witness :
    (((example_state example_fresh example_nine).get_submap
          (example_state example_fresh example_nine).get_last_submap_index).is_overloaded =
          false →
        (∃ j, j < ((example_state example_fresh example_nine).get_submap
            (example_state example_fresh example_nine).get_last_submap_index).get_capacity ∧
          (((example_state example_fresh example_nine).get_submap
            (example_state example_fresh example_nine).get_last_submap_index).get_bucket
              j).state = Bucket.State.EMPTY) ∧
        ∃ index inserted sm,
          ((example_state example_fresh example_nine).get_submap
            (example_state example_fresh example_nine).get_last_submap_index).insert 100
              (example_hashers.keyHash1 100) (example_hashers.keyHash2 100) 1 =
            Submap.InsertResult.done index inserted sm ∧
            index < ((example_state example_fresh example_nine).get_submap
              (example_state example_fresh example_nine).get_last_submap_index).get_capacity) ∧
      (((example_state example_fresh example_nine).get_submap
          (example_state example_fresh example_nine).get_last_submap_index).is_overloaded =
          true →
        (example_state example_fresh example_nine).num_submaps <
          (example_state example_fresh example_nine).submaps.length →
        (example_state example_fresh example_nine).expand =
            Outcome.ret true (example_state example_fresh example_nine).expanded ∧
          ((example_state example_fresh example_nine).expanded.get_submap
            (example_state example_fresh example_nine).expanded.get_last_submap_index
              ).is_overloaded = false ∧
          ∃ index inserted sm,
            ((example_state example_fresh example_nine).expanded.get_submap
              (example_state example_fresh example_nine).expanded.get_last_submap_index).insert
                100 (example_hashers.keyHash1 100) (example_hashers.keyHash2 100) 1 =
              Submap.InsertResult.done index inserted sm) ∧
      ((∃ r m1, insert example_hashers (0 + 2) (example_state example_fresh example_nine) 100 1 =
            Outcome.ret r m1 ∧
          (example_state example_fresh example_nine).num_submaps ≤ m1.num_submaps ∧
          m1.num_submaps ≤ (example_state example_fresh example_nine).num_submaps + 1) ∨
        (insert example_hashers (0 + 2) (example_state example_fresh example_nine) 100 1 =
            Outcome.runtime_error
              { example_state example_fresh example_nine with expanding := true } ∧
          (example_state example_fresh example_nine).num_submaps =
            (example_state example_fresh example_nine).submaps.length ∧
          ((example_state example_fresh example_nine).get_submap
            (example_state example_fresh example_nine).get_last_submap_index).is_overloaded =
            true)) :=
  C34_full_submap_unreachable example_hashers (example_state example_fresh example_nine)
    example_fresh_full_reachable 100 1 0

/-- C35. A failed insert is not atomic: in every reachable state, when `insert` throws
the maximum-submaps error, the map afterwards is the map before the call with
the flag `expanding` set (it was clear): submaps, buckets, valid counts, entry
count and live-submap count are as before, but `expand` has taken the flag by
`test_and_set` and throws without clearing it.  A later `expand` on that map,
and a later `insert` of the same key, spin on the flag for ever. -/
theorem C35_failed_insert_keeps_flag (h : Hashers K) (m : concurrent_unordered_map K V)
    (hr : Reachable h m) (key : K) (ivalue : V) (fuel : Nat)
    (m1 : concurrent_unordered_map K V)
    (herr : insert h fuel m key ivalue = Outcome.runtime_error m1) :
    m1 = { m with expanding := true } ∧ m.expanding = false ∧ m1.expanding = true ∧
      m1 ≠ m ∧
      m1.submaps = m.submaps ∧ m1.num_submaps = m.num_submaps ∧
      m1.num_entries = m.num_entries ∧
      m1.expand = Outcome.spin ∧
      ∀ fuel1, insert h (fuel1 + 1) m1 key ivalue = Outcome.spin := by
  have hi := hr.inv
  have hs := hi.insert_step_of_ne_fuel key ivalue fuel (by rw [herr]; simp)
  rw [herr] at hs
  cases hs with
  | error hn hov hcap =>
    refine ⟨rfl, hi.not_expanding, rfl, ?_, rfl, rfl, rfl, rfl, ?_⟩
    · intro heq
      have := congrArg concurrent_unordered_map.expanding heq
      rw [hi.not_expanding] at this
      exact absurd this (by simp)
    · intro fuel1
      exact insert_after_error h m key ivalue hn hi.last_lt hov fuel1

/-- C35 at `concurrent_unordered_map(0, 0.75f, 1)` after nine inserts: `insert(100, 1)` throws
and leaves the flag set; `expand` and a second `insert(100, 1)` spin. -/
theorem C35_failed_insert_keeps_flag_witness :
    ({ example_state example_single example_nine with expanding := true } :
          concurrent_unordered_map Nat Nat) =
        { example_state example_single example_nine with expanding := true } ∧
      (example_state example_single example_nine).expanding = false ∧
      ({ example_state example_single example_nine with expanding := true } :
          concurrent_unordered_map Nat Nat).expanding = true ∧
      ({ example_state example_single example_nine with expanding := true } :
          concurrent_unordered_map Nat Nat) ≠ example_state example_single example_nine ∧
      ({ example_state example_single example_nine with expanding := true } :
          concurrent_unordered_map Nat Nat).submaps =
        (example_state example_single example_nine).submaps ∧
      ({ example_state example_single example_nine with expanding := true } :
          concurrent_unordered_map Nat Nat).num_submaps =
        (example_state example_single example_nine).num_submaps ∧
      ({ example_state example_single example_nine with expanding := true } :
          concurrent_unordered_map Nat Nat).num_entries =
        (example_state example_single example_nine).num_entries ∧
      ({ example_state example_single example_nine with expanding := true } :
          concurrent_unordered_map Nat Nat).expand = Outcome.spin ∧
      ∀ fuel1, insert example_hashers (fuel1 + 1)
        { example_state example_single example_nine with expanding := true } 100 1 =
          Outcome.spin :=
  C35_failed_insert_keeps_flag example_hashers (example_state example_single example_nine)
    example_single_full_reachable 100 1 2
    { example_state example_single example_nine with expanding := true } (by rfl)

end concurrent_unordered_map

end concurrent

namespace channel

/-! ## Select on a closed channel -/

/-- C36. For every select, with or without a default branch, every ordering the
shuffle produces, and every case `c` of the select whose channel is closed: `c` is
ready, its `try_get_next` yields the default-constructed `T` and leaves the channel
as it was, whatever its ring holds; the select returns after it invoked one handler
only, the handler of a ready case `c1` (`c` itself when no other case is ready), so no
default handler is invoked; when the channel of `c1` is closed its handler received
the default-constructed `T` and no channel changed; and the channel of `c` is left as
it was in every run. -/
theorem C36_closed_case_ready {T : Type} [Inhabited T] (cases : List case_option)
    (d : Option default_option) (shuffle : List case_option → List case_option)
    (w : World T) (hperm : (shuffle cases).Perm cases) (c : case_option) (hc : c ∈ cases)
    (hclosed : (w.get_buffer c.ch).buffer.is_closed = true) :
    c.ready w = true ∧
      (w.get_buffer c.ch).buffer.try_get_next =
        Step.done (some default) (w.get_buffer c.ch).buffer ∧
      c.task w = Step.done false ⟨w.channels, w.log ++ [Event.case_handler c.f default]⟩ ∧
      ∃ c1 val w1,
        c1 ∈ cases ∧ c1.ready w = true ∧
          select.new cases d shuffle w = Step.done () w1 ∧
          w1.log = w.log ++ [Event.case_handler c1.f val] ∧
          w.invoked w1 = [Event.case_handler c1.f val] ∧
          (∀ f, Event.default_handler f ∉ w.invoked w1) ∧
          ((w.get_buffer c1.ch).buffer.is_closed = true →
            val = default ∧ w1.channels = w.channels) ∧
          w1.get_buffer c.ch = w.get_buffer c.ch ∧
          ((∀ p ∈ cases, p.ready w = true → p = c) → c1 = c) := by
  have htry := channel_buffer.try_get_next_closed (w.get_buffer c.ch).buffer hclosed
  have hready : c.ready w = true := by
    simp only [case_option.ready, htry]
  have hself : ∀ ch : Nat, List.set w.channels ch
      ⟨(w.get_buffer ch).buffer_size, (w.get_buffer ch).buffer⟩ = w.channels := by
    intro ch
    have : (⟨(w.get_buffer ch).buffer_size, (w.get_buffer ch).buffer⟩ : AnyBuffer T) =
        w.channels.getD ch ⟨0, channel_buffer.new T 0⟩ := rfl
    rw [this, set_getD_self]
  have htask : c.task w =
      Step.done false ⟨w.channels, w.log ++ [Event.case_handler c.f default]⟩ := by
    simp only [case_option.task, htry, hself]
  refine ⟨hready, htry, htask, ?_⟩
  have hex1 : ∃ p ∈ shuffle cases, p.ready w = true := ⟨c, hperm.mem_iff.mpr hc, hready⟩
  obtain ⟨pre, c1, post, hsplit, hpre, hc1⟩ := split_at_first (fun p => p.ready w) _ hex1
  obtain ⟨val, b, htry1, htask1⟩ := case_option.task_ready c1 w hc1
  have hmem : c1 ∈ cases := hperm.mem_iff.mp (by rw [hsplit]; simp)
  have hloop := random_exec_loop_first pre c1 post w _ hpre htask1
  have hnew : select.new cases d shuffle w = Step.done ()
      ⟨List.set w.channels c1.ch ⟨(w.get_buffer c1.ch).buffer_size, b⟩,
        w.log ++ [Event.case_handler c1.f val]⟩ := by
    simp only [select.new, select.random_exec, hsplit, hloop]
    cases d <;> simp
  have hinv : w.invoked (⟨List.set w.channels c1.ch ⟨(w.get_buffer c1.ch).buffer_size, b⟩,
      w.log ++ [Event.case_handler c1.f val]⟩ : World T) = [Event.case_handler c1.f val] := by
    simp only [World.invoked, List.drop_left]
  have hshut : (w.get_buffer c1.ch).buffer.is_closed = true →
      val = default ∧ List.set w.channels c1.ch ⟨(w.get_buffer c1.ch).buffer_size, b⟩ =
        w.channels := by
    intro h1
    have h2 := channel_buffer.try_get_next_closed (w.get_buffer c1.ch).buffer h1
    rw [htry1] at h2
    simp only [Step.done.injEq, Option.some.injEq] at h2
    obtain ⟨h3, h4⟩ := h2
    subst h3 h4
    exact ⟨rfl, hself c1.ch⟩
  refine ⟨c1, val, _, hmem, hc1, hnew, rfl, hinv, ?_, hshut, ?_, ?_⟩
  · intro f hf
    rw [hinv] at hf
    simp at hf
  · by_cases hch : c1.ch = c.ch
    · have h1 : (w.get_buffer c1.ch).buffer.is_closed = true := by
        rw [hch]
        exact hclosed
      have h2 := (hshut h1).2
      show List.getD (List.set w.channels c1.ch ⟨(w.get_buffer c1.ch).buffer_size, b⟩) c.ch _ = _
      rw [h2]
      rfl
    · simp only [World.get_buffer, List.getD_eq_getElem?_getD]
      rw [List.getElem?_set_ne hch]
  · intro honly
    exact honly c1 hmem hc1

/-- C36 at three channels, the second closed with the values 1 and 2 still in its
ring and the other two open and empty, with a default branch and the cases tried in
reverse order: the handler 11 of the second case receives 0, the ring keeps 1 and
2, and the default handler 99 does not run. -/
theorem C36_closed_case_ready_witness :
    ((⟨1, 11⟩ : case_option).ready example_shut = true ∧
      (example_shut.get_buffer 1).buffer.try_get_next =
        Step.done (some default) (example_shut.get_buffer 1).buffer ∧
      (⟨1, 11⟩ : case_option).task example_shut =
        Step.done false ⟨example_shut.channels,
          example_shut.log ++ [Event.case_handler 11 default]⟩ ∧
      ∃ c1 val w1,
        c1 ∈ example_cases ∧ c1.ready example_shut = true ∧
          select.new example_cases (some ⟨99⟩) List.reverse example_shut = Step.done () w1 ∧
          w1.log = example_shut.log ++ [Event.case_handler c1.f val] ∧
          example_shut.invoked w1 = [Event.case_handler c1.f val] ∧
          (∀ f, Event.default_handler f ∉ example_shut.invoked w1) ∧
          ((example_shut.get_buffer c1.ch).buffer.is_closed = true →
            val = default ∧ w1.channels = example_shut.channels) ∧
          w1.get_buffer 1 = example_shut.get_buffer 1 ∧
          ((∀ p ∈ example_cases, p.ready example_shut = true → p = ⟨1, 11⟩) → c1 = ⟨1, 11⟩)) ∧
      select.new example_cases (some ⟨99⟩) List.reverse example_shut =
        Step.done () ⟨example_shut.channels, [Event.case_handler 11 0]⟩ ∧
      (example_shut.get_buffer 1).buffer.contents = [1, 2] :=
  ⟨C36_closed_case_ready example_cases (some ⟨99⟩) List.reverse example_shut
      (List.reverse_perm _) ⟨1, 11⟩ (by decide) (by rfl),
    by rfl, by rfl⟩

end channel

namespace pcap_stats

/-! ## The table of `setup_map` -/

/-- C37 (amended): for every sequence of records `(src, des, bytes)` applied by
`setup_map`, one call per record, to a table that starts empty: the keys of the table
are distinct and, at every stage, the table does not hold both `(a, b)` and `(b, a)`
for `a ≠ b`; `(a, b)` is a key exactly when the first record between `a` and `b` went
from `a` to `b`, and every record has its row under its own pair or the reversed one;
the tx packet count and tx byte sum of the row `(a, b)` are the number and the byte
total of the records from `a` to `b`; for `a ≠ b` its rx packet count and rx byte sum
are those of the records from `b` to `a`, while the row of a key `(a, a)` keeps rx
at 0; and the tx and rx packet counts of all rows add up to the number of records.
The `int` counters are integers without a bound here. -/
theorem C37_setup_map_accumulates (records : List (String × String × Int)) :
    run_setup [] = [] ∧
    (∀ rs r, run_setup (rs ++ [r]) = setup_map (run_setup rs) r.1 r.2.1 r.2.2) ∧
    ((run_setup records).map Prod.fst).Nodup ∧
    (∀ n a b, a ≠ b →
      ¬ ((a, b) ∈ (run_setup (records.take n)).map Prod.fst ∧
        (b, a) ∈ (run_setup (records.take n)).map Prod.fst)) ∧
    (∀ a b, (a, b) ∈ (run_setup records).map Prod.fst ↔
      first_direction records a b = some (a, b)) ∧
    (∀ r ∈ records, (r.1, r.2.1) ∈ (run_setup records).map Prod.fst ∨
      (r.2.1, r.1) ∈ (run_setup records).map Prod.fst) ∧
    (∀ a b v, ((a, b), v) ∈ run_setup records →
      v.tx.packet = (direction records a b).length ∧
      v.tx.bytes = (direction records a b).sum ∧
      (a ≠ b → v.rx.packet = (direction records b a).length ∧
        v.rx.bytes = (direction records b a).sum) ∧
      (a = b → v.rx.packet = 0 ∧ v.rx.bytes = 0)) ∧
    (run_setup records).packets = records.length := by
  refine ⟨rfl, run_setup_append, (run_setup_spec records).1, ?_, run_setup_key_iff records, ?_, ?_,
    (run_setup_spec records).2.2⟩
  · intro n a b hab
    exact run_setup_one_key (records.take n) a b hab
  · intro r hr
    rcases first_direction_of_mem records r hr with h | h
    · exact Or.inl ((run_setup_key_iff records r.1 r.2.1).mpr h)
    · rw [first_direction_comm] at h
      exact Or.inr ((run_setup_key_iff records r.2.1 r.1).mpr h)
  · intro a b v hv
    have hrow := run_setup_row records a b v hv
    subst hrow
    refine ⟨rfl, rfl, ?_, ?_⟩
    · intro hab
      simp [tally, hab]
    · intro hab
      simp [tally, hab]

/-- C37 (as stated) fails for a record whose source is its destination: after the one
record `("h", "h", 60)` the table is the single row `("h", "h")` with tx = (1, 60) and
rx = (0, 0), while the records in the reverse direction of the key, from `"h"` to
`"h"`, are that one record of 60 bytes. -/
theorem C37_self_pair_counterexample :
    run_setup [("h", "h", 60)] = [(("h", "h"), ⟨⟨1, 60⟩, ⟨0, 0⟩⟩)] ∧
    direction [("h", "h", 60)] "h" "h" = [60] ∧
    ¬ (∀ a b v, ((a, b), v) ∈ run_setup [("h", "h", 60)] →
      v.rx.packet = (direction [("h", "h", 60)] b a).length ∧
      v.rx.bytes = (direction [("h", "h", 60)] b a).sum) := by
  have h1 : run_setup [("h", "h", 60)] = [(("h", "h"), ⟨⟨1, 60⟩, ⟨0, 0⟩⟩)] := by rfl
  have h2 : direction [("h", "h", 60)] "h" "h" = [60] := by rfl
  refine ⟨h1, h2, ?_⟩
  intro h
  have h3 := (h "h" "h" ⟨⟨1, 60⟩, ⟨0, 0⟩⟩ (by rw [h1]; exact List.mem_singleton.mpr rfl)).1
  rw [h2] at h3
  exact absurd h3 (by decide)

end pcap_stats
